import Mathlib

/-!
# Cyberglove calibration and VR teleoperation: a verification development

Shallow embedding of `cyberglove_calibration.cpp` and of the controller code of
`viveGlove_main.cpp`.

Numeric model.  Code that copies, compares and selects numbers, and the
least-squares solve, are stated over exact rational numbers: a C++ `double` or
`float` is a rational number there.  The three computations whose result depends
on rounding are modelled in IEEE 754 arithmetic (`Format`, `Fp`):
`normalize_samples` and `remap`/`p2j` in binary64, the world scale of `v_update`
in binary32.  A value is a finite number, an infinity with its sign or NaN; an
operation rounds its exact result to the nearest number of the format, ties to
even, and overflows to an infinity; every operation of an expression is rounded
on its own (no fused multiply-add, no extended precision).  The sign of a zero is
not represented.

Matrix model.  An Eigen `MatrixXd` is a row count, a column count and one
coefficient per in-range index pair.  Every indexed access of the source is
checked (Eigen asserts on an out-of-range index or a size mismatch); a failed
assertion is the result `none`.

Loops.  A counted `for` loop is a monadic left fold over `List.range`, its body a
function from the loop state and the counter to the next state; loop properties
are proved with an invariant (`foldlM_range_inv`).

Library code.  The one library routine with numerical content, Eigen's
`colPivHouseholderQr().solve`, is not part of the sources; it is modelled by
`colPivHouseholderQr_solve`, an exact rank-revealing QR least-squares solve.
-/

namespace Puppet

/-- Dense dynamically sized matrix of doubles (Eigen `MatrixXd`). -/
structure MatrixXd where
  rows : ℕ
  cols : ℕ
  coeff : Fin rows → Fin cols → ℚ

namespace MatrixXd

/-- The matrix `MatrixXd::Constant(r, c, v)`. -/
def Constant (r c : ℕ) (v : ℚ) : MatrixXd := ⟨r, c, fun _ _ => v⟩

/-- The matrix `MatrixXd::Zero(r, c)`. -/
def Zero (r c : ℕ) : MatrixXd := ⟨r, c, fun _ _ => 0⟩

/-- The matrix `MatrixXd::Ones(r, c)`. -/
def Ones (r c : ℕ) : MatrixXd := ⟨r, c, fun _ _ => 1⟩

/-- Checked read `M(i, j)`. -/
def get? (M : MatrixXd) (i j : ℕ) : Option ℚ :=
  if h : i < M.rows ∧ j < M.cols then some (M.coeff ⟨i, h.1⟩ ⟨j, h.2⟩) else none

/-- Total read, used to state properties: `M(i, j)` inside the matrix, `0` outside. -/
def get (M : MatrixXd) (i j : ℕ) : ℚ :=
  if h : i < M.rows ∧ j < M.cols then M.coeff ⟨i, h.1⟩ ⟨j, h.2⟩ else 0

/-- Checked write `M(i, j) = v`. -/
def set? (M : MatrixXd) (i j : ℕ) (v : ℚ) : Option MatrixXd :=
  if i < M.rows ∧ j < M.cols then
    some ⟨M.rows, M.cols, fun r c => if r.val = i ∧ c.val = j then v else M.coeff r c⟩
  else none

/-- The row block `M.row(k)`, a `1 × cols` matrix. -/
def row? (M : MatrixXd) (k : ℕ) : Option MatrixXd :=
  if h : k < M.rows then some ⟨1, M.cols, fun _ c => M.coeff ⟨k, h⟩ c⟩ else none

/-- The transposed matrix `M.transpose()`. -/
def transpose (M : MatrixXd) : MatrixXd := ⟨M.cols, M.rows, fun i j => M.coeff j i⟩

/-- Block assignment `M.row(i) = R`; Eigen requires `R` to be `1 × M.cols()`. -/
def setRow? (M : MatrixXd) (i : ℕ) (R : MatrixXd) : Option MatrixXd :=
  if h : i < M.rows ∧ R.rows = 1 ∧ R.cols = M.cols then
    some ⟨M.rows, M.cols, fun r c =>
      if r.val = i then R.coeff ⟨0, by omega⟩ ⟨c.val, by omega⟩ else M.coeff r c⟩
  else none

/-- Block assignment `M.col(j) = C`; Eigen requires `C` to be `M.rows() × 1`. -/
def setCol? (M : MatrixXd) (j : ℕ) (C : MatrixXd) : Option MatrixXd :=
  if h : j < M.cols ∧ C.cols = 1 ∧ C.rows = M.rows then
    some ⟨M.rows, M.cols, fun r c =>
      if c.val = j then C.coeff ⟨r.val, by omega⟩ ⟨0, by omega⟩ else M.coeff r c⟩
  else none

/-- Block assignment `M.bottomRows(1) = R`; needs a last row and `R` of size `1 × M.cols()`. -/
def setBottomRow? (M : MatrixXd) (R : MatrixXd) : Option MatrixXd :=
  if 1 ≤ M.rows then M.setRow? (M.rows - 1) R else none

end MatrixXd

/-! ## Constants -/

/-- Number of glove sensors. -/
def kNumGloveSensors : ℕ := 22

/-- Number of samples recorded for each pose. -/
def kNumPoseSamples : ℕ := 100

/-! ## IEEE 754 arithmetic -/

/-- A binary floating-point format of IEEE 754: the number of bits of the significand
and the least and the greatest exponent of a normal number. -/
structure Format where
  prec : ℕ
  emin : ℤ
  emax : ℤ

/-- The format of a C++ `double`. -/
def binary64 : Format := ⟨53, -1022, 1023⟩

/-- The format of a C++ `float`. -/
def binary32 : Format := ⟨24, -126, 127⟩

/-- Rounding to the nearest integer, a tie going to the even one. -/
def roundHalfEven (n : ℚ) : ℤ :=
  if n - ⌊n⌋ < 1 / 2 then ⌊n⌋
  else if 1 / 2 < n - ⌊n⌋ then ⌊n⌋ + 1
  else if ⌊n⌋ % 2 = 0 then ⌊n⌋ else ⌊n⌋ + 1

/-- Binary logarithm of a natural number, rounded down, by repeated halving; the first
argument bounds the number of halvings. -/
def log2Fuel : ℕ → ℕ → ℕ
  | 0, _ => 0
  | fuel + 1, n => if n < 2 then 0 else log2Fuel fuel (n / 2) + 1

/-- Binary logarithm of a natural number, rounded down (0 for 0). -/
def natLog2 (n : ℕ) : ℕ := log2Fuel n n

/-- Binary exponent of a rational number: for `x ≠ 0` the integer `e` with
`2 ^ e ≤ |x| < 2 ^ (e + 1)`, computed from the binary logarithms of the numerator and
of the denominator; 0 for `x = 0`. -/
def ilog2 (x : ℚ) : ℤ :=
  let a := natLog2 x.num.natAbs
  let b := natLog2 x.den
  if x = 0 then 0
  else if x.den * 2 ^ a ≤ x.num.natAbs * 2 ^ b then (a : ℤ) - b else (a : ℤ) - b - 1

/-- Exponent of the unit in the last place of the numbers of the format that surround
`x`; below the least normal number it is that of the subnormal numbers. -/
def Format.ulpExp (F : Format) (x : ℚ) : ℤ := max (ilog2 x) F.emin - (F.prec - 1)

/-- Rounding of a real number to the nearest number of the format, ties to even
(the rounding mode of C++ arithmetic), before the test for overflow. -/
def Format.round (F : Format) (x : ℚ) : ℚ :=
  roundHalfEven (x / 2 ^ F.ulpExp x) * 2 ^ F.ulpExp x

/-- A floating-point value: a finite number, an infinity with its sign, or NaN.  The
sign of a zero is not represented: the two zeros compare equal, and they differ only in
the sign of the infinity that a division by them returns. -/
inductive Fp where
  | fin (q : ℚ)
  | inf (neg : Bool)
  | nan

instance : DecidableEq Fp
  | Fp.fin a, Fp.fin b => decidable_of_iff (a = b) (by simp)
  | Fp.inf s, Fp.inf t => decidable_of_iff (s = t) (by simp)
  | Fp.nan, Fp.nan => isTrue rfl
  | Fp.fin _, Fp.inf _ => isFalse (by simp)
  | Fp.fin _, Fp.nan => isFalse (by simp)
  | Fp.inf _, Fp.fin _ => isFalse (by simp)
  | Fp.inf _, Fp.nan => isFalse (by simp)
  | Fp.nan, Fp.fin _ => isFalse (by simp)
  | Fp.nan, Fp.inf _ => isFalse (by simp)

/-- The value of the format that an operation with exact result `x` returns: `x`
rounded, or the infinity of its sign when the rounded magnitude exceeds the format. -/
def Format.ofRat (F : Format) (x : ℚ) : Fp :=
  if |F.round x| < 2 ^ (F.emax + 1) then Fp.fin (F.round x) else Fp.inf (decide (x < 0))

/-- IEEE addition `a + b`. -/
def Format.add (F : Format) : Fp → Fp → Fp
  | Fp.fin a, Fp.fin b => F.ofRat (a + b)
  | Fp.fin _, Fp.inf s => Fp.inf s
  | Fp.inf s, Fp.fin _ => Fp.inf s
  | Fp.inf s, Fp.inf t => if s = t then Fp.inf s else Fp.nan
  | _, _ => Fp.nan

/-- IEEE subtraction `a - b`. -/
def Format.sub (F : Format) : Fp → Fp → Fp
  | Fp.fin a, Fp.fin b => F.ofRat (a - b)
  | Fp.fin _, Fp.inf s => Fp.inf (!s)
  | Fp.inf s, Fp.fin _ => Fp.inf s
  | Fp.inf s, Fp.inf t => if s = t then Fp.nan else Fp.inf s
  | _, _ => Fp.nan

/-- IEEE multiplication `a * b`. -/
def Format.mul (F : Format) : Fp → Fp → Fp
  | Fp.fin a, Fp.fin b => F.ofRat (a * b)
  | Fp.fin a, Fp.inf s => if a = 0 then Fp.nan else Fp.inf (xor s (decide (a < 0)))
  | Fp.inf s, Fp.fin b => if b = 0 then Fp.nan else Fp.inf (xor s (decide (b < 0)))
  | Fp.inf s, Fp.inf t => Fp.inf (xor s t)
  | _, _ => Fp.nan

/-- IEEE division `a / b`; a zero divisor is taken as the positive zero. -/
def Format.div (F : Format) : Fp → Fp → Fp
  | Fp.fin a, Fp.fin b =>
    if b = 0 then (if a = 0 then Fp.nan else Fp.inf (decide (a < 0))) else F.ofRat (a / b)
  | Fp.fin _, Fp.inf _ => Fp.fin 0
  | Fp.inf s, Fp.fin b => Fp.inf (xor s (decide (b < 0)))
  | _, _ => Fp.nan

/-- The comparison `a < b`, false when an operand is NaN. -/
def Fp.lt : Fp → Fp → Bool
  | Fp.fin a, Fp.fin b => decide (a < b)
  | Fp.fin _, Fp.inf s => !s
  | Fp.inf s, Fp.fin _ => s
  | Fp.inf s, Fp.inf t => s && !t
  | _, _ => false

/-- The library test `isinf`. -/
def isinf : Fp → Bool
  | Fp.inf _ => true
  | _ => false

/-- A `MatrixXd` whose coefficients are IEEE doubles, the infinities and NaN among
them: the matrices of the functions whose result depends on rounding. -/
structure MatrixXdFp where
  rows : ℕ
  cols : ℕ
  coeff : Fin rows → Fin cols → Fp

namespace MatrixXdFp

/-- Checked read `M(i, j)`. -/
def get? (M : MatrixXdFp) (i j : ℕ) : Option Fp :=
  if h : i < M.rows ∧ j < M.cols then some (M.coeff ⟨i, h.1⟩ ⟨j, h.2⟩) else none

/-- Total read, used to state properties: `M(i, j)` inside the matrix, `0` outside. -/
def get (M : MatrixXdFp) (i j : ℕ) : Fp :=
  if h : i < M.rows ∧ j < M.cols then M.coeff ⟨i, h.1⟩ ⟨j, h.2⟩ else Fp.fin 0

/-- Checked write `M(i, j) = v`. -/
def set? (M : MatrixXdFp) (i j : ℕ) (v : Fp) : Option MatrixXdFp :=
  if i < M.rows ∧ j < M.cols then
    some ⟨M.rows, M.cols, fun r c => if r.val = i ∧ c.val = j then v else M.coeff r c⟩
  else none

end MatrixXdFp

/-! ## `normalize_samples` -/

/-- One coefficient of `cwiseInverse()`: the IEEE quotient `1 / x`. -/
def cwiseInverse (x : Fp) : Fp := binary64.div (Fp.fin 1) x

/-- Entry `i` of `scaling_factor` after the loop that zeroes infinite entries:
`isinf(s) ? 0 : s` with `s = 1 / (ranges(i,1) - ranges(i,0))`. -/
def scaling_factor (range_min range_max : Fp) : Fp :=
  let s := cwiseInverse (binary64.sub range_max range_min)
  if isinf s then Fp.fin 0 else s

/-- Row-wise normalisation `scaling_factor.asDiagonal() * (samples.colwise() - ranges.col(0))`:
entry `(i, j)` is the product of `scaling_factor(i)` and `samples(i,j) - ranges(i,0)`. -/
def normalize_samples (samples ranges : MatrixXdFp) : Option MatrixXdFp :=
  if h : 1 < ranges.cols ∧ ranges.rows = samples.rows then
    some ⟨samples.rows, samples.cols, fun i j =>
      binary64.mul
        (scaling_factor (ranges.coeff ⟨i.val, by omega⟩ ⟨0, by omega⟩)
          (ranges.coeff ⟨i.val, by omega⟩ ⟨1, h.1⟩))
        (binary64.sub (samples.coeff i j) (ranges.coeff ⟨i.val, by omega⟩ ⟨0, by omega⟩))⟩
  else none

/-! ## `remap` and `p2j` -/

/-- Shift and scale: `b1 + (s - a1) * (b2 - b1) / (a2 - a1)`, every operation an IEEE
operation on doubles, in the order of the C++ expression. -/
def remap (ori_val ori_min ori_max new_min new_max : Fp) : Fp :=
  binary64.add new_min
    (binary64.div
      (binary64.mul (binary64.sub ori_val ori_min) (binary64.sub new_max new_min))
      (binary64.sub ori_max ori_min))

/-- Body of the inner loop of `p2j` for one `(row, col)`. -/
def p2j_cell (poses mj_ranges : MatrixXdFp) (row : ℕ) (new_poses : MatrixXdFp) (col : ℕ) :
    Option MatrixXdFp := do
  let joint_min ← mj_ranges.get? col 0
  let joint_max ← mj_ranges.get? col 1
  let v ← poses.get? row col
  new_poses.set? row col (remap v (Fp.fin (-1)) (Fp.fin 1) joint_min joint_max)

/-- Body of the outer loop of `p2j` for one `row`. -/
def p2j_row (poses mj_ranges : MatrixXdFp) (new_poses : MatrixXdFp) (row : ℕ) :
    Option MatrixXdFp :=
  (List.range poses.cols).foldlM (p2j_cell poses mj_ranges row) new_poses

/-- Pose space to joint space.  The freshly allocated `new_poses` is modelled as
a zero matrix; every entry is overwritten by the loops. -/
def p2j (poses mj_ranges : MatrixXdFp) : Option MatrixXdFp :=
  (List.range poses.rows).foldlM (p2j_row poses mj_ranges)
    ⟨poses.rows, poses.cols, fun _ _ => Fp.fin 0⟩

/-! ## `gen_true_values_from_poses` -/

/-- Body of the inner loop: `true_values.col(i_pose*kNumPoseSamples + j_sample) =
poses.row(i_pose).transpose()`. -/
def gen_true_values_sample (poses : MatrixXd) (i_pose : ℕ) (true_values : MatrixXd)
    (j_sample : ℕ) : Option MatrixXd := do
  let r ← poses.row? i_pose
  true_values.setCol? (i_pose * kNumPoseSamples + j_sample) r.transpose

/-- Body of the outer loop for one pose. -/
def gen_true_values_pose (poses : MatrixXd) (true_values : MatrixXd) (i_pose : ℕ) :
    Option MatrixXd :=
  (List.range kNumPoseSamples).foldlM (gen_true_values_sample poses i_pose) true_values

/-- Replicate every pose `kNumPoseSamples` times as columns. -/
def gen_true_values_from_poses (poses : MatrixXd) : Option MatrixXd :=
  (List.range poses.rows).foldlM (gen_true_values_pose poses)
    (MatrixXd.Zero poses.cols (kNumPoseSamples * poses.rows))

/-! ## The least-squares solve used by `compute_calibration` -/

/-- The vector stored in an array (entries beyond the array read as 0). -/
def toVec {n : ℕ} (a : Array ℚ) : Fin n → ℚ := fun t => a.getD t.val 0

/-- Coefficients, over the columns of the design matrix, of the projection of `v`
onto the span of an orthogonal family `basis`; each member `(q, c)` of the family
is stored with its expansion `c` in those columns. -/
def gs_coef {N k : ℕ} (basis : List (Array ℚ × Array ℚ)) (v : Fin N → ℚ) : Fin k → ℚ :=
  (basis.map (fun qc =>
    (Matrix.dotProduct (toVec qc.1) v /
      Matrix.dotProduct (toVec qc.1 : Fin N → ℚ) (toVec qc.1)) • (toVec qc.2 : Fin k → ℚ))).sum

/-- Projection of `v` onto the span of an orthogonal family. -/
def gs_proj {N : ℕ} (basis : List (Array ℚ × Array ℚ)) (v : Fin N → ℚ) : Fin N → ℚ :=
  (basis.map (fun qc =>
    (Matrix.dotProduct (toVec qc.1) v /
      Matrix.dotProduct (toVec qc.1 : Fin N → ℚ) (toVec qc.1)) • (toVec qc.1 : Fin N → ℚ))).sum

/-- One orthogonalisation step: column `j` of `A` minus its projection onto the
family built so far; a column with no remainder (a rank-deficient direction) is
dropped. -/
def gs_step {N k : ℕ} (A : Matrix (Fin N) (Fin k) ℚ) (basis : List (Array ℚ × Array ℚ))
    (j : Fin k) : List (Array ℚ × Array ℚ) :=
  let a : Fin N → ℚ := toVec (Array.ofFn fun t => A t j)
  let q : Array ℚ := Array.ofFn (a - gs_proj basis a)
  let c : Array ℚ := Array.ofFn ((Pi.single j 1 : Fin k → ℚ) - gs_coef basis a)
  if Matrix.dotProduct (toVec q : Fin N → ℚ) (toVec q) = 0 then basis else (q, c) :: basis

/-- Orthogonal factor of the rank-revealing QR factorisation of `A`. -/
def gs_basis {N k : ℕ} (A : Matrix (Fin N) (Fin k) ℚ) : List (Array ℚ × Array ℚ) :=
  (List.finRange k).foldl (gs_step A) []

/-- Least-squares solution `X` of `A * X ≈ B` through the QR factorisation. -/
def lstsq {N k m : ℕ} (A : Matrix (Fin N) (Fin k) ℚ) (B : Matrix (Fin N) (Fin m) ℚ) :
    Matrix (Fin k) (Fin m) ℚ :=
  let basis := gs_basis A
  fun i j => gs_coef basis (fun t => B t j) i

/-- Modelled from the spec: Eigen's `colPivHouseholderQr().solve(b)`, a third-party
routine whose code is not part of the repository.  The spec describes it as solving
"the linear least-squares system ... using the normal/QR solve of an augmented design
matrix".  The model is a rank-revealing QR solve in exact arithmetic (orthogonalise
the columns of `A`, drop dependent columns, project each right-hand side); Eigen
asserts that `A` and `b` have the same number of rows. -/
def colPivHouseholderQr_solve (A B : MatrixXd) : Option MatrixXd :=
  if h : A.rows = B.rows then
    some ⟨A.cols, B.cols,
      lstsq (Matrix.of A.coeff) (Matrix.of fun t j => B.coeff ⟨t.val, by omega⟩ j)⟩
  else none

/-! ## `compute_calibration` -/

/-- How the raw signals from the glove map into the fingers (1-based sensor indices). -/
def map_raw : List (List ℕ) :=
  [ [4, 5, 6, 8, 11],        -- First Finger
    [8, 9, 10, 11, 12, 15],  -- Second Finger
    [12, 13, 14, 15, 19],    -- Ring Finger
    [12, 16, 17, 18, 19],    -- Little finger
    [1, 2, 3, 4, 20, 21],    -- Thumb calibrate
    [1, 20, 21, 22] ]        -- Wrist Calibrate

/-- How the simulator joints map into the fingers (1-based joint indices). -/
def map_cal : List (List ℕ) :=
  [ [3, 4, 5, 6],            -- First Finger
    [7, 8, 9, 10],           -- Second Finger
    [11, 12, 13, 14],        -- Ring Finger
    [15, 16, 17, 18, 19],    -- Little finger
    [20, 21, 22, 23, 24],    -- Thumb calibrate
    [1, 2] ]                 -- Wrist Calibrate

/-- Body of the loop `denom.row(i) = glove_values_n.row(map_raw_f[i] - 1)`. -/
def denom_row (glove_values_n : MatrixXd) (map_raw_f : List ℕ) (denom : MatrixXd) (i : ℕ) :
    Option MatrixXd := do
  let r ← glove_values_n.row? (map_raw_f.getD i 0 - 1)
  denom.setRow? i r

/-- The design matrix `denom` of one finger. -/
def build_denom (glove_values_n : MatrixXd) (map_raw_f : List ℕ) : Option MatrixXd := do
  let denom := MatrixXd.Zero (map_raw_f.length + 1) glove_values_n.cols
  let denom ← denom.setBottomRow? (MatrixXd.Ones 1 glove_values_n.cols)
  (List.range map_raw_f.length).foldlM (denom_row glove_values_n map_raw_f) denom

/-- Body of the loop `numer.row(i) = true_values_n.row(map_cal_f[i] - 1)`. -/
def numer_row (true_values_n : MatrixXd) (map_cal_f : List ℕ) (numer : MatrixXd) (i : ℕ) :
    Option MatrixXd := do
  let r ← true_values_n.row? (map_cal_f.getD i 0 - 1)
  numer.setRow? i r

/-- The target matrix `numer` of one finger. -/
def build_numer (true_values_n : MatrixXd) (map_cal_f : List ℕ) : Option MatrixXd :=
  (List.range map_cal_f.length).foldlM (numer_row true_values_n map_cal_f)
    (MatrixXd.Zero map_cal_f.length true_values_n.cols)

/-- The solved block:
`sol = (denom.transpose()).colPivHouseholderQr().solve(numer.transpose()).transpose()`. -/
def solve_block (denom numer : MatrixXd) : Option MatrixXd := do
  let x ← colPivHouseholderQr_solve denom.transpose numer.transpose
  pure x.transpose

/-- Body of the inner write loop for one `(row, col)`. -/
def write_cell (glove_values_n : MatrixXd) (map_raw_f map_cal_f : List ℕ) (sol : MatrixXd)
    (row : ℕ) (calibration : MatrixXd) (col : ℕ) : Option MatrixXd :=
  if col < map_raw_f.length then do
    let v ← sol.get? row col
    calibration.set? (map_cal_f.getD row 0 - 1) (map_raw_f.getD col 0 - 1) v
  else do
    let v ← sol.get? row col
    calibration.set? (map_cal_f.getD row 0 - 1) glove_values_n.rows v

/-- Body of the outer write loop for one `row`. -/
def write_row (glove_values_n : MatrixXd) (map_raw_f map_cal_f : List ℕ) (sol : MatrixXd)
    (calibration : MatrixXd) (row : ℕ) : Option MatrixXd :=
  (List.range (map_raw_f.length + 1)).foldlM
    (write_cell glove_values_n map_raw_f map_cal_f sol row) calibration

/-- The two nested loops that copy `sol` into `calibration`. -/
def write_block (glove_values_n : MatrixXd) (map_raw_f map_cal_f : List ℕ) (sol : MatrixXd)
    (calibration : MatrixXd) : Option MatrixXd :=
  (List.range map_cal_f.length).foldlM
    (write_row glove_values_n map_raw_f map_cal_f sol) calibration

/-- The solved block of finger `i`, from the two inputs. -/
def finger_sol (true_values_n glove_values_n : MatrixXd) (i : ℕ) : Option MatrixXd := do
  let denom ← build_denom glove_values_n (map_raw.getD i [])
  let numer ← build_numer true_values_n (map_cal.getD i [])
  solve_block denom numer

/-- Body of the loop over the finger groups: solve the finger's block, then copy it
into `calibration`.  The three debug dumps (`numer.m`, `denom.m`, `sol.m`) write
files only and are left out. -/
def calibrate_finger (true_values_n glove_values_n : MatrixXd) (calibration : MatrixXd)
    (i : ℕ) : Option MatrixXd := do
  let sol ← finger_sol true_values_n glove_values_n i
  write_block glove_values_n (map_raw.getD i []) (map_cal.getD i []) sol calibration

/-- Per-finger calibration regression. -/
def compute_calibration (true_values_n glove_values_n : MatrixXd) : Option MatrixXd :=
  (List.range map_raw.length).foldlM (calibrate_finger true_values_n glove_values_n)
    (MatrixXd.Zero true_values_n.rows (glove_values_n.rows + 1))

/-! ## Input streams and `getNextLineAndSplitIntoTokens` -/

/-- A C++ input stream, as far as the program observes it: the characters not yet
read and the two state bits `eofbit` and `failbit`.  A `std::string` is a list of
characters. -/
structure IStream where
  buf : List Char
  eofbit : Bool
  failbit : Bool

/-- A stream over a text, in good state: `std::stringstream lineStream(line)`, or a
file that has just been opened. -/
def IStream.ofList (text : List Char) : IStream := ⟨text, false, false⟩

/-- The test `good()`: no state bit is set. -/
def IStream.good (s : IStream) : Bool := !s.eofbit && !s.failbit

/-- The characters before the first `delim`, and the characters after that
delimiter when there is one (`none`: the input ends before a delimiter). -/
def extractUntil (delim : Char) : List Char → List Char × Option (List Char)
  | [] => ([], none)
  | c :: cs =>
    if c = delim then ([], some cs)
    else (c :: (extractUntil delim cs).1, (extractUntil delim cs).2)

/-- The call `std::getline(s, str, delim)`.  On a stream in good state the string is
erased and filled with the characters up to the delimiter, which is read and
dropped; reaching the end of the input sets `eofbit`, and `failbit` too when nothing
at all was read.  On a stream not in good state the call sets `failbit` and leaves
`str` as it is. -/
def getline (s : IStream) (str : List Char) (delim : Char) : IStream × List Char :=
  if s.good then
    match extractUntil delim s.buf with
    | (cell, some rest) => (⟨rest, false, false⟩, cell)
    | (cell, none) => (⟨[], true, cell.isEmpty⟩, cell)
  else (⟨s.buf, s.eofbit, true⟩, str)

/-- The loop `while (std::getline(lineStream, cell, ',')) result.push_back(cell);`
with a bound on the number of iterations; the result is the stream, the last
content of `cell` and the tokens. -/
def split_loop : ℕ → IStream → List Char → List (List Char) →
    Option (IStream × List Char × List (List Char))
  | 0, _, _, _ => none
  | fuel + 1, lineStream, cell, result =>
    let r := getline lineStream cell ','
    if r.1.failbit then some (r.1, r.2, result)
    else split_loop fuel r.1 r.2 (result ++ [r.2])

/-- The part of `getNextLineAndSplitIntoTokens` after the line has been read: the
split loop, then the check for a trailing comma with no data after it. -/
def split_line (line : List Char) : Option (List (List Char)) :=
  match split_loop (line.length + 2) (IStream.ofList line) [] [] with
  | none => none
  | some (lineStream, cell, result) =>
    some (if lineStream.failbit && cell.isEmpty then result ++ [[]] else result)

/-- Read the next line of the stream and split it at the commas; the stream is
returned as the call leaves it. -/
def getNextLineAndSplitIntoTokens (str : IStream) : Option (List (List Char) × IStream) :=
  let r := getline str [] '\n'
  (split_line r.2).map fun result => (result, r.1)

/-! ## `load_poses` -/

/-- The test `strspn(token.c_str(), "-.0123456789") == token.size()`. -/
def is_numeric_token (token : List Char) : Bool :=
  token.all fun c => ['-', '.', '0', '1', '2', '3', '4', '5', '6', '7', '8', '9'].contains c

/-- Body of the loop over the tokens of one line: a numeric token is converted by
`stod` and appended to `angles`, any other token is appended to `joint_map`.  The
library function `stod` is a parameter; `none` is a thrown exception. -/
def parse_token (stod : List Char → Option ℚ) (acc : List ℚ × List (List Char))
    (token : List Char) : Option (List ℚ × List (List Char)) :=
  if is_numeric_token token then
    (stod token).map fun angle => (acc.1 ++ [angle], acc.2)
  else some (acc.1, acc.2 ++ [token])

/-- The loop that gathers the joint angles of every line, until a line with at most
one token; with a bound on the number of iterations. -/
def read_pose_lines (stod : List Char → Option ℚ) : ℕ → IStream → List (List ℚ) →
    List (List Char) → Option (List (List ℚ) × List (List Char) × IStream)
  | 0, _, _, _ => none
  | fuel + 1, ifs, joint_angles, joint_map =>
    match getNextLineAndSplitIntoTokens ifs with
    | none => none
    | some (line_tokens, ifs1) =>
      if line_tokens.length > 1 then
        match line_tokens.foldlM (parse_token stod) ([], joint_map) with
        | none => none
        | some (angles, joint_map1) =>
          read_pose_lines stod fuel ifs1 (joint_angles ++ [angles]) joint_map1
      else some (joint_angles, joint_map, ifs1)

/-- Body of the transposing loops: `poses[col][row] = joint_angles[row][col];
poses_m(col, row) = joint_angles[row][col];`.  The state is `(poses, poses_m)`; the
vector of vectors `poses`, which `resize` has made rectangular, is a matrix; an
index outside `joint_angles` is an invalid read, `none`. -/
def transpose_cell (joint_angles : List (List ℚ)) (row : ℕ) (st : MatrixXd × MatrixXd)
    (col : ℕ) : Option (MatrixXd × MatrixXd) := do
  let angles ← joint_angles.get? row
  let v ← angles.get? col
  let poses ← st.1.set? col row v
  let poses_m ← st.2.set? col row v
  pure (poses, poses_m)

/-- Body of the final copy `poses_m(i, j) = poses[i][j]`. -/
def copy_cell (poses : MatrixXd) (i : ℕ) (poses_m : MatrixXd) (j : ℕ) : Option MatrixXd := do
  let v ← poses.get? i j
  poses_m.set? i j v

/-- Load the poses file.  `file` is the text of the file, `none` when it cannot be
opened; the result is the returned flag with the final values of the two reference
parameters. -/
def load_poses (stod : List Char → Option ℚ) (file : Option (List Char)) (poses_m : MatrixXd)
    (joint_map : List (List Char)) : Option (Bool × MatrixXd × List (List Char)) :=
  match file with
  | none => some (false, poses_m, joint_map)
  | some text => do
    let r ← read_pose_lines stod (text.length + 1) (IStream.ofList text) [] joint_map
    let joint_angles := r.1
    let first ← joint_angles.get? 0
    let poses_m := MatrixXd.Zero first.length joint_angles.length
    let poses := MatrixXd.Zero first.length joint_angles.length
    let st ← (List.range joint_angles.length).foldlM
      (fun st row => (List.range first.length).foldlM (transpose_cell joint_angles row) st)
      (poses, poses_m)
    let poses := st.1
    if poses.rows = 0 then none
    else do
      let poses_m := MatrixXd.Zero poses.rows poses.cols
      let poses_m ← (List.range poses.rows).foldlM
        (fun pm i => (List.range poses.cols).foldlM (copy_cell poses i) pm) poses_m
      pure (true, poses_m, r.2.1)

/-! ## `get_glove_ranges` and `capture_glove_data` -/

/-- Body of the loop over the sensors in `get_glove_ranges`: the two `if` statements
that lower the minimum and raise the maximum of sensor `i`. -/
def range_step (glove_samples : ℕ → ℚ) (raw_ranges : MatrixXd) (i : ℕ) : Option MatrixXd := do
  let lo ← raw_ranges.get? i 0
  let raw_ranges ← if glove_samples i < lo then raw_ranges.set? i 0 (glove_samples i)
    else pure raw_ranges
  let hi ← raw_ranges.get? i 1
  if glove_samples i > hi then raw_ranges.set? i 1 (glove_samples i) else pure raw_ranges

/-- One iteration of the capture loop of `get_glove_ranges`, for one reading of the
glove. -/
def range_sample (raw_ranges : MatrixXd) (glove_samples : ℕ → ℚ) : Option MatrixXd :=
  (List.range kNumGloveSensors).foldlM (range_step glove_samples) raw_ranges

/-- The range table of the glove.  `samples` are the readings that
`cGlove_getRawData` delivers while the ten seconds last, in order; waiting and
printing are left out.  The freshly allocated table is modelled as a zero matrix;
both columns are assigned before the loop. -/
def get_glove_ranges (samples : List (ℕ → ℚ)) : Option MatrixXd := do
  let raw_ranges := MatrixXd.Zero kNumGloveSensors 2
  let raw_ranges ← raw_ranges.setCol? 0 (MatrixXd.Constant raw_ranges.rows 1 1000)
  let raw_ranges ← raw_ranges.setCol? 1 (MatrixXd.Constant raw_ranges.rows 1 (-1000))
  samples.foldlM range_sample raw_ranges

/-- Body of the loop over the sensors in `capture_glove_data`: the two conditional
assignments to `raw_glove_ranges(i, 0)` and `raw_glove_ranges(i, 1)`. -/
def capture_range_step (glove_raw : MatrixXd) (raw_glove_ranges : MatrixXd) (i : ℕ) :
    Option MatrixXd := do
  let g ← glove_raw.get? i 0
  let lo ← raw_glove_ranges.get? i 0
  let raw_glove_ranges ← raw_glove_ranges.set? i 0 (if g < lo then g else lo)
  let hi ← raw_glove_ranges.get? i 1
  raw_glove_ranges.set? i 1 (if g > hi then g else hi)

/-- Body of the loop over the samples of one pose.  The state is `(glove_samples,
true_values, raw_glove_ranges)`; `glove i_pose j_sample` is the reading that
`cGlove_getRawData` delivers for this sample.  Eigen transposes the row of `poses`
when it is assigned to a column. -/
def capture_sample (poses : MatrixXd) (glove : ℕ → ℕ → ℕ → ℚ) (i_pose : ℕ)
    (st : MatrixXd × MatrixXd × MatrixXd) (j_sample : ℕ) :
    Option (MatrixXd × MatrixXd × MatrixXd) := do
  let r ← poses.row? i_pose
  let true_values ← st.2.1.setCol? (i_pose * kNumPoseSamples + j_sample) r.transpose
  let glove_raw : MatrixXd := ⟨kNumGloveSensors, 1, fun i _ => glove i_pose j_sample i.val⟩
  let glove_samples ← st.1.setCol? (i_pose * kNumPoseSamples + j_sample) glove_raw
  let raw_glove_ranges ← (List.range (glove_raw.rows * glove_raw.cols)).foldlM
    (capture_range_step glove_raw) st.2.2
  pure (glove_samples, true_values, raw_glove_ranges)

/-- Body of the loop over the poses. -/
def capture_pose (poses : MatrixXd) (glove : ℕ → ℕ → ℕ → ℚ)
    (st : MatrixXd × MatrixXd × MatrixXd) (i_pose : ℕ) :
    Option (MatrixXd × MatrixXd × MatrixXd) :=
  (List.range kNumPoseSamples).foldlM (capture_sample poses glove i_pose) st

/-- Capture the glove samples of every pose and keep widening the ranges.  The
result is the returned matrix and the final value of the reference parameter
`raw_glove_ranges`; prompts and the visualisation context are left out. -/
def capture_glove_data (poses : MatrixXd) (raw_glove_ranges : MatrixXd)
    (glove : ℕ → ℕ → ℕ → ℚ) : Option (MatrixXd × MatrixXd) := do
  let glove_samples := MatrixXd.Zero kNumGloveSensors (kNumPoseSamples * poses.rows)
  let true_values := MatrixXd.Zero poses.cols (kNumPoseSamples * poses.rows)
  let st ← (List.range poses.rows).foldlM (capture_pose poses glove)
    (glove_samples, true_values, raw_glove_ranges)
  pure (st.1, st.2.2)

/-! ## The teleoperation program (`viveGlove_main.cpp`)

Numbers of type `float` and `mjtNum` are rationals, so the conversions `mju_f2n` and
`mju_n2f` are copies; the scale of the scene, the one number that the program itself
computes with rounding, is a floating-point value (`Fp`).  A C array is a total function of its index, and a pointer into
a flat array of the simulator is that array read from an offset.  The `int` fields
`tool` and `body` hold integers, and the arithmetic stored in them wraps around at 32
bits.  The enumerators of the OpenVR header and the functions of the MuJoCo library
are parameters (`OpenVR`, `Library`).  What the program only displays is left out: the
text message of a controller and the abstract geoms appended to the scene. -/

/-- The value that a C `int` holds for the mathematical result `x` (wrap-around at
32 bits). -/
def wrap_int (x : ℤ) : ℤ := (x + 2 ^ 31) % 2 ^ 32 - 2 ^ 31

/-- Button `vBUTTON_TRIGGER` of the anonymous button enumeration. -/
def vBUTTON_TRIGGER : ℕ := 0

/-- Button `vBUTTON_SIDE`. -/
def vBUTTON_SIDE : ℕ := 1

/-- Button `vBUTTON_MENU`. -/
def vBUTTON_MENU : ℕ := 2

/-- Button `vBUTTON_PAD`. -/
def vBUTTON_PAD : ℕ := 3

/-- Number of buttons. -/
def vNBUTTON : ℕ := 4

/-- Tool `vTOOL_MOVE`: move and scale the world. -/
def vTOOL_MOVE : ℤ := 0

/-- Tool `vTOOL_PULL`: pull the selected body. -/
def vTOOL_PULL : ℤ := 1

/-- Number of tools. -/
def vNTOOL : ℤ := 2

/-- The macro `mjMAX(a,b)`, which expands to `(((a) > (b)) ? (a) : (b))`. -/
def mjMAX (a b : ℤ) : ℤ := if a > b then a else b

/-- The macro `mjMIN(a,b)`, which expands to `(((a) < (b)) ? (a) : (b))`. -/
def mjMIN (a b : ℤ) : ℤ := if a < b then a else b

/-- The copy of `n` numbers from `vec` to `res` (`mju_copy`, `mju_copy3`, `mju_f2n`,
`mju_n2f`). -/
def mju_copy (res vec : ℕ → ℚ) (n : ℕ) : ℕ → ℚ := fun i => if i < n then vec i else res i

/-- The array that starts at position `adr` of the flat array `a` (the pointer
`a + adr`). -/
def at_offset (a : ℤ → ℚ) (adr : ℤ) : ℕ → ℚ := fun k => a (adr + k)

/-- All data related to one controller (`vController_t`), without the text message. -/
structure vController_t where
  id : ℤ
  idtrigger : ℤ
  idpad : ℤ
  rgba : ℕ → ℚ
  valid : Bool
  touch : ℕ → Bool
  hold : ℕ → Bool
  tool : ℤ
  body : ℤ
  roompos : ℕ → ℚ
  roommat : ℕ → ℚ
  pos : ℕ → ℚ
  quat : ℕ → ℚ
  targetpos : ℕ → ℚ
  targetquat : ℕ → ℚ
  relpos : ℕ → ℚ
  relquat : ℕ → ℚ
  triggerpos : ℚ
  padpos : ℕ → ℚ
  oldroompos : ℕ → ℚ
  oldroommat : ℕ → ℚ
  oldtriggerpos : ℚ
  oldpadpos : ℕ → ℚ

/-- All data related to the head-mounted display (`vHMD_t`), without the handle of the
runtime and the texture id. -/
structure vHMD_t where
  width : ℕ
  height : ℕ
  id : ℤ
  eyeoffset : ℕ → ℕ → ℚ
  roompos : ℕ → ℚ
  roommat : ℕ → ℚ

/-- The fields of an OpenGL camera of the scene that `v_update` assigns. -/
structure mjvGLCamera where
  pos : ℕ → ℚ
  forward : ℕ → ℚ
  up : ℕ → ℚ

/-- The fields of `mjvScene` that the program reads or assigns outside of rendering. -/
structure mjvScene where
  camera : ℕ → mjvGLCamera
  translate : ℕ → ℚ
  rotate : ℕ → ℚ
  scale : Fp

/-- The fields of `mjvPerturb` that the main loop assigns. -/
structure mjvPerturb where
  select : ℤ
  active : ℕ
  refpos : ℕ → ℚ
  refquat : ℕ → ℚ

/-- The global variables of the program that the controller code reads or assigns. -/
structure Globals where
  hmd : vHMD_t
  ctl : ℕ → vController_t
  trackMocap : Bool
  scn : mjvScene
  pert : mjvPerturb

/-- The fields of `mjModel` that the program reads; `mj_name2id` is the lookup of an
actuator by name. -/
structure mjModel where
  nbody : ℤ
  body_iquat : ℤ → ℚ
  actuator_ctrlrange : ℤ → ℚ
  mj_name2id : String → ℤ

/-- The fields of `mjData` that `v_update` reads. -/
structure mjData where
  xquat : ℤ → ℚ
  xipos : ℤ → ℚ

/-- The enumerators of the OpenVR header that the program uses. -/
structure OpenVR where
  k_unMaxTrackedDeviceCount : ℕ
  k_unControllerStateAxisCount : ℕ
  TrackedDeviceClass_HMD : ℕ
  TrackedDeviceClass_Controller : ℕ
  Prop_Axis0Type_Int32 : ℕ
  k_eControllerAxis_Trigger : ℤ
  k_eControllerAxis_TrackPad : ℤ
  VREvent_ButtonPress : ℕ
  VREvent_ButtonUnpress : ℕ
  VREvent_ButtonTouch : ℕ
  VREvent_ButtonUntouch : ℕ
  k_EButton_ApplicationMenu : ℕ
  k_EButton_Grip : ℕ
  k_EButton_SteamVR_Trigger : ℕ
  k_EButton_SteamVR_Touchpad : ℕ

/-- The functions and constants of the MuJoCo library and of the C library that the
program calls; a function with output arguments returns them. -/
structure Library where
  mju_mulQuat : (ℕ → ℚ) → (ℕ → ℚ) → (ℕ → ℚ)
  mju_negPose : (ℕ → ℚ) → (ℕ → ℚ) → (ℕ → ℚ) × (ℕ → ℚ)
  mju_mulPose : (ℕ → ℚ) → (ℕ → ℚ) → (ℕ → ℚ) → (ℕ → ℚ) → (ℕ → ℚ) × (ℕ → ℚ)
  mju_mat2Quat : (ℕ → ℚ) → (ℕ → ℚ)
  mjv_room2model : (ℕ → ℚ) → (ℕ → ℚ) → mjvScene → (ℕ → ℚ) × (ℕ → ℚ)
  mju_mulMatMatT : (ℕ → ℚ) → (ℕ → ℚ) → ℕ → ℕ → ℕ → (ℕ → ℚ)
  mju_quat2Vel : (ℕ → ℚ) → ℚ → (ℕ → ℚ)
  mju_axisAngle2Quat : (ℕ → ℚ) → ℚ → (ℕ → ℚ)
  mju_normalize : (ℕ → ℚ) → ℕ → (ℕ → ℚ)
  mju_cos : ℚ → ℚ
  mju_sin : ℚ → ℚ
  logf : Fp → Fp
  mjPERT_TRANSLATE : ℕ
  mjPERT_ROTATE : ℕ

/-- A 3x4 matrix of the runtime (`HmdMatrix34_t`). -/
structure HmdMatrix34_t where
  m : ℕ → ℕ → ℚ

/-- The pose of one tracked device (`TrackedDevicePose_t`). -/
structure TrackedDevicePose_t where
  mDeviceToAbsoluteTracking : HmdMatrix34_t
  bPoseIsValid : Bool
  bDeviceIsConnected : Bool

/-- One analog axis of a controller (`VRControllerAxis_t`). -/
structure VRControllerAxis_t where
  x : ℚ
  y : ℚ

/-- The fields of an event of the runtime that the program reads: its type, its
device and `data.controller.button`; the three are unsigned 32-bit numbers. -/
structure VREvent_t where
  eventType : ℕ
  trackedDeviceIndex : ℕ
  button : ℕ

/-- What the runtime answers while `v_initPre` runs: whether `VR_Init` reports an
error, whether there is a compositor, the recommended image size, the class of every
device, the eye-to-head transforms and the integer properties of the devices. -/
structure VRDevices where
  init_error : Bool
  compositor : Bool
  width : ℕ
  height : ℕ
  GetTrackedDeviceClass : ℕ → ℕ
  GetEyeToHeadTransform : ℕ → HmdMatrix34_t
  GetInt32TrackedDeviceProperty : ℤ → ℕ → ℤ

/-- What the runtime delivers during one call of `v_update`: the poses of
`WaitGetPoses`, the axis state of `GetControllerState` per device, and the events
that `PollNextEvent` returns, in order. -/
structure VRFrame where
  poses : ℤ → TrackedDevicePose_t
  GetControllerState : ℤ → ℤ → VRControllerAxis_t
  events : List VREvent_t

/-! ### `v_initPre` -/

/-- Body of the loop over the devices: the last HMD found sets `hmd.id`, the first two
controllers found set `ctl[cnt].id`.  The state is the globals and `cnt`. -/
def find_device (K : OpenVR) (dev : VRDevices) (st : Globals × ℕ) (n : ℕ) : Globals × ℕ :=
  if dev.GetTrackedDeviceClass n = K.TrackedDeviceClass_HMD then
    ({ st.1 with hmd := { st.1.hmd with id := n } }, st.2)
  else if dev.GetTrackedDeviceClass n = K.TrackedDeviceClass_Controller ∧ st.2 < 2 then
    ({ st.1 with ctl := (Function.update st.1.ctl st.2 { (st.1.ctl st.2) with id := n }) },
      st.2 + 1)
  else st

/-- Body of the loop over the axes of a controller. -/
def find_axis (K : OpenVR) (dev : VRDevices) (c : vController_t) (i : ℕ) : vController_t :=
  if dev.GetInt32TrackedDeviceProperty c.id (K.Prop_Axis0Type_Int32 + i) =
      K.k_eControllerAxis_Trigger then { c with idtrigger := i }
  else if dev.GetInt32TrackedDeviceProperty c.id (K.Prop_Axis0Type_Int32 + i) =
      K.k_eControllerAxis_TrackPad then { c with idpad := i }
  else c

/-- Body of the loop that clears the button flags. -/
def clear_button (c : vController_t) (i : ℕ) : vController_t :=
  { c with touch := Function.update c.touch i false, hold := Function.update c.hold i false }

/-- Body of the loop that initialises the controller data; `none` is the call of
`mju_error` when an axis is missing. -/
def init_controller (K : OpenVR) (dev : VRDevices) (g : Globals) (n : ℕ) : Option Globals :=
  if 0 ≤ (g.ctl n).id then
    let c : vController_t := { (g.ctl n) with idtrigger := -1, idpad := -1 }
    let c := (List.range K.k_unControllerStateAxisCount).foldl (find_axis K dev) c
    if c.idtrigger < 0 ∨ c.idpad < 0 then none
    else
      let rgba := if n = 0 then
          Function.update (Function.update (Function.update (Function.update c.rgba
            0 (4 / 5)) 1 (1 / 5)) 2 (1 / 5)) 3 (3 / 5)
        else
          Function.update (Function.update (Function.update (Function.update c.rgba
            0 (1 / 5)) 1 (4 / 5)) 2 (1 / 5)) 3 (3 / 5)
      let c : vController_t := { c with
        rgba := rgba, valid := false, tool := if n = 0 then vTOOL_MOVE else vTOOL_PULL,
        body := 0 }
      let c := (List.range vNBUTTON).foldl clear_button c
      some { g with ctl := Function.update g.ctl n c }
  else some g

/-- Body of the loop that initialises the pose of the HMD. -/
def init_hmd_pose (hmd : vHMD_t) (n : ℕ) : vHMD_t :=
  { hmd with
    roommat := Function.update hmd.roommat n 0,
    roompos := (if n < 3 then Function.update hmd.roompos n 0 else hmd.roompos) }

/-- Body of the loop that reads the eye-to-head offsets. -/
def init_eyeoffset (dev : VRDevices) (hmd : vHMD_t) (n : ℕ) : vHMD_t :=
  { hmd with eyeoffset := (Function.update hmd.eyeoffset n
      (Function.update (Function.update (Function.update (hmd.eyeoffset n)
        0 ((dev.GetEyeToHeadTransform n).m 0 3))
        1 ((dev.GetEyeToHeadTransform n).m 1 3))
        2 ((dev.GetEyeToHeadTransform n).m 2 3))) }

/-- Initialisation of the VR side, before the simulator is initialised.  `none` is a
call of `mju_error`, which ends the program. -/
def v_initPre (K : OpenVR) (dev : VRDevices) (g : Globals) : Option Globals :=
  if dev.init_error then none
  else if !dev.compositor then none
  else
    let g : Globals := { g with hmd := { g.hmd with width := dev.width, height := dev.height } }
    let g : Globals := { g with
      hmd := { g.hmd with id := -1 },
      ctl := (Function.update (Function.update g.ctl 0 { (g.ctl 0) with id := -1 })
        1 { (g.ctl 1) with id := -1 }) }
    let g := ((List.range K.k_unMaxTrackedDeviceCount).foldl (find_device K dev) (g, 0)).1
    if g.hmd.id < 0 ∨ (g.ctl 0).id < 0 then none
    else
      let hmd := (List.range 9).foldl init_hmd_pose g.hmd
      let hmd : vHMD_t := { hmd with
        roommat := Function.update (Function.update (Function.update hmd.roommat 0 1) 4 1) 8 1 }
      let hmd := (List.range 2).foldl (init_eyeoffset dev) hmd
      (List.range 2).foldlM (init_controller K dev) { g with hmd := hmd }

/-- The state of the global variables when the program starts: C++ initialises
globals with zero. -/
def zero_globals : Globals :=
  { hmd := ⟨0, 0, 0, fun _ _ => 0, fun _ => 0, fun _ => 0⟩
    ctl := fun _ =>
      { id := 0, idtrigger := 0, idpad := 0, rgba := fun _ => 0, valid := false,
        touch := fun _ => false, hold := fun _ => false, tool := 0, body := 0,
        roompos := fun _ => 0, roommat := fun _ => 0, pos := fun _ => 0, quat := fun _ => 0,
        targetpos := fun _ => 0, targetquat := fun _ => 0, relpos := fun _ => 0,
        relquat := fun _ => 0, triggerpos := 0, padpos := fun _ => 0,
        oldroompos := fun _ => 0, oldroommat := fun _ => 0, oldtriggerpos := 0,
        oldpadpos := fun _ => 0 }
    trackMocap := false
    scn := ⟨fun _ => ⟨fun _ => 0, fun _ => 0, fun _ => 0⟩, fun _ => 0, fun _ => 0, Fp.fin 0⟩
    pert := ⟨0, 0, fun _ => 0, fun _ => 0⟩ }

/-! ### `v_copyPose` and `v_update` -/

/-- Copy one pose from the runtime to the format of the program; the result is the new
content of the arrays `roompos` and `roommat`. -/
def v_copyPose (pose : TrackedDevicePose_t) (roompos roommat : ℕ → ℚ) :
    (ℕ → ℚ) × (ℕ → ℚ) :=
  if !pose.bPoseIsValid then (roompos, roommat)
  else
    let p := pose.mDeviceToAbsoluteTracking
    let roompos := Function.update roompos 0 (p.m 0 3)
    let roompos := Function.update roompos 1 (p.m 1 3)
    let roompos := Function.update roompos 2 (p.m 2 3)
    let roommat := Function.update roommat 0 (p.m 0 0)
    let roommat := Function.update roommat 1 (p.m 0 1)
    let roommat := Function.update roommat 2 (p.m 0 2)
    let roommat := Function.update roommat 3 (p.m 1 0)
    let roommat := Function.update roommat 4 (p.m 1 1)
    let roommat := Function.update roommat 5 (p.m 1 2)
    let roommat := Function.update roommat 6 (p.m 2 0)
    let roommat := Function.update roommat 7 (p.m 2 1)
    let roommat := Function.update roommat 8 (p.m 2 2)
    (roompos, roommat)

/-- Body of the loop that adjusts the two cameras of the scene to the pose of the
HMD. -/
def update_camera (hmd : vHMD_t) (scn : mjvScene) (n : ℕ) : mjvScene :=
  let pos := (List.range 3).foldl (fun (pos : ℕ → ℚ) i => Function.update pos i
    (hmd.roompos i + hmd.eyeoffset n 0 * hmd.roommat (3 * i + 0) +
      hmd.eyeoffset n 1 * hmd.roommat (3 * i + 1) +
      hmd.eyeoffset n 2 * hmd.roommat (3 * i + 2))) (scn.camera n).pos
  let forward := Function.update (Function.update (Function.update (scn.camera n).forward
    0 (-hmd.roommat 2)) 1 (-hmd.roommat 5)) 2 (-hmd.roommat 8)
  let up := Function.update (Function.update (Function.update (scn.camera n).up
    0 (hmd.roommat 1)) 1 (hmd.roommat 4)) 2 (hmd.roommat 7)
  { scn with camera := Function.update scn.camera n ⟨pos, forward, up⟩ }

/-- Body of the loop that updates the controllers from the new poses. -/
def update_controller (L : Library) (vr : VRFrame) (g : Globals) (n : ℕ) : Globals :=
  if 0 ≤ (g.ctl n).id then
    let c := g.ctl n
    let room := v_copyPose (vr.poses c.id) c.roompos c.roommat
    let c : vController_t := { c with
      roompos := room.1, roommat := room.2,
      valid := (vr.poses c.id).bPoseIsValid && (vr.poses c.id).bDeviceIsConnected }
    let c : vController_t :=
      if c.valid then
        let rquat := L.mju_mat2Quat (mju_copy (fun _ => 0) c.roommat 9)
        let model := L.mjv_room2model (mju_copy (fun _ => 0) c.roompos 3) rquat g.scn
        { c with pos := model.1, quat := model.2 }
      else c
    let state := vr.GetControllerState c.id
    let c : vController_t := { c with
      triggerpos := (state c.idtrigger).x,
      padpos := (Function.update (Function.update c.padpos 0 (state c.idpad).x)
        1 (state c.idpad).y) }
    { g with ctl := Function.update g.ctl n c }
  else g

/-- The controller that an event belongs to, if any.  The comparison of the `int`
field `id` with the unsigned device index converts `id` to unsigned. -/
def event_controller (g : Globals) (evt : VREvent_t) : Option ℕ :=
  if (g.ctl 0).id % 2 ^ 32 = (evt.trackedDeviceIndex : ℤ) then some 0
  else if (g.ctl 1).id % 2 ^ 32 = (evt.trackedDeviceIndex : ℤ) then some 1
  else none

/-- The button that an event belongs to (the `switch` over `evt.data.controller.button`
with `vBUTTON_TRIGGER` as the initial value). -/
def event_button (K : OpenVR) (evt : VREvent_t) : ℕ :=
  if evt.button = K.k_EButton_ApplicationMenu then vBUTTON_MENU
  else if evt.button = K.k_EButton_Grip then vBUTTON_SIDE
  else if evt.button = K.k_EButton_SteamVR_Trigger then vBUTTON_TRIGGER
  else if evt.button = K.k_EButton_SteamVR_Touchpad then vBUTTON_PAD
  else vBUTTON_TRIGGER

/-- Body of the loop that resets the old pose of a controller. -/
def reset_old_pose (c : vController_t) (i : ℕ) : vController_t :=
  { c with
    oldroommat := Function.update c.oldroommat i (c.roommat i),
    oldroompos := (if i < 3 then Function.update c.oldroompos i (c.roompos i)
      else c.oldroompos) }

/-- The block that records the pose of the selected body relative to the controller. -/
def record_relative_pose (L : Library) (m : mjModel) (d : mjData) (c : vController_t) :
    vController_t :=
  let xiquat := L.mju_mulQuat (at_offset d.xquat (4 * c.body))
    (at_offset m.body_iquat (4 * c.body))
  let neg := L.mju_negPose c.pos c.quat
  let rel := L.mju_mulPose neg.1 neg.2 (at_offset d.xipos (3 * c.body)) xiquat
  { c with relpos := rel.1, relquat := rel.2 }

/-- The case `VREvent_ButtonPress` for controller `n` and button `button`. -/
def button_press (L : Library) (m : mjModel) (d : mjData) (g : Globals) (n button : ℕ) :
    Globals :=
  let c : vController_t := { (g.ctl n) with hold := Function.update (g.ctl n).hold button true }
  let trackMocap :=
    if button ≠ vBUTTON_SIDE ∧ button ≠ vBUTTON_TRIGGER then false else g.trackMocap
  if button = vBUTTON_TRIGGER then
    let c := (List.range 9).foldl reset_old_pose c
    { g with
      ctl := Function.update g.ctl n (record_relative_pose L m d c),
      trackMocap := trackMocap }
  else if button = vBUTTON_MENU then
    { g with
      ctl := (Function.update g.ctl n
        { c with tool := Int.tmod (wrap_int (c.tool + 1)) vNTOOL }),
      trackMocap := trackMocap }
  else if button = vBUTTON_PAD ∧ c.tool ≠ vTOOL_MOVE then
    { g with
      ctl := (Function.update g.ctl n
        { c with body := (if c.padpos 1 > 0 then mjMAX 0 (wrap_int (c.body - 1))
            else mjMIN (wrap_int (m.nbody - 1)) (wrap_int (c.body + 1))) }),
      trackMocap := trackMocap }
  else if button = vBUTTON_SIDE then
    { g with ctl := Function.update g.ctl n c, trackMocap := !trackMocap }
  else
    { g with ctl := Function.update g.ctl n c, trackMocap := trackMocap }

/-- The case `VREvent_ButtonTouch` for controller `n` and button `button`. -/
def button_touch (g : Globals) (n button : ℕ) : Globals :=
  let c : vController_t := { (g.ctl n) with touch := Function.update (g.ctl n).touch button true }
  let c : vController_t :=
    if button = vBUTTON_TRIGGER then { c with oldtriggerpos := c.triggerpos }
    else if button = vBUTTON_PAD then
      { c with
        oldpadpos := Function.update (Function.update c.oldpadpos 0 (c.padpos 0)) 1 (c.padpos 1) }
    else c
  { g with ctl := Function.update g.ctl n c }

/-- Body of the loop over the events: only button and touch events of a known
controller are processed. -/
def process_event (K : OpenVR) (L : Library) (m : mjModel) (d : mjData) (g : Globals)
    (evt : VREvent_t) : Globals :=
  if 200 ≤ evt.eventType ∧ evt.eventType ≤ 203 then
    match event_controller g evt with
    | none => g
    | some n =>
      if evt.eventType = K.VREvent_ButtonPress then
        button_press L m d g n (event_button K evt)
      else if evt.eventType = K.VREvent_ButtonUnpress then
        { g with ctl := (Function.update g.ctl n
            { (g.ctl n) with hold := Function.update (g.ctl n).hold (event_button K evt) false }) }
      else if evt.eventType = K.VREvent_ButtonTouch then
        button_touch g n (event_button K evt)
      else if evt.eventType = K.VREvent_ButtonUntouch then
        { g with ctl := (Function.update g.ctl n
            { (g.ctl n) with touch := Function.update (g.ctl n).touch (event_button K evt) false }) }
      else g
  else g

/-- Body of the loop that finishes the update of the controllers after the events:
the relative pose and the target pose. -/
def finish_controller (L : Library) (m : mjModel) (d : mjData) (g : Globals) (n : ℕ) :
    Globals :=
  if 0 ≤ (g.ctl n).id then
    let c := g.ctl n
    let c := if !g.trackMocap && !c.hold vBUTTON_TRIGGER then record_relative_pose L m d c
      else c
    let c : vController_t :=
      if (c.hold vBUTTON_TRIGGER && decide (c.tool ≠ vTOOL_MOVE)) ||
          (g.trackMocap && decide (c.tool ≠ vTOOL_MOVE)) then
        { c with
          targetpos := (L.mju_mulPose c.pos c.quat c.relpos c.relquat).1,
          targetquat := (L.mju_mulPose c.pos c.quat c.relpos c.relquat).2 }
      else
        { c with
          targetpos := mju_copy c.targetpos c.pos 3,
          targetquat := mju_copy c.targetquat c.quat 4 }
    { g with ctl := Function.update g.ctl n c }
  else g

/-- The scaling step of the move tool, in `float` arithmetic:
`scn.scale += logf(1 + scn.scale/3) * (padpos[1] - oldpadpos[1])`, then the clamp
between the `float` constants `0.01f` and `100.0f`, whose comparisons are false on NaN,
then the reset of `oldpadpos[1]`. -/
def apply_scaling (L : Library) (st : mjvScene × vController_t) : mjvScene × vController_t :=
  let scale := binary32.add st.1.scale
    (binary32.mul (L.logf (binary32.add (Fp.fin 1) (binary32.div st.1.scale (Fp.fin 3))))
      (binary32.sub (Fp.fin (st.2.padpos 1)) (Fp.fin (st.2.oldpadpos 1))))
  let scale := if Fp.lt scale (binary32.ofRat (1 / 100)) then binary32.ofRat (1 / 100)
    else if Fp.lt (binary32.ofRat 100) scale then binary32.ofRat 100 else scale
  ({ st.1 with scale := scale },
    { st.2 with oldpadpos := Function.update st.2.oldpadpos 1 (st.2.padpos 1) })

/-- Body of the loop that applies the translation of the move tool. -/
def apply_translation (st : mjvScene × vController_t) (i : ℕ) : mjvScene × vController_t :=
  ({ st.1 with translate := (Function.update st.1.translate i
      (st.1.translate i + (st.2.roompos i - st.2.oldroompos i))) },
    { st.2 with oldroompos := Function.update st.2.oldroompos i (st.2.roompos i) })

/-- The rotation step of the move tool: rotation around the vertical axis of the room,
centred at the controller. -/
def apply_rotation (L : Library) (st : mjvScene × vController_t) : mjvScene × vController_t :=
  let yaxis : ℕ → ℚ := fun i => if i = 1 then 1 else 0
  let mat := mju_copy (fun _ => 0) st.2.roommat 9
  let oldmat := mju_copy (fun _ => 0) st.2.oldroommat 9
  let difmat := L.mju_mulMatMatT mat oldmat 3 3 3
  let difquat := L.mju_mat2Quat difmat
  let vel := L.mju_quat2Vel difquat 1
  let difquat := L.mju_axisAngle2Quat yaxis (vel 1)
  let qold := mju_copy (fun _ => 0) st.1.rotate 4
  let qnew := L.mju_mulQuat difquat qold
  let qnew := L.mju_normalize qnew 4
  let rotate := mju_copy st.1.rotate qnew 4
  let dx := st.1.translate 0 - st.2.roompos 0
  let dz := st.1.translate 2 - st.2.roompos 2
  let ca := L.mju_cos (vel 1)
  let sa := L.mju_sin (vel 1)
  let translate := Function.update st.1.translate 0 (st.2.roompos 0 + dx * ca + dz * sa)
  let translate := Function.update translate 2 (st.2.roompos 2 - dx * sa + dz * ca)
  ({ st.1 with rotate := rotate, translate := translate },
    { st.2 with oldroommat := ((List.range 9).foldl
        (fun (a : ℕ → ℚ) i => Function.update a i (st.2.roommat i)) st.2.oldroommat) })

/-- Body of the loop that applies the move tool while its trigger is held. -/
def move_scale (L : Library) (g : Globals) (n : ℕ) : Globals :=
  if 0 ≤ (g.ctl n).id ∧ (g.ctl n).valid = true ∧ (g.ctl n).tool = vTOOL_MOVE ∧
      (g.ctl n).hold vBUTTON_TRIGGER = true then
    let st : mjvScene × vController_t := (g.scn, g.ctl n)
    let st := if st.2.touch vBUTTON_PAD then apply_scaling L st else st
    let st := (List.range 3).foldl apply_translation st
    let st := apply_rotation L st
    { g with scn := st.1, ctl := Function.update g.ctl n st.2 }
  else g

/-- First part of `v_update`: the new poses are copied, the cameras of the scene are
adjusted to the HMD and the controllers are updated. -/
def update_poses (L : Library) (vr : VRFrame) (g : Globals) : Globals :=
  let room := v_copyPose (vr.poses g.hmd.id) g.hmd.roompos g.hmd.roommat
  let g : Globals := { g with hmd := { g.hmd with roompos := room.1, roommat := room.2 } }
  let g : Globals := { g with scn := (List.range 2).foldl (update_camera g.hmd) g.scn }
  (List.range 2).foldl (update_controller L vr) g

/-- Second part of `v_update`: the loop over the pending events. -/
def process_events (K : OpenVR) (L : Library) (m : mjModel) (d : mjData)
    (events : List VREvent_t) (g : Globals) : Globals :=
  events.foldl (process_event K L m d) g

/-- Third part of `v_update`: the controller update is finished, after the events. -/
def finish_controllers (L : Library) (m : mjModel) (d : mjData) (g : Globals) : Globals :=
  (List.range 2).foldl (finish_controller L m d) g

/-- Last part of `v_update`: move and scale are applied. -/
def apply_move_scale (L : Library) (g : Globals) : Globals :=
  (List.range 2).foldl (move_scale L) g

/-- Update of the poses and of the controller states, once per rendered frame. -/
def v_update (K : OpenVR) (L : Library) (m : mjModel) (d : mjData) (vr : VRFrame)
    (g : Globals) : Globals :=
  apply_move_scale L (finish_controllers L m d
    (process_events K L m d vr.events (update_poses L vr g)))

/-! ### The controller perturbations of the main loop -/

/-- The calls by which the main loop writes to the simulator data: `mju_zero` on
`d->xfrc_applied`, the two perturbation functions with the value of `pert` they are
given, and an assignment to `d->ctrl`. -/
inductive MjCall where
  | mju_zero_xfrc_applied (n : ℤ)
  | mjv_applyPerturbPose (pert : mjvPerturb) (flg_paused : ℤ)
  | mjv_applyPerturbForce (pert : mjvPerturb)
  | set_ctrl (i : ℤ) (v : ℚ)

/-- The update of the gripper while tracking: the calls it makes and the new trigger
position of the controller. -/
def update_gripper (m : mjModel) (c : vController_t) : vController_t × List MjCall :=
  let rGripper := m.mj_name2id "r_gripper_finger_joint"
  let lGripper := m.mj_name2id "l_gripper_finger_joint"
  if rGripper ≠ -1 ∧ lGripper ≠ -1 then
    let scale : ℚ := 1
    let c : vController_t := { c with triggerpos := c.triggerpos * (3 / 2) }
    (c, [MjCall.set_ctrl rGripper (m.actuator_ctrlrange (2 * rGripper) +
          scale * (1 - c.triggerpos) *
            (m.actuator_ctrlrange (2 * rGripper + 1) - m.actuator_ctrlrange (2 * rGripper))),
        MjCall.set_ctrl lGripper (m.actuator_ctrlrange (2 * lGripper) +
          (1 - c.triggerpos) *
            (m.actuator_ctrlrange (2 * lGripper + 1) - m.actuator_ctrlrange (2 * rGripper)))])
  else (c, [])

/-- Body of the loop over the controllers in the main loop.  The state is the globals
and the calls made so far. -/
def perturb_controller (L : Library) (m : mjModel) (st : Globals × List MjCall) (n : ℕ) :
    Globals × List MjCall :=
  let g := st.1
  if (g.ctl n).valid && decide ((g.ctl n).tool = vTOOL_PULL) && decide ((g.ctl n).body > 0) &&
      ((g.ctl n).hold vBUTTON_TRIGGER || g.trackMocap == true) then
    let pert : mjvPerturb :=
      { active := L.mjPERT_TRANSLATE ||| L.mjPERT_ROTATE
        select := (g.ctl n).body
        refpos := mju_copy g.pert.refpos (g.ctl n).targetpos 3
        refquat := mju_copy g.pert.refquat (g.ctl n).targetquat 4 }
    let calls := [MjCall.mjv_applyPerturbPose pert 0, MjCall.mjv_applyPerturbForce pert]
    if g.trackMocap == true then
      let grip := update_gripper m (g.ctl n)
      ({ g with pert := pert, ctl := Function.update g.ctl n grip.1 },
        st.2 ++ calls ++ grip.2)
    else ({ g with pert := pert }, st.2 ++ calls)
  else st

/-- The part of one iteration of the main loop that applies the controller
perturbations: the applied forces are zeroed, then every controller is considered. -/
def apply_controller_perturbations (L : Library) (m : mjModel) (g : Globals) :
    Globals × List MjCall :=
  (List.range 2).foldl (perturb_controller L m) (g, [MjCall.mju_zero_xfrc_applied (6 * m.nbody)])

/-! ## Vocabulary of the statements -/

/-- Invariant of the orthogonalisation: every member is the stated combination of
columns of `A`, is non-zero, and the members are pairwise orthogonal. -/
def GSInv {N k : ℕ} (A : Matrix (Fin N) (Fin k) ℚ) (l : List (Array ℚ × Array ℚ)) : Prop :=
  (∀ x ∈ l, (toVec x.1 : Fin N → ℚ) = A.mulVec (toVec x.2)) ∧
    (∀ x ∈ l, Matrix.dotProduct (toVec x.1 : Fin N → ℚ) (toVec x.1) ≠ 0) ∧
    l.Pairwise (fun x y => Matrix.dotProduct (toVec x.1 : Fin N → ℚ) (toVec y.1) = 0)

/-- Column of `calibration` that receives column `col` of a solved block: the
sensor column `map_raw_f[col] - 1`, or the final (bias) column `glove_rows` for the
last column of the block.  This is the case split of the inner write loop. -/
def target_col (map_raw_f : List ℕ) (glove_rows col : ℕ) : ℕ :=
  if col < map_raw_f.length then map_raw_f.getD col 0 - 1 else glove_rows

/-- Entry `(i, j)` of the matrix product `X * A`. -/
def MatrixXd.mulGet (X A : MatrixXd) (i j : ℕ) : ℚ :=
  ∑ l in Finset.range A.rows, X.get i l * A.get l j

/-- Sum of the squared entries of `X * A - B`. -/
def residual (X A B : MatrixXd) : ℚ :=
  ∑ i in Finset.range B.rows, ∑ j in Finset.range B.cols, (X.mulGet A i j - B.get i j) ^ 2

/-- Positions of `calibration` that the write loops assign, for a glove matrix with
`glove_rows` rows: for every finger, every joint row and every column of the block. -/
def calibration_support (glove_rows : ℕ) : List (ℕ × ℕ) :=
  (List.range 6).flatMap fun i =>
    (List.range (map_cal.getD i []).length).flatMap fun r =>
      (List.range ((map_raw.getD i []).length + 1)).map fun c =>
        ((map_cal.getD i []).getD r 0 - 1, target_col (map_raw.getD i []) glove_rows c)

/-- The comma-separated fields of a line: the line cut at every comma. -/
def fields : List Char → List (List Char)
  | [] => [[]]
  | c :: cs =>
    if c = ',' then [] :: fields cs
    else (c :: (fields cs).headD []) :: (fields cs).tail

/-- The text of a file whose leading lines are the given rows, each row a joint name
followed by its cells, separated by commas and ended by a newline; `rest` is what
follows those lines. -/
def csv_text : List (List Char × List (List Char)) → List Char → List Char
  | [], rest => rest
  | r :: rs, rest => [','].intercalate (r.1 :: r.2) ++ '\n' :: csv_text rs rest

/-- The range table `R1` is at least as wide as `R0` on every sensor: same shape,
no minimum above and no maximum below the one of `R0`. -/
def Widens (R0 R1 : MatrixXd) : Prop :=
  R1.rows = R0.rows ∧ R1.cols = R0.cols ∧
    ∀ i, i < kNumGloveSensors → R1.get i 0 ≤ R0.get i 0 ∧ R0.get i 1 ≤ R1.get i 1

/-- The reading `g` lies inside the range table `R` on every sensor. -/
def Within (R : MatrixXd) (g : ℕ → ℚ) : Prop :=
  ∀ i, i < kNumGloveSensors → R.get i 0 ≤ g i ∧ g i ≤ R.get i 1

/-- The enumerators of the header are usable by the program: the four event types it
handles are distinct and lie in the range 200..203 that it polls, and the four button
ids it distinguishes are distinct. -/
def OpenVR.Valid (K : OpenVR) : Prop :=
  [K.VREvent_ButtonPress, K.VREvent_ButtonUnpress, K.VREvent_ButtonTouch,
      K.VREvent_ButtonUntouch].Nodup ∧
    (∀ t ∈ [K.VREvent_ButtonPress, K.VREvent_ButtonUnpress, K.VREvent_ButtonTouch,
      K.VREvent_ButtonUntouch], 200 ≤ t ∧ t ≤ 203) ∧
    [K.k_EButton_ApplicationMenu, K.k_EButton_Grip, K.k_EButton_SteamVR_Trigger,
      K.k_EButton_SteamVR_Touchpad].Nodup

/-- The states of the global variables that the program can be in at the head of its
main loop, for a fixed model: the state after `v_initPre` (from zeroed globals; the
scene and the perturbation object are then set up by the simulator), and the states
after a further call of `v_update` or a further application of the controller
perturbations. -/
inductive Reachable (K : OpenVR) (L : Library) (m : mjModel) : Globals → Prop where
  | init (dev : VRDevices) (g : Globals) (scn : mjvScene) (pert : mjvPerturb) :
      v_initPre K dev zero_globals = some g →
      Reachable K L m { g with scn := scn, pert := pert }
  | update (d : mjData) (vr : VRFrame) (g : Globals) :
      Reachable K L m g → Reachable K L m (v_update K L m d vr g)
  | perturb (g : Globals) :
      Reachable K L m g → Reachable K L m (apply_controller_perturbations L m g).1

/-- An event is a press of the button with id `button` that the program attributes to
controller `n`. -/
def IsPress (K : OpenVR) (g : Globals) (evt : VREvent_t) (n button : ℕ) : Prop :=
  evt.eventType = K.VREvent_ButtonPress ∧ event_controller g evt = some n ∧
    evt.button = button

/-- The condition under which the main loop applies the perturbation of controller
`n`. -/
def Pulls (g : Globals) (n : ℕ) : Prop :=
  (g.ctl n).valid = true ∧ (g.ctl n).tool = vTOOL_PULL ∧ 0 < (g.ctl n).body ∧
    ((g.ctl n).hold vBUTTON_TRIGGER = true ∨ g.trackMocap = true)

/-- Entry `(a, b)` of the Gram matrix `A * Aᵀ`. -/
def MatrixXd.gramGet (A : MatrixXd) (a b : ℕ) : ℚ :=
  ∑ j in Finset.range A.cols, A.get a j * A.get b j

/-- Full row rank, in the form "`A * Aᵀ` is invertible": some matrix `Ginv` satisfies
`(A * Aᵀ) * Ginv = 1`. -/
def MatrixXd.FullRowRank (A : MatrixXd) : Prop :=
  ∃ Ginv : MatrixXd, ∀ a c, a < A.rows → c < A.rows →
    ∑ b in Finset.range A.rows, A.gramGet a b * Ginv.get b c = if a = c then 1 else 0

/-- The real number `x` is a finite number of the format: an operation whose exact
result is `x` returns it unchanged. -/
def Format.Finite (F : Format) (x : ℚ) : Prop := F.ofRat x = Fp.fin x

instance (F : Format) (x : ℚ) : Decidable (F.Finite x) := by
  unfold Format.Finite
  infer_instance

/-! ## Concrete inputs used to instantiate the theorems -/

/-- A 24-joint, 3-sample matrix of normalised true values. -/
def sample_true : MatrixXd := ⟨24, 3, fun i j => ((i.val : ℚ) + 1) * (j.val : ℚ)⟩

/-- A 22-sensor, 3-sample matrix of normalised glove values. -/
def sample_glove : MatrixXd := ⟨22, 3, fun i j => (i.val : ℚ) + (j.val : ℚ) ^ 2⟩

/-- The matrix `sample_true` with another first row (joint 1, a wrist joint). -/
def sample_true_alt : MatrixXd :=
  ⟨24, 3, fun i j => if i.val = 0 then 7 else ((i.val : ℚ) + 1) * (j.val : ℚ)⟩

/-- The matrix `sample_glove` with another first row (sensor 1, a thumb and wrist sensor). -/
def sample_glove_alt : MatrixXd :=
  ⟨22, 3, fun i j => if i.val = 0 then 5 else (i.val : ℚ) + (j.val : ℚ) ^ 2⟩

/-- Glove ranges (min, max) of four sensors: the range [0, 49], the range from 0 to the
least positive double, a sensor stuck at `-2 ^ 1023`, and the range [2, 6]. -/
def sample_fp_ranges : MatrixXdFp :=
  ⟨4, 2, ![![Fp.fin 0, Fp.fin 49], ![Fp.fin 0, Fp.fin (1 / 2 ^ 1074)],
    ![Fp.fin (-(2 ^ 1023)), Fp.fin (-(2 ^ 1023))], ![Fp.fin 2, Fp.fin 6]]⟩

/-- Two samples of the four sensors: each row holds its minimum and then 49, the least
positive double, `2 ^ 1023` and 5. -/
def sample_fp_raw : MatrixXdFp :=
  ⟨4, 2, ![![Fp.fin 0, Fp.fin 49], ![Fp.fin 0, Fp.fin (1 / 2 ^ 1074)],
    ![Fp.fin (-(2 ^ 1023)), Fp.fin (2 ^ 1023)], ![Fp.fin 2, Fp.fin 5]]⟩

/-- Two poses over two joints, in pose space. -/
def sample_poses : MatrixXd := ⟨2, 2, ![![-1, 1], ![0, 1 / 2]]⟩

/-- Joint ranges (min, max) of four joints: the doubles nearest to 0.2 and 0.9, the
doubles nearest to -1.8 and 0.4, the range [-1, 3], and the range from `-2 ^ 1023` to
`2 ^ 1023`. -/
def sample_fp_mj_ranges : MatrixXdFp :=
  ⟨4, 2, ![![binary64.ofRat (1 / 5), binary64.ofRat (9 / 10)],
    ![binary64.ofRat (-9 / 5), binary64.ofRat (2 / 5)], ![Fp.fin (-1), Fp.fin 3],
    ![Fp.fin (-(2 ^ 1023)), Fp.fin (2 ^ 1023)]]⟩

/-- Two poses of the four joints: every joint at 1, and the joints at -1, -1, 0.5 and
-1. -/
def sample_fp_poses : MatrixXdFp :=
  ⟨2, 4, ![![Fp.fin 1, Fp.fin 1, Fp.fin 1, Fp.fin 1],
    ![Fp.fin (-1), Fp.fin (-1), Fp.fin (1 / 2), Fp.fin (-1)]]⟩

/-- A conversion table standing for `stod` on three numerals. -/
def sample_stod (token : List Char) : Option ℚ :=
  if token = ['1'] then some 1
  else if token = ['0', '.', '5'] then some (1 / 2)
  else if token = ['-', '2'] then some (-2)
  else none

/-- Two lines of a pose file: joint `a` with angles 1 and 0.5, joint `b` with -2 and 1. -/
def sample_rows : List (List Char × List (List Char)) :=
  [(['a'], [['1'], ['0', '.', '5']]), (['b'], [['-', '2'], ['1']])]

/-- The enumerators with the values they have in the OpenVR header. -/
def openvr_header : OpenVR :=
  { k_unMaxTrackedDeviceCount := 16
    k_unControllerStateAxisCount := 5
    TrackedDeviceClass_HMD := 1
    TrackedDeviceClass_Controller := 2
    Prop_Axis0Type_Int32 := 3002
    k_eControllerAxis_Trigger := 3
    k_eControllerAxis_TrackPad := 1
    VREvent_ButtonPress := 200
    VREvent_ButtonUnpress := 201
    VREvent_ButtonTouch := 202
    VREvent_ButtonUntouch := 203
    k_EButton_ApplicationMenu := 1
    k_EButton_Grip := 2
    k_EButton_SteamVR_Trigger := 33
    k_EButton_SteamVR_Touchpad := 32 }

/-- A stand-in for `logf` with the special values of the logarithm: NaN at a negative
argument and at NaN, minus infinity at 0, 0 at 1, and infinity at infinity; at another
positive `x` it returns `x - 1` in place of the logarithm. -/
def sample_logf : Fp → Fp
  | Fp.fin q => if q < 0 then Fp.nan else if q = 0 then Fp.inf true else Fp.fin (q - 1)
  | Fp.inf s => if s then Fp.nan else Fp.inf false
  | Fp.nan => Fp.nan

/-- A stand-in for the library in which poses compose by adding positions. -/
def sample_library : Library :=
  { mju_mulQuat := fun a b i => a i + b i
    mju_negPose := fun p q => (fun i => -p i, q)
    mju_mulPose := fun p1 _ p2 q2 => (fun i => p1 i + p2 i, q2)
    mju_mat2Quat := fun mat => mat
    mjv_room2model := fun rpos rquat _ => (rpos, rquat)
    mju_mulMatMatT := fun a _ _ _ _ => a
    mju_quat2Vel := fun q _ => q
    mju_axisAngle2Quat := fun axis _ => axis
    mju_normalize := fun v _ => v
    mju_cos := fun _ => 1
    mju_sin := fun _ => 0
    logf := sample_logf
    mjPERT_TRANSLATE := 1
    mjPERT_ROTATE := 2 }

/-- A model with three bodies and no gripper. -/
def sample_model : mjModel :=
  { nbody := 3
    body_iquat := fun _ => 0
    actuator_ctrlrange := fun _ => 0
    mj_name2id := fun _ => -1 }

/-- Simulator data with every body at the origin. -/
def sample_data : mjData := ⟨fun _ => 0, fun _ => 0⟩

/-- A runtime with the HMD as device 0 and controllers as devices 1 and 2, each with a
trackpad on axis 0 and a trigger on axis 1. -/
def sample_devices : VRDevices :=
  { init_error := false
    compositor := true
    width := 1512
    height := 1680
    GetTrackedDeviceClass := fun n => if n = 0 then 1 else if n = 1 ∨ n = 2 then 2 else 0
    GetEyeToHeadTransform := fun _ => ⟨fun _ _ => 0⟩
    GetInt32TrackedDeviceProperty := fun _ prop =>
      if prop = 3002 then 1 else if prop = 3003 then 3 else 0 }

/-- The state of the program after `v_initPre` with the devices `sample_devices`. -/
def sample_start : Globals :=
  (v_initPre openvr_header sample_devices zero_globals).getD zero_globals

/-- The state `sample_start` with the scale of the scene replaced by `x`. -/
def sample_start_scaled (x : Fp) : Globals :=
  { sample_start with scn := { sample_start.scn with scale := x } }

/-- A press of the menu button of device 1 (controller 0). -/
def sample_menu_press : VREvent_t := ⟨200, 1, 1⟩

/-- A press of the side button of device 1 (controller 0). -/
def sample_side_press : VREvent_t := ⟨200, 1, 2⟩

/-- A press of the pad button of device 2 (controller 1). -/
def sample_pad_press : VREvent_t := ⟨200, 2, 32⟩

/-- A press of the trigger of device 2 (controller 1). -/
def sample_trigger_press : VREvent_t := ⟨200, 2, 33⟩

/-- A frame in which every device is tracked at the origin and the events are
`events`. -/
def sample_frame (events : List VREvent_t) : VRFrame :=
  { poses := fun _ => ⟨⟨fun _ _ => 0⟩, true, true⟩
    GetControllerState := fun _ _ => ⟨0, 0⟩
    events := events }

/-- A runtime with the HMD as device 0 and a single controller as device 1. -/
def sample_single_devices : VRDevices :=
  { init_error := false
    compositor := true
    width := 1512
    height := 1680
    GetTrackedDeviceClass := fun n => if n = 0 then 1 else if n = 1 then 2 else 0
    GetEyeToHeadTransform := fun _ => ⟨fun _ _ => 0⟩
    GetInt32TrackedDeviceProperty := fun _ prop =>
      if prop = 3002 then 1 else if prop = 3003 then 3 else 0 }

/-- The state of the program after `v_initPre` with the devices
`sample_single_devices`: controller 1 is not in use. -/
def sample_single_start : Globals :=
  (v_initPre openvr_header sample_single_devices zero_globals).getD zero_globals

/-- A press of the menu button that carries the invalid device index `0xFFFFFFFF`. -/
def sample_stray_menu_press : VREvent_t := ⟨200, 4294967295, 1⟩

/-- A press of the side button that carries the invalid device index `0xFFFFFFFF`. -/
def sample_stray_side_press : VREvent_t := ⟨200, 4294967295, 2⟩

/-- A press of the trigger of device 1 (controller 0). -/
def sample_move_trigger_press : VREvent_t := ⟨200, 1, 33⟩

/-- A touch of the pad of device 1 (controller 0). -/
def sample_pad_touch : VREvent_t := ⟨202, 1, 32⟩

/-- A press, on device 1 (controller 0), of the button with id 7 (`k_EButton_A`), which
is none of the four ids that the program maps. -/
def sample_unmapped_press : VREvent_t := ⟨200, 1, 7⟩

/-- A frame in which every device is tracked at the position (5, 5, 5) and the events
are `events`. -/
def sample_moved_frame (events : List VREvent_t) : VRFrame :=
  { poses := fun _ => ⟨⟨fun _ _ => 5⟩, true, true⟩
    GetControllerState := fun _ _ => ⟨0, 0⟩
    events := events }

/-- The state after a frame in which the trigger of controller 0 was pressed with the
controller at the origin. -/
def sample_held : Globals :=
  v_update openvr_header sample_library sample_model sample_data
    (sample_frame [sample_move_trigger_press]) sample_start

/-- Glove values over five samples in which the wrist sensors 1, 20, 21 and 22 read
the unit vectors of the first four samples and every other sensor reads 0. -/
def sample_glove_wrist : MatrixXd :=
  ⟨22, 5, fun i j =>
    if (i.val = 0 ∧ j.val = 0) ∨ (i.val = 19 ∧ j.val = 1) ∨ (i.val = 20 ∧ j.val = 2) ∨
        (i.val = 21 ∧ j.val = 3) then 1 else 0⟩

/-- A coefficient matrix for the two wrist joints: four sensor coefficients and a
bias. -/
def sample_X0 : MatrixXd := ⟨2, 5, ![![1, 2, 3, 4, 5], ![0, 1, 0, -1, 2]]⟩

/-- True values over five samples whose two wrist rows are `sample_X0` applied to the
wrist sensors of `sample_glove_wrist` and the constant 1; the other joints read 0. -/
def sample_true_wrist : MatrixXd :=
  ⟨24, 5, fun i j =>
    if i.val = 0 then ![6, 7, 8, 9, 5] j else if i.val = 1 then ![2, 3, 2, 1, 2] j else 0⟩

/-- The design matrix of the wrist for `sample_glove_wrist`. -/
def sample_denom_wrist : MatrixXd :=
  (build_denom sample_glove_wrist (map_raw.getD 5 [])).getD (MatrixXd.Zero 0 0)

/-- The target matrix of the wrist for `sample_true_wrist`. -/
def sample_numer_wrist : MatrixXd :=
  (build_numer sample_true_wrist (map_cal.getD 5 [])).getD (MatrixXd.Zero 0 0)

/-- The inverse of the Gram matrix of `sample_denom_wrist`. -/
def sample_gram_inv : MatrixXd :=
  ⟨5, 5, fun a b =>
    if a.val = 4 ∧ b.val = 4 then 1
    else if a.val = 4 ∨ b.val = 4 then -1
    else if a.val = b.val then 2 else 1⟩

/-! ## Basic facts about the matrix operations -/

theorem MatrixXd.get?_eq_some (M : MatrixXd) {i j : ℕ} (hi : i < M.rows) (hj : j < M.cols) :
    M.get? i j = some (M.get i j) := by
  simp [MatrixXd.get?, MatrixXd.get, hi, hj]

theorem MatrixXd.set?_some (M : MatrixXd) {i j : ℕ} (v : ℚ) (hi : i < M.rows)
    (hj : j < M.cols) :
    ∃ M', M.set? i j v = some M' ∧ M'.rows = M.rows ∧ M'.cols = M.cols ∧
      ∀ a b, M'.get a b = if a = i ∧ b = j then v else M.get a b := by
  refine ⟨⟨M.rows, M.cols, fun r c => if r.val = i ∧ c.val = j then v else M.coeff r c⟩,
    by simp only [MatrixXd.set?, hi, hj, and_self, if_true], rfl, rfl, ?_⟩
  intro a b
  by_cases hab : a < M.rows ∧ b < M.cols
  · simp only [MatrixXd.get, hab, and_self, dite_true]
  · have hne : ¬ (a = i ∧ b = j) := by
      rintro ⟨rfl, rfl⟩
      exact hab ⟨hi, hj⟩
    simp only [MatrixXd.get, hab, dite_false, hne, if_false]

theorem MatrixXd.row?_some (M : MatrixXd) {k : ℕ} (hk : k < M.rows) :
    ∃ R, M.row? k = some R ∧ R.rows = 1 ∧ R.cols = M.cols ∧
      ∀ b, R.get 0 b = M.get k b := by
  refine ⟨⟨1, M.cols, fun _ c => M.coeff ⟨k, hk⟩ c⟩,
    by simp only [MatrixXd.row?, hk, dite_true], rfl, rfl, ?_⟩
  intro b
  by_cases hb : b < M.cols
  · simp [MatrixXd.get, hb, hk]
  · simp [MatrixXd.get, hb]

theorem MatrixXd.setRow?_some (M R : MatrixXd) {i : ℕ} (hi : i < M.rows) (hr : R.rows = 1)
    (hc : R.cols = M.cols) :
    ∃ M', M.setRow? i R = some M' ∧ M'.rows = M.rows ∧ M'.cols = M.cols ∧
      ∀ a b, M'.get a b = if a = i then R.get 0 b else M.get a b := by
  refine ⟨⟨M.rows, M.cols, fun r c =>
      if r.val = i then R.coeff ⟨0, by omega⟩ ⟨c.val, by omega⟩ else M.coeff r c⟩,
    by simp only [MatrixXd.setRow?, hi, hr, hc, and_self, dite_true], rfl, rfl, ?_⟩
  intro a b
  by_cases hb : b < M.cols
  · by_cases ha : a < M.rows
    · by_cases hai : a = i
      · simp [MatrixXd.get, hb, ha, hai, hr, hc, hi]
      · simp [MatrixXd.get, hb, ha, hai]
    · have hai : a ≠ i := by omega
      simp [MatrixXd.get, ha, hai]
  · simp [MatrixXd.get, hb, hc]

theorem MatrixXd.setCol?_some (M C : MatrixXd) {j : ℕ} (hj : j < M.cols) (hc : C.cols = 1)
    (hr : C.rows = M.rows) :
    ∃ M', M.setCol? j C = some M' ∧ M'.rows = M.rows ∧ M'.cols = M.cols ∧
      ∀ a b, M'.get a b = if b = j then C.get a 0 else M.get a b := by
  refine ⟨⟨M.rows, M.cols, fun r c =>
      if c.val = j then C.coeff ⟨r.val, by omega⟩ ⟨0, by omega⟩ else M.coeff r c⟩,
    by simp only [MatrixXd.setCol?, hj, hr, hc, and_self, dite_true], rfl, rfl, ?_⟩
  intro a b
  by_cases ha : a < M.rows
  · by_cases hb : b < M.cols
    · by_cases hbj : b = j
      · simp [MatrixXd.get, hb, ha, hbj, hr, hc, hj]
      · simp [MatrixXd.get, hb, ha, hbj]
    · have hbj : b ≠ j := by omega
      simp [MatrixXd.get, hb, hbj]
  · simp [MatrixXd.get, ha, hr]

theorem MatrixXd.get_transpose (M : MatrixXd) (a b : ℕ) : M.transpose.get a b = M.get b a := by
  by_cases h : b < M.rows ∧ a < M.cols
  · simp [MatrixXd.get, MatrixXd.transpose, h.1, h.2]
  · have h' : ¬ (a < M.cols ∧ b < M.rows) := fun hh => h ⟨hh.2, hh.1⟩
    simp only [MatrixXd.get, MatrixXd.transpose, h, h', dite_false]

theorem MatrixXd.get_Zero (r c a b : ℕ) : (MatrixXd.Zero r c).get a b = 0 := by
  simp [MatrixXd.get, MatrixXd.Zero]

/-- Two matrices of the same shape with the same entries are equal. -/
theorem MatrixXd.ext_get {M N : MatrixXd} (hr : M.rows = N.rows) (hc : M.cols = N.cols)
    (h : ∀ i j, i < M.rows → j < M.cols → M.get i j = N.get i j) : M = N := by
  obtain ⟨r, c, f⟩ := M
  obtain ⟨r', c', f'⟩ := N
  simp only at hr hc
  subst hr hc
  congr
  funext i j
  have := h i.val j.val i.isLt j.isLt
  simpa [MatrixXd.get] using this

/-- Hoare rule for a counted loop `for (k = 0; k < n; k++)` whose body may fail:
an invariant that every iteration re-establishes holds at the end, and the loop
does not fail. -/
theorem foldlM_range_inv {β : Type} (f : β → ℕ → Option β) (P : ℕ → β → Prop) (n : ℕ)
    (b0 : β) (h0 : P 0 b0)
    (hstep : ∀ k b, k < n → P k b → ∃ b', f b k = some b' ∧ P (k + 1) b') :
    ∃ b, (List.range n).foldlM f b0 = some b ∧ P n b := by
  induction n with
  | zero => exact ⟨b0, by simp, h0⟩
  | succ n ih =>
    obtain ⟨b, hb, hP⟩ := ih (fun k b hk hPk => hstep k b (Nat.lt_succ_of_lt hk) hPk)
    obtain ⟨b', hb', hP'⟩ := hstep n b (Nat.lt_succ_self n) hP
    refine ⟨b', ?_, hP'⟩
    rw [List.range_succ, List.foldlM_append, hb]
    simp [hb']

/-! ## Facts about rounding -/

theorem roundHalfEven_intCast (k : ℤ) : roundHalfEven (k : ℚ) = k := by
  unfold roundHalfEven
  simp

theorem roundHalfEven_bounds (n : ℚ) :
    ⌊n⌋ ≤ roundHalfEven n ∧ roundHalfEven n ≤ ⌊n⌋ + 1 := by
  unfold roundHalfEven
  split_ifs <;> omega

theorem roundHalfEven_mono {a b : ℚ} (h : a ≤ b) : roundHalfEven a ≤ roundHalfEven b := by
  have hf : ⌊a⌋ ≤ ⌊b⌋ := Int.floor_le_floor h
  rcases lt_or_eq_of_le hf with hlt | heq
  · have h1 := (roundHalfEven_bounds a).2
    have h2 := (roundHalfEven_bounds b).1
    omega
  · unfold roundHalfEven
    rw [heq]
    split_ifs <;> first | omega | (exfalso; linarith)

theorem abs_roundHalfEven_sub_le (n : ℚ) : |(roundHalfEven n : ℚ) - n| ≤ 1 / 2 := by
  have h1 := Int.floor_le n
  have h2 := Int.lt_floor_add_one n
  unfold roundHalfEven
  rw [abs_le]
  split_ifs <;> push_cast <;> constructor <;> linarith

theorem log2Fuel_eq (fuel n : ℕ) (h : n ≤ fuel) : log2Fuel fuel n = Nat.log 2 n := by
  induction fuel generalizing n with
  | zero =>
    have : n = 0 := by omega
    subst this
    simp [log2Fuel]
  | succ k ih =>
    show (if n < 2 then 0 else log2Fuel k (n / 2) + 1) = Nat.log 2 n
    by_cases h2 : n < 2
    · rw [if_pos h2, Nat.log_of_lt h2]
    · rw [if_neg h2, ih (n / 2) (by omega)]
      exact (Nat.log_of_one_lt_of_le (by norm_num) (by omega)).symm

theorem natLog2_eq (n : ℕ) : natLog2 n = Nat.log 2 n := log2Fuel_eq n n (le_refl n)

/-- The binary exponent brackets the magnitude. -/
theorem ilog2_spec (x : ℚ) (hx : x ≠ 0) :
    (2 : ℚ) ^ ilog2 x ≤ |x| ∧ |x| < 2 ^ (ilog2 x + 1) := by
  have hA0 : x.num.natAbs ≠ 0 := by
    rw [Ne, Int.natAbs_eq_zero, Rat.num_eq_zero]
    exact hx
  have hB0 : x.den ≠ 0 := x.den_nz
  have ha1 := Nat.pow_log_le_self 2 hA0
  have ha2 := Nat.lt_pow_succ_log_self (b := 2) (by norm_num) x.num.natAbs
  have hb1 := Nat.pow_log_le_self 2 hB0
  have hb2 := Nat.lt_pow_succ_log_self (b := 2) (by norm_num) x.den
  have habs : |x| = (x.num.natAbs : ℚ) / (x.den : ℚ) := by
    conv_lhs => rw [← Rat.num_div_den x]
    rw [abs_div, Nat.abs_cast, Nat.cast_natAbs, Int.cast_abs]
  have hBpos : (0 : ℚ) < x.den := by exact_mod_cast Nat.pos_of_ne_zero hB0
  unfold ilog2
  simp only [natLog2_eq, if_neg hx]
  generalize Nat.log 2 x.num.natAbs = a at ha1 ha2 ⊢
  generalize Nat.log 2 x.den = b at hb1 hb2 ⊢
  generalize x.num.natAbs = A at ha1 ha2 habs hA0 ⊢
  generalize x.den = B at hb1 hb2 habs hBpos hB0 ⊢
  rw [habs]
  have ha1q : (2 : ℚ) ^ a ≤ A := by exact_mod_cast ha1
  have ha2q : (A : ℚ) < 2 ^ (a + 1) := by exact_mod_cast ha2
  have hb1q : (2 : ℚ) ^ b ≤ B := by exact_mod_cast hb1
  have hb2q : (B : ℚ) < 2 ^ (b + 1) := by exact_mod_cast hb2
  have hpa : (0 : ℚ) < 2 ^ a := by positivity
  have hpb : (0 : ℚ) < 2 ^ b := by positivity
  have hApos : (0 : ℚ) < A := lt_of_lt_of_le hpa ha1q
  have e1 : (2 : ℚ) ^ ((a : ℤ) - b) = 2 ^ a / 2 ^ b := by
    rw [zpow_sub₀ (by norm_num), zpow_natCast, zpow_natCast]
  split_ifs with hc
  · have hcq : (B : ℚ) * 2 ^ a ≤ A * 2 ^ b := by exact_mod_cast hc
    constructor
    · rw [e1, div_le_div_iff₀ hpb hBpos]
      linarith
    · rw [zpow_add₀ (by norm_num), e1, zpow_one, div_lt_iff₀ hBpos]
      have : (A : ℚ) * 2 ^ b < 2 ^ (a + 1) * 2 ^ b := mul_lt_mul_of_pos_right ha2q hpb
      have h3 : (2 : ℚ) ^ (a + 1) * 2 ^ b ≤ 2 ^ (a + 1) * B :=
        mul_le_mul_of_nonneg_left hb1q (by positivity)
      have h4 : (2 : ℚ) ^ a / 2 ^ b * 2 * B = 2 ^ (a + 1) * B / 2 ^ b := by
        rw [pow_succ]
        field_simp
      rw [h4, lt_div_iff₀ hpb]
      linarith
  · have hcq : (A : ℚ) * 2 ^ b < B * 2 ^ a := by
      have := not_le.mp hc
      exact_mod_cast this
    constructor
    · have e2 : (2 : ℚ) ^ ((a : ℤ) - b - 1) = 2 ^ a / 2 ^ b / 2 := by
        rw [zpow_sub₀ (by norm_num), e1, zpow_one]
      rw [e2, div_le_div_iff₀ (by positivity) hBpos]
      have h3 : (2 : ℚ) ^ a * B ≤ A * B := mul_le_mul_of_nonneg_right ha1q (le_of_lt hBpos)
      have h4 : (A : ℚ) * B ≤ A * 2 ^ (b + 1) :=
        mul_le_mul_of_nonneg_left (le_of_lt hb2q) (le_of_lt hApos)
      have h5 : (2 : ℚ) ^ a / 2 ^ b * B = 2 ^ a * B / 2 ^ b := by field_simp
      rw [h5, div_le_iff₀ hpb]
      rw [pow_succ] at h4
      linarith
    · have e3 : (a : ℤ) - b - 1 + 1 = (a : ℤ) - b := by ring
      rw [e3, e1, div_lt_div_iff₀ hBpos hpb]
      linarith

/-- The binary exponent is the integer logarithm of the magnitude. -/
theorem ilog2_eq (x : ℚ) : ilog2 x = Int.log 2 |x| := by
  by_cases hx : x = 0
  · subst hx
    simp [ilog2]
  · obtain ⟨h1, h2⟩ := ilog2_spec x hx
    have hpos := abs_pos.mpr hx
    have h2c : ((2 : ℕ) : ℚ) = 2 := by norm_num
    apply le_antisymm
    · rw [← Int.zpow_le_iff_le_log (by norm_num) hpos, h2c]
      exact h1
    · have : Int.log 2 |x| < ilog2 x + 1 := by
        rw [← Int.lt_zpow_iff_log_lt (by norm_num) hpos, h2c]
        exact h2
      omega

theorem Format.ulpExp_eq (F : Format) (x : ℚ) :
    F.ulpExp x = max (Int.log 2 |x|) F.emin - (F.prec - 1) := by
  unfold Format.ulpExp
  rw [ilog2_eq]

theorem two_zpow_pos (e : ℤ) : (0 : ℚ) < 2 ^ e := zpow_pos (by norm_num) e

theorem Format.round_zero (F : Format) : F.round 0 = 0 := by
  unfold Format.round
  rw [zero_div]
  have := roundHalfEven_intCast 0
  simp only [Int.cast_zero] at this
  rw [this]
  simp

/-- The magnitude of a number is below `2 ^ prec` units in the last place. -/
theorem Format.abs_lt_zpow (F : Format) (x : ℚ) : |x| < 2 ^ (F.ulpExp x + F.prec) := by
  have h := Int.lt_zpow_succ_log_self (b := 2) (by norm_num) |x|
  have h2 : ((2 : ℕ) : ℚ) = 2 := by norm_num
  rw [h2] at h
  refine lt_of_lt_of_le h (zpow_le_zpow_right₀ (by norm_num) ?_)
  rw [Format.ulpExp_eq]
  have := le_max_left (Int.log 2 |x|) F.emin
  omega

/-- The magnitude of a normal number is at least `2 ^ (prec - 1)` units in the last
place. -/
theorem Format.zpow_le_abs (F : Format) (x : ℚ) (hx : x ≠ 0) (hn : F.emin ≤ Int.log 2 |x|) :
    2 ^ (F.ulpExp x + F.prec - 1) ≤ |x| := by
  have h := Int.zpow_log_le_self (b := 2) (by norm_num) (abs_pos.mpr hx)
  have h2 : ((2 : ℕ) : ℚ) = 2 := by norm_num
  rw [h2] at h
  rw [Format.ulpExp_eq]
  rw [max_eq_left hn]
  have e : Int.log 2 |x| - ((F.prec : ℤ) - 1) + F.prec - 1 = Int.log 2 |x| := by ring
  rw [e]
  exact h

theorem Format.round_le_of_div_le (F : Format) (x : ℚ) (k : ℤ)
    (h : x / 2 ^ F.ulpExp x ≤ k) : F.round x ≤ k * 2 ^ F.ulpExp x := by
  unfold Format.round
  have := roundHalfEven_mono h
  rw [roundHalfEven_intCast] at this
  exact mul_le_mul_of_nonneg_right (by exact_mod_cast this) (le_of_lt (two_zpow_pos _))

theorem Format.le_round_of_le_div (F : Format) (x : ℚ) (k : ℤ)
    (h : (k : ℚ) ≤ x / 2 ^ F.ulpExp x) : k * 2 ^ F.ulpExp x ≤ F.round x := by
  unfold Format.round
  have := roundHalfEven_mono h
  rw [roundHalfEven_intCast] at this
  exact mul_le_mul_of_nonneg_right (by exact_mod_cast this) (le_of_lt (two_zpow_pos _))

theorem Format.round_nonneg (F : Format) {x : ℚ} (h : 0 ≤ x) : 0 ≤ F.round x := by
  have := F.le_round_of_le_div x 0 (by
    simp only [Int.cast_zero]
    exact div_nonneg h (le_of_lt (two_zpow_pos _)))
  simpa using this

theorem Format.round_nonpos (F : Format) {x : ℚ} (h : x ≤ 0) : F.round x ≤ 0 := by
  have := F.round_le_of_div_le x 0 (by
    simp only [Int.cast_zero]
    exact div_nonpos_of_nonpos_of_nonneg h (le_of_lt (two_zpow_pos _)))
  simpa using this

/-- The rounded value has at most `2 ^ prec` units in the last place of the argument. -/
theorem Format.abs_round_le (F : Format) (x : ℚ) :
    |F.round x| ≤ 2 ^ (F.ulpExp x + F.prec) := by
  have h := F.abs_lt_zpow x
  have hq := two_zpow_pos (F.ulpExp x)
  have e : (2 : ℚ) ^ (F.ulpExp x + F.prec) = ((2 ^ F.prec : ℤ) : ℚ) * 2 ^ F.ulpExp x := by
    rw [zpow_add₀ (by norm_num), zpow_natCast]
    push_cast
    ring
  rw [e] at h ⊢
  rw [abs_lt] at h
  rw [abs_le]
  constructor
  · have := F.le_round_of_le_div x (-(2 ^ F.prec)) (by
      rw [le_div_iff₀ hq]
      push_cast at h ⊢
      linarith [h.1])
    push_cast at this ⊢
    linarith
  · have := F.round_le_of_div_le x (2 ^ F.prec) (by
      rw [div_le_iff₀ hq]
      push_cast at h ⊢
      linarith [h.2])
    push_cast at this ⊢
    linarith

theorem Format.ulpExp_mono (F : Format) {x y : ℚ} (hx : x ≠ 0) (h : |x| ≤ |y|) :
    F.ulpExp x ≤ F.ulpExp y := by
  rw [Format.ulpExp_eq, Format.ulpExp_eq]
  have := Int.log_mono_right (b := 2) (abs_pos.mpr hx) h
  have := max_le_max this (le_refl F.emin)
  omega

/-- A number whose unit in the last place is above that of the subnormal numbers is
normal. -/
theorem Format.normal_of_ulpExp_lt (F : Format) {x y : ℚ} (h : F.ulpExp x < F.ulpExp y) :
    F.emin ≤ Int.log 2 |y| := by
  rw [Format.ulpExp_eq, Format.ulpExp_eq] at h
  have h1 := le_max_right (Int.log 2 |x|) F.emin
  rcases le_total (Int.log 2 |y|) F.emin with hle | hle
  · rw [max_eq_right hle] at h
    omega
  · exact hle

theorem Format.round_mono_pos (F : Format) (hp : 0 < F.prec) {x y : ℚ} (hx : 0 < x)
    (h : x ≤ y) : F.round x ≤ F.round y := by
  have hy : 0 < y := lt_of_lt_of_le hx h
  have hE : F.ulpExp x ≤ F.ulpExp y :=
    F.ulpExp_mono (ne_of_gt hx) (by rw [abs_of_pos hx, abs_of_pos hy]; exact h)
  rcases lt_or_eq_of_le hE with hlt | heq
  · have hn := F.normal_of_ulpExp_lt hlt
    have hB := F.zpow_le_abs y (ne_of_gt hy) hn
    rw [abs_of_pos hy] at hB
    have hqy := two_zpow_pos (F.ulpExp y)
    have e : (2 : ℚ) ^ (F.ulpExp y + F.prec - 1) =
        ((2 ^ (F.prec - 1) : ℤ) : ℚ) * 2 ^ F.ulpExp y := by
      have : F.ulpExp y + (F.prec : ℤ) - 1 = F.ulpExp y + ((F.prec - 1 : ℕ) : ℤ) := by omega
      rw [this, zpow_add₀ (by norm_num), zpow_natCast]
      push_cast
      ring
    have h1 := F.le_round_of_le_div y (2 ^ (F.prec - 1)) (by
      rw [le_div_iff₀ hqy, ← e]
      exact hB)
    rw [← e] at h1
    have h2 := (abs_le.mp (F.abs_round_le x)).2
    have h3 : (2 : ℚ) ^ (F.ulpExp x + F.prec) ≤ 2 ^ (F.ulpExp y + F.prec - 1) :=
      zpow_le_zpow_right₀ (by norm_num) (by omega)
    linarith
  · unfold Format.round
    rw [heq]
    have hq := two_zpow_pos (F.ulpExp y)
    have := roundHalfEven_mono (div_le_div_of_nonneg_right h (le_of_lt hq))
    exact mul_le_mul_of_nonneg_right (Int.cast_le.mpr this) (le_of_lt hq)

theorem Format.round_mono_neg (F : Format) (hp : 0 < F.prec) {x y : ℚ} (hy : y < 0)
    (h : x ≤ y) : F.round x ≤ F.round y := by
  have hx : x < 0 := lt_of_le_of_lt h hy
  have hE : F.ulpExp y ≤ F.ulpExp x :=
    F.ulpExp_mono (ne_of_lt hy) (by rw [abs_of_neg hx, abs_of_neg hy]; linarith)
  rcases lt_or_eq_of_le hE with hlt | heq
  · have hn := F.normal_of_ulpExp_lt hlt
    have hB := F.zpow_le_abs x (ne_of_lt hx) hn
    rw [abs_of_neg hx] at hB
    have hqx := two_zpow_pos (F.ulpExp x)
    have e : (2 : ℚ) ^ (F.ulpExp x + F.prec - 1) =
        ((2 ^ (F.prec - 1) : ℤ) : ℚ) * 2 ^ F.ulpExp x := by
      have : F.ulpExp x + (F.prec : ℤ) - 1 = F.ulpExp x + ((F.prec - 1 : ℕ) : ℤ) := by omega
      rw [this, zpow_add₀ (by norm_num), zpow_natCast]
      push_cast
      ring
    have h1 := F.round_le_of_div_le x (-(2 ^ (F.prec - 1))) (by
      rw [div_le_iff₀ hqx]
      push_cast
      push_cast at e
      rw [neg_mul, ← e]
      linarith)
    push_cast at h1 e
    rw [neg_mul, ← e] at h1
    have h2 := (abs_le.mp (F.abs_round_le y)).1
    have h3 : (2 : ℚ) ^ (F.ulpExp y + F.prec) ≤ 2 ^ (F.ulpExp x + F.prec - 1) :=
      zpow_le_zpow_right₀ (by norm_num) (by omega)
    linarith
  · unfold Format.round
    rw [heq]
    have hq := two_zpow_pos (F.ulpExp x)
    have := roundHalfEven_mono (div_le_div_of_nonneg_right h (le_of_lt hq))
    exact mul_le_mul_of_nonneg_right (Int.cast_le.mpr this) (le_of_lt hq)

/-- Rounding is monotone. -/
theorem Format.round_mono (F : Format) (hp : 0 < F.prec) {x y : ℚ} (h : x ≤ y) :
    F.round x ≤ F.round y := by
  rcases lt_trichotomy 0 x with hx | hx | hx
  · exact F.round_mono_pos hp hx h
  · subst hx
    rw [F.round_zero]
    exact F.round_nonneg h
  · rcases lt_or_le y 0 with hy | hy
    · exact F.round_mono_neg hp hy h
    · exact le_trans (F.round_nonpos (le_of_lt hx)) (F.round_nonneg hy)

/-- The rounding error is at most half a unit in the last place. -/
theorem Format.abs_round_sub_le (F : Format) (x : ℚ) :
    |F.round x - x| ≤ 2 ^ F.ulpExp x / 2 := by
  have hq := two_zpow_pos (F.ulpExp x)
  have h := abs_roundHalfEven_sub_le (x / 2 ^ F.ulpExp x)
  have e : F.round x - x =
      ((roundHalfEven (x / 2 ^ F.ulpExp x) : ℚ) - x / 2 ^ F.ulpExp x) * 2 ^ F.ulpExp x := by
    unfold Format.round
    field_simp
  rw [e, abs_mul, abs_of_pos hq]
  calc |(roundHalfEven (x / 2 ^ F.ulpExp x) : ℚ) - x / 2 ^ F.ulpExp x| * 2 ^ F.ulpExp x
      ≤ 1 / 2 * 2 ^ F.ulpExp x := mul_le_mul_of_nonneg_right h (le_of_lt hq)
    _ = 2 ^ F.ulpExp x / 2 := by ring

/-- A number with an integer significand below `2 ^ prec` in magnitude and an exponent
of the format is left unchanged by rounding. -/
theorem Format.round_mul_zpow_lt (F : Format) (m e : ℤ) (hm : |m| < 2 ^ F.prec)
    (he : F.emin - (F.prec - 1) ≤ e) : F.round (m * 2 ^ e) = m * 2 ^ e := by
  by_cases hm0 : m = 0
  · subst hm0
    simp [F.round_zero]
  have hx : (m : ℚ) * 2 ^ e ≠ 0 :=
    mul_ne_zero (by exact_mod_cast hm0) (ne_of_gt (two_zpow_pos e))
  have hlog : Int.log 2 |(m : ℚ) * 2 ^ e| < F.prec + e := by
    rw [← Int.lt_zpow_iff_log_lt (by norm_num) (abs_pos.mpr hx)]
    rw [abs_mul, abs_of_pos (two_zpow_pos e), zpow_add₀ (by norm_num), zpow_natCast]
    have : |(m : ℚ)| < 2 ^ F.prec := by exact_mod_cast hm
    have h2 : ((2 : ℕ) : ℚ) = 2 := by norm_num
    rw [h2]
    exact mul_lt_mul_of_pos_right this (two_zpow_pos e)
  have hE : F.ulpExp (m * 2 ^ e) ≤ e := by
    rw [Format.ulpExp_eq]
    rcases le_total (Int.log 2 |(m : ℚ) * 2 ^ e|) F.emin with hle | hle
    · rw [max_eq_right hle]
      exact he
    · rw [max_eq_left hle]
      omega
  obtain ⟨k, hk⟩ := Int.eq_ofNat_of_zero_le (sub_nonneg.mpr hE)
  have hdiv : (m : ℚ) * 2 ^ e / 2 ^ F.ulpExp (m * 2 ^ e) = ((m * 2 ^ k : ℤ) : ℚ) := by
    rw [mul_div_assoc, ← zpow_sub₀ (by norm_num), hk, zpow_natCast]
    push_cast
    ring
  unfold Format.round
  rw [hdiv, roundHalfEven_intCast]
  push_cast
  rw [mul_assoc, ← zpow_natCast, ← hk, ← zpow_add₀ (by norm_num)]
  congr 2
  ring

theorem Format.round_mul_zpow (F : Format) (hp : 0 < F.prec) (m e : ℤ)
    (hm : |m| ≤ 2 ^ F.prec) (he : F.emin - (F.prec - 1) ≤ e) :
    F.round (m * 2 ^ e) = m * 2 ^ e := by
  rcases lt_or_eq_of_le hm with hlt | heq
  · exact F.round_mul_zpow_lt m e hlt he
  · have h2 : (2 : ℤ) ^ F.prec = 2 * 2 ^ (F.prec - 1) := by
      rw [← pow_succ']
      congr 1
      omega
    have hpos : (0 : ℤ) < 2 ^ (F.prec - 1) := by positivity
    have hlt : (2 : ℤ) ^ (F.prec - 1) < 2 ^ F.prec := by omega
    rcases abs_eq (by positivity : (0 : ℤ) ≤ 2 ^ F.prec) |>.mp heq with hm1 | hm1
    · have e1 : (m : ℚ) * 2 ^ e = ((2 ^ (F.prec - 1) : ℤ) : ℚ) * 2 ^ (e + 1) := by
        rw [hm1, h2, zpow_add₀ (by norm_num)]
        push_cast
        ring
      rw [e1]
      exact F.round_mul_zpow_lt _ _ (by rw [abs_of_pos hpos]; exact hlt) (by omega)
    · have e1 : (m : ℚ) * 2 ^ e = ((-(2 ^ (F.prec - 1)) : ℤ) : ℚ) * 2 ^ (e + 1) := by
        rw [hm1, h2, zpow_add₀ (by norm_num)]
        push_cast
        ring
      rw [e1]
      exact F.round_mul_zpow_lt _ _ (by rw [abs_neg, abs_of_pos hpos]; exact hlt) (by omega)

/-- Every rounded value has an integer significand of at most `2 ^ prec` in magnitude
and an exponent of the format. -/
theorem Format.round_rep (F : Format) (x : ℚ) :
    ∃ m e : ℤ, |m| ≤ 2 ^ F.prec ∧ F.emin - (F.prec - 1) ≤ e ∧ F.round x = m * 2 ^ e := by
  refine ⟨roundHalfEven (x / 2 ^ F.ulpExp x), F.ulpExp x, ?_, ?_, rfl⟩
  · have h := F.abs_round_le x
    have hq := two_zpow_pos (F.ulpExp x)
    unfold Format.round at h
    rw [abs_mul, abs_of_pos hq, zpow_add₀ (by norm_num), mul_comm ((2 : ℚ) ^ F.ulpExp x),
      zpow_natCast] at h
    have := le_of_mul_le_mul_right h hq
    exact_mod_cast this
  · rw [Format.ulpExp_eq]
    have := le_max_right (Int.log 2 |x|) F.emin
    omega

/-- Rounding is idempotent. -/
theorem Format.round_round (F : Format) (hp : 0 < F.prec) (x : ℚ) :
    F.round (F.round x) = F.round x := by
  obtain ⟨m, e, hm, he, hx⟩ := F.round_rep x
  rw [hx]
  exact F.round_mul_zpow hp m e hm he

/-- The double of a number of the format is a number of the format (before the test
for overflow). -/
theorem Format.round_two_mul (F : Format) (hp : 0 < F.prec) (x : ℚ) (h : F.round x = x) :
    F.round (2 * x) = 2 * x := by
  obtain ⟨m, e, hm, he, hx⟩ := F.round_rep x
  rw [h] at hx
  have e1 : 2 * x = (m : ℚ) * 2 ^ (e + 1) := by
    rw [hx, zpow_add₀ (by norm_num)]
    ring
  rw [e1]
  exact F.round_mul_zpow hp m (e + 1) hm (by omega)

/-- A bound that is a number of the format is kept by rounding. -/
theorem Format.round_le (F : Format) (hp : 0 < F.prec) {x t : ℚ} (h : x ≤ t)
    (ht : F.round t = t) : F.round x ≤ t := by
  rw [← ht]
  exact F.round_mono hp h

theorem Format.le_round (F : Format) (hp : 0 < F.prec) {x t : ℚ} (h : t ≤ x)
    (ht : F.round t = t) : t ≤ F.round x := by
  rw [← ht]
  exact F.round_mono hp h

/-! ## Facts about the floating-point operations -/

theorem Format.ofRat_eq_fin (F : Format) {x : ℚ} (h : |F.round x| < 2 ^ (F.emax + 1)) :
    F.ofRat x = Fp.fin (F.round x) := if_pos h

theorem Format.ofRat_zero (F : Format) : F.ofRat 0 = Fp.fin 0 := by
  unfold Format.ofRat
  rw [F.round_zero, abs_zero, if_pos (two_zpow_pos _)]

theorem Format.ofRat_self (F : Format) {x : ℚ} (hr : F.round x = x)
    (hb : |x| < 2 ^ (F.emax + 1)) : F.ofRat x = Fp.fin x := by
  unfold Format.ofRat
  rw [hr, if_pos hb]

/-- An operation on finite numbers returns the rounded exact result or an infinity,
never NaN. -/
theorem Format.ofRat_cases (F : Format) (x : ℚ) :
    F.ofRat x = Fp.fin (F.round x) ∨ ∃ s, F.ofRat x = Fp.inf s := by
  unfold Format.ofRat
  split_ifs
  · exact Or.inl rfl
  · exact Or.inr ⟨_, rfl⟩

/-- A finite result of an operation is a number of the format. -/
theorem Format.round_of_ofRat_eq (F : Format) (hp : 0 < F.prec) {x y : ℚ}
    (h : F.ofRat x = Fp.fin y) : F.round y = y ∧ |y| < 2 ^ (F.emax + 1) ∧ y = F.round x := by
  unfold Format.ofRat at h
  split_ifs at h with hb
  · injection h with h
    subst h
    exact ⟨F.round_round hp x, hb, rfl⟩

theorem Format.round_zpow (F : Format) (hp : 0 < F.prec) (e : ℤ)
    (he : F.emin - (F.prec - 1) ≤ e) : F.round (2 ^ e) = 2 ^ e := by
  have := F.round_mul_zpow hp 1 e (by
    rw [abs_one]
    exact one_le_pow₀ (by norm_num)) he
  simpa using this

theorem Format.round_neg_zpow (F : Format) (hp : 0 < F.prec) (e : ℤ)
    (he : F.emin - (F.prec - 1) ≤ e) : F.round (-(2 ^ e)) = -(2 ^ e) := by
  have := F.round_mul_zpow hp (-1) e (by
    rw [abs_neg, abs_one]
    exact one_le_pow₀ (by norm_num)) he
  simpa using this

/-- A power of two of the format that bounds the magnitude of a number bounds the
magnitude of the rounded number. -/
theorem Format.abs_round_le_zpow (F : Format) (hp : 0 < F.prec) {x : ℚ} {e : ℤ}
    (he : F.emin - (F.prec - 1) ≤ e) (h : |x| ≤ 2 ^ e) : |F.round x| ≤ 2 ^ e := by
  rw [abs_le] at h ⊢
  exact ⟨F.le_round hp h.1 (F.round_neg_zpow hp e he), F.round_le hp h.2 (F.round_zpow hp e he)⟩

theorem Format.zpow_le_abs_round (F : Format) (hp : 0 < F.prec) {x : ℚ} {e : ℤ}
    (he : F.emin - (F.prec - 1) ≤ e) (h : 2 ^ e ≤ |x|) : 2 ^ e ≤ |F.round x| := by
  rcases le_abs.mp h with h1 | h1
  · exact le_trans (F.le_round hp h1 (F.round_zpow hp e he)) (le_abs_self _)
  · have := F.round_le hp (by linarith : x ≤ -(2 ^ e)) (F.round_neg_zpow hp e he)
    exact le_trans (by linarith) (neg_le_abs _)

/-- An operation whose exact result is bounded by a power of two of the format is
finite. -/
theorem Format.ofRat_of_abs_le (F : Format) (hp : 0 < F.prec) {x : ℚ} {e : ℤ}
    (he : F.emin - (F.prec - 1) ≤ e) (he2 : e ≤ F.emax) (h : |x| ≤ 2 ^ e) :
    F.ofRat x = Fp.fin (F.round x) :=
  F.ofRat_eq_fin (lt_of_le_of_lt (F.abs_round_le_zpow hp he h)
    (zpow_lt_zpow_right₀ (by norm_num) (by omega)))

theorem binary64_prec_pos : 0 < binary64.prec := by decide

theorem binary32_prec_pos : 0 < binary32.prec := by decide

/-- The relative error of rounding a normal number is at most `2 ^ (-prec)`. -/
theorem Format.abs_round_sub_le_mul (F : Format) (x : ℚ) (hn : 2 ^ F.emin ≤ |x|) :
    |F.round x - x| ≤ |x| / 2 ^ F.prec := by
  have hx : x ≠ 0 := by
    intro h
    rw [h, abs_zero] at hn
    exact absurd hn (not_le.mpr (two_zpow_pos _))
  have hlog : F.emin ≤ Int.log 2 |x| := by
    rw [← Int.zpow_le_iff_le_log (by norm_num) (abs_pos.mpr hx)]
    have h2 : ((2 : ℕ) : ℚ) = 2 := by norm_num
    rw [h2]
    exact hn
  have h1 := F.abs_round_sub_le x
  have h2 := F.zpow_le_abs x hx hlog
  have e : (2 : ℚ) ^ (F.ulpExp x + F.prec - 1) = 2 ^ F.ulpExp x * 2 ^ F.prec / 2 := by
    rw [zpow_sub₀ (by norm_num), zpow_add₀ (by norm_num), zpow_natCast]
    norm_num
  rw [e] at h2
  have hpp : (0 : ℚ) < 2 ^ F.prec := by positivity
  rw [le_div_iff₀ hpp]
  calc |F.round x - x| * 2 ^ F.prec ≤ 2 ^ F.ulpExp x / 2 * 2 ^ F.prec :=
        mul_le_mul_of_nonneg_right h1 (le_of_lt hpp)
    _ = 2 ^ F.ulpExp x * 2 ^ F.prec / 2 := by ring
    _ ≤ |x| := h2

theorem roundHalfEven_tie : roundHalfEven (4503599627370496 + 1 / 2) = 4503599627370496 := by
  decide!

/-- A real number within `2 ^ (-53)` of 1 rounds to 1 or to the double just below. -/
theorem round_near_one (z : ℚ) (h : |z - 1| ≤ 1 / 2 ^ 53) :
    binary64.round z = 1 ∨ binary64.round z = 1 - 1 / 2 ^ 53 := by
  rw [abs_le] at h
  have h2 : ((2 : ℕ) : ℚ) = 2 := by norm_num
  have hz : 0 < z := by norm_num at h; linarith [h.1]
  rcases lt_or_le z 1 with hlt | hge
  · have hlog : Int.log 2 |z| = -1 := by
      rw [abs_of_pos hz]
      apply le_antisymm
      · have : Int.log 2 z < 0 := by
          rw [← Int.lt_zpow_iff_log_lt (by norm_num) hz, h2]
          simpa using hlt
        omega
      · rw [← Int.zpow_le_iff_le_log (by norm_num) hz, h2]
        norm_num at h ⊢
        linarith [h.1]
    have hE : binary64.ulpExp z = -53 := by
      rw [Format.ulpExp_eq]
      rw [hlog]
      simp [binary64]
    unfold Format.round
    rw [hE]
    have hq : (2 : ℚ) ^ (-53 : ℤ) = 1 / 9007199254740992 := by norm_num
    rw [hq]
    have l1 := roundHalfEven_mono (a := ((9007199254740991 : ℤ) : ℚ))
      (b := z / (1 / 9007199254740992)) (by
        rw [le_div_iff₀ (by norm_num)]
        norm_num at h ⊢
        linarith [h.1])
    have l2 := roundHalfEven_mono (a := z / (1 / 9007199254740992))
      (b := ((9007199254740992 : ℤ) : ℚ)) (by
        rw [div_le_iff₀ (by norm_num)]
        norm_num
        linarith)
    rw [roundHalfEven_intCast] at l1 l2
    have : roundHalfEven (z / (1 / 9007199254740992)) = 9007199254740991 ∨
        roundHalfEven (z / (1 / 9007199254740992)) = 9007199254740992 := by omega
    rcases this with hk | hk
    · right
      rw [hk]
      norm_num
    · left
      rw [hk]
      norm_num
  · have hlog : Int.log 2 |z| = 0 := by
      rw [abs_of_pos hz]
      apply le_antisymm
      · have : Int.log 2 z < 1 := by
          rw [← Int.lt_zpow_iff_log_lt (by norm_num) hz, h2]
          norm_num at h ⊢
          linarith [h.2]
        omega
      · rw [← Int.zpow_le_iff_le_log (by norm_num) hz, h2]
        simpa using hge
    have hE : binary64.ulpExp z = -52 := by
      rw [Format.ulpExp_eq]
      rw [hlog]
      simp [binary64]
    unfold Format.round
    rw [hE]
    have hq : (2 : ℚ) ^ (-52 : ℤ) = 1 / 4503599627370496 := by norm_num
    rw [hq]
    have l1 := roundHalfEven_mono (a := ((4503599627370496 : ℤ) : ℚ))
      (b := z / (1 / 4503599627370496)) (by
        rw [le_div_iff₀ (by norm_num)]
        norm_num
        linarith)
    have l2 := roundHalfEven_mono (a := z / (1 / 4503599627370496))
      (b := 4503599627370496 + 1 / 2) (by
        rw [div_le_iff₀ (by norm_num)]
        norm_num at h ⊢
        linarith [h.2])
    rw [roundHalfEven_intCast] at l1
    rw [roundHalfEven_tie] at l2
    have : roundHalfEven (z / (1 / 4503599627370496)) = 4503599627370496 := by omega
    left
    rw [this]
    norm_num

theorem Format.Finite.round_eq {F : Format} {x : ℚ} (h : F.Finite x) : F.round x = x := by
  unfold Format.Finite Format.ofRat at h
  split_ifs at h
  injection h

theorem Format.Finite.abs_lt {F : Format} {x : ℚ} (h : F.Finite x) :
    |x| < 2 ^ (F.emax + 1) := by
  have hr := h.round_eq
  unfold Format.Finite Format.ofRat at h
  split_ifs at h with hb
  rwa [hr] at hb

/-! ## `normalize_samples` -/

theorem MatrixXdFp.get?_inside (M : MatrixXdFp) {i j : ℕ} (hi : i < M.rows)
    (hj : j < M.cols) : M.get? i j = some (M.get i j) := by
  simp [MatrixXdFp.get?, MatrixXdFp.get, hi, hj]

theorem MatrixXdFp.set?_inside (M : MatrixXdFp) {i j : ℕ} (v : Fp) (hi : i < M.rows)
    (hj : j < M.cols) :
    ∃ M', M.set? i j v = some M' ∧ M'.rows = M.rows ∧ M'.cols = M.cols ∧
      ∀ a b, M'.get a b = if a = i ∧ b = j then v else M.get a b := by
  refine ⟨⟨M.rows, M.cols, fun r c => if r.val = i ∧ c.val = j then v else M.coeff r c⟩,
    by simp only [MatrixXdFp.set?, hi, hj, and_self, if_true], rfl, rfl, ?_⟩
  intro a b
  by_cases hab : a < M.rows ∧ b < M.cols
  · simp only [MatrixXdFp.get, hab, and_self, dite_true]
  · have hne : ¬ (a = i ∧ b = j) := by
      rintro ⟨rfl, rfl⟩
      exact hab ⟨hi, hj⟩
    simp only [MatrixXdFp.get, hab, dite_false, hne, if_false]

theorem normalize_samples_get (samples ranges : MatrixXdFp) (hc : 1 < ranges.cols)
    (hr : ranges.rows = samples.rows) :
    ∃ out, normalize_samples samples ranges = some out ∧ out.rows = samples.rows ∧
      out.cols = samples.cols ∧
      ∀ i j, i < samples.rows → j < samples.cols →
        out.get i j =
          binary64.mul (scaling_factor (ranges.get i 0) (ranges.get i 1))
            (binary64.sub (samples.get i j) (ranges.get i 0)) := by
  refine ⟨⟨samples.rows, samples.cols, fun i j =>
      binary64.mul
        (scaling_factor (ranges.coeff ⟨i.val, by omega⟩ ⟨0, by omega⟩)
          (ranges.coeff ⟨i.val, by omega⟩ ⟨1, hc⟩))
        (binary64.sub (samples.coeff i j) (ranges.coeff ⟨i.val, by omega⟩ ⟨0, by omega⟩))⟩,
    ?_, rfl, rfl, ?_⟩
  · simp only [normalize_samples, hc, hr, and_self, dite_true]
  · intro i j hi hj
    have hi' : i < ranges.rows := by omega
    have h0 : 0 < ranges.cols := by omega
    simp only [MatrixXdFp.get, hi, hj, hi', hc, h0, and_self, dite_true]

/-- The scaling factor of a row with finite limits is finite. -/
theorem scaling_factor_fin (lo hi : ℚ) : ∃ c, scaling_factor (Fp.fin lo) (Fp.fin hi) = Fp.fin c := by
  unfold scaling_factor cwiseInverse
  simp only [Format.sub]
  rcases binary64.ofRat_cases (hi - lo) with h | ⟨s, h⟩
  · rw [h]
    simp only [Format.div]
    by_cases hd : binary64.round (hi - lo) = 0
    · rw [if_pos hd]
      simp [isinf]
    · rw [if_neg hd]
      rcases binary64.ofRat_cases (1 / binary64.round (hi - lo)) with h' | ⟨s', h'⟩
      · rw [h']
        simp [isinf]
      · rw [h']
        simp [isinf]
  · rw [h]
    simp [Format.div, isinf]

/-- A row without variance: the reciprocal is infinite and the scaling factor is 0. -/
theorem scaling_factor_flat (lo : ℚ) :
    isinf (cwiseInverse (binary64.sub (Fp.fin lo) (Fp.fin lo))) = true ∧
    scaling_factor (Fp.fin lo) (Fp.fin lo) = Fp.fin 0 := by
  unfold scaling_factor cwiseInverse
  simp only [Format.sub, sub_self, binary64.ofRat_zero]
  simp [Format.div, isinf]

/-- A row whose range is a normal number with a normal reciprocal: the scaling factor
is the rounded reciprocal of the rounded range, and their product is within
`2 ^ (-53)` of 1. -/
theorem scaling_factor_normal (lo hi : ℚ) (h1 : 2 ^ (-1022 : ℤ) ≤ |hi - lo|)
    (h2 : |hi - lo| ≤ 2 ^ (1022 : ℤ)) :
    binary64.sub (Fp.fin hi) (Fp.fin lo) = Fp.fin (binary64.round (hi - lo)) ∧
    scaling_factor (Fp.fin lo) (Fp.fin hi) =
      Fp.fin (binary64.round (1 / binary64.round (hi - lo))) ∧
    |binary64.round (1 / binary64.round (hi - lo)) * binary64.round (hi - lo) - 1| ≤
      1 / 2 ^ 53 := by
  have hp := binary64_prec_pos
  have hd1 : (2 : ℚ) ^ (-1022 : ℤ) ≤ |binary64.round (hi - lo)| :=
    binary64.zpow_le_abs_round hp (by simp [binary64]) h1
  have hd2 : |binary64.round (hi - lo)| ≤ 2 ^ (1022 : ℤ) :=
    binary64.abs_round_le_zpow hp (by simp [binary64]) h2
  have hsub : binary64.sub (Fp.fin hi) (Fp.fin lo) = Fp.fin (binary64.round (hi - lo)) :=
    binary64.ofRat_of_abs_le hp (e := 1022) (by simp [binary64]) (by simp [binary64]) h2
  generalize binary64.round (hi - lo) = d at hd1 hd2 hsub ⊢
  have hdpos : 0 < |d| := lt_of_lt_of_le (two_zpow_pos _) hd1
  have hd0 : d ≠ 0 := abs_pos.mp hdpos
  have hy1 : (2 : ℚ) ^ (-1022 : ℤ) ≤ |1 / d| := by
    rw [abs_div, abs_one, le_div_iff₀ hdpos]
    calc (2 : ℚ) ^ (-1022 : ℤ) * |d| ≤ 2 ^ (-1022 : ℤ) * 2 ^ (1022 : ℤ) :=
          mul_le_mul_of_nonneg_left hd2 (le_of_lt (two_zpow_pos _))
      _ = 1 := by rw [← zpow_add₀ (by norm_num)]; norm_num
  have hy2 : |1 / d| ≤ 2 ^ (1022 : ℤ) := by
    rw [abs_div, abs_one, div_le_iff₀ hdpos]
    calc (1 : ℚ) = 2 ^ (1022 : ℤ) * 2 ^ (-1022 : ℤ) := by
          rw [← zpow_add₀ (by norm_num)]; norm_num
      _ ≤ 2 ^ (1022 : ℤ) * |d| := mul_le_mul_of_nonneg_left hd1 (le_of_lt (two_zpow_pos _))
  have hinv : binary64.div (Fp.fin 1) (Fp.fin d) = Fp.fin (binary64.round (1 / d)) := by
    simp only [Format.div, if_neg hd0]
    exact binary64.ofRat_of_abs_le hp (e := 1022) (by simp [binary64]) (by simp [binary64]) hy2
  refine ⟨hsub, ?_, ?_⟩
  · unfold scaling_factor cwiseInverse
    rw [hsub]
    simp only [hinv, isinf]
    simp
  · have herr := binary64.abs_round_sub_le_mul (1 / d) (by simpa [binary64] using hy1)
    have e : binary64.round (1 / d) * d - 1 = (binary64.round (1 / d) - 1 / d) * d := by
      field_simp
    rw [e, abs_mul]
    calc |binary64.round (1 / d) - 1 / d| * |d| ≤ |1 / d| / 2 ^ binary64.prec * |d| :=
          mul_le_mul_of_nonneg_right herr (abs_nonneg d)
      _ = 1 / 2 ^ 53 := by
          rw [abs_div, abs_one]
          have : binary64.prec = 53 := rfl
          rw [this]
          field_simp

/-- C7, as amended: `normalize_samples` computes `(val - min) / (max - min)` row by row
in double arithmetic.  For a ranges matrix with as many rows as the samples matrix (and
the two columns min, max) the call succeeds, the output has the shape of the samples,
and entry `(i, j)` is the IEEE product of the scaling factor of row `i` and the IEEE
difference `samples(i,j) - ranges(i,0)`, the scaling factor being the IEEE reciprocal
of the IEEE difference `ranges(i,1) - ranges(i,0)`, or 0 when that reciprocal is
infinite.  For a row with finite limits: a sample equal to the minimum maps to 0; when
the difference of the limits, its reciprocal, the difference `s - min` and the quotient
are doubles, so that no operation rounds, the entry is exactly
`(s - min) / (max - min)`; and when `2 ^ (-1022) ≤ |max - min| ≤ 2 ^ 1022` the scaling
factor is the rounded reciprocal of the rounded range and a sample equal to the
maximum maps to 1 or to the double just below 1, `1 - 2 ^ (-53)`. -/
theorem normalize_samples_formula (samples ranges : MatrixXdFp) (hc : 1 < ranges.cols)
    (hr : ranges.rows = samples.rows) :
    ∃ out, normalize_samples samples ranges = some out ∧ out.rows = samples.rows ∧
      out.cols = samples.cols ∧
      ∀ i j, i < samples.rows → j < samples.cols →
        out.get i j =
          binary64.mul
            (if isinf (binary64.div (Fp.fin 1) (binary64.sub (ranges.get i 1) (ranges.get i 0)))
              then Fp.fin 0
              else binary64.div (Fp.fin 1) (binary64.sub (ranges.get i 1) (ranges.get i 0)))
            (binary64.sub (samples.get i j) (ranges.get i 0)) ∧
        ∀ lo hi : ℚ, ranges.get i 0 = Fp.fin lo → ranges.get i 1 = Fp.fin hi →
          (samples.get i j = Fp.fin lo → out.get i j = Fp.fin 0) ∧
          (∀ s : ℚ, samples.get i j = Fp.fin s → hi ≠ lo → binary64.Finite (hi - lo) →
            binary64.Finite (1 / (hi - lo)) → binary64.Finite (s - lo) →
            binary64.Finite ((s - lo) / (hi - lo)) →
            out.get i j = Fp.fin ((s - lo) / (hi - lo))) ∧
          (2 ^ (-1022 : ℤ) ≤ |hi - lo| → |hi - lo| ≤ 2 ^ (1022 : ℤ) →
            scaling_factor (Fp.fin lo) (Fp.fin hi) =
              Fp.fin (binary64.round (1 / binary64.round (hi - lo))) ∧
            (samples.get i j = Fp.fin hi →
              out.get i j = Fp.fin 1 ∨ out.get i j = Fp.fin (1 - 1 / 2 ^ 53))) := by
  obtain ⟨out, hout, hrows, hcols, hget⟩ := normalize_samples_get samples ranges hc hr
  refine ⟨out, hout, hrows, hcols, ?_⟩
  intro i j hi hj
  have hval := hget i j hi hj
  refine ⟨hval, ?_⟩
  intro lo hi' hlo hhi
  rw [hlo, hhi] at hval
  refine ⟨?_, ?_, ?_⟩
  · intro hs
    obtain ⟨c, hc'⟩ := scaling_factor_fin lo hi'
    rw [hval, hs, hc']
    simp only [Format.sub, sub_self, binary64.ofRat_zero, Format.mul, mul_zero]
  · intro s hs hne f1 f2 f3 f4
    have hd : hi' - lo ≠ 0 := sub_ne_zero.mpr hne
    have hsf : scaling_factor (Fp.fin lo) (Fp.fin hi') = Fp.fin (1 / (hi' - lo)) := by
      unfold scaling_factor cwiseInverse
      simp only [Format.sub]
      rw [f1]
      simp only [Format.div, if_neg hd]
      rw [f2]
      simp [isinf]
    rw [hval, hs, hsf]
    simp only [Format.sub]
    rw [f3]
    simp only [Format.mul]
    have e : 1 / (hi' - lo) * (s - lo) = (s - lo) / (hi' - lo) := by
      field_simp
    rw [e]
    exact f4
  · intro h1 h2
    obtain ⟨hsub, hsf, herr⟩ := scaling_factor_normal lo hi' h1 h2
    refine ⟨hsf, ?_⟩
    intro hs
    rw [hval, hs, hsf, hsub]
    simp only [Format.mul]
    have hone := round_near_one _ herr
    have hfin : binary64.ofRat (binary64.round (1 / binary64.round (hi' - lo)) *
        binary64.round (hi' - lo)) =
        Fp.fin (binary64.round (binary64.round (1 / binary64.round (hi' - lo)) *
          binary64.round (hi' - lo))) := by
      apply binary64.ofRat_eq_fin
      have hle : |binary64.round (binary64.round (1 / binary64.round (hi' - lo)) *
          binary64.round (hi' - lo))| ≤ 1 := by
        rcases hone with h | h
        · rw [h, abs_one]
        · rw [h, abs_of_nonneg (by norm_num)]
          norm_num
      exact lt_of_le_of_lt hle (one_lt_zpow₀ (by norm_num) (by decide))
    rw [hfin]
    rcases hone with h | h
    · left
      rw [h]
    · right
      rw [h]

/-- C8, as amended: a row without variance in its range (`ranges(i,1) = ranges(i,0)`,
a finite number) gets the scaling factor 0: the reciprocal of the zero difference is
infinite and is replaced by 0, so no infinity reaches the result.  An entry of that
output row is 0 when its sample is finite and the IEEE difference `s - min` is finite,
and NaN (the product of 0 and an infinity) when the difference overflows. -/
theorem normalize_samples_no_variance (samples ranges : MatrixXdFp) (hc : 1 < ranges.cols)
    (hr : ranges.rows = samples.rows) :
    ∃ out, normalize_samples samples ranges = some out ∧
      ∀ i lo, i < samples.rows → ranges.get i 0 = Fp.fin lo → ranges.get i 1 = Fp.fin lo →
        isinf (cwiseInverse (binary64.sub (ranges.get i 1) (ranges.get i 0))) = true ∧
        scaling_factor (ranges.get i 0) (ranges.get i 1) = Fp.fin 0 ∧
        ∀ j s, j < samples.cols → samples.get i j = Fp.fin s →
          (∀ t, binary64.sub (Fp.fin s) (Fp.fin lo) = Fp.fin t → out.get i j = Fp.fin 0) ∧
          (∀ b, binary64.sub (Fp.fin s) (Fp.fin lo) = Fp.inf b → out.get i j = Fp.nan) := by
  obtain ⟨out, hout, -, -, hget⟩ := normalize_samples_get samples ranges hc hr
  refine ⟨out, hout, ?_⟩
  intro i lo hi hlo hhi
  obtain ⟨f1, f2⟩ := scaling_factor_flat lo
  rw [hlo, hhi]
  refine ⟨f1, f2, ?_⟩
  intro j s hj hs
  have hval := hget i j hi hj
  rw [hlo, hhi, f2, hs] at hval
  rw [hval]
  constructor
  · intro t ht
    rw [ht]
    simp only [Format.mul, zero_mul]
    exact binary64.ofRat_zero
  · intro b hb
    rw [hb]
    simp [Format.mul]

/-! ## `p2j` -/

theorem p2j_get (poses mj_ranges : MatrixXdFp) (hrows : poses.cols ≤ mj_ranges.rows)
    (hcols : 1 < mj_ranges.cols) :
    ∃ out, p2j poses mj_ranges = some out ∧ out.rows = poses.rows ∧ out.cols = poses.cols ∧
      ∀ row col, row < poses.rows → col < poses.cols →
        out.get row col =
          remap (poses.get row col) (Fp.fin (-1)) (Fp.fin 1) (mj_ranges.get col 0)
            (mj_ranges.get col 1) := by
  have h := foldlM_range_inv (p2j_row poses mj_ranges)
    (fun k M => M.rows = poses.rows ∧ M.cols = poses.cols ∧
      ∀ row col, row < k → col < poses.cols →
        M.get row col =
          remap (poses.get row col) (Fp.fin (-1)) (Fp.fin 1) (mj_ranges.get col 0)
            (mj_ranges.get col 1))
    poses.rows ⟨poses.rows, poses.cols, fun _ _ => Fp.fin 0⟩
    ⟨rfl, rfl, fun row col hrow _ => absurd hrow (Nat.not_lt_zero row)⟩ ?_
  · obtain ⟨out, hout, hr, hc, hget⟩ := h
    exact ⟨out, hout, hr, hc, hget⟩
  · intro k M hk ⟨hMr, hMc, hM⟩
    have hin := foldlM_range_inv (p2j_cell poses mj_ranges k)
      (fun c N => N.rows = poses.rows ∧ N.cols = poses.cols ∧
        (∀ row col, row < k → col < poses.cols →
          N.get row col =
            remap (poses.get row col) (Fp.fin (-1)) (Fp.fin 1) (mj_ranges.get col 0)
              (mj_ranges.get col 1)) ∧
        ∀ col, col < c →
          N.get k col =
            remap (poses.get k col) (Fp.fin (-1)) (Fp.fin 1) (mj_ranges.get col 0)
              (mj_ranges.get col 1))
      poses.cols M ⟨hMr, hMc, hM, fun col hcol => absurd hcol (Nat.not_lt_zero col)⟩ ?_
    · obtain ⟨N, hN, hNr, hNc, hNold, hNnew⟩ := hin
      refine ⟨N, hN, hNr, hNc, ?_⟩
      intro row col hrow hcol
      rcases Nat.lt_succ_iff_lt_or_eq.mp hrow with hlt | heq
      · exact hNold row col hlt hcol
      · subst heq
        exact hNnew col hcol
    · intro c N hc ⟨hNr, hNc, hNold, hNnew⟩
      have hc' : c < mj_ranges.rows := by omega
      have h0 : 0 < mj_ranges.cols := by omega
      obtain ⟨N', hN', hN'r, hN'c, hN'get⟩ := N.set?_inside
        (remap (poses.get k c) (Fp.fin (-1)) (Fp.fin 1) (mj_ranges.get c 0)
          (mj_ranges.get c 1))
        (show k < N.rows by omega) (show c < N.cols by omega)
      refine ⟨N', ?_, by omega, by omega, ?_, ?_⟩
      · simp only [p2j_cell, mj_ranges.get?_inside hc' h0, mj_ranges.get?_inside hc' hcols,
          poses.get?_inside hk hc, Option.bind_eq_bind, Option.some_bind]
        exact hN'
      · intro row col hrow hcol
        have hne : ¬ (row = k ∧ col = c) := fun hh => by omega
        rw [hN'get, if_neg hne]
        exact hNold row col hrow hcol
      · intro col hcol
        rw [hN'get]
        rcases Nat.lt_succ_iff_lt_or_eq.mp hcol with hlt | heq
        · have hne : ¬ (k = k ∧ col = c) := fun hh => by omega
          rw [if_neg hne]
          exact hNnew col hlt
        · subst heq
          simp

theorem binary64_two : binary64.sub (Fp.fin 1) (Fp.fin (-1)) = Fp.fin 2 := by
  have h : binary64.round 2 = 2 := by
    have := binary64.round_zpow binary64_prec_pos 1 (by simp [binary64])
    simpa using this
  simp only [Format.sub]
  have e : (1 : ℚ) - -1 = 2 := by norm_num
  rw [e]
  exact binary64.ofRat_self h (by norm_num [binary64])

/-- The value of `remap` on a pose `v` with `|v + 1| ≤ 2` and joint limits of magnitude
at most `2 ^ 1021`: no operation overflows, and the result is the composition of the
five roundings. -/
theorem remap_pose (v jmin jmax : ℚ) (hv : |v + 1| ≤ 2) (h1 : |jmin| ≤ 2 ^ (1021 : ℤ))
    (h2 : |jmax| ≤ 2 ^ (1021 : ℤ)) :
    remap (Fp.fin v) (Fp.fin (-1)) (Fp.fin 1) (Fp.fin jmin) (Fp.fin jmax) =
      Fp.fin (binary64.round (jmin + binary64.round (binary64.round
        (binary64.round (v + 1) * binary64.round (jmax - jmin)) / 2))) ∧
    |binary64.round (v + 1)| ≤ 2 ∧ |binary64.round (jmax - jmin)| ≤ 2 ^ (1022 : ℤ) := by
  have hp := binary64_prec_pos
  have e21 : (2 : ℚ) ^ (1022 : ℤ) = 2 * 2 ^ (1021 : ℤ) := by
    rw [show (1022 : ℤ) = 1 + 1021 by norm_num, zpow_add₀ (by norm_num)]
    norm_num
  have e22 : (2 : ℚ) ^ (1023 : ℤ) = 2 * 2 ^ (1022 : ℤ) := by
    rw [show (1023 : ℤ) = 1 + 1022 by norm_num, zpow_add₀ (by norm_num)]
    norm_num
  have hpos21 := two_zpow_pos 1021
  have hd : |jmax - jmin| ≤ 2 ^ (1022 : ℤ) := by
    rw [e21]
    rw [abs_le] at h1 h2 ⊢
    constructor <;> linarith [h1.1, h1.2, h2.1, h2.2]
  have hD : |binary64.round (jmax - jmin)| ≤ 2 ^ (1022 : ℤ) :=
    binary64.abs_round_le_zpow hp (by simp [binary64]) hd
  have hA : |binary64.round (v + 1)| ≤ 2 := by
    have := binary64.abs_round_le_zpow hp (e := 1) (x := v + 1) (by simp [binary64])
      (by simpa using hv)
    simpa using this
  have hsubv : binary64.sub (Fp.fin v) (Fp.fin (-1)) = Fp.fin (binary64.round (v + 1)) := by
    simp only [Format.sub, sub_neg_eq_add]
    exact binary64.ofRat_of_abs_le hp (e := 1) (by simp [binary64]) (by simp [binary64])
      (by simpa using hv)
  have hsubr : binary64.sub (Fp.fin jmax) (Fp.fin jmin) =
      Fp.fin (binary64.round (jmax - jmin)) :=
    binary64.ofRat_of_abs_le hp (e := 1022) (by simp [binary64]) (by simp [binary64]) hd
  generalize binary64.round (jmax - jmin) = D at hD hsubr ⊢
  generalize binary64.round (v + 1) = a at hA hsubv ⊢
  have hP0 : |a * D| ≤ 2 ^ (1023 : ℤ) := by
    rw [abs_mul, e22]
    exact mul_le_mul hA hD (abs_nonneg _) (by norm_num)
  have hP : |binary64.round (a * D)| ≤ 2 ^ (1023 : ℤ) :=
    binary64.abs_round_le_zpow hp (by simp [binary64]) hP0
  have hmul : binary64.mul (Fp.fin a) (Fp.fin D) = Fp.fin (binary64.round (a * D)) :=
    binary64.ofRat_of_abs_le hp (e := 1023) (by simp [binary64]) (by simp [binary64]) hP0
  generalize binary64.round (a * D) = P at hP hmul ⊢
  have hQ0 : |P / 2| ≤ 2 ^ (1022 : ℤ) := by
    rw [abs_div, abs_two, div_le_iff₀ (by norm_num)]
    rw [e22] at hP
    linarith
  have hQ : |binary64.round (P / 2)| ≤ 2 ^ (1022 : ℤ) :=
    binary64.abs_round_le_zpow hp (by simp [binary64]) hQ0
  have hdiv : binary64.div (Fp.fin P) (Fp.fin 2) = Fp.fin (binary64.round (P / 2)) := by
    simp only [Format.div]
    rw [if_neg (by norm_num)]
    exact binary64.ofRat_of_abs_le hp (e := 1022) (by simp [binary64]) (by simp [binary64]) hQ0
  generalize binary64.round (P / 2) = Q at hQ hdiv ⊢
  have hS0 : |jmin + Q| ≤ 2 ^ (1023 : ℤ) := by
    rw [e22]
    rw [e21] at hQ
    rw [abs_le] at h1 hQ ⊢
    constructor <;> linarith [h1.1, h1.2, hQ.1, hQ.2]
  have hadd : binary64.add (Fp.fin jmin) (Fp.fin Q) = Fp.fin (binary64.round (jmin + Q)) :=
    binary64.ofRat_of_abs_le hp (e := 1023) (by simp [binary64]) (by simp [binary64]) hS0
  refine ⟨?_, hA, hD⟩
  unfold remap
  rw [binary64_two, hsubv, hsubr, hmul, hdiv, hadd]

/-- C9, as amended: `p2j` maps pose space [-1, 1] onto each joint range up to rounding.
For a range table with a row per pose column (and the two columns min, max) the call
succeeds, the output has the shape of `poses`, and every entry is
`jmin + (pose - (-1)) * (jmax - jmin) / (1 - (-1))` with each of the five operations an
IEEE operation on doubles.  For finite joint limits of magnitude at most `2 ^ 1021`,
`jmin` a double: -1 maps to `jmin`; 1 maps to the IEEE sum of `jmin` and the IEEE
difference `jmax - jmin`, which is `jmax` when the difference `jmax - jmin` and `jmax`
are doubles; with `jmin ≤ jmax` a pose in [-1, 1] lands between `jmin` and the image of
1; and when no operation rounds the entry is exactly
`jmin + (pose + 1) * (jmax - jmin) / 2`. -/
theorem p2j_maps_pose_to_joint_range (poses mj_ranges : MatrixXdFp)
    (hrows : poses.cols ≤ mj_ranges.rows) (hcols : 1 < mj_ranges.cols) :
    ∃ out, p2j poses mj_ranges = some out ∧ out.rows = poses.rows ∧ out.cols = poses.cols ∧
      ∀ row col, row < poses.rows → col < poses.cols →
        out.get row col =
          binary64.add (mj_ranges.get col 0)
            (binary64.div
              (binary64.mul (binary64.sub (poses.get row col) (Fp.fin (-1)))
                (binary64.sub (mj_ranges.get col 1) (mj_ranges.get col 0)))
              (binary64.sub (Fp.fin 1) (Fp.fin (-1)))) ∧
        ∀ jmin jmax : ℚ, mj_ranges.get col 0 = Fp.fin jmin →
          mj_ranges.get col 1 = Fp.fin jmax →
          (∀ v : ℚ, poses.get row col = Fp.fin v → binary64.Finite (v + 1) →
            binary64.Finite (jmax - jmin) → binary64.Finite ((v + 1) * (jmax - jmin)) →
            binary64.Finite ((v + 1) * (jmax - jmin) / 2) →
            binary64.Finite (jmin + (v + 1) * (jmax - jmin) / 2) →
            out.get row col = Fp.fin (jmin + (v + 1) * (jmax - jmin) / 2)) ∧
          (binary64.Finite jmin → |jmin| ≤ 2 ^ (1021 : ℤ) → |jmax| ≤ 2 ^ (1021 : ℤ) →
            (poses.get row col = Fp.fin (-1) → out.get row col = Fp.fin jmin) ∧
            (poses.get row col = Fp.fin 1 →
              out.get row col =
                binary64.add (Fp.fin jmin) (binary64.sub (Fp.fin jmax) (Fp.fin jmin)) ∧
              out.get row col = Fp.fin (binary64.round (jmin + binary64.round (jmax - jmin))) ∧
              (binary64.Finite (jmax - jmin) → binary64.Finite jmax →
                out.get row col = Fp.fin jmax)) ∧
            (jmin ≤ jmax → ∀ v : ℚ, poses.get row col = Fp.fin v → -1 ≤ v → v ≤ 1 →
              ∃ y, out.get row col = Fp.fin y ∧ jmin ≤ y ∧
                y ≤ binary64.round (jmin + binary64.round (jmax - jmin)))) := by
  have hp := binary64_prec_pos
  obtain ⟨out, hout, hr, hc, hget⟩ := p2j_get poses mj_ranges hrows hcols
  refine ⟨out, hout, hr, hc, ?_⟩
  intro row col hrow hcol
  have hval := hget row col hrow hcol
  refine ⟨hval, ?_⟩
  intro jmin jmax hmin hmax
  rw [hmin, hmax] at hval
  refine ⟨?_, ?_⟩
  · intro v hv f1 f2 f3 f4 f5
    rw [hval, hv]
    unfold remap
    rw [binary64_two]
    simp only [Format.sub, sub_neg_eq_add]
    rw [f1, f2]
    simp only [Format.mul]
    rw [f3]
    simp only [Format.div]
    rw [if_neg (by norm_num)]
    rw [f4]
    simp only [Format.add]
    exact f5
  · intro fmin h1 h2
    have hrmin := fmin.round_eq
    refine ⟨?_, ?_, ?_⟩
    · intro hv
      rw [hval, hv]
      obtain ⟨hre, -, -⟩ := remap_pose (-1) jmin jmax (by norm_num) h1 h2
      rw [hre]
      have e : (-1 : ℚ) + 1 = 0 := by norm_num
      rw [e, binary64.round_zero, zero_mul, binary64.round_zero, zero_div,
        binary64.round_zero, add_zero, hrmin]
    · intro hv
      obtain ⟨hre, -, hD⟩ := remap_pose 1 jmin jmax (by norm_num) h1 h2
      have e : (1 : ℚ) + 1 = 2 := by norm_num
      have h2r : binary64.round 2 = 2 := by
        have := binary64.round_zpow hp 1 (by simp [binary64])
        simpa using this
      have hDD := binary64.round_round hp (jmax - jmin)
      have h2D := binary64.round_two_mul hp _ hDD
      have hfin : out.get row col =
          Fp.fin (binary64.round (jmin + binary64.round (jmax - jmin))) := by
        rw [hval, hv, hre, e, h2r, h2D, mul_div_cancel_left₀ _ (by norm_num : (2 : ℚ) ≠ 0), hDD]
      have e21 : (2 : ℚ) ^ (1022 : ℤ) = 2 * 2 ^ (1021 : ℤ) := by
        rw [show (1022 : ℤ) = 1 + 1021 by norm_num, zpow_add₀ (by norm_num)]
        norm_num
      have hd : |jmax - jmin| ≤ 2 ^ (1022 : ℤ) := by
        rw [e21]
        rw [abs_le] at h1 h2 ⊢
        constructor <;> linarith [h1.1, h1.2, h2.1, h2.2]
      have hsubr : binary64.sub (Fp.fin jmax) (Fp.fin jmin) =
          Fp.fin (binary64.round (jmax - jmin)) :=
        binary64.ofRat_of_abs_le hp (e := 1022) (by simp [binary64]) (by simp [binary64]) hd
      have hS0 : |jmin + binary64.round (jmax - jmin)| ≤ 2 ^ (1023 : ℤ) := by
        have e22 : (2 : ℚ) ^ (1023 : ℤ) = 2 * 2 ^ (1022 : ℤ) := by
          rw [show (1023 : ℤ) = 1 + 1022 by norm_num, zpow_add₀ (by norm_num)]
          norm_num
        have hpos21 := two_zpow_pos 1021
        rw [e22]
        rw [e21] at hD
        rw [abs_le] at h1 hD ⊢
        constructor <;> linarith [h1.1, h1.2, hD.1, hD.2]
      have hadd : binary64.add (Fp.fin jmin) (Fp.fin (binary64.round (jmax - jmin))) =
          Fp.fin (binary64.round (jmin + binary64.round (jmax - jmin))) :=
        binary64.ofRat_of_abs_le hp (e := 1023) (by simp [binary64]) (by simp [binary64]) hS0
      refine ⟨?_, hfin, ?_⟩
      · rw [hfin, hsubr, hadd]
      · intro f1 f2
        rw [hfin, f1.round_eq, add_sub_cancel, f2.round_eq]
    · intro hle v hv hv1 hv2
      obtain ⟨hre, hA, hD⟩ := remap_pose v jmin jmax (by
        rw [abs_le]
        constructor <;> linarith) h1 h2
      refine ⟨_, by rw [hval, hv, hre], ?_, ?_⟩
      all_goals
        have h2r : binary64.round 2 = 2 := by
          have := binary64.round_zpow hp 1 (by simp [binary64])
          simpa using this
        have hDD := binary64.round_round hp (jmax - jmin)
        have h2D := binary64.round_two_mul hp _ hDD
        have ha0 : 0 ≤ binary64.round (v + 1) := binary64.round_nonneg (by linarith)
        have ha2 : binary64.round (v + 1) ≤ 2 := binary64.round_le hp (by linarith) h2r
        have hD0 : 0 ≤ binary64.round (jmax - jmin) := binary64.round_nonneg (by linarith)
        have hP0 : 0 ≤ binary64.round (binary64.round (v + 1) * binary64.round (jmax - jmin)) :=
          binary64.round_nonneg (mul_nonneg ha0 hD0)
        have hP2 : binary64.round (binary64.round (v + 1) * binary64.round (jmax - jmin)) ≤
            2 * binary64.round (jmax - jmin) :=
          binary64.round_le hp (mul_le_mul_of_nonneg_right ha2 hD0) h2D
        have hQ0 : 0 ≤ binary64.round (binary64.round
            (binary64.round (v + 1) * binary64.round (jmax - jmin)) / 2) :=
          binary64.round_nonneg (div_nonneg hP0 (by norm_num))
        have hQ2 : binary64.round (binary64.round
            (binary64.round (v + 1) * binary64.round (jmax - jmin)) / 2) ≤
            binary64.round (jmax - jmin) :=
          binary64.round_le hp (by linarith) hDD
      · exact binary64.le_round hp (by linarith) hrmin
      · exact binary64.round_mono hp (by linarith)

/-! ## `gen_true_values_from_poses` -/

/-- C10: every pose is replicated `kNumPoseSamples = 100` times as columns.  For a
poses matrix with P rows and Q columns the call succeeds, the result has Q rows and
100·P columns, and `result(j, 100·i + s) = poses(i, j)` for every pose `i < P`,
sample `s < 100` and joint `j < Q`. -/
theorem gen_true_values_from_poses_replicates (poses : MatrixXd) :
    ∃ out, gen_true_values_from_poses poses = some out ∧ out.rows = poses.cols ∧
      out.cols = 100 * poses.rows ∧
      ∀ i s j, i < poses.rows → s < 100 → j < poses.cols →
        out.get j (100 * i + s) = poses.get i j := by
  have h := foldlM_range_inv (gen_true_values_pose poses)
    (fun k M => M.rows = poses.cols ∧ M.cols = 100 * poses.rows ∧
      ∀ i s j, i < k → s < 100 → j < poses.cols → M.get j (100 * i + s) = poses.get i j)
    poses.rows (MatrixXd.Zero poses.cols (kNumPoseSamples * poses.rows))
    ⟨rfl, rfl, fun i s j hi _ _ => absurd hi (Nat.not_lt_zero i)⟩ ?_
  · exact h
  · intro k M hk ⟨hMr, hMc, hM⟩
    have hin := foldlM_range_inv (gen_true_values_sample poses k)
      (fun n N => N.rows = poses.cols ∧ N.cols = 100 * poses.rows ∧
        (∀ i s j, i < k → s < 100 → j < poses.cols →
          N.get j (100 * i + s) = poses.get i j) ∧
        ∀ s j, s < n → j < poses.cols → N.get j (100 * k + s) = poses.get k j)
      kNumPoseSamples M ⟨hMr, hMc, hM, fun s j hs _ => absurd hs (Nat.not_lt_zero s)⟩ ?_
    · obtain ⟨N, hN, hNr, hNc, hNold, hNnew⟩ := hin
      refine ⟨N, hN, hNr, hNc, ?_⟩
      intro i s j hi hs hj
      rcases Nat.lt_succ_iff_lt_or_eq.mp hi with hlt | heq
      · exact hNold i s j hlt hs hj
      · subst heq
        exact hNnew s j hs hj
    · intro n N hn ⟨hNr, hNc, hNold, hNnew⟩
      have hn' : n < 100 := hn
      obtain ⟨R, hR, hRr, hRc, hRget⟩ := poses.row?_some hk
      have hcol : k * kNumPoseSamples + n < N.cols := by
        simp only [kNumPoseSamples]
        omega
      obtain ⟨N', hN', hN'r, hN'c, hN'get⟩ := N.setCol?_some R.transpose hcol
        (show R.transpose.cols = 1 from hRr)
        (show R.transpose.rows = N.rows by rw [hNr]; exact hRc)
      refine ⟨N', ?_, by omega, by omega, ?_, ?_⟩
      · simp only [gen_true_values_sample, hR, Option.bind_eq_bind, Option.some_bind]
        exact hN'
      · intro i s j hi hs hj
        have hne : ¬ (100 * i + s = k * kNumPoseSamples + n) := by
          simp only [kNumPoseSamples]
          omega
        rw [hN'get, if_neg hne]
        exact hNold i s j hi hs hj
      · intro s j hs hj
        rw [hN'get]
        rcases Nat.lt_succ_iff_lt_or_eq.mp hs with hlt | heq
        · have hne : ¬ (100 * k + s = k * kNumPoseSamples + n) := by
            simp only [kNumPoseSamples]
            omega
          rw [if_neg hne]
          exact hNnew s j hlt hj
        · subst heq
          have he : 100 * k + s = k * kNumPoseSamples + s := by
            simp only [kNumPoseSamples]
            omega
          rw [if_pos he, MatrixXd.get_transpose, hRget]

/-! ## The least-squares solve: orthogonality and the normal equations -/

section LeastSquares

variable {N k : ℕ}

theorem toVec_ofFn {n : ℕ} (v : Fin n → ℚ) : toVec (Array.ofFn v) = v := by
  funext t
  simp [toVec, Array.getD]

theorem gs_proj_cons (qc : Array ℚ × Array ℚ) (l : List (Array ℚ × Array ℚ))
    (v : Fin N → ℚ) :
    gs_proj (qc :: l) v =
      (Matrix.dotProduct (toVec qc.1) v /
        Matrix.dotProduct (toVec qc.1 : Fin N → ℚ) (toVec qc.1)) • (toVec qc.1 : Fin N → ℚ) +
        gs_proj l v := by
  simp [gs_proj]

theorem gs_coef_cons (qc : Array ℚ × Array ℚ) (l : List (Array ℚ × Array ℚ))
    (v : Fin N → ℚ) :
    (gs_coef (qc :: l) v : Fin k → ℚ) =
      (Matrix.dotProduct (toVec qc.1) v /
        Matrix.dotProduct (toVec qc.1 : Fin N → ℚ) (toVec qc.1)) • (toVec qc.2 : Fin k → ℚ) +
        gs_coef l v := by
  simp [gs_coef]

/-- A vector orthogonal to every member of the family is orthogonal to every projection. -/
theorem dot_gs_proj_of_orth (u : Fin N → ℚ) (l : List (Array ℚ × Array ℚ))
    (h : ∀ x ∈ l, Matrix.dotProduct u (toVec x.1) = 0) (v : Fin N → ℚ) :
    Matrix.dotProduct u (gs_proj l v) = 0 := by
  induction l with
  | nil => simp [gs_proj]
  | cons hd tl ih =>
    rw [gs_proj_cons, Matrix.dotProduct_add, Matrix.dotProduct_smul,
      h hd (List.mem_cons_self hd tl), ih (fun x hx => h x (List.mem_cons_of_mem hd hx))]
    simp

/-- The residual of a projection is orthogonal to every member of the family. -/
theorem dot_gs_proj_mem (l : List (Array ℚ × Array ℚ))
    (hne : ∀ x ∈ l, Matrix.dotProduct (toVec x.1 : Fin N → ℚ) (toVec x.1) ≠ 0)
    (hpw : l.Pairwise (fun x y => Matrix.dotProduct (toVec x.1 : Fin N → ℚ) (toVec y.1) = 0))
    (x : Array ℚ × Array ℚ) (hx : x ∈ l) (v : Fin N → ℚ) :
    Matrix.dotProduct (toVec x.1) (gs_proj l v) = Matrix.dotProduct (toVec x.1) v := by
  induction l with
  | nil => exact absurd hx (List.not_mem_nil x)
  | cons hd tl ih =>
    rw [List.pairwise_cons] at hpw
    rw [gs_proj_cons, Matrix.dotProduct_add, Matrix.dotProduct_smul]
    rcases List.mem_cons.mp hx with rfl | hxt
    · rw [dot_gs_proj_of_orth (toVec x.1) tl hpw.1 v, add_zero, smul_eq_mul,
        div_mul_cancel₀ _ (hne x (List.mem_cons_self x tl))]
    · have h0 : Matrix.dotProduct (toVec x.1 : Fin N → ℚ) (toVec hd.1) = 0 := by
        rw [Matrix.dotProduct_comm]
        exact hpw.1 x hxt
      rw [h0, smul_zero, zero_add]
      exact ih (fun y hy => hne y (List.mem_cons_of_mem hd hy)) hpw.2 hxt

theorem mulVec_gs_coef (A : Matrix (Fin N) (Fin k) ℚ) (l : List (Array ℚ × Array ℚ))
    (h : ∀ x ∈ l, (toVec x.1 : Fin N → ℚ) = A.mulVec (toVec x.2)) (v : Fin N → ℚ) :
    A.mulVec (gs_coef l v) = gs_proj l v := by
  induction l with
  | nil => simp [gs_coef, gs_proj]
  | cons hd tl ih =>
    rw [gs_coef_cons, gs_proj_cons, Matrix.mulVec_add, Matrix.mulVec_smul,
      ih (fun x hx => h x (List.mem_cons_of_mem hd hx)), ← h hd (List.mem_cons_self hd tl)]

theorem gs_step_inv (A : Matrix (Fin N) (Fin k) ℚ) (l : List (Array ℚ × Array ℚ))
    (j : Fin k) (h : GSInv A l) : GSInv A (gs_step A l j) := by
  obtain ⟨hA, hne, hpw⟩ := h
  unfold gs_step
  simp only [toVec_ofFn]
  split_ifs with hq
  · exact ⟨hA, hne, hpw⟩
  · refine ⟨?_, ?_, ?_⟩
    · intro x hx
      rcases List.mem_cons.mp hx with rfl | hxt
      · simp only [toVec_ofFn]
        rw [Matrix.mulVec_sub, mulVec_gs_coef A l hA, Matrix.mulVec_single_one]
        rfl
      · exact hA x hxt
    · intro x hx
      rcases List.mem_cons.mp hx with rfl | hxt
      · simpa only [toVec_ofFn] using hq
      · exact hne x hxt
    · rw [List.pairwise_cons]
      refine ⟨?_, hpw⟩
      intro y hy
      simp only [toVec_ofFn]
      rw [Matrix.dotProduct_comm, Matrix.dotProduct_sub, dot_gs_proj_mem l hne hpw y hy, sub_self]

/-- A vector reproduced by the projection stays reproduced after a step. -/
theorem gs_step_covered (A : Matrix (Fin N) (Fin k) ℚ) (l : List (Array ℚ × Array ℚ))
    (j : Fin k) (h : GSInv A l) (a : Fin N → ℚ) (ha : gs_proj l a = a) :
    gs_proj (gs_step A l j) a = a := by
  obtain ⟨_, hne, hpw⟩ := h
  unfold gs_step
  simp only [toVec_ofFn]
  split_ifs with hq
  · exact ha
  · rw [gs_proj_cons]
    simp only [toVec_ofFn]
    have h0 : Matrix.dotProduct ((fun t => A t j) - gs_proj l fun t => A t j) a = 0 := by
      rw [← ha]
      apply dot_gs_proj_of_orth
      intro x hx
      rw [Matrix.dotProduct_comm, Matrix.dotProduct_sub, dot_gs_proj_mem l hne hpw x hx, sub_self]
    rw [h0, zero_div, zero_smul, zero_add]
    exact ha

/-- The column just processed is reproduced by the projection. -/
theorem gs_step_covers (A : Matrix (Fin N) (Fin k) ℚ) (l : List (Array ℚ × Array ℚ))
    (j : Fin k) (h : GSInv A l) :
    gs_proj (gs_step A l j) (fun t => A t j) = fun t => A t j := by
  obtain ⟨_, hne, hpw⟩ := h
  unfold gs_step
  simp only [toVec_ofFn]
  split_ifs with hq
  · have := (Matrix.dotProduct_self_eq_zero).mp hq
    exact (sub_eq_zero.mp this).symm
  · rw [gs_proj_cons]
    simp only [toVec_ofFn]
    have hort : Matrix.dotProduct ((fun t => A t j) - gs_proj l fun t => A t j)
        (gs_proj l fun t => A t j) = 0 := by
      apply dot_gs_proj_of_orth
      intro x hx
      rw [Matrix.dotProduct_comm, Matrix.dotProduct_sub, dot_gs_proj_mem l hne hpw x hx, sub_self]
    have h1 : Matrix.dotProduct ((fun t => A t j) - gs_proj l fun t => A t j) (fun t => A t j) =
        Matrix.dotProduct ((fun t => A t j) - gs_proj l fun t => A t j)
          ((fun t => A t j) - gs_proj l fun t => A t j) := by
      rw [Matrix.dotProduct_sub _ (fun t => A t j), hort, sub_zero]
    rw [h1, div_self hq, one_smul]
    exact sub_add_cancel _ _

theorem gs_foldl_inv (A : Matrix (Fin N) (Fin k) ℚ) (js : List (Fin k))
    (l : List (Array ℚ × Array ℚ)) (h : GSInv A l) :
    GSInv A (js.foldl (gs_step A) l) ∧
      (∀ a : Fin N → ℚ, gs_proj l a = a → gs_proj (js.foldl (gs_step A) l) a = a) ∧
      ∀ j ∈ js, gs_proj (js.foldl (gs_step A) l) (fun t => A t j) = fun t => A t j := by
  induction js generalizing l with
  | nil => exact ⟨h, fun a ha => ha, fun j hj => absurd hj (List.not_mem_nil j)⟩
  | cons j0 js ih =>
    obtain ⟨h1, h2, h3⟩ := ih (gs_step A l j0) (gs_step_inv A l j0 h)
    refine ⟨h1, fun a ha => h2 a (gs_step_covered A l j0 h a ha), ?_⟩
    intro j hj
    rcases List.mem_cons.mp hj with rfl | hjs
    · exact h2 _ (gs_step_covers A l j h)
    · exact h3 j hjs

theorem gs_basis_spec (A : Matrix (Fin N) (Fin k) ℚ) :
    GSInv A (gs_basis A) ∧ ∀ j, gs_proj (gs_basis A) (fun t => A t j) = fun t => A t j := by
  have hnil : GSInv A ([] : List (Array ℚ × Array ℚ)) :=
    ⟨fun x hx => absurd hx (List.not_mem_nil x), fun x hx => absurd hx (List.not_mem_nil x),
      List.Pairwise.nil⟩
  obtain ⟨h1, _, h3⟩ := gs_foldl_inv A (List.finRange k) [] hnil
  exact ⟨h1, fun j => h3 j (List.mem_finRange j)⟩

/-- Normal equations of `lstsq`: every column of `A` is orthogonal to the residual
`A * X - B` of every right-hand side. -/
theorem lstsq_normal {m : ℕ} (A : Matrix (Fin N) (Fin k) ℚ) (B : Matrix (Fin N) (Fin m) ℚ)
    (i : Fin k) (j : Fin m) :
    Matrix.dotProduct (fun t => A t i)
      (A.mulVec (fun l => lstsq A B l j) - fun t => B t j) = 0 := by
  obtain ⟨⟨hA, hne, hpw⟩, hcov⟩ := gs_basis_spec A
  have hx : A.mulVec (fun l => lstsq A B l j) = gs_proj (gs_basis A) (fun t => B t j) :=
    mulVec_gs_coef A (gs_basis A) hA _
  rw [hx, ← hcov i, Matrix.dotProduct_comm]
  apply dot_gs_proj_of_orth
  intro x hxl
  rw [Matrix.dotProduct_comm, Matrix.dotProduct_sub, dot_gs_proj_mem _ hne hpw x hxl, sub_self]

end LeastSquares

/-! ## The blocks of `compute_calibration` -/

theorem MatrixXd.get_Ones_row (c b : ℕ) (hb : b < c) : (MatrixXd.Ones 1 c).get 0 b = 1 := by
  simp [MatrixXd.get, MatrixXd.Ones, hb]

/-- Closed form of the design matrix. -/
theorem build_denom_spec (g : MatrixXd) (S : List ℕ)
    (hS : ∀ i, i < S.length → S.getD i 0 - 1 < g.rows) :
    ∃ denom, build_denom g S = some denom ∧ denom.rows = S.length + 1 ∧ denom.cols = g.cols ∧
      (∀ i j, i < S.length → denom.get i j = g.get (S.getD i 0 - 1) j) ∧
      ∀ j, j < g.cols → denom.get S.length j = 1 := by
  obtain ⟨d1, hd1, hd1r, hd1c, hd1get⟩ :=
    (MatrixXd.Zero (S.length + 1) g.cols).setRow?_some (MatrixXd.Ones 1 g.cols)
      (show S.length < (MatrixXd.Zero (S.length + 1) g.cols).rows from Nat.lt_succ_self _)
      rfl rfl
  have hloop := foldlM_range_inv (denom_row g S)
    (fun n M => M.rows = S.length + 1 ∧ M.cols = g.cols ∧
      (∀ i j, i < n → M.get i j = g.get (S.getD i 0 - 1) j) ∧
      ∀ j, j < g.cols → M.get S.length j = 1)
    S.length d1 ⟨hd1r, hd1c, fun i j hi => absurd hi (Nat.not_lt_zero i), ?_⟩ ?_
  · obtain ⟨denom, hdenom, hspec⟩ := hloop
    refine ⟨denom, ?_, hspec⟩
    have hb : (MatrixXd.Zero (S.length + 1) g.cols).setBottomRow? (MatrixXd.Ones 1 g.cols) =
        some d1 := by
      unfold MatrixXd.setBottomRow?
      rw [if_pos (show 1 ≤ (MatrixXd.Zero (S.length + 1) g.cols).rows from Nat.succ_pos _)]
      exact hd1
    simp only [build_denom, hb, Option.bind_eq_bind, Option.some_bind]
    exact hdenom
  · intro j hj
    rw [hd1get, if_pos rfl]
    exact MatrixXd.get_Ones_row g.cols j hj
  · intro n M hn ⟨hMr, hMc, hMrow, hMone⟩
    obtain ⟨R, hR, hRr, hRc, hRget⟩ := g.row?_some (hS n hn)
    obtain ⟨M', hM', hM'r, hM'c, hM'get⟩ := M.setRow?_some R (show n < M.rows by omega) hRr
      (by rw [hRc, hMc])
    refine ⟨M', ?_, by omega, by omega, ?_, ?_⟩
    · simp only [denom_row, hR, Option.bind_eq_bind, Option.some_bind]
      exact hM'
    · intro i j hi
      rw [hM'get]
      rcases Nat.lt_succ_iff_lt_or_eq.mp hi with hlt | heq
      · rw [if_neg (by omega)]
        exact hMrow i j hlt
      · subst heq
        rw [if_pos rfl, hRget]
    · intro j hj
      rw [hM'get, if_neg (by omega)]
      exact hMone j hj

/-- Closed form of the target matrix. -/
theorem build_numer_spec (t : MatrixXd) (J : List ℕ)
    (hJ : ∀ i, i < J.length → J.getD i 0 - 1 < t.rows) :
    ∃ numer, build_numer t J = some numer ∧ numer.rows = J.length ∧ numer.cols = t.cols ∧
      ∀ i j, i < J.length → numer.get i j = t.get (J.getD i 0 - 1) j := by
  have hloop := foldlM_range_inv (numer_row t J)
    (fun n M => M.rows = J.length ∧ M.cols = t.cols ∧
      ∀ i j, i < n → M.get i j = t.get (J.getD i 0 - 1) j)
    J.length (MatrixXd.Zero J.length t.cols)
    ⟨rfl, rfl, fun i j hi => absurd hi (Nat.not_lt_zero i)⟩ ?_
  · exact hloop
  · intro n M hn ⟨hMr, hMc, hMrow⟩
    obtain ⟨R, hR, hRr, hRc, hRget⟩ := t.row?_some (hJ n hn)
    obtain ⟨M', hM', hM'r, hM'c, hM'get⟩ := M.setRow?_some R (show n < M.rows by omega) hRr
      (by rw [hRc, hMc])
    refine ⟨M', ?_, by omega, by omega, ?_⟩
    · simp only [numer_row, hR, Option.bind_eq_bind, Option.some_bind]
      exact hM'
    · intro i j hi
      rw [hM'get]
      rcases Nat.lt_succ_iff_lt_or_eq.mp hi with hlt | heq
      · rw [if_neg (by omega)]
        exact hMrow i j hlt
      · subst heq
        rw [if_pos rfl, hRget]

theorem MatrixXd.get_fin (M : MatrixXd) (i : Fin M.rows) (j : Fin M.cols) :
    M.get i.val j.val = M.coeff i j := by
  simp [MatrixXd.get]

/-- The modelled solve succeeds on operands with equally many rows, returns a matrix
of the right shape, and its result satisfies the normal equations. -/
theorem colPivHouseholderQr_solve_spec (A B : MatrixXd) (h : A.rows = B.rows) :
    ∃ X, colPivHouseholderQr_solve A B = some X ∧ X.rows = A.cols ∧ X.cols = B.cols ∧
      ∀ i j, i < A.cols → j < B.cols →
        ∑ t in Finset.range A.rows,
          A.get t i * (∑ l in Finset.range A.cols, A.get t l * X.get l j - B.get t j) = 0 := by
  refine ⟨⟨A.cols, B.cols,
      lstsq (Matrix.of A.coeff) (Matrix.of fun t j => B.coeff ⟨t.val, by omega⟩ j)⟩,
    by simp only [colPivHouseholderQr_solve, h, dite_true], rfl, rfl, ?_⟩
  intro i j hi hj
  have hn := lstsq_normal (Matrix.of A.coeff)
    (Matrix.of fun t j => B.coeff ⟨t.val, by omega⟩ j) ⟨i, hi⟩ ⟨j, hj⟩
  simp only [Matrix.dotProduct, Matrix.mulVec, Pi.sub_apply, Matrix.of_apply] at hn
  rw [Finset.sum_range]
  refine Eq.trans (Finset.sum_congr rfl ?_) hn
  intro t _
  rw [Finset.sum_range]
  have ht : t.val < B.rows := by omega
  simp only [MatrixXd.get, t.isLt, hi, hj, ht, and_self, dite_true, Fin.is_lt, Fin.eta]

/-- The solved block exists whenever design and target matrix have equally many
columns; it has one row per target row and one column per design row, and it
satisfies the normal equations `(X * A - B) * Aᵀ = 0`. -/
theorem solve_block_spec (denom numer : MatrixXd) (h : denom.cols = numer.cols) :
    ∃ sol, solve_block denom numer = some sol ∧ sol.rows = numer.rows ∧
      sol.cols = denom.rows ∧
      ∀ r k, r < numer.rows → k < denom.rows →
        ∑ j in Finset.range denom.cols,
          (sol.mulGet denom r j - numer.get r j) * denom.get k j = 0 := by
  obtain ⟨X, hX, hXr, hXc, hXn⟩ :=
    colPivHouseholderQr_solve_spec denom.transpose numer.transpose h
  refine ⟨X.transpose, ?_, hXc, hXr, ?_⟩
  · simp only [solve_block, hX, Option.bind_eq_bind, Option.some_bind]
    rfl
  · intro r k hr hk
    have := hXn k r hk hr
    refine Eq.trans (Finset.sum_congr rfl ?_) this
    intro j _
    simp only [MatrixXd.mulGet, MatrixXd.get_transpose]
    rw [mul_comm]
    congr 2
    exact Finset.sum_congr rfl (fun l _ => mul_comm _ _)

/-- A coefficient matrix that satisfies the normal equations minimises the sum of
squared residuals among all coefficient matrices. -/
theorem residual_le_of_normal (X Y A B : MatrixXd) (hc : A.cols = B.cols)
    (hn : ∀ r k, r < B.rows → k < A.rows →
      ∑ j in Finset.range A.cols, (X.mulGet A r j - B.get r j) * A.get k j = 0) :
    residual X A B ≤ residual Y A B := by
  unfold residual
  apply Finset.sum_le_sum
  intro r hr
  have hr' := Finset.mem_range.mp hr
  have hY : ∀ j, Y.mulGet A r j =
      X.mulGet A r j + ∑ l in Finset.range A.rows, (Y.get r l - X.get r l) * A.get l j := by
    intro j
    simp only [MatrixXd.mulGet]
    rw [← Finset.sum_add_distrib]
    exact Finset.sum_congr rfl (fun l _ => by ring)
  have hkey : ∑ j in Finset.range B.cols, (X.mulGet A r j - B.get r j) *
      (∑ l in Finset.range A.rows, (Y.get r l - X.get r l) * A.get l j) = 0 := by
    simp_rw [Finset.mul_sum]
    rw [Finset.sum_comm]
    apply Finset.sum_eq_zero
    intro l hl
    have h0 := hn r l hr' (Finset.mem_range.mp hl)
    rw [hc] at h0
    calc ∑ j in Finset.range B.cols,
          (X.mulGet A r j - B.get r j) * ((Y.get r l - X.get r l) * A.get l j)
        = (Y.get r l - X.get r l) *
            ∑ j in Finset.range B.cols, (X.mulGet A r j - B.get r j) * A.get l j := by
          rw [Finset.mul_sum]
          exact Finset.sum_congr rfl (fun j _ => by ring)
      _ = 0 := by rw [h0, mul_zero]
  have hsq : ∀ j, (Y.mulGet A r j - B.get r j) ^ 2 =
      (X.mulGet A r j - B.get r j) ^ 2 +
        2 * ((X.mulGet A r j - B.get r j) *
          (∑ l in Finset.range A.rows, (Y.get r l - X.get r l) * A.get l j)) +
        (∑ l in Finset.range A.rows, (Y.get r l - X.get r l) * A.get l j) ^ 2 := by
    intro j
    rw [hY]
    ring
  calc ∑ j in Finset.range B.cols, (X.mulGet A r j - B.get r j) ^ 2
      ≤ ∑ j in Finset.range B.cols, (X.mulGet A r j - B.get r j) ^ 2 +
          ∑ j in Finset.range B.cols,
            (∑ l in Finset.range A.rows, (Y.get r l - X.get r l) * A.get l j) ^ 2 :=
        le_add_of_nonneg_right (Finset.sum_nonneg (fun _ _ => sq_nonneg _))
    _ = ∑ j in Finset.range B.cols, (Y.mulGet A r j - B.get r j) ^ 2 := by
        simp_rw [hsq]
        rw [Finset.sum_add_distrib, Finset.sum_add_distrib, ← Finset.mul_sum, hkey]
        ring

/-! ## Facts about the two index tables -/

theorem map_raw_length : map_raw.length = 6 := rfl

theorem map_cal_length : map_cal.length = 6 := rfl

/-- Every sensor index of `map_raw` lies in `1 .. 22`. -/
theorem map_raw_bounds : ∀ i, i < 6 → ∀ c, c < (map_raw.getD i []).length →
    1 ≤ (map_raw.getD i []).getD c 0 ∧ (map_raw.getD i []).getD c 0 ≤ 22 := by
  decide

/-- Every joint index of `map_cal` lies in `1 .. 24`. -/
theorem map_cal_bounds : ∀ i, i < 6 → ∀ r, r < (map_cal.getD i []).length →
    1 ≤ (map_cal.getD i []).getD r 0 ∧ (map_cal.getD i []).getD r 0 ≤ 24 := by
  decide

/-- No sensor occurs twice in the list of one finger. -/
theorem map_raw_inj : ∀ i, i < 6 → ∀ c, c < (map_raw.getD i []).length →
    ∀ c', c' < (map_raw.getD i []).length →
    (map_raw.getD i []).getD c 0 - 1 = (map_raw.getD i []).getD c' 0 - 1 → c = c' := by
  decide

set_option synthInstance.maxSize 1024 in
set_option synthInstance.maxHeartbeats 200000 in
set_option maxRecDepth 100000 in
/-- No joint occurs twice, neither within a finger nor in two fingers. -/
theorem map_cal_inj : ∀ i, i < 6 → ∀ i', i' < 6 → ∀ r, r < (map_cal.getD i []).length →
    ∀ r', r' < (map_cal.getD i' []).length →
    (map_cal.getD i []).getD r 0 - 1 = (map_cal.getD i' []).getD r' 0 - 1 → i = i' ∧ r = r' := by
  decide

theorem target_col_lt (g : MatrixXd) (hg : 22 ≤ g.rows) (i : ℕ) (hi : i < 6) (c : ℕ) :
    target_col (map_raw.getD i []) g.rows c < g.rows + 1 := by
  unfold target_col
  split_ifs with h
  · have := (map_raw_bounds i hi c h).2
    omega
  · omega

theorem target_col_inj (g : MatrixXd) (hg : 22 ≤ g.rows) (i : ℕ) (hi : i < 6) (c c' : ℕ)
    (hc : c ≤ (map_raw.getD i []).length) (hc' : c' ≤ (map_raw.getD i []).length)
    (h : target_col (map_raw.getD i []) g.rows c = target_col (map_raw.getD i []) g.rows c') :
    c = c' := by
  unfold target_col at h
  split_ifs at h with h1 h2 h2
  · exact map_raw_inj i hi c h1 c' h2 h
  · have := (map_raw_bounds i hi c h1).2
    omega
  · have := (map_raw_bounds i hi c' h2).2
    omega
  · omega

/-! ## The write loops -/

theorem write_cell_eq (g : MatrixXd) (S J : List ℕ) (sol : MatrixXd) (row : ℕ)
    (cal : MatrixXd) (col : ℕ) :
    write_cell g S J sol row cal col =
      (sol.get? row col).bind
        (fun v => cal.set? (J.getD row 0 - 1) (target_col S g.rows col) v) := by
  unfold write_cell target_col
  split_ifs <;> rfl

/-- Effect of the two nested write loops of one finger: the shape is kept, entries
outside the finger's positions are untouched, and every position of the finger
holds the matching entry of the solved block. -/
theorem write_block_spec (g : MatrixXd) (S J : List ℕ) (sol cal : MatrixXd)
    (hsr : sol.rows = J.length) (hsc : sol.cols = S.length + 1)
    (hJ : ∀ r, r < J.length → J.getD r 0 - 1 < cal.rows)
    (hS : ∀ c, c ≤ S.length → target_col S g.rows c < cal.cols)
    (hJinj : ∀ r r', r < J.length → r' < J.length →
      J.getD r 0 - 1 = J.getD r' 0 - 1 → r = r')
    (hSinj : ∀ c c', c ≤ S.length → c' ≤ S.length →
      target_col S g.rows c = target_col S g.rows c' → c = c') :
    ∃ cal', write_block g S J sol cal = some cal' ∧ cal'.rows = cal.rows ∧
      cal'.cols = cal.cols ∧
      (∀ a b, (∀ r c, r < J.length → c ≤ S.length →
          ¬ (a = J.getD r 0 - 1 ∧ b = target_col S g.rows c)) → cal'.get a b = cal.get a b) ∧
      ∀ r c, r < J.length → c ≤ S.length →
        cal'.get (J.getD r 0 - 1) (target_col S g.rows c) = sol.get r c := by
  have h := foldlM_range_inv (write_row g S J sol)
    (fun k M => M.rows = cal.rows ∧ M.cols = cal.cols ∧
      (∀ a b, (∀ r c, r < k → c ≤ S.length →
          ¬ (a = J.getD r 0 - 1 ∧ b = target_col S g.rows c)) → M.get a b = cal.get a b) ∧
      ∀ r c, r < k → c ≤ S.length →
        M.get (J.getD r 0 - 1) (target_col S g.rows c) = sol.get r c)
    J.length cal
    ⟨rfl, rfl, fun a b _ => rfl, fun r c hr => absurd hr (Nat.not_lt_zero r)⟩ ?_
  · obtain ⟨cal', hcal', hr, hc, hframe, hval⟩ := h
    exact ⟨cal', hcal', hr, hc, hframe, hval⟩
  · intro k M hk ⟨hMr, hMc, hMframe, hMval⟩
    have hin := foldlM_range_inv (write_cell g S J sol k)
      (fun n N => N.rows = cal.rows ∧ N.cols = cal.cols ∧
        (∀ a b, (∀ r c, r < k → c ≤ S.length →
            ¬ (a = J.getD r 0 - 1 ∧ b = target_col S g.rows c)) →
          (∀ c, c < n → ¬ (a = J.getD k 0 - 1 ∧ b = target_col S g.rows c)) →
          N.get a b = cal.get a b) ∧
        (∀ r c, r < k → c ≤ S.length →
          N.get (J.getD r 0 - 1) (target_col S g.rows c) = sol.get r c) ∧
        ∀ c, c < n → N.get (J.getD k 0 - 1) (target_col S g.rows c) = sol.get k c)
      (S.length + 1) M
      ⟨hMr, hMc, fun a b h1 _ => hMframe a b h1, hMval,
        fun c hc => absurd hc (Nat.not_lt_zero c)⟩ ?_
    · obtain ⟨N, hN, hNr, hNc, hNframe, hNold, hNnew⟩ := hin
      refine ⟨N, hN, hNr, hNc, ?_, ?_⟩
      · intro a b hab
        exact hNframe a b (fun r c hr hc => hab r c (Nat.lt_succ_of_lt hr) hc)
          (fun c hc => hab k c (Nat.lt_succ_self k) (Nat.lt_succ_iff.mp hc))
      · intro r c hr hc
        rcases Nat.lt_succ_iff_lt_or_eq.mp hr with hlt | heq
        · exact hNold r c hlt hc
        · subst heq
          exact hNnew c (Nat.lt_succ_of_le hc)
    · intro n N hn ⟨hNr, hNc, hNframe, hNold, hNnew⟩
      have hn' : n ≤ S.length := Nat.lt_succ_iff.mp hn
      obtain ⟨N', hN', hN'r, hN'c, hN'get⟩ := N.set?_some (sol.get k n)
        (show J.getD k 0 - 1 < N.rows by rw [hNr]; exact hJ k hk)
        (show target_col S g.rows n < N.cols by rw [hNc]; exact hS n hn')
      refine ⟨N', ?_, by omega, by omega, ?_, ?_, ?_⟩
      · rw [write_cell_eq, sol.get?_eq_some (show k < sol.rows by omega)
          (show n < sol.cols by omega)]
        exact hN'
      · intro a b h1 h2
        rw [hN'get, if_neg (h2 n (Nat.lt_succ_self n))]
        exact hNframe a b h1 (fun c hc => h2 c (Nat.lt_succ_of_lt hc))
      · intro r c hr hc
        have hne : ¬ (J.getD r 0 - 1 = J.getD k 0 - 1 ∧
            target_col S g.rows c = target_col S g.rows n) := by
          rintro ⟨h1, -⟩
          have := hJinj r k (by omega) hk h1
          omega
        rw [hN'get, if_neg hne]
        exact hNold r c hr hc
      · intro c hc
        rw [hN'get]
        rcases Nat.lt_succ_iff_lt_or_eq.mp hc with hlt | heq
        · have hne : ¬ (J.getD k 0 - 1 = J.getD k 0 - 1 ∧
              target_col S g.rows c = target_col S g.rows n) := by
            rintro ⟨-, h2⟩
            have := hSinj c n (by omega) hn' h2
            omega
          rw [if_neg hne]
          exact hNnew c hlt
        · subst heq
          rw [if_pos ⟨rfl, rfl⟩]

/-! ## One finger, then all fingers -/

/-- For inputs of sufficient size and equal sample counts the three blocks of one
finger (design matrix, target matrix, solved block) exist and have the stated shapes
and entries. -/
theorem finger_sol_spec (t g : MatrixXd) (ht : 24 ≤ t.rows) (hg : 22 ≤ g.rows)
    (hc : t.cols = g.cols) (i : ℕ) (hi : i < 6) :
    ∃ denom numer sol, build_denom g (map_raw.getD i []) = some denom ∧
      build_numer t (map_cal.getD i []) = some numer ∧
      solve_block denom numer = some sol ∧
      finger_sol t g i = some sol ∧
      (denom.rows = (map_raw.getD i []).length + 1 ∧ denom.cols = g.cols ∧
        (∀ r j, r < (map_raw.getD i []).length →
          denom.get r j = g.get ((map_raw.getD i []).getD r 0 - 1) j) ∧
        ∀ j, j < g.cols → denom.get (map_raw.getD i []).length j = 1) ∧
      (numer.rows = (map_cal.getD i []).length ∧ numer.cols = t.cols ∧
        ∀ r j, r < (map_cal.getD i []).length →
          numer.get r j = t.get ((map_cal.getD i []).getD r 0 - 1) j) ∧
      (sol.rows = (map_cal.getD i []).length ∧ sol.cols = (map_raw.getD i []).length + 1 ∧
        ∀ r k, r < numer.rows → k < denom.rows →
          ∑ j in Finset.range denom.cols,
            (sol.mulGet denom r j - numer.get r j) * denom.get k j = 0) := by
  obtain ⟨denom, hdenom, hdr, hdc, hdrow, hdone⟩ := build_denom_spec g (map_raw.getD i [])
    (fun c hcl => by
      have := (map_raw_bounds i hi c hcl).2
      omega)
  obtain ⟨numer, hnumer, hnr, hnc, hnrow⟩ := build_numer_spec t (map_cal.getD i [])
    (fun r hrl => by
      have := (map_cal_bounds i hi r hrl).2
      omega)
  obtain ⟨sol, hsol, hsr, hsc, hsn⟩ := solve_block_spec denom numer (by omega)
  refine ⟨denom, numer, sol, hdenom, hnumer, hsol, ?_, ⟨hdr, hdc, hdrow, hdone⟩,
    ⟨hnr, hnc, hnrow⟩, ⟨by omega, by omega, hsn⟩⟩
  simp only [finger_sol, hdenom, hnumer, Option.bind_eq_bind, Option.some_bind]
  exact hsol

/-- Main invariant of the loop over the fingers, at its end: the call succeeds, the
result has the shape of the initial zero matrix, a non-zero entry sits at a position
written for some finger, and each position written for a finger holds the entry of
that finger's solved block. -/
theorem compute_calibration_spec (t g : MatrixXd) (ht : 24 ≤ t.rows) (hg : 22 ≤ g.rows)
    (hc : t.cols = g.cols) :
    ∃ cal, compute_calibration t g = some cal ∧ cal.rows = t.rows ∧ cal.cols = g.rows + 1 ∧
      (∀ a b, cal.get a b ≠ 0 → ∃ i r c, i < 6 ∧ r < (map_cal.getD i []).length ∧
        c ≤ (map_raw.getD i []).length ∧ a = (map_cal.getD i []).getD r 0 - 1 ∧
        b = target_col (map_raw.getD i []) g.rows c) ∧
      ∀ i r c sol, i < 6 → finger_sol t g i = some sol → r < (map_cal.getD i []).length →
        c ≤ (map_raw.getD i []).length →
        cal.get ((map_cal.getD i []).getD r 0 - 1) (target_col (map_raw.getD i []) g.rows c) =
          sol.get r c := by
  have h := foldlM_range_inv (calibrate_finger t g)
    (fun k cal => cal.rows = t.rows ∧ cal.cols = g.rows + 1 ∧
      (∀ a b, cal.get a b ≠ 0 → ∃ i r c, i < k ∧ r < (map_cal.getD i []).length ∧
        c ≤ (map_raw.getD i []).length ∧ a = (map_cal.getD i []).getD r 0 - 1 ∧
        b = target_col (map_raw.getD i []) g.rows c) ∧
      ∀ i r c sol, i < k → finger_sol t g i = some sol → r < (map_cal.getD i []).length →
        c ≤ (map_raw.getD i []).length →
        cal.get ((map_cal.getD i []).getD r 0 - 1) (target_col (map_raw.getD i []) g.rows c) =
          sol.get r c)
    map_raw.length (MatrixXd.Zero t.rows (g.rows + 1))
    ⟨rfl, rfl, fun a b hab => absurd (MatrixXd.get_Zero _ _ a b) hab,
      fun i r c sol hi => absurd hi (Nat.not_lt_zero i)⟩ ?_
  · exact h
  · intro k cal hk ⟨hcr, hcc, hsupp, hval⟩
    have hk6 : k < 6 := hk
    obtain ⟨denom, numer, sol, -, -, -, hsol, -, -, hsr, hsc, -⟩ :=
      finger_sol_spec t g ht hg hc k hk6
    obtain ⟨cal', hcal', hr', hc', hframe, hnew⟩ :=
      write_block_spec g (map_raw.getD k []) (map_cal.getD k []) sol cal hsr hsc
        (fun r hr => by
          have := (map_cal_bounds k hk6 r hr).2
          omega)
        (fun c _ => by
          rw [hcc]
          exact target_col_lt g hg k hk6 c)
        (fun r r' hr hr' heq => (map_cal_inj k hk6 k hk6 r hr r' hr' heq).2)
        (fun c c' hcl hcl' heq => target_col_inj g hg k hk6 c c' hcl hcl' heq)
    refine ⟨cal', ?_, by omega, by omega, ?_, ?_⟩
    · simp only [calibrate_finger, hsol, Option.bind_eq_bind, Option.some_bind]
      exact hcal'
    · intro a b hab
      by_cases hx : ∃ r c, r < (map_cal.getD k []).length ∧ c ≤ (map_raw.getD k []).length ∧
          a = (map_cal.getD k []).getD r 0 - 1 ∧ b = target_col (map_raw.getD k []) g.rows c
      · obtain ⟨r, c, hr, hcl, ha, hb⟩ := hx
        exact ⟨k, r, c, Nat.lt_succ_self k, hr, hcl, ha, hb⟩
      · have heq : cal'.get a b = cal.get a b :=
          hframe a b (fun r c hr hcl hh => hx ⟨r, c, hr, hcl, hh.1, hh.2⟩)
        rw [heq] at hab
        obtain ⟨i, r, c, hi, hr, hcl, ha, hb⟩ := hsupp a b hab
        exact ⟨i, r, c, Nat.lt_succ_of_lt hi, hr, hcl, ha, hb⟩
    · intro i r c sol' hi hsol' hr hcl
      rcases Nat.lt_succ_iff_lt_or_eq.mp hi with hlt | heq
      · have hfr : cal'.get ((map_cal.getD i []).getD r 0 - 1)
            (target_col (map_raw.getD i []) g.rows c) =
            cal.get ((map_cal.getD i []).getD r 0 - 1)
              (target_col (map_raw.getD i []) g.rows c) := by
          apply hframe
          rintro r' c' hr' - ⟨h1, -⟩
          have := (map_cal_inj i (by omega) k hk6 r hr r' hr' h1).1
          omega
        rw [hfr]
        exact hval i r c sol' hlt hsol' hr hcl
      · subst heq
        rw [hsol] at hsol'
        cases hsol'
        exact hnew r c hr hcl

/-! ## The claims about `compute_calibration` -/

/-- C1: for every finger group, with design matrix `A = denom` (the finger's sensor
rows plus a final row of ones) and target matrix `B = numer` (the finger's joint
rows), the solved block `X = sol` is a least-squares solution of `X·A ≈ B`: the sum of
squared entries of `X·A − B` is at most that of `Y·A − B` for every coefficient matrix
`Y` of the same shape, and `X·A·Aᵀ = B·Aᵀ`. -/
theorem compute_calibration_least_squares (t g : MatrixXd) (ht : 24 ≤ t.rows)
    (hg : 22 ≤ g.rows) (hc : t.cols = g.cols) (i : ℕ) (hi : i < 6) :
    ∃ denom numer sol, build_denom g (map_raw.getD i []) = some denom ∧
      build_numer t (map_cal.getD i []) = some numer ∧
      solve_block denom numer = some sol ∧ finger_sol t g i = some sol ∧
      sol.rows = numer.rows ∧ sol.cols = denom.rows ∧
      (∀ Y : MatrixXd, Y.rows = sol.rows → Y.cols = sol.cols →
        residual sol denom numer ≤ residual Y denom numer) ∧
      ∀ r k, r < numer.rows → k < denom.rows →
        ∑ j in Finset.range denom.cols, sol.mulGet denom r j * denom.get k j =
          ∑ j in Finset.range denom.cols, numer.get r j * denom.get k j := by
  obtain ⟨denom, numer, sol, hdenom, hnumer, hsol, hfs, ⟨hdr, hdc, -, -⟩, ⟨hnr, hnc, -⟩,
    hsr, hsc, hn⟩ := finger_sol_spec t g ht hg hc i hi
  refine ⟨denom, numer, sol, hdenom, hnumer, hsol, hfs, by omega, by omega, ?_, ?_⟩
  · intro Y _ _
    exact residual_le_of_normal sol Y denom numer (by omega) hn
  · intro r k hr hk
    have h0 := hn r k hr hk
    simp only [sub_mul, Finset.sum_sub_distrib] at h0
    exact sub_eq_zero.mp h0

theorem compute_calibration_least_squares_witness :
    (24 ≤ sample_true.rows ∧ 22 ≤ sample_glove.rows ∧ sample_true.cols = sample_glove.cols ∧
      0 < 6) ∧
    ∃ denom numer sol, build_denom sample_glove (map_raw.getD 0 []) = some denom ∧
      build_numer sample_true (map_cal.getD 0 []) = some numer ∧
      solve_block denom numer = some sol ∧ finger_sol sample_true sample_glove 0 = some sol ∧
      sol.rows = numer.rows ∧ sol.cols = denom.rows ∧
      (∀ Y : MatrixXd, Y.rows = sol.rows → Y.cols = sol.cols →
        residual sol denom numer ≤ residual Y denom numer) ∧
      ∀ r k, r < numer.rows → k < denom.rows →
        ∑ j in Finset.range denom.cols, sol.mulGet denom r j * denom.get k j =
          ∑ j in Finset.range denom.cols, numer.get r j * denom.get k j :=
  ⟨⟨by decide, by decide, rfl, by decide⟩,
    compute_calibration_least_squares sample_true sample_glove (by decide) (by decide) rfl 0
      (by decide)⟩

set_option maxRecDepth 100000 in
theorem calibration_support_length : (calibration_support 22).length = 151 := by
  decide

/-- C3: the returned matrix has `true_values_n.rows()` rows and
`glove_values_n.rows() + 1` columns and is sparse: an entry `(r, c)` outside the final
column is zero unless sensor `c + 1` is in the sensor list of the finger whose joint
list contains joint `r + 1`; for the 24-joint, 22-sensor hand at most 151 of the 552
entries are non-zero. -/
theorem compute_calibration_sparse (t g : MatrixXd) (ht : 24 ≤ t.rows) (hg : 22 ≤ g.rows)
    (hc : t.cols = g.cols) :
    ∃ cal, compute_calibration t g = some cal ∧ cal.rows = t.rows ∧ cal.cols = g.rows + 1 ∧
      (∀ r c, c < g.rows → cal.get r c ≠ 0 →
        ∃ i, i < 6 ∧ r + 1 ∈ map_cal.getD i [] ∧ c + 1 ∈ map_raw.getD i []) ∧
      (t.rows = 24 → g.rows = 22 →
        (Finset.range cal.rows ×ˢ Finset.range cal.cols).card = 552 ∧
        ((Finset.range cal.rows ×ˢ Finset.range cal.cols).filter
          (fun p => cal.get p.1 p.2 ≠ 0)).card ≤ 151) := by
  obtain ⟨cal, hcal, hr, hcc, hsupp, -⟩ := compute_calibration_spec t g ht hg hc
  refine ⟨cal, hcal, hr, hcc, ?_, ?_⟩
  · intro r c hcl hne
    obtain ⟨i, r', c', hi, hr', hc', ha, hb⟩ := hsupp r c hne
    refine ⟨i, hi, ?_, ?_⟩
    · have hb1 := (map_cal_bounds i hi r' hr').1
      have : r + 1 = (map_cal.getD i []).getD r' 0 := by omega
      rw [this, List.getD_eq_getElem _ _ hr']
      exact List.getElem_mem _
    · unfold target_col at hb
      split_ifs at hb with hlt
      · have hb1 := (map_raw_bounds i hi c' hlt).1
        have : c + 1 = (map_raw.getD i []).getD c' 0 := by omega
        rw [this, List.getD_eq_getElem _ _ hlt]
        exact List.getElem_mem _
      · omega
  · intro ht24 hg22
    constructor
    · rw [Finset.card_product, Finset.card_range, Finset.card_range, hr, hcc, ht24, hg22]
    · have hsub : (Finset.range cal.rows ×ˢ Finset.range cal.cols).filter
          (fun p => cal.get p.1 p.2 ≠ 0) ⊆ (calibration_support 22).toFinset := by
        intro p hp
        rw [Finset.mem_filter] at hp
        obtain ⟨i, r, c, hi, hr', hc', ha, hb⟩ := hsupp p.1 p.2 hp.2
        rw [List.mem_toFinset]
        unfold calibration_support
        rw [List.mem_flatMap]
        refine ⟨i, List.mem_range.mpr hi, ?_⟩
        rw [List.mem_flatMap]
        refine ⟨r, List.mem_range.mpr hr', ?_⟩
        rw [List.mem_map]
        refine ⟨c, List.mem_range.mpr (Nat.lt_succ_of_le hc'), ?_⟩
        rw [hg22] at hb
        exact Prod.ext ha.symm hb.symm
      calc ((Finset.range cal.rows ×ˢ Finset.range cal.cols).filter
            (fun p => cal.get p.1 p.2 ≠ 0)).card
          ≤ (calibration_support 22).toFinset.card := Finset.card_le_card hsub
        _ ≤ (calibration_support 22).length := List.toFinset_card_le _
        _ = 151 := calibration_support_length

theorem compute_calibration_sparse_witness :
    (24 ≤ sample_true.rows ∧ 22 ≤ sample_glove.rows ∧ sample_true.cols = sample_glove.cols) ∧
    ∃ cal, compute_calibration sample_true sample_glove = some cal ∧
      cal.rows = sample_true.rows ∧ cal.cols = sample_glove.rows + 1 ∧
      (∀ r c, c < sample_glove.rows → cal.get r c ≠ 0 →
        ∃ i, i < 6 ∧ r + 1 ∈ map_cal.getD i [] ∧ c + 1 ∈ map_raw.getD i []) ∧
      (sample_true.rows = 24 → sample_glove.rows = 22 →
        (Finset.range cal.rows ×ˢ Finset.range cal.cols).card = 552 ∧
        ((Finset.range cal.rows ×ˢ Finset.range cal.cols).filter
          (fun p => cal.get p.1 p.2 ≠ 0)).card ≤ 151) :=
  ⟨⟨by decide, by decide, rfl⟩,
    compute_calibration_sparse sample_true sample_glove (by decide) (by decide) rfl⟩

/-- C4: for every finger group with joint list `J`, sensor list `S` and solved block
`sol`, the returned matrix holds `sol(r, c)` at row `J[r] − 1`, column `S[c] − 1` for
every `c < |S|`, and the bias coefficient `sol(r, |S|)` at row `J[r] − 1` in the final
column `glove_values_n.rows()`.  These are entries of the returned matrix, so no later
finger group has overwritten them; indeed two different fingers never write the same
row. -/
theorem compute_calibration_places_blocks (t g : MatrixXd) (ht : 24 ≤ t.rows)
    (hg : 22 ≤ g.rows) (hc : t.cols = g.cols) :
    ∃ cal, compute_calibration t g = some cal ∧
      (∀ i, i < 6 → ∃ sol, finger_sol t g i = some sol ∧
        ∀ r, r < (map_cal.getD i []).length →
          (∀ c, c < (map_raw.getD i []).length →
            cal.get ((map_cal.getD i []).getD r 0 - 1) ((map_raw.getD i []).getD c 0 - 1) =
              sol.get r c) ∧
          cal.get ((map_cal.getD i []).getD r 0 - 1) g.rows =
            sol.get r (map_raw.getD i []).length) ∧
      ∀ i i', i < 6 → i' < 6 → i ≠ i' → ∀ r r', r < (map_cal.getD i []).length →
        r' < (map_cal.getD i' []).length →
        (map_cal.getD i []).getD r 0 - 1 ≠ (map_cal.getD i' []).getD r' 0 - 1 := by
  obtain ⟨cal, hcal, -, -, -, hval⟩ := compute_calibration_spec t g ht hg hc
  refine ⟨cal, hcal, ?_, ?_⟩
  · intro i hi
    obtain ⟨-, -, sol, -, -, -, hsol, -, -, -⟩ := finger_sol_spec t g ht hg hc i hi
    refine ⟨sol, hsol, ?_⟩
    intro r hr
    constructor
    · intro c hcl
      have := hval i r c sol hi hsol hr (Nat.le_of_lt hcl)
      rwa [target_col, if_pos hcl] at this
    · have := hval i r (map_raw.getD i []).length sol hi hsol hr (Nat.le_refl _)
      rwa [target_col, if_neg (Nat.lt_irrefl _)] at this
  · intro i i' hi hi' hne r r' hr hr' heq
    exact hne (map_cal_inj i hi i' hi' r hr r' hr' heq).1

theorem compute_calibration_places_blocks_witness :
    (24 ≤ sample_true.rows ∧ 22 ≤ sample_glove.rows ∧ sample_true.cols = sample_glove.cols) ∧
    ∃ cal, compute_calibration sample_true sample_glove = some cal ∧
      (∀ i, i < 6 → ∃ sol, finger_sol sample_true sample_glove i = some sol ∧
        ∀ r, r < (map_cal.getD i []).length →
          (∀ c, c < (map_raw.getD i []).length →
            cal.get ((map_cal.getD i []).getD r 0 - 1) ((map_raw.getD i []).getD c 0 - 1) =
              sol.get r c) ∧
          cal.get ((map_cal.getD i []).getD r 0 - 1) sample_glove.rows =
            sol.get r (map_raw.getD i []).length) ∧
      ∀ i i', i < 6 → i' < 6 → i ≠ i' → ∀ r r', r < (map_cal.getD i []).length →
        r' < (map_cal.getD i' []).length →
        (map_cal.getD i []).getD r 0 - 1 ≠ (map_cal.getD i' []).getD r' 0 - 1 :=
  ⟨⟨by decide, by decide, rfl⟩,
    compute_calibration_places_blocks sample_true sample_glove (by decide) (by decide) rfl⟩

/-- C5: the regression is independent per finger group.  Take a finger `f` and two
inputs with the same number of samples that agree on the glove rows of the sensors of
`f` and on the true-value rows of the joints of `f`.  Then both calls return, and in
the calibration rows of the joints of `f` the two results hold the same coefficient
for every sensor of `f` and the same bias coefficient (each in its own final column);
when the two glove matrices have equally many rows, so that the results have the same
shape, these rows are equal entry for entry, whatever the other rows of the inputs
contain. -/
theorem compute_calibration_finger_independent (t g t' g' : MatrixXd)
    (ht : 24 ≤ t.rows) (ht' : 24 ≤ t'.rows) (hg : 22 ≤ g.rows) (hg' : 22 ≤ g'.rows)
    (hc : t.cols = g.cols) (hc' : t'.cols = g'.cols) (hs : t'.cols = t.cols)
    (f : ℕ) (hf : f < 6)
    (hglove : ∀ c j, c < (map_raw.getD f []).length → j < g.cols →
      g.get ((map_raw.getD f []).getD c 0 - 1) j = g'.get ((map_raw.getD f []).getD c 0 - 1) j)
    (htrue : ∀ r j, r < (map_cal.getD f []).length → j < t.cols →
      t.get ((map_cal.getD f []).getD r 0 - 1) j = t'.get ((map_cal.getD f []).getD r 0 - 1) j) :
    ∃ cal cal', compute_calibration t g = some cal ∧ compute_calibration t' g' = some cal' ∧
      ∀ r, r < (map_cal.getD f []).length →
        (∀ c, c < (map_raw.getD f []).length →
          cal.get ((map_cal.getD f []).getD r 0 - 1) ((map_raw.getD f []).getD c 0 - 1) =
            cal'.get ((map_cal.getD f []).getD r 0 - 1) ((map_raw.getD f []).getD c 0 - 1)) ∧
        cal.get ((map_cal.getD f []).getD r 0 - 1) g.rows =
          cal'.get ((map_cal.getD f []).getD r 0 - 1) g'.rows ∧
        (g'.rows = g.rows → ∀ b,
          cal.get ((map_cal.getD f []).getD r 0 - 1) b =
            cal'.get ((map_cal.getD f []).getD r 0 - 1) b) := by
  obtain ⟨cal, hcal, -, -, hsupp, hval⟩ := compute_calibration_spec t g ht hg hc
  obtain ⟨cal', hcal', -, -, hsupp', hval'⟩ := compute_calibration_spec t' g' ht' hg' hc'
  obtain ⟨denom, numer, sol, -, -, hsb, hsol, ⟨hdr, hdc, hdrow, hdone⟩, ⟨hnr, hnc, hnrow⟩, -⟩ :=
    finger_sol_spec t g ht hg hc f hf
  obtain ⟨denom', numer', sol', -, -, hsb', hsol', ⟨hdr', hdc', hdrow', hdone'⟩,
    ⟨hnr', hnc', hnrow'⟩, -⟩ := finger_sol_spec t' g' ht' hg' hc' f hf
  have hdenom : denom = denom' := by
    apply MatrixXd.ext_get (by omega) (by omega)
    intro r j hr hj
    rcases Nat.lt_succ_iff_lt_or_eq.mp (show r < (map_raw.getD f []).length + 1 by omega)
      with hlt | heq
    · rw [hdrow r j hlt, hdrow' r j hlt]
      exact hglove r j hlt (by omega)
    · subst heq
      rw [hdone j (by omega), hdone' j (by omega)]
  have hnumer : numer = numer' := by
    apply MatrixXd.ext_get (by omega) (by omega)
    intro r j hr hj
    rw [hnrow r j (by omega), hnrow' r j (by omega)]
    exact htrue r j (by omega) (by omega)
  have hsoleq : sol = sol' := by
    rw [hdenom, hnumer, hsb'] at hsb
    exact (Option.some.inj hsb).symm
  have hsame : ∀ r c, r < (map_cal.getD f []).length → c ≤ (map_raw.getD f []).length →
      cal.get ((map_cal.getD f []).getD r 0 - 1) (target_col (map_raw.getD f []) g.rows c) =
        cal'.get ((map_cal.getD f []).getD r 0 - 1)
          (target_col (map_raw.getD f []) g'.rows c) := by
    intro r c hr hcl
    rw [hval f r c sol hf hsol hr hcl, hval' f r c sol' hf hsol' hr hcl, hsoleq]
  refine ⟨cal, cal', hcal, hcal', ?_⟩
  intro r hr
  refine ⟨?_, ?_, ?_⟩
  · intro c hcl
    have := hsame r c hr (Nat.le_of_lt hcl)
    rwa [target_col, if_pos hcl, target_col, if_pos hcl] at this
  · have := hsame r (map_raw.getD f []).length hr (Nat.le_refl _)
    rwa [target_col, if_neg (Nat.lt_irrefl _), target_col, if_neg (Nat.lt_irrefl _)] at this
  · intro hgr b
    by_cases hb : ∃ c, c ≤ (map_raw.getD f []).length ∧
        b = target_col (map_raw.getD f []) g.rows c
    · obtain ⟨c, hcl, rfl⟩ := hb
      have := hsame r c hr hcl
      rwa [hgr] at this
    · have hz : ∀ (M : MatrixXd) (G : ℕ), G = g.rows →
          (∀ a b, M.get a b ≠ 0 → ∃ i r c, i < 6 ∧ r < (map_cal.getD i []).length ∧
            c ≤ (map_raw.getD i []).length ∧ a = (map_cal.getD i []).getD r 0 - 1 ∧
            b = target_col (map_raw.getD i []) G c) →
          M.get ((map_cal.getD f []).getD r 0 - 1) b = 0 := by
        intro M G hG hM
        by_contra hne
        obtain ⟨i, r', c', hi, hr', hc'', ha, hb'⟩ := hM _ _ hne
        have hif := (map_cal_inj f hf i hi r hr r' hr' ha).1
        subst hif
        exact hb ⟨c', hc'', by rw [hb', hG]⟩
      rw [hz cal g.rows rfl hsupp, hz cal' g'.rows hgr hsupp']

theorem sample_glove_alt_get (a j : ℕ) (ha : a ≠ 0) :
    sample_glove.get a j = sample_glove_alt.get a j := by
  by_cases h : a < 22 ∧ j < 3
  · simp [sample_glove, sample_glove_alt, MatrixXd.get, h.1, h.2, ha]
  · simp [sample_glove, sample_glove_alt, MatrixXd.get, h]

theorem sample_true_alt_get (a j : ℕ) (ha : a ≠ 0) :
    sample_true.get a j = sample_true_alt.get a j := by
  by_cases h : a < 24 ∧ j < 3
  · simp [sample_true, sample_true_alt, MatrixXd.get, h.1, h.2, ha]
  · simp [sample_true, sample_true_alt, MatrixXd.get, h]

theorem sample_glove_agree : ∀ c j, c < (map_raw.getD 0 []).length → j < sample_glove.cols →
    sample_glove.get ((map_raw.getD 0 []).getD c 0 - 1) j =
      sample_glove_alt.get ((map_raw.getD 0 []).getD c 0 - 1) j := by
  intro c j hc _
  have hc5 : c < 5 := hc
  apply sample_glove_alt_get
  interval_cases c <;> decide

theorem sample_true_agree : ∀ r j, r < (map_cal.getD 0 []).length → j < sample_true.cols →
    sample_true.get ((map_cal.getD 0 []).getD r 0 - 1) j =
      sample_true_alt.get ((map_cal.getD 0 []).getD r 0 - 1) j := by
  intro r j hr _
  have hr4 : r < 4 := hr
  apply sample_true_alt_get
  interval_cases r <;> decide

theorem compute_calibration_finger_independent_witness :
    ((∀ c j, c < (map_raw.getD 0 []).length → j < sample_glove.cols →
        sample_glove.get ((map_raw.getD 0 []).getD c 0 - 1) j =
          sample_glove_alt.get ((map_raw.getD 0 []).getD c 0 - 1) j) ∧
      (∀ r j, r < (map_cal.getD 0 []).length → j < sample_true.cols →
        sample_true.get ((map_cal.getD 0 []).getD r 0 - 1) j =
          sample_true_alt.get ((map_cal.getD 0 []).getD r 0 - 1) j) ∧
      sample_glove.get 0 0 ≠ sample_glove_alt.get 0 0 ∧
      sample_true.get 0 0 ≠ sample_true_alt.get 0 0) ∧
    ∃ cal cal', compute_calibration sample_true sample_glove = some cal ∧
      compute_calibration sample_true_alt sample_glove_alt = some cal' ∧
      ∀ r, r < (map_cal.getD 0 []).length →
        (∀ c, c < (map_raw.getD 0 []).length →
          cal.get ((map_cal.getD 0 []).getD r 0 - 1) ((map_raw.getD 0 []).getD c 0 - 1) =
            cal'.get ((map_cal.getD 0 []).getD r 0 - 1) ((map_raw.getD 0 []).getD c 0 - 1)) ∧
        cal.get ((map_cal.getD 0 []).getD r 0 - 1) sample_glove.rows =
          cal'.get ((map_cal.getD 0 []).getD r 0 - 1) sample_glove_alt.rows ∧
        (sample_glove_alt.rows = sample_glove.rows → ∀ b,
          cal.get ((map_cal.getD 0 []).getD r 0 - 1) b =
            cal'.get ((map_cal.getD 0 []).getD r 0 - 1) b) :=
  ⟨⟨sample_glove_agree, sample_true_agree,
      by simp [sample_glove, sample_glove_alt, MatrixXd.get],
      by simp [sample_true, sample_true_alt, MatrixXd.get]⟩,
    compute_calibration_finger_independent sample_true sample_glove sample_true_alt
      sample_glove_alt (by decide) (by decide) (by decide) (by decide) rfl rfl rfl 0
      (by decide) sample_glove_agree sample_true_agree⟩

/-- C6: for every finger group with sensor list `S` and joint list `J`, the design
matrix has `|S| + 1` rows and one column per sample, its row `i < |S|` is row
`S[i] − 1` of the normalised glove values and its last row is all ones; the target
matrix has `|J|` rows and one column per sample and its row `i` is row `J[i] − 1` of
the normalised true values. -/
theorem compute_calibration_design_and_target (t g : MatrixXd) (ht : 24 ≤ t.rows)
    (hg : 22 ≤ g.rows) (i : ℕ) (hi : i < 6) :
    ∃ denom numer, build_denom g (map_raw.getD i []) = some denom ∧
      build_numer t (map_cal.getD i []) = some numer ∧
      denom.rows = (map_raw.getD i []).length + 1 ∧ denom.cols = g.cols ∧
      (∀ r j, r < (map_raw.getD i []).length → j < g.cols →
        denom.get r j = g.get ((map_raw.getD i []).getD r 0 - 1) j) ∧
      (∀ j, j < g.cols → denom.get (map_raw.getD i []).length j = 1) ∧
      numer.rows = (map_cal.getD i []).length ∧ numer.cols = t.cols ∧
      ∀ r j, r < (map_cal.getD i []).length → j < t.cols →
        numer.get r j = t.get ((map_cal.getD i []).getD r 0 - 1) j := by
  obtain ⟨denom, hdenom, hdr, hdc, hdrow, hdone⟩ := build_denom_spec g (map_raw.getD i [])
    (fun c hcl => by
      have := (map_raw_bounds i hi c hcl).2
      omega)
  obtain ⟨numer, hnumer, hnr, hnc, hnrow⟩ := build_numer_spec t (map_cal.getD i [])
    (fun r hrl => by
      have := (map_cal_bounds i hi r hrl).2
      omega)
  exact ⟨denom, numer, hdenom, hnumer, hdr, hdc, fun r j hr _ => hdrow r j hr, hdone, hnr, hnc,
    fun r j hr _ => hnrow r j hr⟩

theorem compute_calibration_design_and_target_witness :
    (24 ≤ sample_true.rows ∧ 22 ≤ sample_glove.rows ∧ 0 < 6) ∧
    ∃ denom numer, build_denom sample_glove (map_raw.getD 0 []) = some denom ∧
      build_numer sample_true (map_cal.getD 0 []) = some numer ∧
      denom.rows = (map_raw.getD 0 []).length + 1 ∧ denom.cols = sample_glove.cols ∧
      (∀ r j, r < (map_raw.getD 0 []).length → j < sample_glove.cols →
        denom.get r j = sample_glove.get ((map_raw.getD 0 []).getD r 0 - 1) j) ∧
      (∀ j, j < sample_glove.cols → denom.get (map_raw.getD 0 []).length j = 1) ∧
      numer.rows = (map_cal.getD 0 []).length ∧ numer.cols = sample_true.cols ∧
      ∀ r j, r < (map_cal.getD 0 []).length → j < sample_true.cols →
        numer.get r j = sample_true.get ((map_cal.getD 0 []).getD r 0 - 1) j :=
  ⟨⟨by decide, by decide, by decide⟩,
    compute_calibration_design_and_target sample_true sample_glove (by decide) (by decide) 0
      (by decide)⟩

/-! ## The remaining theorems at concrete inputs -/

/-- C7 fails on the code where an operation rounds.  With the range [0, 49] the sample
49, equal to the maximum, maps to `1 - 2 ^ (-53)` and not to `(49 - 0) / (49 - 0) = 1`:
the code multiplies by the rounded reciprocal of 49.  With the range from 0 to the
least positive double the limits differ, yet the reciprocal overflows, the scaling
factor is 0 and the sample equal to the maximum maps to 0. -/
theorem normalize_samples_max_not_one :
    (1 < sample_fp_ranges.cols ∧ sample_fp_ranges.rows = sample_fp_raw.rows) ∧
    (sample_fp_ranges.get 0 0 = Fp.fin 0 ∧ sample_fp_ranges.get 0 1 = Fp.fin 49 ∧
      sample_fp_raw.get 0 1 = Fp.fin 49 ∧
      (normalize_samples sample_fp_raw sample_fp_ranges).map (fun out => out.get 0 1) =
        some (Fp.fin (1 - 1 / 2 ^ 53)) ∧
      Fp.fin (1 - 1 / 2 ^ 53) ≠ Fp.fin ((49 - 0) / (49 - 0))) ∧
    (sample_fp_ranges.get 1 0 = Fp.fin 0 ∧ sample_fp_ranges.get 1 1 = Fp.fin (1 / 2 ^ 1074) ∧
      sample_fp_ranges.get 1 1 ≠ sample_fp_ranges.get 1 0 ∧
      sample_fp_raw.get 1 1 = Fp.fin (1 / 2 ^ 1074) ∧
      (normalize_samples sample_fp_raw sample_fp_ranges).map (fun out => out.get 1 1) =
        some (Fp.fin 0)) := by
  decide!

theorem normalize_samples_formula_witness :
    (1 < sample_fp_ranges.cols ∧ sample_fp_ranges.rows = sample_fp_raw.rows) ∧
    ∃ out, normalize_samples sample_fp_raw sample_fp_ranges = some out ∧ out.rows = 4 ∧
      out.cols = 2 ∧ out.get 3 1 = Fp.fin ((5 - 2) / (6 - 2)) ∧ out.get 0 0 = Fp.fin 0 ∧
      (out.get 0 1 = Fp.fin 1 ∨ out.get 0 1 = Fp.fin (1 - 1 / 2 ^ 53)) := by
  obtain ⟨out, hout, hr, hc, hf⟩ :=
    normalize_samples_formula sample_fp_raw sample_fp_ranges (by decide) rfl
  have h0 : sample_fp_ranges.get 0 0 = Fp.fin 0 := by decide!
  have h1 : sample_fp_ranges.get 0 1 = Fp.fin 49 := by decide!
  refine ⟨⟨by decide, rfl⟩, out, hout, hr, hc, ?_, ?_, ?_⟩
  · exact ((hf 3 1 (by decide) (by decide)).2 2 6 (by decide!) (by decide!)).2.1 5
      (by decide!) (by norm_num) (by decide!) (by decide!) (by decide!) (by decide!)
  · exact ((hf 0 0 (by decide) (by decide)).2 0 49 h0 h1).1 (by decide!)
  · exact (((hf 0 1 (by decide) (by decide)).2 0 49 h0 h1).2.2
      (by rw [sub_zero, abs_of_pos (by norm_num)]
          exact le_trans (zpow_le_one_of_nonpos₀ (by norm_num) (by norm_num)) (by norm_num))
      (by rw [sub_zero, abs_of_pos (by norm_num)]
          exact le_trans (by norm_num : (49 : ℚ) ≤ 2 ^ (6 : ℤ))
            (zpow_le_zpow_right₀ (by norm_num) (by norm_num)))).2 (by decide!)

/-- C8 fails on the code where the difference `s - min` overflows.  The third sensor is
stuck at `-2 ^ 1023`, so its range has no variance and its scaling factor is 0; the
sample `2 ^ 1023` is a finite double, the difference `2 ^ 1023 - (-2 ^ 1023)` overflows
to infinity, and the output entry is NaN, the product of 0 and infinity, not 0. -/
theorem normalize_samples_no_variance_nan :
    (1 < sample_fp_ranges.cols ∧ sample_fp_ranges.rows = sample_fp_raw.rows) ∧
    sample_fp_ranges.get 2 1 = sample_fp_ranges.get 2 0 ∧
    sample_fp_ranges.get 2 0 = Fp.fin (-(2 ^ 1023)) ∧
    sample_fp_raw.get 2 1 = Fp.fin (2 ^ 1023) ∧
    binary64.Finite (-(2 ^ 1023)) ∧ binary64.Finite (2 ^ 1023) ∧
    scaling_factor (sample_fp_ranges.get 2 0) (sample_fp_ranges.get 2 1) = Fp.fin 0 ∧
    binary64.sub (sample_fp_raw.get 2 1) (sample_fp_ranges.get 2 0) = Fp.inf false ∧
    (normalize_samples sample_fp_raw sample_fp_ranges).map (fun out => out.get 2 1) =
      some Fp.nan := by
  decide!

theorem normalize_samples_no_variance_witness :
    (1 < sample_fp_ranges.cols ∧ sample_fp_ranges.rows = sample_fp_raw.rows) ∧
    ∃ out, normalize_samples sample_fp_raw sample_fp_ranges = some out ∧
      sample_fp_ranges.get 2 1 = sample_fp_ranges.get 2 0 ∧
      scaling_factor (sample_fp_ranges.get 2 0) (sample_fp_ranges.get 2 1) = Fp.fin 0 ∧
      out.get 2 0 = Fp.fin 0 ∧ out.get 2 1 = Fp.nan := by
  obtain ⟨out, hout, hf⟩ :=
    normalize_samples_no_variance sample_fp_raw sample_fp_ranges (by decide) rfl
  obtain ⟨-, h2, h3⟩ := hf 2 (-(2 ^ 1023)) (by decide) (by decide!) (by decide!)
  refine ⟨⟨by decide, rfl⟩, out, hout, by decide!, h2, ?_, ?_⟩
  · exact (h3 0 (-(2 ^ 1023)) (by decide) (by decide!)).1 0 (by decide!)
  · exact (h3 1 (2 ^ 1023) (by decide) (by decide!)).2 false (by decide!)

/-- C9 fails on the code where an operation rounds or overflows.  For the joint range
[0.2, 0.9] (the nearest doubles) the pose 1 maps to the double just below `jmax`, and
for the joint range [-1.8, 0.4] it maps to a double above `jmax`, outside
`[jmin, jmax]`.  For the joint range from `-2 ^ 1023` to `2 ^ 1023` the difference
`jmax - jmin` overflows to infinity and the pose -1 maps to NaN, the product of 0 and
infinity, not to `jmin`. -/
theorem p2j_misses_joint_max :
    (sample_fp_poses.cols ≤ sample_fp_mj_ranges.rows ∧ 1 < sample_fp_mj_ranges.cols) ∧
    (sample_fp_poses.get 0 0 = Fp.fin 1 ∧
      sample_fp_mj_ranges.get 0 1 = Fp.fin (8106479329266893 / 2 ^ 53) ∧
      (p2j sample_fp_poses sample_fp_mj_ranges).map (fun out => out.get 0 0) =
        some (Fp.fin (8106479329266892 / 2 ^ 53)) ∧
      Fp.fin (8106479329266892 / 2 ^ 53) ≠ Fp.fin (8106479329266893 / 2 ^ 53)) ∧
    (sample_fp_poses.get 0 1 = Fp.fin 1 ∧
      sample_fp_mj_ranges.get 1 0 = Fp.fin (-(8106479329266893 / 2 ^ 52)) ∧
      sample_fp_mj_ranges.get 1 1 = Fp.fin (3602879701896397 / 2 ^ 53) ∧
      (p2j sample_fp_poses sample_fp_mj_ranges).map (fun out => out.get 0 1) =
        some (Fp.fin (3602879701896398 / 2 ^ 53)) ∧
      (3602879701896397 / 2 ^ 53 : ℚ) < 3602879701896398 / 2 ^ 53) ∧
    (sample_fp_poses.get 1 3 = Fp.fin (-1) ∧
      sample_fp_mj_ranges.get 3 0 = Fp.fin (-(2 ^ 1023)) ∧
      sample_fp_mj_ranges.get 3 1 = Fp.fin (2 ^ 1023) ∧
      binary64.Finite (-(2 ^ 1023)) ∧ binary64.Finite (2 ^ 1023) ∧
      (p2j sample_fp_poses sample_fp_mj_ranges).map (fun out => out.get 1 3) =
        some Fp.nan) := by
  decide!

theorem p2j_maps_pose_to_joint_range_witness :
    (sample_fp_poses.cols ≤ sample_fp_mj_ranges.rows ∧ 1 < sample_fp_mj_ranges.cols) ∧
    ∃ out, p2j sample_fp_poses sample_fp_mj_ranges = some out ∧ out.rows = 2 ∧ out.cols = 4 ∧
      out.get 1 2 = Fp.fin 2 ∧ out.get 1 0 = Fp.fin (3602879701896397 / 2 ^ 54) ∧
      out.get 0 2 = Fp.fin 3 ∧
      ∃ y, out.get 0 1 = Fp.fin y ∧ -(8106479329266893 / 2 ^ 52) ≤ y := by
  obtain ⟨out, hout, hr, hc, hf⟩ :=
    p2j_maps_pose_to_joint_range sample_fp_poses sample_fp_mj_ranges (by decide) (by decide)
  have b1 : |(-1 : ℚ)| ≤ 2 ^ (1021 : ℤ) := by
    rw [abs_neg, abs_one]
    exact one_le_zpow₀ (by norm_num) (by norm_num)
  have b3 : |(3 : ℚ)| ≤ 2 ^ (1021 : ℤ) := by
    rw [abs_of_pos (by norm_num)]
    exact le_trans (by norm_num : (3 : ℚ) ≤ 2 ^ (2 : ℤ))
      (zpow_le_zpow_right₀ (by norm_num) (by norm_num))
  have bs : ∀ x : ℚ, |x| ≤ 2 → |x| ≤ 2 ^ (1021 : ℤ) := fun x hx =>
    le_trans hx (le_trans (by norm_num : (2 : ℚ) ≤ 2 ^ (1 : ℤ))
      (zpow_le_zpow_right₀ (by norm_num) (by norm_num)))
  refine ⟨⟨by decide, by decide⟩, out, hout, hr, hc, ?_, ?_, ?_, ?_⟩
  · have := ((hf 1 2 (by decide) (by decide)).2 (-1) 3 (by decide!) (by decide!)).1 (1 / 2)
      (by decide!) (by decide!) (by decide!) (by decide!) (by decide!) (by decide!)
    rw [this]
    norm_num
  · exact (((hf 1 0 (by decide) (by decide)).2 (3602879701896397 / 2 ^ 54)
      (8106479329266893 / 2 ^ 53) (by decide!) (by decide!)).2 (by decide!)
      (bs _ (by rw [abs_of_pos (by norm_num)]; norm_num))
      (bs _ (by rw [abs_of_pos (by norm_num)]; norm_num))).1 (by decide!)
  · exact ((((hf 0 2 (by decide) (by decide)).2 (-1) 3 (by decide!) (by decide!)).2
      (by decide!) b1 b3).2.1 (by decide!)).2.2 (by decide!) (by decide!)
  · obtain ⟨y, hy, hy1, -⟩ := (((hf 0 1 (by decide) (by decide)).2
      (-(8106479329266893 / 2 ^ 52)) (3602879701896397 / 2 ^ 53) (by decide!) (by decide!)).2
      (by decide!) (bs _ (by rw [abs_neg, abs_of_pos (by norm_num)]; norm_num))
      (bs _ (by rw [abs_of_pos (by norm_num)]; norm_num))).2.2 (by norm_num) 1 (by decide!)
      (by norm_num) (by norm_num)
    exact ⟨y, hy, hy1⟩

theorem gen_true_values_from_poses_replicates_witness :
    ∃ out, gen_true_values_from_poses sample_poses = some out ∧ out.rows = 2 ∧
      out.cols = 200 ∧ out.get 1 0 = 1 ∧ out.get 1 99 = 1 ∧ out.get 1 100 = 1 / 2 ∧
      out.get 0 107 = 0 := by
  obtain ⟨out, hout, hr, hc, hf⟩ := gen_true_values_from_poses_replicates sample_poses
  refine ⟨out, hout, hr, hc, ?_, ?_, ?_, ?_⟩
  · rw [hf 0 0 1 (by decide) (by decide) (by decide)]
    simp [sample_poses, MatrixXd.get]
  · rw [hf 0 99 1 (by decide) (by decide) (by decide)]
    simp [sample_poses, MatrixXd.get]
  · rw [hf 1 0 1 (by decide) (by decide) (by decide)]
    simp [sample_poses, MatrixXd.get]
  · rw [hf 1 7 0 (by decide) (by decide) (by decide)]
    simp [sample_poses, MatrixXd.get]

/-! ## Splitting a line into tokens -/

theorem fields_ne_nil (l : List Char) : fields l ≠ [] := by
  cases l with
  | nil => simp [fields]
  | cons c cs => unfold fields; split_ifs <;> simp

theorem fields_cons_headD_tail (l : List Char) :
    (fields l).headD [] :: (fields l).tail = fields l := by
  have h := fields_ne_nil l
  cases hf : fields l with
  | nil => exact absurd hf h
  | cons f fs => rfl

theorem extractUntil_some (d : Char) (l pre rest : List Char)
    (h : extractUntil d l = (pre, some rest)) : l = pre ++ d :: rest ∧ d ∉ pre := by
  induction l generalizing pre with
  | nil => simp [extractUntil] at h
  | cons c cs ih =>
    unfold extractUntil at h
    split_ifs at h with hc
    · simp only [Prod.mk.injEq, Option.some.injEq] at h
      obtain ⟨rfl, rfl⟩ := h
      simp [hc]
    · simp only [Prod.mk.injEq] at h
      obtain ⟨rfl, h2⟩ := h
      obtain ⟨h3, h4⟩ := ih (extractUntil d cs).1 (Prod.ext rfl h2)
      constructor
      · simp only [List.cons_append, List.cons.injEq, true_and]
        exact h3
      · simp only [List.mem_cons, not_or]
        exact ⟨fun hh => hc hh.symm, h4⟩

theorem extractUntil_none (d : Char) (l pre : List Char)
    (h : extractUntil d l = (pre, none)) : l = pre ∧ d ∉ pre := by
  induction l generalizing pre with
  | nil =>
    simp only [extractUntil, Prod.mk.injEq, and_true] at h
    subst h
    simp
  | cons c cs ih =>
    unfold extractUntil at h
    split_ifs at h with hc
    · simp at h
    · simp only [Prod.mk.injEq] at h
      obtain ⟨rfl, h2⟩ := h
      obtain ⟨h3, h4⟩ := ih (extractUntil d cs).1 (Prod.ext rfl h2)
      constructor
      · rw [← h3]
      · simp only [List.mem_cons, not_or]
        exact ⟨fun hh => hc hh.symm, h4⟩

theorem extractUntil_append (d : Char) (pre rest : List Char) (h : d ∉ pre) :
    extractUntil d (pre ++ d :: rest) = (pre, some rest) := by
  induction pre with
  | nil => simp [extractUntil]
  | cons c cs ih =>
    simp only [List.mem_cons, not_or] at h
    rw [List.cons_append, extractUntil, if_neg (fun hh => h.1 hh.symm), ih h.2]

theorem extractUntil_all (d : Char) (pre : List Char) (h : d ∉ pre) :
    extractUntil d pre = (pre, none) := by
  induction pre with
  | nil => rfl
  | cons c cs ih =>
    simp only [List.mem_cons, not_or] at h
    rw [extractUntil, if_neg (fun hh => h.1 hh.symm), ih h.2]

theorem extractUntil_not_mem (d : Char) (l : List Char) : d ∉ (extractUntil d l).1 := by
  induction l with
  | nil => simp [extractUntil]
  | cons c cs ih =>
    unfold extractUntil
    split_ifs with hc
    · simp
    · simp only [List.mem_cons, not_or]
      exact ⟨fun hh => hc hh.symm, ih⟩

theorem fields_no_comma (pre : List Char) (h : ',' ∉ pre) : fields pre = [pre] := by
  induction pre with
  | nil => rfl
  | cons c cs ih =>
    simp only [List.mem_cons, not_or] at h
    unfold fields
    rw [if_neg (fun hh => h.1 hh.symm), ih h.2]
    rfl

theorem fields_append_comma (pre rest : List Char) (h : ',' ∉ pre) :
    fields (pre ++ ',' :: rest) = pre :: fields rest := by
  induction pre with
  | nil => simp [fields]
  | cons c cs ih =>
    simp only [List.mem_cons, not_or] at h
    rw [List.cons_append, fields, if_neg (fun hh => h.1 hh.symm), ih h.2]
    rfl

theorem fields_length (l : List Char) : (fields l).length = l.count ',' + 1 := by
  induction l with
  | nil => rfl
  | cons c cs ih =>
    unfold fields
    split_ifs with hc
    · subst hc
      simp [ih]
    · have hlen : ((fields cs).tail).length + 1 = (fields cs).length := by
        rw [← fields_cons_headD_tail cs]
        simp
      rw [List.length_cons, hlen, ih, List.count_cons_of_ne (fun hh => hc hh.symm)]

theorem fields_mem_no_comma (l : List Char) : ∀ t ∈ fields l, ',' ∉ t := by
  induction l with
  | nil => simp [fields]
  | cons c cs ih =>
    unfold fields
    split_ifs with hc
    · intro t ht
      rcases List.mem_cons.mp ht with rfl | ht
      · simp
      · exact ih t ht
    · intro t ht
      rcases List.mem_cons.mp ht with rfl | ht
      · simp only [List.mem_cons, not_or]
        refine ⟨fun hh => hc hh.symm, ?_⟩
        apply ih
        rw [← fields_cons_headD_tail cs]
        exact List.mem_cons_self _ _
      · apply ih
        exact List.mem_of_mem_tail ht

theorem intercalate_cons_cons (sep x y : List Char) (ys : List (List Char)) :
    sep.intercalate (x :: y :: ys) = x ++ sep ++ sep.intercalate (y :: ys) := by
  simp [List.intercalate]

theorem intercalate_singleton (sep x : List Char) : sep.intercalate [x] = x := by
  simp [List.intercalate]

theorem fields_intercalate (l : List Char) : [','].intercalate (fields l) = l := by
  induction l with
  | nil => simp [fields, List.intercalate]
  | cons c cs ih =>
    unfold fields
    split_ifs with hc
    · subst hc
      rw [← fields_cons_headD_tail cs, intercalate_cons_cons, fields_cons_headD_tail cs, ih]
      rfl
    · rw [← fields_cons_headD_tail cs] at ih
      cases hfs : (fields cs).tail with
      | nil =>
        rw [hfs, intercalate_singleton] at ih
        rw [intercalate_singleton, ih]
      | cons y ys =>
        rw [hfs, intercalate_cons_cons] at ih
        rw [intercalate_cons_cons, List.cons_append, List.cons_append, ih]

theorem fields_append_trailing (l : List Char) : fields (l ++ [',']) = fields l ++ [[]] := by
  induction l with
  | nil => simp [fields]
  | cons c cs ih =>
    rw [List.cons_append, fields, fields, ih]
    split_ifs with hc
    · rfl
    · have h := fields_cons_headD_tail cs
      cases hf : fields cs with
      | nil => exact absurd hf (fields_ne_nil cs)
      | cons f fs => simp

/-- The split loop on a stream in good state ends with `failbit` set, and the
tokens, completed by the check for the trailing comma, are the fields of the text. -/
theorem split_loop_spec (fuel : ℕ) (buf cell : List Char) (acc : List (List Char))
    (hfuel : buf.length + 2 ≤ fuel) :
    ∃ s cell1 result, split_loop fuel ⟨buf, false, false⟩ cell acc = some (s, cell1, result) ∧
      s.failbit = true ∧
      (if cell1.isEmpty then result ++ [[]] else result) = acc ++ fields buf := by
  induction fuel generalizing buf cell acc with
  | zero => omega
  | succ fuel ih =>
    unfold split_loop
    simp only [getline, IStream.good, Bool.not_false, Bool.and_self, if_true]
    rcases hx : extractUntil ',' buf with ⟨pre, _ | rest⟩
    · obtain ⟨hbuf, hpre⟩ := extractUntil_none _ _ _ hx
      subst hbuf
      cases buf with
      | nil =>
        refine ⟨_, _, _, rfl, rfl, ?_⟩
        simp [fields]
      | cons c cs =>
        simp only [List.isEmpty_cons, Bool.false_eq_true, if_false]
        obtain ⟨fuel, rfl⟩ : ∃ k, fuel = k + 1 := ⟨fuel - 1, by simp at hfuel; omega⟩
        unfold split_loop
        simp only [getline, IStream.good, Bool.not_true, Bool.false_and, Bool.false_eq_true,
          if_false, if_true]
        refine ⟨_, _, _, rfl, rfl, ?_⟩
        simp [fields_no_comma _ hpre]
    · obtain ⟨hbuf, hpre⟩ := extractUntil_some _ _ _ _ hx
      subst hbuf
      simp only [Bool.false_eq_true, if_false]
      obtain ⟨s, cell1, result, h1, h2, h3⟩ := ih rest pre (acc ++ [pre])
        (by simp at hfuel; omega)
      refine ⟨s, cell1, result, h1, h2, ?_⟩
      rw [h3, fields_append_comma _ _ hpre]
      simp

theorem split_line_eq (line : List Char) : split_line line = some (fields line) := by
  obtain ⟨s, cell1, result, h1, h2, h3⟩ :=
    split_loop_spec (line.length + 2) line [] [] (Nat.le_refl _)
  unfold split_line IStream.ofList
  rw [h1]
  simp only [h2, Bool.true_and]
  rw [h3]
  rfl

/-- On a stream in good state the call returns the fields of the next line. -/
theorem getNextLineAndSplitIntoTokens_eq (str : IStream) :
    getNextLineAndSplitIntoTokens str =
      some (fields (getline str [] '\n').2, (getline str [] '\n').1) := by
  unfold getNextLineAndSplitIntoTokens
  simp only [split_line_eq, Option.map_some']

theorem getline_line (str : IStream) (line rest : List Char) (hgood : str.good = true)
    (hline : '\n' ∉ line) (hbuf : str.buf = line ++ '\n' :: rest) :
    getline str [] '\n' = (⟨rest, false, false⟩, line) := by
  unfold getline
  rw [if_pos hgood, hbuf, extractUntil_append _ _ _ hline]

theorem getline_last (str : IStream) (line : List Char) (hgood : str.good = true)
    (hline : '\n' ∉ line) (hbuf : str.buf = line) :
    getline str [] '\n' = (⟨[], true, line.isEmpty⟩, line) := by
  unfold getline
  rw [if_pos hgood, hbuf, extractUntil_all _ _ hline]

/-- C20: `getNextLineAndSplitIntoTokens` returns exactly the comma-separated fields
of the next line.  For a stream in good state whose next line is `line` (ended by a
newline or by the end of the input), the call returns tokens such that: a line with
`k` commas gives `k + 1` tokens, no token contains a comma, joining the tokens with
`','` gives back the line, a trailing comma adds a final empty token, and the empty
line yields one empty token. -/
theorem getNextLineAndSplitIntoTokens_fields (str : IStream) (line rest : List Char)
    (hgood : str.good = true) (hline : '\n' ∉ line)
    (hbuf : str.buf = line ∨ str.buf = line ++ '\n' :: rest) :
    ∃ tokens str1, getNextLineAndSplitIntoTokens str = some (tokens, str1) ∧
      tokens = fields line ∧
      tokens.length = line.count ',' + 1 ∧
      (∀ t ∈ tokens, ',' ∉ t) ∧
      [','].intercalate tokens = line ∧
      (∀ l, line = l ++ [','] → tokens.getLast? = some []) ∧
      (line = [] → tokens = [[]]) := by
  have hget : (getline str [] '\n').2 = line := by
    rcases hbuf with hb | hb
    · rw [getline_last str line hgood hline hb]
    · rw [getline_line str line rest hgood hline hb]
  refine ⟨fields line, (getline str [] '\n').1, ?_, rfl, fields_length line,
    fields_mem_no_comma line, fields_intercalate line, ?_, ?_⟩
  · rw [getNextLineAndSplitIntoTokens_eq, hget]
  · intro l hl
    rw [hl, fields_append_trailing]
    simp
  · intro hl
    rw [hl]
    rfl

theorem getNextLineAndSplitIntoTokens_fields_witness :
    ((IStream.ofList ['a', ',', 'b', ',', '\n', 'c']).good = true ∧
      '\n' ∉ ['a', ',', 'b', ','] ∧
      ((IStream.ofList ['a', ',', 'b', ',', '\n', 'c']).buf = ['a', ',', 'b', ','] ∨
        (IStream.ofList ['a', ',', 'b', ',', '\n', 'c']).buf =
          ['a', ',', 'b', ','] ++ '\n' :: ['c'])) ∧
    ∃ tokens str1,
      getNextLineAndSplitIntoTokens (IStream.ofList ['a', ',', 'b', ',', '\n', 'c']) =
        some (tokens, str1) ∧
      tokens = [['a'], ['b'], []] ∧ tokens.length = 3 := by
  obtain ⟨tokens, str1, h1, h2, h3, -⟩ :=
    getNextLineAndSplitIntoTokens_fields (IStream.ofList ['a', ',', 'b', ',', '\n', 'c'])
      ['a', ',', 'b', ','] ['c'] rfl (by decide) (Or.inr rfl)
  refine ⟨⟨rfl, by decide, Or.inr rfl⟩, tokens, str1, h1, ?_, ?_⟩
  · rw [h2]
    decide
  · rw [h3]
    decide

/-! ## `load_poses` -/

theorem fields_intercalate_of (toks : List (List Char)) (hne : toks ≠ [])
    (h : ∀ t ∈ toks, ',' ∉ t) : fields ([','].intercalate toks) = toks := by
  induction toks with
  | nil => exact absurd rfl hne
  | cons x xs ih =>
    cases xs with
    | nil =>
      rw [intercalate_singleton]
      exact fields_no_comma x (h x (List.mem_cons_self _ _))
    | cons y ys =>
      rw [intercalate_cons_cons, List.append_assoc, List.singleton_append,
        fields_append_comma _ _ (h x (List.mem_cons_self _ _)),
        ih (List.cons_ne_nil _ _) (fun t ht => h t (List.mem_cons_of_mem _ ht))]

theorem mem_intercalate (c : Char) (sep : List Char) (toks : List (List Char))
    (h : c ∈ sep.intercalate toks) : c ∈ sep ∨ ∃ t ∈ toks, c ∈ t := by
  induction toks with
  | nil => simp [List.intercalate] at h
  | cons x xs ih =>
    cases xs with
    | nil =>
      rw [intercalate_singleton] at h
      exact Or.inr ⟨x, List.mem_cons_self _ _, h⟩
    | cons y ys =>
      rw [intercalate_cons_cons, List.mem_append, List.mem_append] at h
      rcases h with (h | h) | h
      · exact Or.inr ⟨x, List.mem_cons_self _ _, h⟩
      · exact Or.inl h
      · rcases ih h with h | ⟨t, ht, hc⟩
        · exact Or.inl h
        · exact Or.inr ⟨t, List.mem_cons_of_mem _ ht, hc⟩

theorem is_numeric_token_mem (token : List Char) (h : is_numeric_token token = true) (c : Char)
    (hc : c ∈ token) :
    ['-', '.', '0', '1', '2', '3', '4', '5', '6', '7', '8', '9'].contains c = true := by
  unfold is_numeric_token at h
  rw [List.all_eq_true] at h
  exact h c hc

theorem is_numeric_token_no_comma (token : List Char) (h : is_numeric_token token = true) :
    ',' ∉ token := by
  intro hc
  have := is_numeric_token_mem token h ',' hc
  revert this
  decide

theorem is_numeric_token_no_newline (token : List Char) (h : is_numeric_token token = true) :
    '\n' ∉ token := by
  intro hc
  have := is_numeric_token_mem token h '\n' hc
  revert this
  decide

/-- The token loop on numeric cells appends their values to `angles`. -/
theorem parse_cells (stod : List Char → Option ℚ) (cells : List (List Char))
    (h : ∀ c ∈ cells, is_numeric_token c = true ∧ (stod c).isSome = true) (angles : List ℚ)
    (jm : List (List Char)) :
    cells.foldlM (parse_token stod) (angles, jm) =
      some (angles ++ cells.map (fun c => (stod c).getD 0), jm) := by
  induction cells generalizing angles with
  | nil => simp
  | cons c cs ih =>
    obtain ⟨hnum, hsome⟩ := h c (List.mem_cons_self _ _)
    obtain ⟨v, hv⟩ := Option.isSome_iff_exists.mp hsome
    rw [List.foldlM_cons]
    simp only [parse_token, hnum, if_true, hv, Option.map_some', Option.bind_eq_bind,
      Option.some_bind]
    rw [ih (fun c hc => h c (List.mem_cons_of_mem _ hc))]
    simp [hv]

/-- The token loop on a line made of a name and numeric cells. -/
theorem parse_row (stod : List Char → Option ℚ) (name : List Char) (cells : List (List Char))
    (hname : is_numeric_token name = false)
    (h : ∀ c ∈ cells, is_numeric_token c = true ∧ (stod c).isSome = true)
    (jm : List (List Char)) :
    (name :: cells).foldlM (parse_token stod) ([], jm) =
      some (cells.map (fun c => (stod c).getD 0), jm ++ [name]) := by
  rw [List.foldlM_cons]
  simp only [parse_token, hname, Bool.false_eq_true, if_false, Option.bind_eq_bind,
    Option.some_bind]
  rw [parse_cells stod cells h]
  simp

theorem getline_good_snd (str : IStream) (d : Char) (hgood : str.good = true) :
    (getline str [] d).2 = (extractUntil d str.buf).1 := by
  unfold getline
  rw [if_pos hgood]
  rcases extractUntil d str.buf with ⟨cell, _ | rest⟩ <;> rfl

theorem csv_text_length (rows : List (List Char × List (List Char))) (rest : List Char) :
    rows.length ≤ (csv_text rows rest).length := by
  induction rows with
  | nil => simp
  | cons r rs ih =>
    simp only [csv_text, List.length_cons, List.length_append]
    omega

/-- The reading loop on a file of well-formed rows: it gathers the values of every
row, appends the names to `joint_map`, and stops at the line after the rows. -/
theorem read_pose_lines_csv (stod : List Char → Option ℚ)
    (rows : List (List Char × List (List Char))) (rest : List Char)
    (hrows : ∀ r ∈ rows, is_numeric_token r.1 = false ∧ ',' ∉ r.1 ∧ '\n' ∉ r.1 ∧ r.2 ≠ [] ∧
      ∀ c ∈ r.2, is_numeric_token c = true ∧ (stod c).isSome = true)
    (hrest : ',' ∉ (extractUntil '\n' rest).1) (fuel : ℕ) (ja : List (List ℚ))
    (jm : List (List Char)) (hfuel : rows.length + 1 ≤ fuel) :
    ∃ ifs, read_pose_lines stod fuel (IStream.ofList (csv_text rows rest)) ja jm =
      some (ja ++ rows.map (fun r => r.2.map (fun c => (stod c).getD 0)),
        jm ++ rows.map (fun r => r.1), ifs) := by
  induction rows generalizing fuel ja jm with
  | nil =>
    obtain ⟨fuel, rfl⟩ : ∃ k, fuel = k + 1 := ⟨fuel - 1, by simp at hfuel; omega⟩
    unfold read_pose_lines
    rw [getNextLineAndSplitIntoTokens_eq,
      getline_good_snd (IStream.ofList (csv_text [] rest)) '\n' rfl]
    simp only [csv_text, IStream.ofList, fields_no_comma _ hrest, List.length_singleton,
      gt_iff_lt, lt_self_iff_false, if_false, List.map_nil, List.append_nil]
    exact ⟨_, rfl⟩
  | cons r rs ih =>
    obtain ⟨fuel, rfl⟩ : ∃ k, fuel = k + 1 := ⟨fuel - 1, by simp at hfuel; omega⟩
    obtain ⟨hname, hnc, hnn, hne, hcells⟩ := hrows r (List.mem_cons_self _ _)
    have htoks : ∀ t ∈ r.1 :: r.2, ',' ∉ t := by
      intro t ht
      rcases List.mem_cons.mp ht with rfl | ht
      · exact hnc
      · exact is_numeric_token_no_comma t (hcells t ht).1
    have hline : '\n' ∉ [','].intercalate (r.1 :: r.2) := by
      intro hmem
      rcases mem_intercalate _ _ _ hmem with h | ⟨t, ht, hc⟩
      · revert h
        decide
      · rcases List.mem_cons.mp ht with rfl | ht
        · exact hnn hc
        · exact is_numeric_token_no_newline t (hcells t ht).1 hc
    have hlen : 1 < (r.1 :: r.2).length := by
      have : r.2.length ≠ 0 := fun h0 => hne (List.length_eq_zero.mp h0)
      simp only [List.length_cons]
      omega
    obtain ⟨ifs, hifs⟩ := ih (fun r' hr' => hrows r' (List.mem_cons_of_mem _ hr')) fuel
      (ja ++ [r.2.map (fun c => (stod c).getD 0)]) (jm ++ [r.1])
      (by simp at hfuel; omega)
    refine ⟨ifs, ?_⟩
    unfold read_pose_lines
    rw [getNextLineAndSplitIntoTokens_eq,
      getline_line (IStream.ofList (csv_text (r :: rs) rest)) _ (csv_text rs rest) rfl hline rfl,
      fields_intercalate_of _ (List.cons_ne_nil _ _) htoks]
    simp only [gt_iff_lt, hlen, if_true, parse_row stod r.1 r.2 hname hcells jm]
    simp only [IStream.ofList] at hifs
    rw [hifs]
    simp

theorem list_get?_of_lt {α : Type} (l : List α) (d : α) (i : ℕ) (h : i < l.length) :
    l.get? i = some (l.getD i d) := by
  rw [List.getD_eq_getElem _ _ h, List.get?_eq_getElem?, List.getElem?_eq_getElem h]

theorem getD_map_of_lt {α β : Type} (f : α → β) (l : List α) (d : α) (e : β) (i : ℕ)
    (h : i < l.length) : (l.map f).getD i e = f (l.getD i d) := by
  rw [List.getD_eq_getElem (l.map f) e (by rw [List.length_map]; exact h),
    List.getD_eq_getElem l d h, List.getElem_map]

/-- The transposing loops fill `poses` with `poses[col][row] = joint_angles[row][col]`. -/
theorem transpose_loops (ja : List (List ℚ)) (P : ℕ)
    (hrow : ∀ row, row < ja.length → P ≤ (ja.getD row []).length) :
    ∃ st, (List.range ja.length).foldlM
        (fun st row => (List.range P).foldlM (transpose_cell ja row) st)
        (MatrixXd.Zero P ja.length, MatrixXd.Zero P ja.length) = some st ∧
      st.1.rows = P ∧ st.1.cols = ja.length ∧
      ∀ row col, row < ja.length → col < P →
        st.1.get col row = (ja.getD row []).getD col 0 := by
  have h := foldlM_range_inv
    (fun st row => (List.range P).foldlM (transpose_cell ja row) st)
    (fun k (st : MatrixXd × MatrixXd) => st.1.rows = P ∧ st.1.cols = ja.length ∧
      st.2.rows = P ∧ st.2.cols = ja.length ∧
      ∀ row col, row < k → col < P → st.1.get col row = (ja.getD row []).getD col 0)
    ja.length (MatrixXd.Zero P ja.length, MatrixXd.Zero P ja.length)
    ⟨rfl, rfl, rfl, rfl, fun row col hr => absurd hr (Nat.not_lt_zero row)⟩ ?_
  · obtain ⟨st, hst, h1, h2, -, -, h5⟩ := h
    exact ⟨st, hst, h1, h2, h5⟩
  · intro k st hk ⟨h1, h2, h3, h4, h5⟩
    have hin := foldlM_range_inv (transpose_cell ja k)
      (fun c (st : MatrixXd × MatrixXd) => st.1.rows = P ∧ st.1.cols = ja.length ∧
        st.2.rows = P ∧ st.2.cols = ja.length ∧
        (∀ row col, row < k → col < P → st.1.get col row = (ja.getD row []).getD col 0) ∧
        ∀ col, col < c → st.1.get col k = (ja.getD k []).getD col 0)
      P st ⟨h1, h2, h3, h4, h5, fun col hc => absurd hc (Nat.not_lt_zero col)⟩ ?_
    · obtain ⟨st1, hst1, g1, g2, g3, g4, g5, g6⟩ := hin
      refine ⟨st1, hst1, g1, g2, g3, g4, ?_⟩
      intro row col hr hc
      rcases Nat.lt_succ_iff_lt_or_eq.mp hr with hlt | heq
      · exact g5 row col hlt hc
      · subst heq
        exact g6 col hc
    · intro c st1 hc ⟨g1, g2, g3, g4, g5, g6⟩
      have hlen : c < (ja.getD k []).length := Nat.lt_of_lt_of_le hc (hrow k hk)
      obtain ⟨A, hA, hAr, hAc, hAget⟩ := st1.1.set?_some ((ja.getD k []).getD c 0)
        (show c < st1.1.rows by omega) (show k < st1.1.cols by omega)
      obtain ⟨B, hB, hBr, hBc, -⟩ := st1.2.set?_some ((ja.getD k []).getD c 0)
        (show c < st1.2.rows by omega) (show k < st1.2.cols by omega)
      refine ⟨(A, B), ?_, by simp only; omega, by simp only; omega, by simp only; omega,
        by simp only; omega, ?_, ?_⟩
      · simp only [transpose_cell, list_get?_of_lt ja [] k hk,
          list_get?_of_lt (ja.getD k []) 0 c hlen, hA, hB, Option.bind_eq_bind,
          Option.some_bind, Option.pure_def]
      · intro row col hr hcol
        simp only
        rw [hAget, if_neg (by omega)]
        exact g5 row col hr hcol
      · intro col hcol
        simp only
        rw [hAget]
        rcases Nat.lt_succ_iff_lt_or_eq.mp hcol with hlt | heq
        · rw [if_neg (by omega)]
          exact g6 col hlt
        · subst heq
          rw [if_pos ⟨rfl, rfl⟩]

/-- The final copy loops reproduce `poses` in `poses_m`. -/
theorem copy_loops (poses : MatrixXd) :
    ∃ pm, (List.range poses.rows).foldlM
        (fun pm i => (List.range poses.cols).foldlM (copy_cell poses i) pm)
        (MatrixXd.Zero poses.rows poses.cols) = some pm ∧
      pm.rows = poses.rows ∧ pm.cols = poses.cols ∧
      ∀ i j, i < poses.rows → j < poses.cols → pm.get i j = poses.get i j := by
  have h := foldlM_range_inv
    (fun pm i => (List.range poses.cols).foldlM (copy_cell poses i) pm)
    (fun k (pm : MatrixXd) => pm.rows = poses.rows ∧ pm.cols = poses.cols ∧
      ∀ i j, i < k → j < poses.cols → pm.get i j = poses.get i j)
    poses.rows (MatrixXd.Zero poses.rows poses.cols)
    ⟨rfl, rfl, fun i j hi => absurd hi (Nat.not_lt_zero i)⟩ ?_
  · exact h
  · intro k pm hk ⟨h1, h2, h3⟩
    have hin := foldlM_range_inv (copy_cell poses k)
      (fun c (pm : MatrixXd) => pm.rows = poses.rows ∧ pm.cols = poses.cols ∧
        (∀ i j, i < k → j < poses.cols → pm.get i j = poses.get i j) ∧
        ∀ j, j < c → pm.get k j = poses.get k j)
      poses.cols pm ⟨h1, h2, h3, fun j hj => absurd hj (Nat.not_lt_zero j)⟩ ?_
    · obtain ⟨pm1, hpm1, g1, g2, g3, g4⟩ := hin
      refine ⟨pm1, hpm1, g1, g2, ?_⟩
      intro i j hi hj
      rcases Nat.lt_succ_iff_lt_or_eq.mp hi with hlt | heq
      · exact g3 i j hlt hj
      · subst heq
        exact g4 j hj
    · intro c pm1 hc ⟨g1, g2, g3, g4⟩
      obtain ⟨A, hA, hAr, hAc, hAget⟩ := pm1.set?_some (poses.get k c)
        (show k < pm1.rows by omega) (show c < pm1.cols by omega)
      refine ⟨A, ?_, by omega, by omega, ?_, ?_⟩
      · simp only [copy_cell, poses.get?_eq_some hk hc, hA, Option.bind_eq_bind,
          Option.some_bind]
      · intro i j hi hj
        rw [hAget, if_neg (by omega)]
        exact g3 i j hi hj
      · intro j hj
        rw [hAget]
        rcases Nat.lt_succ_iff_lt_or_eq.mp hj with hlt | heq
        · rw [if_neg (by omega)]
          exact g4 j hlt
        · subst heq
          rw [if_pos ⟨rfl, rfl⟩]

/-- C11: `load_poses` turns the per-joint rows of the CSV into per-pose rows.  For a
file whose `L ≥ 1` leading lines each hold one joint name followed by `P ≥ 1` numeric
cells, and whose next line has at most one token, the call returns true,
`joint_map` receives the `L` names in line order, and `poses_m` is the `P × L` matrix
in which `poses_m(p, l)` is the value `stod` gives for cell `p` of line `l`. -/
theorem load_poses_transposes (stod : List Char → Option ℚ)
    (rows : List (List Char × List (List Char))) (rest : List Char) (P : ℕ)
    (poses_m0 : MatrixXd) (joint_map0 : List (List Char)) (hL : rows ≠ []) (hP : 0 < P)
    (hrows : ∀ r ∈ rows, is_numeric_token r.1 = false ∧ ',' ∉ r.1 ∧ '\n' ∉ r.1 ∧
      r.2.length = P ∧ ∀ c ∈ r.2, is_numeric_token c = true ∧ (stod c).isSome = true)
    (hrest : ',' ∉ (extractUntil '\n' rest).1) :
    ∃ poses_m, load_poses stod (some (csv_text rows rest)) poses_m0 joint_map0 =
        some (true, poses_m, joint_map0 ++ rows.map (fun r => r.1)) ∧
      poses_m.rows = P ∧ poses_m.cols = rows.length ∧
      ∀ p l, p < P → l < rows.length →
        stod (((rows.getD l ([], [])).2).getD p []) = some (poses_m.get p l) := by
  have hrows' : ∀ r ∈ rows, is_numeric_token r.1 = false ∧ ',' ∉ r.1 ∧ '\n' ∉ r.1 ∧
      r.2 ≠ [] ∧ ∀ c ∈ r.2, is_numeric_token c = true ∧ (stod c).isSome = true := by
    intro r hr
    obtain ⟨h1, h2, h3, h4, h5⟩ := hrows r hr
    refine ⟨h1, h2, h3, ?_, h5⟩
    intro h0
    rw [h0] at h4
    simp at h4
    omega
  obtain ⟨ifs, hread⟩ := read_pose_lines_csv stod rows rest hrows' hrest
    ((csv_text rows rest).length + 1) [] joint_map0
    (Nat.succ_le_succ (csv_text_length rows rest))
  rw [List.nil_append] at hread
  obtain ⟨r0, rs, hrs⟩ : ∃ r0 rs, rows = r0 :: rs := by
    cases rows with
    | nil => exact absurd rfl hL
    | cons r0 rs => exact ⟨r0, rs, rfl⟩
  have hjalen : (rows.map (fun r => r.2.map (fun c => (stod c).getD 0))).length = rows.length :=
    List.length_map _ _
  have hfirst : (rows.map (fun r => r.2.map (fun c => (stod c).getD 0))).get? 0 =
      some (r0.2.map (fun c => (stod c).getD 0)) := by
    rw [hrs]
    rfl
  have hfl : (r0.2.map (fun c => (stod c).getD 0)).length = P := by
    rw [List.length_map]
    exact (hrows r0 (by rw [hrs]; exact List.mem_cons_self _ _)).2.2.2.1
  have hgetD : ∀ l, l < rows.length →
      (rows.map (fun r => r.2.map (fun c => (stod c).getD 0))).getD l [] =
        (rows.getD l ([], [])).2.map (fun c => (stod c).getD 0) := by
    intro l hl
    rw [List.getD_eq_getElem _ _ (by rw [hjalen]; exact hl), List.getD_eq_getElem _ _ hl,
      List.getElem_map]
  have hmem : ∀ l, l < rows.length → rows.getD l ([], []) ∈ rows := by
    intro l hl
    rw [List.getD_eq_getElem _ _ hl]
    exact List.getElem_mem _
  obtain ⟨st, hst, hstr, hstc, hstget⟩ :=
    transpose_loops (rows.map (fun r => r.2.map (fun c => (stod c).getD 0))) P (by
      intro row hrow
      rw [hjalen] at hrow
      rw [hgetD row hrow, List.length_map, (hrows _ (hmem row hrow)).2.2.2.1])
  obtain ⟨pm, hpm, hpmr, hpmc, hpmget⟩ := copy_loops st.1
  refine ⟨pm, ?_, by omega, by omega, ?_⟩
  · have hne : ¬ st.1.rows = 0 := by omega
    simp only [load_poses, hread, hfirst, hfl, Option.bind_eq_bind, Option.some_bind, hst, hne,
      if_false, hpm, Option.pure_def]
  · intro p l hp hl
    have hlen := (hrows _ (hmem l hl)).2.2.2.1
    have hcell : ((rows.getD l ([], [])).2).getD p [] ∈ (rows.getD l ([], [])).2 := by
      rw [List.getD_eq_getElem (rows.getD l ([], [])).2 [] (show p < _ by omega)]
      exact List.getElem_mem _
    have hsome := ((hrows _ (hmem l hl)).2.2.2.2 _ hcell).2
    obtain ⟨v, hv⟩ := Option.isSome_iff_exists.mp hsome
    rw [hpmget p l (by omega) (by omega), hstget l p (by omega) hp, hgetD l hl,
      getD_map_of_lt (fun c => (stod c).getD 0) _ [] 0 p (by omega), hv]
    rfl

theorem load_poses_transposes_witness :
    (sample_rows ≠ [] ∧ 0 < 2 ∧
      (∀ r ∈ sample_rows, is_numeric_token r.1 = false ∧ ',' ∉ r.1 ∧ '\n' ∉ r.1 ∧
        r.2.length = 2 ∧ ∀ c ∈ r.2, is_numeric_token c = true ∧ (sample_stod c).isSome = true) ∧
      ',' ∉ (extractUntil '\n' ['e', 'n', 'd']).1) ∧
    ∃ poses_m, load_poses sample_stod (some (csv_text sample_rows ['e', 'n', 'd']))
        (MatrixXd.Zero 0 0) [] = some (true, poses_m, [['a'], ['b']]) ∧
      poses_m.rows = 2 ∧ poses_m.cols = 2 ∧
      poses_m.get 0 0 = 1 ∧ poses_m.get 1 0 = 1 / 2 ∧
      poses_m.get 0 1 = -2 ∧ poses_m.get 1 1 = 1 := by
  have hrows : ∀ r ∈ sample_rows, is_numeric_token r.1 = false ∧ ',' ∉ r.1 ∧ '\n' ∉ r.1 ∧
      r.2.length = 2 ∧ ∀ c ∈ r.2, is_numeric_token c = true ∧ (sample_stod c).isSome = true := by
    decide
  have hrest : ',' ∉ (extractUntil '\n' ['e', 'n', 'd']).1 := by decide
  obtain ⟨poses_m, h1, h2, h3, h4⟩ := load_poses_transposes sample_stod sample_rows
    ['e', 'n', 'd'] 2 (MatrixXd.Zero 0 0) [] (by decide) (by decide) hrows hrest
  refine ⟨⟨by decide, by decide, hrows, hrest⟩, poses_m, h1, h2, h3, ?_, ?_, ?_, ?_⟩
  · have := h4 0 0 (by decide) (by decide)
    exact (Option.some.inj this).symm
  · have := h4 1 0 (by decide) (by decide)
    exact (Option.some.inj this).symm
  · have := h4 0 1 (by decide) (by decide)
    exact (Option.some.inj this).symm
  · have := h4 1 1 (by decide) (by decide)
    exact (Option.some.inj this).symm

/-! ## The range table of the glove -/

theorem Widens.refl (R : MatrixXd) : Widens R R :=
  ⟨rfl, rfl, fun _ _ => ⟨le_refl _, le_refl _⟩⟩

theorem Widens.trans {R0 R1 R2 : MatrixXd} (h01 : Widens R0 R1) (h12 : Widens R1 R2) :
    Widens R0 R2 :=
  ⟨h12.1.trans h01.1, h12.2.1.trans h01.2.1, fun i hi =>
    ⟨le_trans (h12.2.2 i hi).1 (h01.2.2 i hi).1, le_trans (h01.2.2 i hi).2 (h12.2.2 i hi).2⟩⟩

theorem Within.widen {R0 R1 : MatrixXd} {g : ℕ → ℚ} (h : Within R0 g) (hw : Widens R0 R1) :
    Within R1 g := fun i hi =>
  ⟨le_trans (hw.2.2 i hi).1 (h i hi).1, le_trans (h i hi).2 (hw.2.2 i hi).2⟩

/-- One sensor step of `get_glove_ranges`: the minimum and the maximum of sensor `i`
take the reading in, every other row is untouched. -/
theorem range_step_spec (g : ℕ → ℚ) (R : MatrixXd) (i : ℕ) (hi : i < R.rows)
    (hc : 2 ≤ R.cols) :
    ∃ R1, range_step g R i = some R1 ∧ R1.rows = R.rows ∧ R1.cols = R.cols ∧
      R1.get i 0 = min (R.get i 0) (g i) ∧ R1.get i 1 = max (R.get i 1) (g i) ∧
      ∀ a b, a ≠ i → R1.get a b = R.get a b := by
  have h0 : 0 < R.cols := by omega
  have h1 : 1 < R.cols := by omega
  obtain ⟨A, hA, hAr, hAc, hAget⟩ :
      ∃ A, (if g i < R.get i 0 then R.set? i 0 (g i) else pure R) = some A ∧
        A.rows = R.rows ∧ A.cols = R.cols ∧
        ∀ a b, A.get a b = if a = i ∧ b = 0 then min (R.get i 0) (g i) else R.get a b := by
    by_cases hlt : g i < R.get i 0
    · obtain ⟨A, hA, hAr, hAc, hAget⟩ := R.set?_some (g i) hi h0
      refine ⟨A, by rw [if_pos hlt]; exact hA, hAr, hAc, ?_⟩
      intro a b
      rw [hAget, min_eq_right (le_of_lt hlt)]
    · refine ⟨R, by rw [if_neg hlt]; rfl, rfl, rfl, ?_⟩
      intro a b
      split_ifs with hab
      · rw [hab.1, hab.2, min_eq_left (not_lt.mp hlt)]
      · rfl
  obtain ⟨B, hB, hBr, hBc, hBget⟩ :
      ∃ B, (if g i > A.get i 1 then A.set? i 1 (g i) else pure A) = some B ∧
        B.rows = A.rows ∧ B.cols = A.cols ∧
        ∀ a b, B.get a b = if a = i ∧ b = 1 then max (A.get i 1) (g i) else A.get a b := by
    by_cases hgt : g i > A.get i 1
    · obtain ⟨B, hB, hBr, hBc, hBget⟩ := A.set?_some (g i) (show i < A.rows by omega)
        (show 1 < A.cols by omega)
      refine ⟨B, by rw [if_pos hgt]; exact hB, hBr, hBc, ?_⟩
      intro a b
      rw [hBget, max_eq_right (le_of_lt hgt)]
    · refine ⟨A, by rw [if_neg hgt]; rfl, rfl, rfl, ?_⟩
      intro a b
      split_ifs with hab
      · rw [hab.1, hab.2, max_eq_left (not_lt.mp hgt)]
      · rfl
  refine ⟨B, ?_, by omega, by omega, ?_, ?_, ?_⟩
  · simp only [range_step, R.get?_eq_some hi h0, Option.bind_eq_bind, Option.some_bind]
    by_cases hlt : g i < R.get i 0
    · rw [if_pos hlt] at hA ⊢
      rw [hA]
      simp only [Option.some_bind,
        A.get?_eq_some (show i < A.rows by omega) (show 1 < A.cols by omega)]
      exact hB
    · rw [if_neg hlt] at hA ⊢
      rw [hA]
      simp only [Option.some_bind,
        A.get?_eq_some (show i < A.rows by omega) (show 1 < A.cols by omega)]
      exact hB
  · rw [hBget, if_neg (by omega), hAget, if_pos ⟨rfl, rfl⟩]
  · rw [hBget, if_pos ⟨rfl, rfl⟩, hAget, if_neg (by omega)]
  · intro a b hab
    rw [hBget, if_neg (fun hh => hab hh.1), hAget, if_neg (fun hh => hab hh.1)]

/-- One reading in `get_glove_ranges`: every sensor takes its value in. -/
theorem range_sample_spec (g : ℕ → ℚ) (R : MatrixXd) (hr : kNumGloveSensors ≤ R.rows)
    (hc : 2 ≤ R.cols) :
    ∃ R1, range_sample R g = some R1 ∧ R1.rows = R.rows ∧ R1.cols = R.cols ∧
      ∀ i, i < kNumGloveSensors →
        R1.get i 0 = min (R.get i 0) (g i) ∧ R1.get i 1 = max (R.get i 1) (g i) := by
  have h := foldlM_range_inv (range_step g)
    (fun k (M : MatrixXd) => M.rows = R.rows ∧ M.cols = R.cols ∧
      (∀ i, i < k → M.get i 0 = min (R.get i 0) (g i) ∧ M.get i 1 = max (R.get i 1) (g i)) ∧
      ∀ i b, k ≤ i → M.get i b = R.get i b)
    kNumGloveSensors R
    ⟨rfl, rfl, fun i hi => absurd hi (Nat.not_lt_zero i), fun _ _ _ => rfl⟩ ?_
  · obtain ⟨R1, hR1, h1, h2, h3, -⟩ := h
    exact ⟨R1, hR1, h1, h2, h3⟩
  · intro k M hk ⟨h1, h2, h3, h4⟩
    obtain ⟨M1, hM1, g1, g2, g3, g4, g5⟩ := range_step_spec g M k (by omega) (by omega)
    refine ⟨M1, hM1, by omega, by omega, ?_, ?_⟩
    · intro i hi
      rcases Nat.lt_succ_iff_lt_or_eq.mp hi with hlt | heq
      · rw [g5 i 0 (by omega), g5 i 1 (by omega)]
        exact h3 i hlt
      · subst heq
        rw [g3, g4, h4 i 0 (le_refl _), h4 i 1 (le_refl _)]
        exact ⟨rfl, rfl⟩
    · intro i b hi
      rw [g5 i b (by omega)]
      exact h4 i b (by omega)

theorem foldl_min_le (l : List ℚ) (a : ℚ) :
    l.foldl min a ≤ a ∧ ∀ x ∈ l, l.foldl min a ≤ x := by
  induction l generalizing a with
  | nil => simp
  | cons y ys ih =>
    simp only [List.foldl_cons, List.mem_cons, forall_eq_or_imp]
    obtain ⟨h1, h2⟩ := ih (min a y)
    exact ⟨le_trans h1 (min_le_left _ _), le_trans h1 (min_le_right _ _), h2⟩

theorem le_foldl_max (l : List ℚ) (a : ℚ) :
    a ≤ l.foldl max a ∧ ∀ x ∈ l, x ≤ l.foldl max a := by
  induction l generalizing a with
  | nil => simp
  | cons y ys ih =>
    simp only [List.foldl_cons, List.mem_cons, forall_eq_or_imp]
    obtain ⟨h1, h2⟩ := ih (max a y)
    exact ⟨le_trans (le_max_left _ _) h1, le_trans (le_max_right _ _) h1, h2⟩

/-- The capture loop of `get_glove_ranges` from any table of sufficient size. -/
theorem range_samples_spec (samples : List (ℕ → ℚ)) (R : MatrixXd)
    (hr : kNumGloveSensors ≤ R.rows) (hc : 2 ≤ R.cols) :
    ∃ R1, samples.foldlM range_sample R = some R1 ∧ R1.rows = R.rows ∧ R1.cols = R.cols ∧
      ∀ i, i < kNumGloveSensors →
        R1.get i 0 = (samples.map (fun s => s i)).foldl min (R.get i 0) ∧
        R1.get i 1 = (samples.map (fun s => s i)).foldl max (R.get i 1) := by
  induction samples generalizing R with
  | nil => exact ⟨R, rfl, rfl, rfl, fun i _ => ⟨rfl, rfl⟩⟩
  | cons g gs ih =>
    obtain ⟨R1, hR1, h1, h2, h3⟩ := range_sample_spec g R hr hc
    obtain ⟨R2, hR2, g1, g2, g3⟩ := ih R1 (by omega) (by omega)
    refine ⟨R2, ?_, by omega, by omega, ?_⟩
    · rw [List.foldlM_cons, hR1]
      exact hR2
    · intro i hi
      rw [(g3 i hi).1, (g3 i hi).2, (h3 i hi).1, (h3 i hi).2]
      exact ⟨rfl, rfl⟩

/-- The table before the capture loop: minimum 1000 and maximum -1000 everywhere. -/
theorem get_glove_ranges_init :
    ∃ R0, ((MatrixXd.Zero kNumGloveSensors 2).setCol? 0
        (MatrixXd.Constant (MatrixXd.Zero kNumGloveSensors 2).rows 1 1000)).bind
        (fun R => R.setCol? 1 (MatrixXd.Constant R.rows 1 (-1000))) = some R0 ∧
      R0.rows = kNumGloveSensors ∧ R0.cols = 2 ∧
      ∀ i, i < kNumGloveSensors → R0.get i 0 = 1000 ∧ R0.get i 1 = -1000 := by
  obtain ⟨A, hA, hAr, hAc, hAget⟩ := (MatrixXd.Zero kNumGloveSensors 2).setCol?_some
    (MatrixXd.Constant (MatrixXd.Zero kNumGloveSensors 2).rows 1 1000)
    (show 0 < 2 by omega) rfl rfl
  obtain ⟨B, hB, hBr, hBc, hBget⟩ := A.setCol?_some (MatrixXd.Constant A.rows 1 (-1000))
    (show 1 < A.cols by rw [hAc]; exact Nat.one_lt_two) rfl rfl
  refine ⟨B, ?_, by rw [hBr, hAr]; rfl, by rw [hBc, hAc]; rfl, ?_⟩
  · rw [hA]
    exact hB
  · intro i hi
    have hiA : i < A.rows := by rw [hAr]; exact hi
    constructor
    · rw [hBget, if_neg (by omega), hAget, if_pos rfl]
      simp [MatrixXd.get, MatrixXd.Constant, MatrixXd.Zero, hi]
    · rw [hBget, if_pos rfl]
      simp [MatrixXd.get, MatrixXd.Constant, hiA]

/-- One sensor step of `capture_glove_data`: the two conditional assignments take the
reading of sensor `i` into its minimum and maximum; every other row is untouched. -/
theorem capture_range_step_spec (glove_raw R : MatrixXd) (i : ℕ) (hgi : i < glove_raw.rows)
    (hgc : 0 < glove_raw.cols) (hi : i < R.rows) (hc : 2 ≤ R.cols) :
    ∃ R1, capture_range_step glove_raw R i = some R1 ∧ R1.rows = R.rows ∧ R1.cols = R.cols ∧
      R1.get i 0 = min (R.get i 0) (glove_raw.get i 0) ∧
      R1.get i 1 = max (R.get i 1) (glove_raw.get i 0) ∧
      ∀ a b, a ≠ i → R1.get a b = R.get a b := by
  have h0 : 0 < R.cols := by omega
  obtain ⟨A, hA, hAr, hAc, hAget⟩ := R.set?_some
    (if glove_raw.get i 0 < R.get i 0 then glove_raw.get i 0 else R.get i 0) hi h0
  obtain ⟨B, hB, hBr, hBc, hBget⟩ := A.set?_some
    (if glove_raw.get i 0 > A.get i 1 then glove_raw.get i 0 else A.get i 1)
    (show i < A.rows by omega) (show 1 < A.cols by omega)
  have hA1 : A.get i 1 = R.get i 1 := by rw [hAget, if_neg (by omega)]
  refine ⟨B, ?_, by omega, by omega, ?_, ?_, ?_⟩
  · simp only [capture_range_step, glove_raw.get?_eq_some hgi hgc, R.get?_eq_some hi h0,
      Option.bind_eq_bind, Option.some_bind, hA,
      A.get?_eq_some (show i < A.rows by omega) (show 1 < A.cols by omega)]
    exact hB
  · rw [hBget, if_neg (by omega), hAget, if_pos ⟨rfl, rfl⟩]
    split_ifs with hlt
    · rw [min_eq_right (le_of_lt hlt)]
    · rw [min_eq_left (not_lt.mp hlt)]
  · rw [hBget, if_pos ⟨rfl, rfl⟩, hA1]
    split_ifs with hgt
    · rw [max_eq_right (le_of_lt hgt)]
    · rw [max_eq_left (not_lt.mp hgt)]
  · intro a b hab
    rw [hBget, if_neg (fun hh => hab hh.1), hAget, if_neg (fun hh => hab hh.1)]

/-- The range update for one reading in `capture_glove_data`. -/
theorem capture_ranges_spec (g : ℕ → ℚ) (R : MatrixXd) (hr : kNumGloveSensors ≤ R.rows)
    (hc : 2 ≤ R.cols) :
    ∃ R1, (List.range (kNumGloveSensors * 1)).foldlM
        (capture_range_step ⟨kNumGloveSensors, 1, fun i _ => g i.val⟩) R = some R1 ∧
      R1.rows = R.rows ∧ R1.cols = R.cols ∧
      ∀ i, i < kNumGloveSensors →
        R1.get i 0 = min (R.get i 0) (g i) ∧ R1.get i 1 = max (R.get i 1) (g i) := by
  have hraw : ∀ i, i < kNumGloveSensors →
      (⟨kNumGloveSensors, 1, fun i _ => g i.val⟩ : MatrixXd).get i 0 = g i := by
    intro i hi
    simp [MatrixXd.get, hi]
  have h := foldlM_range_inv
    (capture_range_step ⟨kNumGloveSensors, 1, fun i _ => g i.val⟩)
    (fun k (M : MatrixXd) => M.rows = R.rows ∧ M.cols = R.cols ∧
      (∀ i, i < k → M.get i 0 = min (R.get i 0) (g i) ∧ M.get i 1 = max (R.get i 1) (g i)) ∧
      ∀ i b, k ≤ i → M.get i b = R.get i b)
    (kNumGloveSensors * 1) R
    ⟨rfl, rfl, fun i hi => absurd hi (Nat.not_lt_zero i), fun _ _ _ => rfl⟩ ?_
  · obtain ⟨R1, hR1, h1, h2, h3, -⟩ := h
    refine ⟨R1, hR1, h1, h2, ?_⟩
    intro i hi
    exact h3 i (by rw [Nat.mul_one]; exact hi)
  · intro k M hk ⟨h1, h2, h3, h4⟩
    have hk' : k < kNumGloveSensors := by rw [Nat.mul_one] at hk; exact hk
    obtain ⟨M1, hM1, g1, g2, g3, g4, g5⟩ := capture_range_step_spec
      ⟨kNumGloveSensors, 1, fun i _ => g i.val⟩ M k hk' Nat.one_pos (by omega) (by omega)
    refine ⟨M1, hM1, by omega, by omega, ?_, ?_⟩
    · intro i hi
      rcases Nat.lt_succ_iff_lt_or_eq.mp hi with hlt | heq
      · rw [g5 i 0 (by omega), g5 i 1 (by omega)]
        exact h3 i hlt
      · subst heq
        rw [g3, g4, h4 i 0 (le_refl _), h4 i 1 (le_refl _), hraw i hk']
        exact ⟨rfl, rfl⟩
    · intro i b hi
      rw [g5 i b (by omega)]
      exact h4 i b (by omega)

/-- One sample of `capture_glove_data`: the three matrices keep their shapes, the
ranges widen and contain the reading of this sample. -/
theorem capture_sample_spec (poses : MatrixXd) (glove : ℕ → ℕ → ℕ → ℚ) (p s : ℕ)
    (st : MatrixXd × MatrixXd × MatrixXd) (hp : p < poses.rows) (hs : s < kNumPoseSamples)
    (h1 : st.1.rows = kNumGloveSensors) (h2 : st.1.cols = kNumPoseSamples * poses.rows)
    (h3 : st.2.1.rows = poses.cols) (h4 : st.2.1.cols = kNumPoseSamples * poses.rows)
    (h5 : kNumGloveSensors ≤ st.2.2.rows) (h6 : 2 ≤ st.2.2.cols) :
    ∃ st1, capture_sample poses glove p st s = some st1 ∧
      st1.1.rows = kNumGloveSensors ∧ st1.1.cols = kNumPoseSamples * poses.rows ∧
      st1.2.1.rows = poses.cols ∧ st1.2.1.cols = kNumPoseSamples * poses.rows ∧
      Widens st.2.2 st1.2.2 ∧ Within st1.2.2 (glove p s) := by
  have hcol : p * kNumPoseSamples + s < kNumPoseSamples * poses.rows := by
    have : (p + 1) * kNumPoseSamples ≤ poses.rows * kNumPoseSamples :=
      Nat.mul_le_mul_right _ hp
    rw [Nat.mul_comm kNumPoseSamples poses.rows]
    rw [Nat.add_mul, Nat.one_mul] at this
    omega
  obtain ⟨r, hr, hrr, hrc, -⟩ := poses.row?_some hp
  obtain ⟨tv, htv, htvr, htvc, -⟩ := st.2.1.setCol?_some r.transpose
    (show p * kNumPoseSamples + s < st.2.1.cols by omega) (show r.transpose.cols = 1 from hrr)
    (show r.transpose.rows = st.2.1.rows by rw [h3]; exact hrc)
  obtain ⟨gs, hgs, hgsr, hgsc, -⟩ := st.1.setCol?_some
    ⟨kNumGloveSensors, 1, fun i _ => glove p s i.val⟩
    (show p * kNumPoseSamples + s < st.1.cols by omega) rfl (show kNumGloveSensors = st.1.rows
      from h1.symm)
  obtain ⟨R1, hR1, hR1r, hR1c, hR1get⟩ := capture_ranges_spec (glove p s) st.2.2 h5 h6
  refine ⟨(gs, tv, R1), ?_, by simp only; omega, by simp only; omega, by simp only; omega,
    by simp only; omega, ⟨hR1r, hR1c, ?_⟩, ?_⟩
  · simp only [capture_sample, hr, htv, hgs, Option.bind_eq_bind, Option.some_bind, hR1,
      Option.pure_def]
  · intro i hi
    rw [(hR1get i hi).1, (hR1get i hi).2]
    exact ⟨min_le_left _ _, le_max_left _ _⟩
  · intro i hi
    simp only
    rw [(hR1get i hi).1, (hR1get i hi).2]
    exact ⟨min_le_right _ _, le_max_right _ _⟩

/-- The whole capture: it returns, the ranges only widen, and every captured reading
lies inside the final ranges. -/
theorem capture_glove_data_widens (poses R : MatrixXd) (glove : ℕ → ℕ → ℕ → ℚ)
    (hr : kNumGloveSensors ≤ R.rows) (hc : 2 ≤ R.cols) :
    ∃ gs R1, capture_glove_data poses R glove = some (gs, R1) ∧
      gs.rows = kNumGloveSensors ∧ gs.cols = kNumPoseSamples * poses.rows ∧
      Widens R R1 ∧
      ∀ p s, p < poses.rows → s < kNumPoseSamples → Within R1 (glove p s) := by
  have h := foldlM_range_inv (capture_pose poses glove)
    (fun k (st : MatrixXd × MatrixXd × MatrixXd) =>
      st.1.rows = kNumGloveSensors ∧ st.1.cols = kNumPoseSamples * poses.rows ∧
      st.2.1.rows = poses.cols ∧ st.2.1.cols = kNumPoseSamples * poses.rows ∧
      Widens R st.2.2 ∧
      ∀ p s, p < k → s < kNumPoseSamples → Within st.2.2 (glove p s))
    poses.rows
    (MatrixXd.Zero kNumGloveSensors (kNumPoseSamples * poses.rows),
      MatrixXd.Zero poses.cols (kNumPoseSamples * poses.rows), R)
    ⟨rfl, rfl, rfl, rfl, Widens.refl R, fun p s hp => absurd hp (Nat.not_lt_zero p)⟩ ?_
  · obtain ⟨st, hst, h1, h2, -, -, h5, h6⟩ := h
    refine ⟨st.1, st.2.2, ?_, h1, h2, h5, h6⟩
    simp only [capture_glove_data, hst, Option.bind_eq_bind, Option.some_bind, Option.pure_def]
  · intro k st hk ⟨h1, h2, h3, h4, h5, h6⟩
    have hin := foldlM_range_inv (capture_sample poses glove k)
      (fun c (st1 : MatrixXd × MatrixXd × MatrixXd) =>
        st1.1.rows = kNumGloveSensors ∧ st1.1.cols = kNumPoseSamples * poses.rows ∧
        st1.2.1.rows = poses.cols ∧ st1.2.1.cols = kNumPoseSamples * poses.rows ∧
        Widens R st1.2.2 ∧
        (∀ p s, p < k → s < kNumPoseSamples → Within st1.2.2 (glove p s)) ∧
        ∀ s, s < c → Within st1.2.2 (glove k s))
      kNumPoseSamples st
      ⟨h1, h2, h3, h4, h5, h6, fun s hs => absurd hs (Nat.not_lt_zero s)⟩ ?_
    · obtain ⟨st1, hst1, g1, g2, g3, g4, g5, g6, g7⟩ := hin
      refine ⟨st1, hst1, g1, g2, g3, g4, g5, ?_⟩
      intro p s hp hs
      rcases Nat.lt_succ_iff_lt_or_eq.mp hp with hlt | heq
      · exact g6 p s hlt hs
      · subst heq
        exact g7 s hs
    · intro c st1 hc' ⟨g1, g2, g3, g4, g5, g6, g7⟩
      obtain ⟨st2, hst2, e1, e2, e3, e4, e5, e6⟩ := capture_sample_spec poses glove k c st1 hk
        hc' g1 g2 g3 g4 (by rw [g5.1]; exact hr) (by rw [g5.2.1]; exact hc)
      refine ⟨st2, hst2, e1, e2, e3, e4, g5.trans e5, ?_, ?_⟩
      · intro p s hp hs
        exact (g6 p s hp hs).widen e5
      · intro s hs
        rcases Nat.lt_succ_iff_lt_or_eq.mp hs with hlt | heq
        · exact (g7 s hlt).widen e5
        · subst heq
          exact e6

/-- C12: the range table captures the minimum and maximum of every sensor.  Starting
from (1000, -1000), after `get_glove_ranges` has processed any sequence of samples,
`ranges(i,0)` is the minimum of 1000 and all samples of sensor `i` and `ranges(i,1)`
the maximum of -1000 and all of them, so every processed sample lies between the two;
the continued update in `capture_glove_data` only widens a range (no minimum
increases, no maximum decreases) and the captured readings lie inside it as well. -/
theorem glove_ranges_capture_min_max (samples : List (ℕ → ℚ)) :
    ∃ R, get_glove_ranges samples = some R ∧ R.rows = kNumGloveSensors ∧ R.cols = 2 ∧
      (∀ i, i < kNumGloveSensors →
        R.get i 0 = (samples.map (fun s => s i)).foldl min 1000 ∧
        R.get i 1 = (samples.map (fun s => s i)).foldl max (-1000) ∧
        ∀ s ∈ samples, R.get i 0 ≤ s i ∧ s i ≤ R.get i 1) ∧
      ∀ (poses : MatrixXd) (glove : ℕ → ℕ → ℕ → ℚ),
        ∃ gs R1, capture_glove_data poses R glove = some (gs, R1) ∧
          R1.rows = R.rows ∧ R1.cols = R.cols ∧
          ∀ i, i < kNumGloveSensors →
            R1.get i 0 ≤ R.get i 0 ∧ R.get i 1 ≤ R1.get i 1 ∧
            (∀ s ∈ samples, R1.get i 0 ≤ s i ∧ s i ≤ R1.get i 1) ∧
            ∀ p s, p < poses.rows → s < kNumPoseSamples →
              R1.get i 0 ≤ glove p s i ∧ glove p s i ≤ R1.get i 1 := by
  obtain ⟨R0, hR0, hR0r, hR0c, hR0get⟩ := get_glove_ranges_init
  obtain ⟨R, hR, hRr, hRc, hRget⟩ := range_samples_spec samples R0 (by omega) (by omega)
  have hin : ∀ i, i < kNumGloveSensors → ∀ s ∈ samples, R.get i 0 ≤ s i ∧ s i ≤ R.get i 1 := by
    intro i hi s hs
    rw [(hRget i hi).1, (hRget i hi).2]
    exact ⟨(foldl_min_le _ _).2 (s i) (List.mem_map_of_mem (fun s => s i) hs),
      (le_foldl_max _ _).2 (s i) (List.mem_map_of_mem (fun s => s i) hs)⟩
  refine ⟨R, ?_, by omega, by omega, ?_, ?_⟩
  · have key : ∀ (x : Option MatrixXd) (f g : MatrixXd → Option MatrixXd),
        x.bind f = some R0 → g R0 = some R → x.bind (fun a => (f a).bind g) = some R := by
      intro x f g h1 h2
      rw [← Option.bind_assoc, h1]
      exact h2
    exact key _ _ (fun a => samples.foldlM range_sample a) hR0 hR
  · intro i hi
    refine ⟨?_, ?_, hin i hi⟩
    · rw [(hRget i hi).1, (hR0get i hi).1]
    · rw [(hRget i hi).2, (hR0get i hi).2]
  · intro poses glove
    obtain ⟨gs, R1, hcap, -, -, hw, hwithin⟩ :=
      capture_glove_data_widens poses R glove (by omega) (by omega)
    refine ⟨gs, R1, hcap, hw.1, hw.2.1, ?_⟩
    intro i hi
    refine ⟨(hw.2.2 i hi).1, (hw.2.2 i hi).2, ?_, ?_⟩
    · intro s hs
      exact ⟨le_trans (hw.2.2 i hi).1 (hin i hi s hs).1,
        le_trans (hin i hi s hs).2 (hw.2.2 i hi).2⟩
    · intro p s hp hs
      exact hwithin p s hp hs i hi

/-! ## The teleoperation program: poses and events -/

theorem foldl_range_two {α : Type} (f : α → ℕ → α) (a : α) :
    (List.range 2).foldl f a = f (f a 0) 1 := rfl

/-- C18: `v_copyPose` does nothing if the pose is not tracked.  When `bPoseIsValid` is
false the arrays `roompos` and `roommat` are returned unchanged; when it is true,
`roompos[i] = m[i][3]` for `i < 3` and `roommat[3*i + j] = m[i][j]` for `i, j < 3`
(the translation column and the row-major 3x3 rotation block of the device matrix),
and no other element of the two arrays is written. -/
theorem v_copyPose_copies_translation_and_rotation (pose : TrackedDevicePose_t)
    (roompos roommat : ℕ → ℚ) :
    (pose.bPoseIsValid = false → v_copyPose pose roompos roommat = (roompos, roommat)) ∧
    (pose.bPoseIsValid = true →
      (∀ i, i < 3 →
        (v_copyPose pose roompos roommat).1 i = pose.mDeviceToAbsoluteTracking.m i 3) ∧
      (∀ i j, i < 3 → j < 3 →
        (v_copyPose pose roompos roommat).2 (3 * i + j) =
          pose.mDeviceToAbsoluteTracking.m i j) ∧
      (∀ k, 3 ≤ k → (v_copyPose pose roompos roommat).1 k = roompos k) ∧
      (∀ k, 9 ≤ k → (v_copyPose pose roompos roommat).2 k = roommat k)) := by
  refine ⟨?_, ?_⟩
  · intro h
    simp [v_copyPose, h]
  · intro h
    refine ⟨?_, ?_, ?_, ?_⟩
    · intro i hi
      interval_cases i <;> simp [v_copyPose, h, Function.update_apply]
    · intro i j hi hj
      interval_cases i <;> interval_cases j <;> simp [v_copyPose, h, Function.update_apply]
    · intro k hk
      have h0 : k ≠ 0 := by omega
      have h1 : k ≠ 1 := by omega
      have h2 : k ≠ 2 := by omega
      simp [v_copyPose, h, Function.update_apply, h0, h1, h2]
    · intro k hk
      have h0 : k ≠ 0 := by omega
      have h1 : k ≠ 1 := by omega
      have h2 : k ≠ 2 := by omega
      have h3 : k ≠ 3 := by omega
      have h4 : k ≠ 4 := by omega
      have h5 : k ≠ 5 := by omega
      have h6 : k ≠ 6 := by omega
      have h7 : k ≠ 7 := by omega
      have h8 : k ≠ 8 := by omega
      simp [v_copyPose, h, Function.update_apply, h0, h1, h2, h3, h4, h5, h6, h7, h8]

/-! ### The button of an event -/

theorem OpenVR.Valid.range {K : OpenVR} (hK : K.Valid) :
    (200 ≤ K.VREvent_ButtonPress ∧ K.VREvent_ButtonPress ≤ 203) ∧
    (200 ≤ K.VREvent_ButtonUnpress ∧ K.VREvent_ButtonUnpress ≤ 203) ∧
    (200 ≤ K.VREvent_ButtonTouch ∧ K.VREvent_ButtonTouch ≤ 203) ∧
    (200 ≤ K.VREvent_ButtonUntouch ∧ K.VREvent_ButtonUntouch ≤ 203) := by
  obtain ⟨-, h, -⟩ := hK
  exact ⟨h _ (by simp), h _ (by simp), h _ (by simp), h _ (by simp)⟩

theorem OpenVR.Valid.events_ne {K : OpenVR} (hK : K.Valid) :
    K.VREvent_ButtonPress ≠ K.VREvent_ButtonUnpress ∧
    K.VREvent_ButtonPress ≠ K.VREvent_ButtonTouch ∧
    K.VREvent_ButtonPress ≠ K.VREvent_ButtonUntouch ∧
    K.VREvent_ButtonUnpress ≠ K.VREvent_ButtonTouch ∧
    K.VREvent_ButtonUnpress ≠ K.VREvent_ButtonUntouch ∧
    K.VREvent_ButtonTouch ≠ K.VREvent_ButtonUntouch := by
  obtain ⟨h, -, -⟩ := hK
  simp only [List.nodup_cons, List.mem_cons, List.mem_singleton, not_or, List.not_mem_nil,
    not_false_eq_true, List.nodup_nil, and_true] at h
  tauto

theorem OpenVR.Valid.buttons_ne {K : OpenVR} (hK : K.Valid) :
    K.k_EButton_ApplicationMenu ≠ K.k_EButton_Grip ∧
    K.k_EButton_ApplicationMenu ≠ K.k_EButton_SteamVR_Trigger ∧
    K.k_EButton_ApplicationMenu ≠ K.k_EButton_SteamVR_Touchpad ∧
    K.k_EButton_Grip ≠ K.k_EButton_SteamVR_Trigger ∧
    K.k_EButton_Grip ≠ K.k_EButton_SteamVR_Touchpad ∧
    K.k_EButton_SteamVR_Trigger ≠ K.k_EButton_SteamVR_Touchpad := by
  obtain ⟨-, -, h⟩ := hK
  simp only [List.nodup_cons, List.mem_cons, List.mem_singleton, not_or, List.not_mem_nil,
    not_false_eq_true, List.nodup_nil, and_true] at h
  tauto

theorem event_button_menu (K : OpenVR) (evt : VREvent_t)
    (h : evt.button = K.k_EButton_ApplicationMenu) : event_button K evt = vBUTTON_MENU := by
  simp [event_button, h]

theorem event_button_side {K : OpenVR} (hK : K.Valid) (evt : VREvent_t)
    (h : evt.button = K.k_EButton_Grip) : event_button K evt = vBUTTON_SIDE := by
  obtain ⟨h1, -⟩ := hK.buttons_ne
  simp [event_button, h, h1.symm]

theorem event_button_trigger {K : OpenVR} (hK : K.Valid) (evt : VREvent_t)
    (h : evt.button = K.k_EButton_SteamVR_Trigger) :
    event_button K evt = vBUTTON_TRIGGER := by
  obtain ⟨-, h2, -, h4, -⟩ := hK.buttons_ne
  simp [event_button, h, h2.symm, h4.symm]

theorem event_button_pad {K : OpenVR} (hK : K.Valid) (evt : VREvent_t)
    (h : evt.button = K.k_EButton_SteamVR_Touchpad) : event_button K evt = vBUTTON_PAD := by
  obtain ⟨-, -, h3, -, h5, h6⟩ := hK.buttons_ne
  simp [event_button, h, h3.symm, h5.symm, h6.symm]

theorem event_button_lt (K : OpenVR) (evt : VREvent_t) : event_button K evt < vNBUTTON := by
  unfold event_button
  split_ifs <;> decide

/-! ### One event -/

theorem process_event_press {K : OpenVR} (hK : K.Valid) (L : Library) (m : mjModel)
    (d : mjData) (g : Globals) (evt : VREvent_t) (n : ℕ)
    (ht : evt.eventType = K.VREvent_ButtonPress) (hn : event_controller g evt = some n) :
    process_event K L m d g evt = button_press L m d g n (event_button K evt) := by
  have hr := hK.range.1
  simp only [process_event, hn, ht, hr.1, hr.2, and_self, if_true]

theorem process_event_unpress {K : OpenVR} (hK : K.Valid) (L : Library) (m : mjModel)
    (d : mjData) (g : Globals) (evt : VREvent_t) (n : ℕ)
    (ht : evt.eventType = K.VREvent_ButtonUnpress) (hn : event_controller g evt = some n) :
    process_event K L m d g evt =
      { g with ctl := (Function.update g.ctl n
          { (g.ctl n) with
            hold := Function.update (g.ctl n).hold (event_button K evt) false }) } := by
  have hr := hK.range.2.1
  have hne := hK.events_ne.1
  simp only [process_event, hn, ht, hr.1, hr.2, and_self, if_true, hne.symm, if_false]

theorem process_event_touch {K : OpenVR} (hK : K.Valid) (L : Library) (m : mjModel)
    (d : mjData) (g : Globals) (evt : VREvent_t) (n : ℕ)
    (ht : evt.eventType = K.VREvent_ButtonTouch) (hn : event_controller g evt = some n) :
    process_event K L m d g evt = button_touch g n (event_button K evt) := by
  have hr := hK.range.2.2.1
  obtain ⟨-, h2, -, h4, -⟩ := hK.events_ne
  simp only [process_event, hn, ht, hr.1, hr.2, and_self, if_true, h2.symm, h4.symm, if_false]

theorem process_event_untouch {K : OpenVR} (hK : K.Valid) (L : Library) (m : mjModel)
    (d : mjData) (g : Globals) (evt : VREvent_t) (n : ℕ)
    (ht : evt.eventType = K.VREvent_ButtonUntouch) (hn : event_controller g evt = some n) :
    process_event K L m d g evt =
      { g with ctl := (Function.update g.ctl n
          { (g.ctl n) with
            touch := Function.update (g.ctl n).touch (event_button K evt) false }) } := by
  have hr := hK.range.2.2.2
  obtain ⟨-, -, h3, -, h5, h6⟩ := hK.events_ne
  simp only [process_event, hn, ht, hr.1, hr.2, and_self, if_true, h3.symm, h5.symm, h6.symm,
    if_false]

theorem button_press_trackMocap (L : Library) (m : mjModel) (d : mjData) (g : Globals)
    (n button : ℕ) :
    (button_press L m d g n button).trackMocap =
      if button = vBUTTON_SIDE then !g.trackMocap
      else if button = vBUTTON_TRIGGER then g.trackMocap else false := by
  unfold button_press
  by_cases h0 : button = vBUTTON_TRIGGER
  · subst h0
    simp [vBUTTON_TRIGGER, vBUTTON_SIDE]
  by_cases h1 : button = vBUTTON_SIDE
  · subst h1
    simp [vBUTTON_TRIGGER, vBUTTON_SIDE, vBUTTON_MENU, vBUTTON_PAD]
  · simp only [h0, h1, if_false, ne_eq, not_false_eq_true, and_self, if_true]
    split_ifs <;> rfl

theorem button_touch_trackMocap (g : Globals) (n button : ℕ) :
    (button_touch g n button).trackMocap = g.trackMocap := rfl

/-- C17: tracking is disabled if a setting changes.  For a button-press event of a
known controller, `trackMocap` becomes false when the button is the menu or the pad
button, is negated when the button is the side button, and is unchanged when the
button is the trigger; unpress, touch and untouch events do not change it. -/
theorem trackMocap_changes_on_press_only (K : OpenVR) (L : Library) (m : mjModel)
    (d : mjData) (g : Globals) (evt : VREvent_t) (n : ℕ) (hK : K.Valid)
    (hn : event_controller g evt = some n) :
    (evt.eventType = K.VREvent_ButtonPress →
      (evt.button = K.k_EButton_ApplicationMenu →
        (process_event K L m d g evt).trackMocap = false) ∧
      (evt.button = K.k_EButton_SteamVR_Touchpad →
        (process_event K L m d g evt).trackMocap = false) ∧
      (evt.button = K.k_EButton_Grip →
        (process_event K L m d g evt).trackMocap = !g.trackMocap) ∧
      (evt.button = K.k_EButton_SteamVR_Trigger →
        (process_event K L m d g evt).trackMocap = g.trackMocap)) ∧
    (evt.eventType = K.VREvent_ButtonUnpress ∨ evt.eventType = K.VREvent_ButtonTouch ∨
        evt.eventType = K.VREvent_ButtonUntouch →
      (process_event K L m d g evt).trackMocap = g.trackMocap) := by
  refine ⟨?_, ?_⟩
  · intro ht
    rw [process_event_press hK L m d g evt n ht hn, button_press_trackMocap]
    refine ⟨?_, ?_, ?_, ?_⟩
    · intro hb
      rw [event_button_menu K evt hb]
      simp [vBUTTON_MENU, vBUTTON_TRIGGER, vBUTTON_SIDE]
    · intro hb
      rw [event_button_pad hK evt hb]
      simp [vBUTTON_PAD, vBUTTON_TRIGGER, vBUTTON_SIDE]
    · intro hb
      rw [event_button_side hK evt hb]
      simp
    · intro hb
      rw [event_button_trigger hK evt hb]
      simp [vBUTTON_TRIGGER, vBUTTON_SIDE]
  · rintro (ht | ht | ht)
    · rw [process_event_unpress hK L m d g evt n ht hn]
    · rw [process_event_touch hK L m d g evt n ht hn]
      rfl
    · rw [process_event_untouch hK L m d g evt n ht hn]
/-! ### What the parts of `v_update` leave unchanged -/

theorem reset_old_pose_foldl (l : List ℕ) (c : vController_t) :
    l.foldl reset_old_pose c =
      { c with
        oldroommat := (l.foldl reset_old_pose c).oldroommat,
        oldroompos := (l.foldl reset_old_pose c).oldroompos } := by
  induction l generalizing c with
  | nil => rfl
  | cons x xs ih =>
    rw [List.foldl_cons, ih]
    rfl

theorem apply_translation_foldl (l : List ℕ) (st : mjvScene × vController_t) :
    (l.foldl apply_translation st).2 =
      { st.2 with oldroompos := (l.foldl apply_translation st).2.oldroompos } := by
  induction l generalizing st with
  | nil => rfl
  | cons x xs ih =>
    rw [List.foldl_cons, ih]
    rfl

/-- The fields of a controller that describe its mode and its poses in the model. -/
theorem update_controller_frame (L : Library) (vr : VRFrame) (g : Globals) (n k : ℕ) :
    ((update_controller L vr g n).ctl k).id = (g.ctl k).id ∧
    ((update_controller L vr g n).ctl k).tool = (g.ctl k).tool ∧
    ((update_controller L vr g n).ctl k).body = (g.ctl k).body ∧
    ((update_controller L vr g n).ctl k).hold = (g.ctl k).hold ∧
    ((update_controller L vr g n).ctl k).touch = (g.ctl k).touch ∧
    ((update_controller L vr g n).ctl k).relpos = (g.ctl k).relpos ∧
    ((update_controller L vr g n).ctl k).relquat = (g.ctl k).relquat := by
  unfold update_controller
  by_cases hid : 0 ≤ (g.ctl n).id
  · rw [if_pos hid]
    by_cases hk : k = n
    · subst hk
      simp only [Function.update_same]
      split_ifs <;> simp
    · simp only [Function.update_noteq hk]
      simp
  · rw [if_neg hid]
    simp

theorem update_poses_frame (L : Library) (vr : VRFrame) (g : Globals) (k : ℕ) :
    ((update_poses L vr g).ctl k).id = (g.ctl k).id ∧
    ((update_poses L vr g).ctl k).tool = (g.ctl k).tool ∧
    ((update_poses L vr g).ctl k).body = (g.ctl k).body ∧
    ((update_poses L vr g).ctl k).hold = (g.ctl k).hold ∧
    ((update_poses L vr g).ctl k).touch = (g.ctl k).touch ∧
    ((update_poses L vr g).ctl k).relpos = (g.ctl k).relpos ∧
    ((update_poses L vr g).ctl k).relquat = (g.ctl k).relquat := by
  unfold update_poses
  simp only [foldl_range_two, update_controller_frame]
  simp

theorem update_controller_trackMocap (L : Library) (vr : VRFrame) (g : Globals) (n : ℕ) :
    (update_controller L vr g n).trackMocap = g.trackMocap := by
  unfold update_controller
  split_ifs <;> rfl

theorem update_poses_trackMocap (L : Library) (vr : VRFrame) (g : Globals) :
    (update_poses L vr g).trackMocap = g.trackMocap := by
  unfold update_poses
  simp only [foldl_range_two, update_controller_trackMocap]

theorem record_relative_pose_frame (L : Library) (m : mjModel) (d : mjData)
    (c : vController_t) :
    record_relative_pose L m d c =
      { c with
        relpos := (record_relative_pose L m d c).relpos,
        relquat := (record_relative_pose L m d c).relquat } := rfl

theorem button_press_shape (L : Library) (m : mjModel) (d : mjData) (g : Globals)
    (n button : ℕ) :
    ∃ c t, button_press L m d g n button =
      { g with ctl := Function.update g.ctl n c, trackMocap := t } := by
  unfold button_press
  dsimp only
  split_ifs <;> exact ⟨_, _, rfl⟩

theorem button_press_ctl_ne (L : Library) (m : mjModel) (d : mjData) (g : Globals)
    (n button k : ℕ) (hk : k ≠ n) : (button_press L m d g n button).ctl k = g.ctl k := by
  obtain ⟨c, t, h⟩ := button_press_shape L m d g n button
  rw [h]
  exact Function.update_noteq hk _ _

theorem button_press_same (L : Library) (m : mjModel) (d : mjData) (g : Globals)
    (n button : ℕ) :
    ((button_press L m d g n button).ctl n).id = (g.ctl n).id ∧
    ((button_press L m d g n button).ctl n).hold = Function.update (g.ctl n).hold button true ∧
    ((button_press L m d g n button).ctl n).touch = (g.ctl n).touch ∧
    ((button_press L m d g n button).ctl n).tool =
      (if button = vBUTTON_MENU then Int.tmod (wrap_int ((g.ctl n).tool + 1)) vNTOOL
        else (g.ctl n).tool) ∧
    ((button_press L m d g n button).ctl n).body =
      (if button = vBUTTON_PAD ∧ (g.ctl n).tool ≠ vTOOL_MOVE then
        (if (g.ctl n).padpos 1 > 0 then mjMAX 0 (wrap_int ((g.ctl n).body - 1))
          else mjMIN (wrap_int (m.nbody - 1)) (wrap_int ((g.ctl n).body + 1)))
        else (g.ctl n).body) ∧
    (button ≠ vBUTTON_TRIGGER →
      ((button_press L m d g n button).ctl n).relpos = (g.ctl n).relpos ∧
      ((button_press L m d g n button).ctl n).relquat = (g.ctl n).relquat) := by
  unfold button_press
  by_cases h0 : button = vBUTTON_TRIGGER
  · subst h0
    simp only [if_true, Function.update_same]
    rw [record_relative_pose_frame, reset_old_pose_foldl]
    simp [vBUTTON_TRIGGER, vBUTTON_MENU, vBUTTON_PAD]
  by_cases h2 : button = vBUTTON_MENU
  · subst h2
    simp [vBUTTON_TRIGGER, vBUTTON_MENU, vBUTTON_PAD]
  by_cases h3 : button = vBUTTON_PAD ∧ (g.ctl n).tool ≠ vTOOL_MOVE
  · obtain ⟨hb, ht⟩ := h3
    subst hb
    simp [vBUTTON_TRIGGER, vBUTTON_MENU, vBUTTON_PAD, ht]
  · simp only [h0, h2, if_false, h3, Function.update_same]
    split_ifs <;> simp

theorem button_touch_ctl (g : Globals) (n button k : ℕ) :
    ((button_touch g n button).ctl k).id = (g.ctl k).id ∧
    ((button_touch g n button).ctl k).tool = (g.ctl k).tool ∧
    ((button_touch g n button).ctl k).body = (g.ctl k).body ∧
    ((button_touch g n button).ctl k).hold = (g.ctl k).hold ∧
    ((button_touch g n button).ctl k).relpos = (g.ctl k).relpos ∧
    ((button_touch g n button).ctl k).relquat = (g.ctl k).relquat := by
  unfold button_touch
  by_cases hk : k = n
  · subst hk
    simp only [Function.update_same]
    split_ifs <;> simp
  · simp [Function.update_noteq hk]

/-- The five ways in which one event is processed. -/
theorem process_event_cases (K : OpenVR) (L : Library) (m : mjModel) (d : mjData)
    (g : Globals) (evt : VREvent_t) :
    process_event K L m d g evt = g ∨
    ∃ n, event_controller g evt = some n ∧ (200 ≤ evt.eventType ∧ evt.eventType ≤ 203) ∧
      ((evt.eventType = K.VREvent_ButtonPress ∧
          process_event K L m d g evt = button_press L m d g n (event_button K evt)) ∨
        (evt.eventType ≠ K.VREvent_ButtonPress ∧
          (process_event K L m d g evt =
              { g with ctl := (Function.update g.ctl n { (g.ctl n) with
                  hold := Function.update (g.ctl n).hold (event_button K evt) false }) } ∨
            process_event K L m d g evt = button_touch g n (event_button K evt) ∨
            process_event K L m d g evt =
              { g with ctl := (Function.update g.ctl n { (g.ctl n) with
                  touch := Function.update (g.ctl n).touch (event_button K evt) false }) }))) := by
  unfold process_event
  by_cases hr : 200 ≤ evt.eventType ∧ evt.eventType ≤ 203
  · rw [if_pos hr]
    rcases hn : event_controller g evt with _ | n
    · exact Or.inl rfl
    · simp only []
      by_cases h1 : evt.eventType = K.VREvent_ButtonPress
      · rw [if_pos h1]
        exact Or.inr ⟨n, rfl, hr, Or.inl ⟨h1, rfl⟩⟩
      rw [if_neg h1]
      by_cases h2 : evt.eventType = K.VREvent_ButtonUnpress
      · rw [if_pos h2]
        exact Or.inr ⟨n, rfl, hr, Or.inr ⟨h1, Or.inl rfl⟩⟩
      rw [if_neg h2]
      by_cases h3 : evt.eventType = K.VREvent_ButtonTouch
      · rw [if_pos h3]
        exact Or.inr ⟨n, rfl, hr, Or.inr ⟨h1, Or.inr (Or.inl rfl)⟩⟩
      rw [if_neg h3]
      by_cases h4 : evt.eventType = K.VREvent_ButtonUntouch
      · rw [if_pos h4]
        exact Or.inr ⟨n, rfl, hr, Or.inr ⟨h1, Or.inr (Or.inr rfl)⟩⟩
      · rw [if_neg h4]
        exact Or.inl rfl
  · rw [if_neg hr]
    exact Or.inl rfl

/-- No event changes the device id of a controller. -/
theorem process_event_id (K : OpenVR) (L : Library) (m : mjModel) (d : mjData)
    (g : Globals) (evt : VREvent_t) (k : ℕ) :
    ((process_event K L m d g evt).ctl k).id = (g.ctl k).id := by
  rcases process_event_cases K L m d g evt with h | ⟨n, -, -, ⟨-, h⟩ | ⟨-, h | h | h⟩⟩
  · rw [h]
  · rw [h]
    by_cases hk : k = n
    · subst hk
      exact (button_press_same L m d g k _).1
    · rw [button_press_ctl_ne L m d g n _ k hk]
  · rw [h]
    by_cases hk : k = n
    · subst hk
      simp
    · simp [Function.update_noteq hk]
  · rw [h]
    exact (button_touch_ctl g n _ k).1
  · rw [h]
    by_cases hk : k = n
    · subst hk
      simp
    · simp [Function.update_noteq hk]

/-- The tool of a controller after one event: only a press that the program maps to
the menu button of that controller changes it. -/
theorem process_event_tool (K : OpenVR) (L : Library) (m : mjModel) (d : mjData)
    (g : Globals) (evt : VREvent_t) (k : ℕ) :
    ((process_event K L m d g evt).ctl k).tool = (g.ctl k).tool ∨
    ((200 ≤ evt.eventType ∧ evt.eventType ≤ 203) ∧ event_controller g evt = some k ∧
      evt.eventType = K.VREvent_ButtonPress ∧ event_button K evt = vBUTTON_MENU ∧
      ((process_event K L m d g evt).ctl k).tool =
        Int.tmod (wrap_int ((g.ctl k).tool + 1)) vNTOOL) := by
  rcases process_event_cases K L m d g evt with h | ⟨n, hn, hr, ⟨ht, h⟩ | ⟨-, h | h | h⟩⟩
  · rw [h]
    exact Or.inl rfl
  · rw [h]
    by_cases hk : k = n
    · subst hk
      rw [(button_press_same L m d g k _).2.2.2.1]
      by_cases hb : event_button K evt = vBUTTON_MENU
      · rw [if_pos hb]
        exact Or.inr ⟨hr, hn, ht, hb, rfl⟩
      · rw [if_neg hb]
        exact Or.inl rfl
    · rw [button_press_ctl_ne L m d g n _ k hk]
      exact Or.inl rfl
  · rw [h]
    left
    by_cases hk : k = n
    · subst hk
      simp
    · simp [Function.update_noteq hk]
  · rw [h]
    exact Or.inl (button_touch_ctl g n _ k).2.1
  · rw [h]
    left
    by_cases hk : k = n
    · subst hk
      simp
    · simp [Function.update_noteq hk]

/-- The selected body of a controller after one event: only a press that the program
maps to the pad button of that controller, with another tool than the move tool,
changes it. -/
theorem process_event_body (K : OpenVR) (L : Library) (m : mjModel) (d : mjData)
    (g : Globals) (evt : VREvent_t) (k : ℕ) :
    ((process_event K L m d g evt).ctl k).body = (g.ctl k).body ∨
    ((200 ≤ evt.eventType ∧ evt.eventType ≤ 203) ∧ event_controller g evt = some k ∧
      evt.eventType = K.VREvent_ButtonPress ∧ event_button K evt = vBUTTON_PAD ∧
      (g.ctl k).tool ≠ vTOOL_MOVE ∧
      ((process_event K L m d g evt).ctl k).body =
        if (g.ctl k).padpos 1 > 0 then mjMAX 0 (wrap_int ((g.ctl k).body - 1))
        else mjMIN (wrap_int (m.nbody - 1)) (wrap_int ((g.ctl k).body + 1))) := by
  rcases process_event_cases K L m d g evt with h | ⟨n, hn, hr, ⟨ht, h⟩ | ⟨-, h | h | h⟩⟩
  · rw [h]
    exact Or.inl rfl
  · rw [h]
    by_cases hk : k = n
    · subst hk
      rw [(button_press_same L m d g k _).2.2.2.2.1]
      by_cases hb : event_button K evt = vBUTTON_PAD ∧ (g.ctl k).tool ≠ vTOOL_MOVE
      · rw [if_pos hb]
        exact Or.inr ⟨hr, hn, ht, hb.1, hb.2, rfl⟩
      · rw [if_neg hb]
        exact Or.inl rfl
    · rw [button_press_ctl_ne L m d g n _ k hk]
      exact Or.inl rfl
  · rw [h]
    left
    by_cases hk : k = n
    · subst hk
      simp
    · simp [Function.update_noteq hk]
  · rw [h]
    exact Or.inl (button_touch_ctl g n _ k).2.2.1
  · rw [h]
    left
    by_cases hk : k = n
    · subst hk
      simp
    · simp [Function.update_noteq hk]

/-- The relative pose of a controller after one event: only a press that the program
maps to the trigger of that controller changes it. -/
theorem process_event_rel (K : OpenVR) (L : Library) (m : mjModel) (d : mjData)
    (g : Globals) (evt : VREvent_t) (k : ℕ)
    (h : ¬(evt.eventType = K.VREvent_ButtonPress ∧ event_controller g evt = some k ∧
      event_button K evt = vBUTTON_TRIGGER)) :
    ((process_event K L m d g evt).ctl k).relpos = (g.ctl k).relpos ∧
    ((process_event K L m d g evt).ctl k).relquat = (g.ctl k).relquat := by
  rcases process_event_cases K L m d g evt with h1 | ⟨n, hn, hr, ⟨ht, h1⟩ | ⟨-, h1 | h1 | h1⟩⟩
  · rw [h1]
    exact ⟨rfl, rfl⟩
  · rw [h1]
    by_cases hk : k = n
    · subst hk
      exact (button_press_same L m d g k _).2.2.2.2.2 (fun hb => h ⟨ht, hn, hb⟩)
    · rw [button_press_ctl_ne L m d g n _ k hk]
      exact ⟨rfl, rfl⟩
  · rw [h1]
    by_cases hk : k = n
    · subst hk
      simp
    · simp [Function.update_noteq hk]
  · rw [h1]
    exact ⟨(button_touch_ctl g n _ k).2.2.2.2.1, (button_touch_ctl g n _ k).2.2.2.2.2⟩
  · rw [h1]
    by_cases hk : k = n
    · subst hk
      simp
    · simp [Function.update_noteq hk]

theorem event_controller_congr (g g1 : Globals) (evt : VREvent_t)
    (h : ∀ k, (g1.ctl k).id = (g.ctl k).id) :
    event_controller g1 evt = event_controller g evt := by
  unfold event_controller
  rw [h 0, h 1]

theorem process_events_id (K : OpenVR) (L : Library) (m : mjModel) (d : mjData)
    (events : List VREvent_t) (g : Globals) (k : ℕ) :
    ((process_events K L m d events g).ctl k).id = (g.ctl k).id := by
  unfold process_events
  induction events generalizing g with
  | nil => rfl
  | cons e es ih =>
    rw [List.foldl_cons, ih, process_event_id]

theorem finish_controller_ctl_ne (L : Library) (m : mjModel) (d : mjData) (g : Globals)
    (n k : ℕ) (hk : k ≠ n) : (finish_controller L m d g n).ctl k = g.ctl k := by
  unfold finish_controller
  split_ifs <;> simp [Function.update_noteq hk]

theorem finish_controller_trackMocap (L : Library) (m : mjModel) (d : mjData) (g : Globals)
    (n : ℕ) : (finish_controller L m d g n).trackMocap = g.trackMocap := by
  unfold finish_controller
  split_ifs <;> rfl

theorem finish_controller_frame (L : Library) (m : mjModel) (d : mjData) (g : Globals)
    (n k : ℕ) :
    ((finish_controller L m d g n).ctl k).id = (g.ctl k).id ∧
    ((finish_controller L m d g n).ctl k).tool = (g.ctl k).tool ∧
    ((finish_controller L m d g n).ctl k).body = (g.ctl k).body ∧
    ((finish_controller L m d g n).ctl k).hold = (g.ctl k).hold ∧
    ((finish_controller L m d g n).ctl k).touch = (g.ctl k).touch ∧
    ((finish_controller L m d g n).ctl k).valid = (g.ctl k).valid ∧
    ((finish_controller L m d g n).ctl k).pos = (g.ctl k).pos ∧
    ((finish_controller L m d g n).ctl k).quat = (g.ctl k).quat := by
  by_cases hk : k = n
  · subst hk
    unfold finish_controller
    by_cases hid : 0 ≤ (g.ctl k).id
    · rw [if_pos hid]
      simp only [Function.update_same]
      split_ifs <;> simp [record_relative_pose]
    · rw [if_neg hid]
      simp
  · rw [finish_controller_ctl_ne L m d g n k hk]
    simp

/-- The finish step of a used controller: the relative pose, then the target pose. -/
theorem finish_controller_same (L : Library) (m : mjModel) (d : mjData) (g : Globals)
    (n : ℕ) (hid : 0 ≤ (g.ctl n).id) :
    (g.trackMocap = false ∧ (g.ctl n).hold vBUTTON_TRIGGER = false →
      ((finish_controller L m d g n).ctl n).relpos =
        (record_relative_pose L m d (g.ctl n)).relpos ∧
      ((finish_controller L m d g n).ctl n).relquat =
        (record_relative_pose L m d (g.ctl n)).relquat) ∧
    (g.trackMocap = true ∨ (g.ctl n).hold vBUTTON_TRIGGER = true →
      ((finish_controller L m d g n).ctl n).relpos = (g.ctl n).relpos ∧
      ((finish_controller L m d g n).ctl n).relquat = (g.ctl n).relquat) ∧
    ((g.ctl n).tool ≠ vTOOL_MOVE ∧
        ((g.ctl n).hold vBUTTON_TRIGGER = true ∨ g.trackMocap = true) →
      ((finish_controller L m d g n).ctl n).targetpos =
        (L.mju_mulPose (g.ctl n).pos (g.ctl n).quat
          ((finish_controller L m d g n).ctl n).relpos
          ((finish_controller L m d g n).ctl n).relquat).1 ∧
      ((finish_controller L m d g n).ctl n).targetquat =
        (L.mju_mulPose (g.ctl n).pos (g.ctl n).quat
          ((finish_controller L m d g n).ctl n).relpos
          ((finish_controller L m d g n).ctl n).relquat).2) ∧
    (¬((g.ctl n).tool ≠ vTOOL_MOVE ∧
        ((g.ctl n).hold vBUTTON_TRIGGER = true ∨ g.trackMocap = true)) →
      ((finish_controller L m d g n).ctl n).targetpos =
        mju_copy (g.ctl n).targetpos (g.ctl n).pos 3 ∧
      ((finish_controller L m d g n).ctl n).targetquat =
        mju_copy (g.ctl n).targetquat (g.ctl n).quat 4) := by
  unfold finish_controller
  rw [if_pos hid]
  simp only [Function.update_same]
  rcases ht : g.trackMocap <;> rcases hh : (g.ctl n).hold vBUTTON_TRIGGER <;>
    by_cases hm : (g.ctl n).tool = vTOOL_MOVE <;>
    simp [record_relative_pose, ht, hh, hm]

theorem finish_controller_congr (L : Library) (m : mjModel) (d : mjData) (g g1 : Globals)
    (n : ℕ) (hc : g1.ctl n = g.ctl n) (ht : g1.trackMocap = g.trackMocap) :
    (finish_controller L m d g1 n).ctl n = (finish_controller L m d g n).ctl n := by
  unfold finish_controller
  rw [hc, ht]
  split_ifs
  · simp
  · exact hc

/-- After the finish loop, each of the two controllers is as after its own finish
step. -/
theorem finish_controllers_ctl (L : Library) (m : mjModel) (d : mjData) (g : Globals)
    (n : ℕ) (hn : n < 2) :
    (finish_controllers L m d g).ctl n = (finish_controller L m d g n).ctl n := by
  unfold finish_controllers
  rw [foldl_range_two]
  interval_cases n
  · rw [finish_controller_ctl_ne L m d _ 1 0 (by decide)]
  · exact finish_controller_congr L m d g _ 1
      (finish_controller_ctl_ne L m d g 0 1 (by decide))
      (finish_controller_trackMocap L m d g 0)

theorem finish_controllers_trackMocap (L : Library) (m : mjModel) (d : mjData) (g : Globals) :
    (finish_controllers L m d g).trackMocap = g.trackMocap := by
  unfold finish_controllers
  rw [foldl_range_two, finish_controller_trackMocap, finish_controller_trackMocap]

theorem finish_controllers_frame (L : Library) (m : mjModel) (d : mjData) (g : Globals)
    (k : ℕ) :
    ((finish_controllers L m d g).ctl k).id = (g.ctl k).id ∧
    ((finish_controllers L m d g).ctl k).tool = (g.ctl k).tool ∧
    ((finish_controllers L m d g).ctl k).body = (g.ctl k).body ∧
    ((finish_controllers L m d g).ctl k).hold = (g.ctl k).hold ∧
    ((finish_controllers L m d g).ctl k).touch = (g.ctl k).touch ∧
    ((finish_controllers L m d g).ctl k).valid = (g.ctl k).valid ∧
    ((finish_controllers L m d g).ctl k).pos = (g.ctl k).pos ∧
    ((finish_controllers L m d g).ctl k).quat = (g.ctl k).quat := by
  unfold finish_controllers
  simp only [foldl_range_two, finish_controller_frame]
  simp

theorem move_scale_trackMocap (L : Library) (g : Globals) (n : ℕ) :
    (move_scale L g n).trackMocap = g.trackMocap := by
  unfold move_scale
  split_ifs <;> rfl

theorem move_scale_frame (L : Library) (g : Globals) (n k : ℕ) :
    ((move_scale L g n).ctl k).id = (g.ctl k).id ∧
    ((move_scale L g n).ctl k).tool = (g.ctl k).tool ∧
    ((move_scale L g n).ctl k).body = (g.ctl k).body ∧
    ((move_scale L g n).ctl k).hold = (g.ctl k).hold ∧
    ((move_scale L g n).ctl k).touch = (g.ctl k).touch ∧
    ((move_scale L g n).ctl k).valid = (g.ctl k).valid ∧
    ((move_scale L g n).ctl k).pos = (g.ctl k).pos ∧
    ((move_scale L g n).ctl k).quat = (g.ctl k).quat ∧
    ((move_scale L g n).ctl k).relpos = (g.ctl k).relpos ∧
    ((move_scale L g n).ctl k).relquat = (g.ctl k).relquat ∧
    ((move_scale L g n).ctl k).targetpos = (g.ctl k).targetpos ∧
    ((move_scale L g n).ctl k).targetquat = (g.ctl k).targetquat := by
  unfold move_scale
  split_ifs with h1
  · by_cases hk : k = n
    · subst hk
      simp only [Function.update_same, apply_rotation]
      rw [apply_translation_foldl]
      by_cases ht : (g.ctl k).touch vBUTTON_PAD = true
      · simp [apply_scaling, ht]
      · simp [ht]
    · simp [Function.update_noteq hk]
  · simp

theorem apply_move_scale_trackMocap (L : Library) (g : Globals) :
    (apply_move_scale L g).trackMocap = g.trackMocap := by
  unfold apply_move_scale
  rw [foldl_range_two, move_scale_trackMocap, move_scale_trackMocap]

theorem apply_move_scale_frame (L : Library) (g : Globals) (k : ℕ) :
    ((apply_move_scale L g).ctl k).id = (g.ctl k).id ∧
    ((apply_move_scale L g).ctl k).tool = (g.ctl k).tool ∧
    ((apply_move_scale L g).ctl k).body = (g.ctl k).body ∧
    ((apply_move_scale L g).ctl k).hold = (g.ctl k).hold ∧
    ((apply_move_scale L g).ctl k).touch = (g.ctl k).touch ∧
    ((apply_move_scale L g).ctl k).valid = (g.ctl k).valid ∧
    ((apply_move_scale L g).ctl k).pos = (g.ctl k).pos ∧
    ((apply_move_scale L g).ctl k).quat = (g.ctl k).quat ∧
    ((apply_move_scale L g).ctl k).relpos = (g.ctl k).relpos ∧
    ((apply_move_scale L g).ctl k).relquat = (g.ctl k).relquat ∧
    ((apply_move_scale L g).ctl k).targetpos = (g.ctl k).targetpos ∧
    ((apply_move_scale L g).ctl k).targetquat = (g.ctl k).targetquat := by
  unfold apply_move_scale
  simp only [foldl_range_two, move_scale_frame]
  simp

/-! ### The controller perturbations -/

theorem update_gripper_frame (m : mjModel) (c : vController_t) :
    (update_gripper m c).1 = { c with triggerpos := (update_gripper m c).1.triggerpos } ∧
    ∀ call ∈ (update_gripper m c).2, ∃ i v, call = MjCall.set_ctrl i v := by
  unfold update_gripper
  dsimp only
  split_ifs
  · refine ⟨rfl, ?_⟩
    intro call hc
    simp only [List.mem_cons, List.mem_singleton, List.not_mem_nil, or_false] at hc
    rcases hc with hc | hc
    · exact ⟨_, _, hc⟩
    · exact ⟨_, _, hc⟩
  · refine ⟨rfl, ?_⟩
    intro call hc
    simp at hc

theorem Pulls_iff (g : Globals) (n : ℕ) :
    ((g.ctl n).valid && decide ((g.ctl n).tool = vTOOL_PULL) && decide ((g.ctl n).body > 0) &&
      ((g.ctl n).hold vBUTTON_TRIGGER || g.trackMocap == true)) = true ↔ Pulls g n := by
  unfold Pulls
  simp [and_assoc]

theorem perturb_controller_idle (L : Library) (m : mjModel) (st : Globals × List MjCall)
    (n : ℕ) (h : ¬Pulls st.1 n) : perturb_controller L m st n = st := by
  unfold perturb_controller
  dsimp only
  rw [if_neg (fun hc => h ((Pulls_iff st.1 n).mp hc))]

theorem perturb_controller_pulls (L : Library) (m : mjModel) (st : Globals × List MjCall)
    (n : ℕ) (h : Pulls st.1 n) :
    ∃ p rest, (perturb_controller L m st n).2 =
        st.2 ++ MjCall.mjv_applyPerturbPose p 0 :: MjCall.mjv_applyPerturbForce p :: rest ∧
      p.active = L.mjPERT_TRANSLATE ||| L.mjPERT_ROTATE ∧
      p.select = (st.1.ctl n).body ∧
      (∀ i, i < 3 → p.refpos i = (st.1.ctl n).targetpos i) ∧
      (∀ i, i < 4 → p.refquat i = (st.1.ctl n).targetquat i) ∧
      (∀ call ∈ rest, ∃ i v, call = MjCall.set_ctrl i v) ∧
      (st.1.trackMocap = false → rest = []) := by
  unfold perturb_controller
  dsimp only
  rw [if_pos ((Pulls_iff st.1 n).mpr h)]
  by_cases ht : st.1.trackMocap = true
  · rw [ht]
    simp only [beq_self_eq_true, if_true]
    refine ⟨(⟨(st.1.ctl n).body, L.mjPERT_TRANSLATE ||| L.mjPERT_ROTATE,
        mju_copy st.1.pert.refpos (st.1.ctl n).targetpos 3,
        mju_copy st.1.pert.refquat (st.1.ctl n).targetquat 4⟩ : mjvPerturb),
      (update_gripper m (st.1.ctl n)).2, ?_, rfl, rfl, ?_, ?_,
      (update_gripper_frame m (st.1.ctl n)).2, ?_⟩
    · simp
    · intro i hi
      simp [mju_copy, hi]
    · intro i hi
      simp [mju_copy, hi]
    · intro hf
      exact absurd hf (by simp)
  · have hf : st.1.trackMocap = false := by simpa using ht
    rw [hf]
    simp only [Bool.false_eq_true, if_false, beq_iff_eq]
    refine ⟨(⟨(st.1.ctl n).body, L.mjPERT_TRANSLATE ||| L.mjPERT_ROTATE,
        mju_copy st.1.pert.refpos (st.1.ctl n).targetpos 3,
        mju_copy st.1.pert.refquat (st.1.ctl n).targetquat 4⟩ : mjvPerturb),
      [], ?_, rfl, rfl, ?_, ?_, ?_, fun _ => rfl⟩
    · simp
    · intro i hi
      simp [mju_copy, hi]
    · intro i hi
      simp [mju_copy, hi]
    · intro call hc
      simp at hc

theorem perturb_controller_trackMocap (L : Library) (m : mjModel)
    (st : Globals × List MjCall) (n : ℕ) :
    (perturb_controller L m st n).1.trackMocap = st.1.trackMocap := by
  unfold perturb_controller
  dsimp only
  split_ifs <;> rfl

theorem perturb_controller_frame (L : Library) (m : mjModel) (st : Globals × List MjCall)
    (n k : ℕ) :
    ((perturb_controller L m st n).1.ctl k).id = (st.1.ctl k).id ∧
    ((perturb_controller L m st n).1.ctl k).tool = (st.1.ctl k).tool ∧
    ((perturb_controller L m st n).1.ctl k).body = (st.1.ctl k).body ∧
    ((perturb_controller L m st n).1.ctl k).hold = (st.1.ctl k).hold ∧
    ((perturb_controller L m st n).1.ctl k).touch = (st.1.ctl k).touch ∧
    ((perturb_controller L m st n).1.ctl k).valid = (st.1.ctl k).valid ∧
    ((perturb_controller L m st n).1.ctl k).targetpos = (st.1.ctl k).targetpos ∧
    ((perturb_controller L m st n).1.ctl k).targetquat = (st.1.ctl k).targetquat := by
  unfold perturb_controller
  dsimp only
  split_ifs
  · by_cases hk : k = n
    · subst hk
      simp only [Function.update_same]
      rw [(update_gripper_frame m (st.1.ctl k)).1]
      simp
    · simp [Function.update_noteq hk]
  · simp
  · simp

theorem Pulls_congr (g g1 : Globals) (n : ℕ) (ht : g1.trackMocap = g.trackMocap)
    (h1 : (g1.ctl n).valid = (g.ctl n).valid) (h2 : (g1.ctl n).tool = (g.ctl n).tool)
    (h3 : (g1.ctl n).body = (g.ctl n).body) (h4 : (g1.ctl n).hold = (g.ctl n).hold) :
    Pulls g1 n ↔ Pulls g n := by
  unfold Pulls
  rw [ht, h1, h2, h3, h4]

/-- C14: perturbation application.  In one iteration of the main loop the applied
forces are zeroed first, and nothing else zeroes them; then, for controller 0 and for
controller 1 in this order, the perturbation of the controller (select = its body,
reference pose = its target pose, translation and rotation active) is applied, by
`mjv_applyPerturbPose` followed by `mjv_applyPerturbForce`, if and only if the
controller is valid, its tool is `vTOOL_PULL`, its selected body is positive and its
trigger is held or `trackMocap` is on; otherwise the controller makes no call.  So no
perturbation selects the world body 0, and a controller with the move tool makes no
call. -/
theorem perturbation_applied_iff_pulling (L : Library) (m : mjModel) (g : Globals) :
    ∃ calls : ℕ → List MjCall,
      (apply_controller_perturbations L m g).2 =
        MjCall.mju_zero_xfrc_applied (6 * m.nbody) :: (calls 0 ++ calls 1) ∧
      (∀ n, n < 2 →
        (Pulls g n → ∃ p rest,
          calls n = MjCall.mjv_applyPerturbPose p 0 :: MjCall.mjv_applyPerturbForce p :: rest ∧
          p.active = L.mjPERT_TRANSLATE ||| L.mjPERT_ROTATE ∧
          p.select = (g.ctl n).body ∧
          (∀ i, i < 3 → p.refpos i = (g.ctl n).targetpos i) ∧
          (∀ i, i < 4 → p.refquat i = (g.ctl n).targetquat i) ∧
          (∀ call ∈ rest, ∃ i v, call = MjCall.set_ctrl i v)) ∧
        (¬Pulls g n → calls n = []) ∧
        ((g.ctl n).tool = vTOOL_MOVE → calls n = []) ∧
        ((g.ctl n).body = 0 → calls n = [])) ∧
      (∀ n, n < 2 → ∀ z, MjCall.mju_zero_xfrc_applied z ∉ calls n) ∧
      (∀ n, n < 2 → ∀ p flg, (MjCall.mjv_applyPerturbPose p flg ∈ calls n ∨
          MjCall.mjv_applyPerturbForce p ∈ calls n) → 0 < p.select) := by
  -- the calls of one controller, from the state in which its turn starts
  have key : ∀ (st : Globals × List MjCall) (n : ℕ), ∃ c : List MjCall,
      (perturb_controller L m st n).2 = st.2 ++ c ∧
      (Pulls st.1 n → ∃ p rest,
          c = MjCall.mjv_applyPerturbPose p 0 :: MjCall.mjv_applyPerturbForce p :: rest ∧
          p.active = L.mjPERT_TRANSLATE ||| L.mjPERT_ROTATE ∧
          p.select = (st.1.ctl n).body ∧
          (∀ i, i < 3 → p.refpos i = (st.1.ctl n).targetpos i) ∧
          (∀ i, i < 4 → p.refquat i = (st.1.ctl n).targetquat i) ∧
          (∀ call ∈ rest, ∃ i v, call = MjCall.set_ctrl i v)) ∧
      (¬Pulls st.1 n → c = []) := by
    intro st n
    by_cases hp : Pulls st.1 n
    · obtain ⟨p, rest, h1, h2, h3, h4, h5, h6, -⟩ := perturb_controller_pulls L m st n hp
      exact ⟨_, h1, fun _ => ⟨p, rest, rfl, h2, h3, h4, h5, h6⟩, fun hn => absurd hp hn⟩
    · refine ⟨[], ?_, fun h => absurd h hp, fun _ => rfl⟩
      rw [perturb_controller_idle L m st n hp, List.append_nil]
  obtain ⟨c0, e0, p0, q0⟩ := key (g, [MjCall.mju_zero_xfrc_applied (6 * m.nbody)]) 0
  obtain ⟨c1, e1, p1, q1⟩ := key
    (perturb_controller L m (g, [MjCall.mju_zero_xfrc_applied (6 * m.nbody)]) 0) 1
  obtain ⟨f1, f2, f3, f4, -, f6, f7, f8⟩ := perturb_controller_frame L m
    (g, [MjCall.mju_zero_xfrc_applied (6 * m.nbody)]) 0 1
  have ft := perturb_controller_trackMocap L m
    (g, [MjCall.mju_zero_xfrc_applied (6 * m.nbody)]) 0
  have hiff := Pulls_congr g
    (perturb_controller L m (g, [MjCall.mju_zero_xfrc_applied (6 * m.nbody)]) 0).1 1
    ft f6 f2 f3 f4
  have hmain : ∀ n, n < 2 →
      (Pulls g n → ∃ p rest,
        (if n = 0 then c0 else c1) =
          MjCall.mjv_applyPerturbPose p 0 :: MjCall.mjv_applyPerturbForce p :: rest ∧
        p.active = L.mjPERT_TRANSLATE ||| L.mjPERT_ROTATE ∧
        p.select = (g.ctl n).body ∧
        (∀ i, i < 3 → p.refpos i = (g.ctl n).targetpos i) ∧
        (∀ i, i < 4 → p.refquat i = (g.ctl n).targetquat i) ∧
        (∀ call ∈ rest, ∃ i v, call = MjCall.set_ctrl i v)) ∧
      (¬Pulls g n → (if n = 0 then c0 else c1) = []) := by
    intro n hn
    interval_cases n
    · exact ⟨p0, q0⟩
    · refine ⟨?_, ?_⟩
      · intro hp
        obtain ⟨p, rest, h1, h2, h3, h4, h5, h6⟩ := p1 (hiff.mpr hp)
        refine ⟨p, rest, h1, h2, ?_, ?_, ?_, h6⟩
        · rw [h3, f3]
        · intro i hi
          rw [h4 i hi, f7]
        · intro i hi
          rw [h5 i hi, f8]
      · intro hp
        exact q1 (fun h => hp (hiff.mp h))
  refine ⟨fun n => if n = 0 then c0 else c1, ?_, ?_, ?_, ?_⟩
  · unfold apply_controller_perturbations
    rw [foldl_range_two, e1, e0]
    simp
  · intro n hn
    refine ⟨(hmain n hn).1, (hmain n hn).2, ?_, ?_⟩
    · intro ht
      refine (hmain n hn).2 (fun hp => ?_)
      rw [hp.2.1] at ht
      exact absurd ht (by decide)
    · intro hb
      refine (hmain n hn).2 (fun hp => ?_)
      have := hp.2.2.1
      omega
  · intro n hn z hz
    by_cases hp : Pulls g n
    · obtain ⟨p, rest, h1, -, -, -, -, h6⟩ := (hmain n hn).1 hp
      simp only [] at hz
      rw [h1] at hz
      simp only [List.mem_cons] at hz
      rcases hz with hz | hz | hz
      · cases hz
      · cases hz
      · obtain ⟨i, v, hc⟩ := h6 _ hz
        cases hc
    · have := (hmain n hn).2 hp
      simp only [] at hz
      rw [this] at hz
      simp at hz
  · intro n hn p flg hmem
    by_cases hp : Pulls g n
    · obtain ⟨p1, rest, h1, -, h3, -, -, h6⟩ := (hmain n hn).1 hp
      simp only [] at hmem
      rw [h1] at hmem
      have hsel : 0 < p1.select := by
        rw [h3]
        exact hp.2.2.1
      simp only [List.mem_cons] at hmem
      rcases hmem with (hmem | hmem | hmem) | (hmem | hmem | hmem)
      · cases hmem
        exact hsel
      · cases hmem
      · obtain ⟨i, v, hc⟩ := h6 _ hmem
        cases hc
      · cases hmem
      · cases hmem
        exact hsel
      · obtain ⟨i, v, hc⟩ := h6 _ hmem
        cases hc
    · have := (hmain n hn).2 hp
      simp only [] at hmem
      rw [this] at hmem
      simp at hmem

/-! ### The state after `v_initPre` -/

theorem wrap_int_eq (x : ℤ) (h1 : -2 ^ 31 ≤ x) (h2 : x < 2 ^ 31) : wrap_int x = x := by
  unfold wrap_int
  norm_num at h1 h2 ⊢
  omega

theorem find_device_frame (K : OpenVR) (dev : VRDevices) (st : Globals × ℕ) (n k : ℕ) :
    ((find_device K dev st n).1.ctl k).tool = (st.1.ctl k).tool ∧
    ((find_device K dev st n).1.ctl k).body = (st.1.ctl k).body ∧
    (find_device K dev st n).1.trackMocap = st.1.trackMocap := by
  unfold find_device
  split_ifs
  · simp
  · by_cases hk : k = st.2
    · subst hk
      simp
    · simp [Function.update_noteq hk]
  · simp

theorem find_device_foldl_frame (K : OpenVR) (dev : VRDevices) (l : List ℕ)
    (st : Globals × ℕ) (k : ℕ) :
    ((l.foldl (find_device K dev) st).1.ctl k).tool = (st.1.ctl k).tool ∧
    ((l.foldl (find_device K dev) st).1.ctl k).body = (st.1.ctl k).body ∧
    (l.foldl (find_device K dev) st).1.trackMocap = st.1.trackMocap := by
  induction l generalizing st with
  | nil => exact ⟨rfl, rfl, rfl⟩
  | cons x xs ih =>
    rw [List.foldl_cons]
    obtain ⟨a1, a2, a3⟩ := ih (find_device K dev st x)
    obtain ⟨b1, b2, b3⟩ := find_device_frame K dev st x k
    exact ⟨a1.trans b1, a2.trans b2, a3.trans b3⟩

theorem find_axis_foldl (K : OpenVR) (dev : VRDevices) (l : List ℕ) (c : vController_t) :
    l.foldl (find_axis K dev) c =
      { c with
        idtrigger := (l.foldl (find_axis K dev) c).idtrigger,
        idpad := (l.foldl (find_axis K dev) c).idpad } := by
  induction l generalizing c with
  | nil => rfl
  | cons x xs ih =>
    rw [List.foldl_cons, ih]
    unfold find_axis
    split_ifs <;> rfl

theorem clear_button_foldl (l : List ℕ) (c : vController_t) :
    l.foldl clear_button c =
      { c with
        touch := (l.foldl clear_button c).touch,
        hold := (l.foldl clear_button c).hold } := by
  induction l generalizing c with
  | nil => rfl
  | cons x xs ih =>
    rw [List.foldl_cons, ih]
    rfl

/-- The initialisation of one controller: a controller in use gets its tool (move
for controller 0, pull otherwise) and the body 0; nothing else about the modes
changes. -/
theorem init_controller_spec (K : OpenVR) (dev : VRDevices) (g g1 : Globals) (n : ℕ)
    (h : init_controller K dev g n = some g1) :
    g1.trackMocap = g.trackMocap ∧
    (∀ k, (g1.ctl k).id = (g.ctl k).id) ∧
    (∀ k, k ≠ n → g1.ctl k = g.ctl k) ∧
    (0 ≤ (g.ctl n).id →
      (g1.ctl n).tool = (if n = 0 then vTOOL_MOVE else vTOOL_PULL) ∧ (g1.ctl n).body = 0) ∧
    (¬0 ≤ (g.ctl n).id → g1 = g) := by
  unfold init_controller at h
  by_cases hid : 0 ≤ (g.ctl n).id
  · rw [if_pos hid] at h
    dsimp only at h
    split_ifs at h with hax
    all_goals
      injection h with h
      subst h
      rw [clear_button_foldl, find_axis_foldl]
      refine ⟨rfl, ?_, ?_, ?_, fun hn => absurd hid hn⟩
      · intro k
        by_cases hk : k = n
        · subst hk
          simp
        · simp [Function.update_noteq hk]
      · intro k hk
        simp [Function.update_noteq hk]
      · intro _
        simp [*]
  · rw [if_neg hid] at h
    injection h with h
    subst h
    exact ⟨rfl, fun _ => rfl, fun _ _ => rfl, fun hn => absurd hn hid, fun _ => rfl⟩

/-- The modes after `v_initPre`: controller 0 is in use and has the move tool, a
second controller in use has the pull tool, every selected body is 0 and tracking is
off. -/
theorem v_initPre_spec (K : OpenVR) (dev : VRDevices) (g : Globals)
    (h : v_initPre K dev zero_globals = some g) :
    0 ≤ (g.ctl 0).id ∧ (g.ctl 0).tool = vTOOL_MOVE ∧
    (0 ≤ (g.ctl 1).id → (g.ctl 1).tool = vTOOL_PULL) ∧
    (∀ k, (g.ctl k).tool = vTOOL_MOVE ∨ (g.ctl k).tool = vTOOL_PULL) ∧
    (∀ k, (g.ctl k).body = 0) ∧ g.trackMocap = false := by
  unfold v_initPre at h
  split_ifs at h with h1 h2
  dsimp only at h
  split_ifs at h with h3
  rw [show List.range 2 = [0, 1] from rfl] at h
  simp only [List.foldlM_cons, List.foldlM_nil, Option.bind_eq_bind, Option.bind_eq_some,
    Option.pure_def, Option.some_inj, exists_eq_right] at h
  obtain ⟨a, ha, hg⟩ := h
  obtain ⟨at0, aid, ane, atool, -⟩ := init_controller_spec K dev _ a 0 ha
  obtain ⟨bt0, bid, bne, btool, bsame⟩ := init_controller_spec K dev a g 1 hg
  have hid0 : 0 ≤ (a.ctl 0).id := by
    rw [aid 0]
    simp only [not_or, not_lt] at h3
    exact h3.2
  have hfold := fun k => find_device_foldl_frame K dev (List.range K.k_unMaxTrackedDeviceCount)
    ({ zero_globals with
        hmd := { { zero_globals.hmd with width := dev.width, height := dev.height } with
          id := -1 },
        ctl := Function.update (Function.update zero_globals.ctl 0
          { (zero_globals.ctl 0) with id := -1 }) 1 { (zero_globals.ctl 1) with id := -1 } },
      0) k
  have hzero : ∀ k, (a.ctl k).tool = (if k = 0 then vTOOL_MOVE else 0) ∧ (a.ctl k).body = 0 := by
    intro k
    by_cases hk : k = 0
    · subst hk
      have := atool (by rw [← aid 0]; exact hid0)
      simpa using this
    · rw [ane k hk, if_neg hk]
      obtain ⟨f1, f2, -⟩ := hfold k
      refine ⟨?_, ?_⟩
      · refine Eq.trans f1 ?_
        by_cases hk1 : k = 1
        · subst hk1
          simp [zero_globals]
        · simp [Function.update_noteq hk, Function.update_noteq hk1, zero_globals]
      · refine Eq.trans f2 ?_
        by_cases hk1 : k = 1
        · subst hk1
          simp [zero_globals]
        · simp [Function.update_noteq hk, Function.update_noteq hk1, zero_globals]
  have htrack : a.trackMocap = false := by
    rw [at0]
    exact (hfold 0).2.2
  have hfinal : ∀ k, ((g.ctl k).tool = vTOOL_MOVE ∨ (g.ctl k).tool = vTOOL_PULL) ∧
      (g.ctl k).body = 0 := by
    intro k
    by_cases hk : k = 1
    · subst hk
      by_cases hid1 : 0 ≤ (a.ctl 1).id
      · obtain ⟨t1, t2⟩ := btool hid1
        exact ⟨Or.inr (by simpa using t1), t2⟩
      · rw [bsame hid1]
        obtain ⟨t1, t2⟩ := hzero 1
        exact ⟨Or.inl (by simpa [vTOOL_MOVE] using t1), t2⟩
    · rw [bne k hk]
      obtain ⟨t1, t2⟩ := hzero k
      refine ⟨?_, t2⟩
      rw [t1]
      split_ifs
      · exact Or.inl rfl
      · exact Or.inl rfl
  refine ⟨?_, ?_, ?_, fun k => (hfinal k).1, fun k => (hfinal k).2, ?_⟩
  · rw [bid 0]
    exact hid0
  · rw [bne 0 (by decide), (hzero 0).1, if_pos rfl]
  · intro hid1
    rw [bid 1] at hid1
    simpa using (btool hid1).1
  · rw [bt0]
    exact htrack

/-! ### Tool selection and body selection -/

theorem mjMAX_eq (a b : ℤ) : mjMAX a b = max a b := by
  unfold mjMAX
  split_ifs with h
  · exact (max_eq_left (le_of_lt h)).symm
  · exact (max_eq_right (not_lt.mp h)).symm

theorem mjMIN_eq (a b : ℤ) : mjMIN a b = min a b := by
  unfold mjMIN
  split_ifs with h
  · exact (min_eq_left (le_of_lt h)).symm
  · exact (min_eq_right (not_lt.mp h)).symm

theorem next_tool (t : ℤ) (h : t = vTOOL_MOVE ∨ t = vTOOL_PULL) :
    (t = vTOOL_MOVE → Int.tmod (wrap_int (t + 1)) vNTOOL = vTOOL_PULL) ∧
    (t = vTOOL_PULL → Int.tmod (wrap_int (t + 1)) vNTOOL = vTOOL_MOVE) ∧
    (Int.tmod (wrap_int (t + 1)) vNTOOL = vTOOL_MOVE ∨
      Int.tmod (wrap_int (t + 1)) vNTOOL = vTOOL_PULL) ∧
    Int.tmod (wrap_int (Int.tmod (wrap_int (t + 1)) vNTOOL + 1)) vNTOOL = t := by
  rcases h with h | h <;> subst h <;> decide

theorem next_body (nbody b : ℤ) (p : ℚ) (h1 : 1 ≤ nbody) (h2 : nbody < 2 ^ 31)
    (h3 : 0 ≤ b) (h4 : b ≤ nbody - 1) :
    0 ≤ (if p > 0 then mjMAX 0 (wrap_int (b - 1))
      else mjMIN (wrap_int (nbody - 1)) (wrap_int (b + 1))) ∧
    (if p > 0 then mjMAX 0 (wrap_int (b - 1))
      else mjMIN (wrap_int (nbody - 1)) (wrap_int (b + 1))) ≤ nbody - 1 := by
  have e1 : wrap_int (b - 1) = b - 1 := wrap_int_eq _ (by norm_num; omega) (by omega)
  have e2 : wrap_int (b + 1) = b + 1 := wrap_int_eq _ (by norm_num; omega) (by omega)
  have e3 : wrap_int (nbody - 1) = nbody - 1 := wrap_int_eq _ (by norm_num; omega) (by omega)
  rw [e1, e2, e3, mjMAX_eq, mjMIN_eq]
  split_ifs
  · exact ⟨le_max_left _ _, max_le (by omega) (by omega)⟩
  · exact ⟨le_min (by omega) (by omega), min_le_left _ _⟩

theorem process_events_inv (K : OpenVR) (L : Library) (m : mjModel) (d : mjData)
    (P : Globals → Prop)
    (hstep : ∀ g evt, P g → P (process_event K L m d g evt))
    (events : List VREvent_t) (g : Globals) (h : P g) :
    P (process_events K L m d events g) := by
  unfold process_events
  induction events generalizing g with
  | nil => exact h
  | cons e es ih => exact ih _ (hstep g e h)

/-- What `v_update` keeps of the state after its events: the modes of every controller
and its pose in the model. -/
theorem v_update_frame (K : OpenVR) (L : Library) (m : mjModel) (d : mjData) (vr : VRFrame)
    (g : Globals) (k : ℕ) :
    ((v_update K L m d vr g).ctl k).id =
      ((process_events K L m d vr.events (update_poses L vr g)).ctl k).id ∧
    ((v_update K L m d vr g).ctl k).tool =
      ((process_events K L m d vr.events (update_poses L vr g)).ctl k).tool ∧
    ((v_update K L m d vr g).ctl k).body =
      ((process_events K L m d vr.events (update_poses L vr g)).ctl k).body ∧
    ((v_update K L m d vr g).ctl k).hold =
      ((process_events K L m d vr.events (update_poses L vr g)).ctl k).hold ∧
    ((v_update K L m d vr g).ctl k).touch =
      ((process_events K L m d vr.events (update_poses L vr g)).ctl k).touch ∧
    ((v_update K L m d vr g).ctl k).valid =
      ((process_events K L m d vr.events (update_poses L vr g)).ctl k).valid ∧
    ((v_update K L m d vr g).ctl k).pos =
      ((process_events K L m d vr.events (update_poses L vr g)).ctl k).pos ∧
    ((v_update K L m d vr g).ctl k).quat =
      ((process_events K L m d vr.events (update_poses L vr g)).ctl k).quat := by
  unfold v_update
  simp only [apply_move_scale_frame, finish_controllers_frame]
  simp

theorem v_update_trackMocap (K : OpenVR) (L : Library) (m : mjModel) (d : mjData)
    (vr : VRFrame) (g : Globals) :
    (v_update K L m d vr g).trackMocap =
      (process_events K L m d vr.events (update_poses L vr g)).trackMocap := by
  unfold v_update
  rw [apply_move_scale_trackMocap, finish_controllers_trackMocap]

theorem apply_controller_perturbations_frame (L : Library) (m : mjModel) (g : Globals)
    (k : ℕ) :
    ((apply_controller_perturbations L m g).1.ctl k).tool = (g.ctl k).tool ∧
    ((apply_controller_perturbations L m g).1.ctl k).body = (g.ctl k).body := by
  unfold apply_controller_perturbations
  rw [foldl_range_two]
  obtain ⟨-, a2, a3, -⟩ := perturb_controller_frame L m
    (perturb_controller L m (g, [MjCall.mju_zero_xfrc_applied (6 * m.nbody)]) 0) 1 k
  obtain ⟨-, b2, b3, -⟩ := perturb_controller_frame L m
    (g, [MjCall.mju_zero_xfrc_applied (6 * m.nbody)]) 0 k
  exact ⟨a2.trans b2, a3.trans b3⟩

/-- In every reachable state each tool is the move tool or the pull tool. -/
theorem Reachable.tool_mem {K : OpenVR} {L : Library} {m : mjModel} {g : Globals}
    (h : Reachable K L m g) (k : ℕ) :
    (g.ctl k).tool = vTOOL_MOVE ∨ (g.ctl k).tool = vTOOL_PULL := by
  induction h generalizing k with
  | init dev g scn pert hg => exact (v_initPre_spec K dev g hg).2.2.2.1 k
  | update d vr g _ ih =>
    rw [(v_update_frame K L m d vr g k).2.1]
    refine process_events_inv K L m d
      (fun g1 => ∀ k, (g1.ctl k).tool = vTOOL_MOVE ∨ (g1.ctl k).tool = vTOOL_PULL) ?_
      vr.events (update_poses L vr g) ?_ k
    · intro g1 evt h1 j
      rcases process_event_tool K L m d g1 evt j with h2 | ⟨-, -, -, -, h2⟩
      · rw [h2]
        exact h1 j
      · rw [h2]
        exact (next_tool _ (h1 j)).2.2.1
    · intro j
      rw [(update_poses_frame L vr g j).2.1]
      exact ih j
  | perturb g _ ih =>
    rw [(apply_controller_perturbations_frame L m g k).1]
    exact ih k

/-- In every reachable state each selected body is a body of the model. -/
theorem Reachable.body_mem {K : OpenVR} {L : Library} {m : mjModel} {g : Globals}
    (h : Reachable K L m g) (h1 : 1 ≤ m.nbody) (h2 : m.nbody < 2 ^ 31) (k : ℕ) :
    0 ≤ (g.ctl k).body ∧ (g.ctl k).body ≤ m.nbody - 1 := by
  induction h generalizing k with
  | init dev g scn pert hg =>
    have := (v_initPre_spec K dev g hg).2.2.2.2.1 k
    simp only [this]
    omega
  | update d vr g _ ih =>
    rw [(v_update_frame K L m d vr g k).2.2.1]
    refine process_events_inv K L m d
      (fun g1 => ∀ k, 0 ≤ (g1.ctl k).body ∧ (g1.ctl k).body ≤ m.nbody - 1) ?_
      vr.events (update_poses L vr g) ?_ k
    · intro g1 evt hg1 j
      rcases process_event_body K L m d g1 evt j with h3 | ⟨-, -, -, -, -, h3⟩
      · rw [h3]
        exact hg1 j
      · rw [h3]
        exact next_body m.nbody _ _ h1 h2 (hg1 j).1 (hg1 j).2
    · intro j
      rw [(update_poses_frame L vr g j).2.2.1]
      exact ih j
  | perturb g _ ih =>
    rw [(apply_controller_perturbations_frame L m g k).2]
    exact ih k

theorem IsPress.after {K : OpenVR} {g : Globals} {evt : VREvent_t} {n button : ℕ}
    (h : IsPress K g evt n button) (g1 : Globals) (hid : ∀ k, (g1.ctl k).id = (g.ctl k).id) :
    IsPress K g1 evt n button :=
  ⟨h.1, (event_controller_congr g g1 evt hid).trans h.2.1, h.2.2⟩

/-- A press of the menu button of controller `n`. -/
theorem process_event_menu_press {K : OpenVR} (hK : K.Valid) (L : Library) (m : mjModel)
    (d : mjData) (g : Globals) (evt : VREvent_t) (n : ℕ)
    (h : IsPress K g evt n K.k_EButton_ApplicationMenu) :
    ((process_event K L m d g evt).ctl n).tool =
      Int.tmod (wrap_int ((g.ctl n).tool + 1)) vNTOOL ∧
    ∀ k, k ≠ n → (process_event K L m d g evt).ctl k = g.ctl k := by
  rw [process_event_press hK L m d g evt n h.1 h.2.1, event_button_menu K evt h.2.2]
  refine ⟨?_, fun k hk => button_press_ctl_ne L m d g n _ k hk⟩
  rw [(button_press_same L m d g n _).2.2.2.1, if_pos rfl]

/-- A press of the pad button of controller `n`. -/
theorem process_event_pad_press {K : OpenVR} (hK : K.Valid) (L : Library) (m : mjModel)
    (d : mjData) (g : Globals) (evt : VREvent_t) (n : ℕ)
    (h : IsPress K g evt n K.k_EButton_SteamVR_Touchpad) :
    ((process_event K L m d g evt).ctl n).body =
      (if (g.ctl n).tool ≠ vTOOL_MOVE then
        (if (g.ctl n).padpos 1 > 0 then mjMAX 0 (wrap_int ((g.ctl n).body - 1))
          else mjMIN (wrap_int (m.nbody - 1)) (wrap_int ((g.ctl n).body + 1)))
        else (g.ctl n).body) ∧
    ∀ k, k ≠ n → (process_event K L m d g evt).ctl k = g.ctl k := by
  rw [process_event_press hK L m d g evt n h.1 h.2.1, event_button_pad hK evt h.2.2]
  refine ⟨?_, fun k hk => button_press_ctl_ne L m d g n _ k hk⟩
  rw [(button_press_same L m d g n _).2.2.2.2.1]
  simp

/-- C13: tool selection.  A menu-button press event for controller `n` sets
`ctl[n].tool` to `(tool + 1) % vNTOOL` (so the move tool becomes the pull tool and the
pull tool the move tool) and leaves the other controller unchanged; `v_initPre` gives
controller 0 the move tool and a second controller in use the pull tool; hence in
every reachable state each tool is `vTOOL_MOVE` or `vTOOL_PULL`, and in a reachable
state two menu presses on the same controller restore its tool. -/
theorem tool_selection_cycles (K : OpenVR) (L : Library) (m : mjModel) (hK : K.Valid) :
    (∀ (d : mjData) (g : Globals) (evt : VREvent_t) (n : ℕ),
      IsPress K g evt n K.k_EButton_ApplicationMenu →
        (-2 ^ 31 ≤ (g.ctl n).tool → (g.ctl n).tool < 2 ^ 31 - 1 →
          ((process_event K L m d g evt).ctl n).tool =
            Int.tmod ((g.ctl n).tool + 1) vNTOOL) ∧
        ((g.ctl n).tool = vTOOL_MOVE →
          ((process_event K L m d g evt).ctl n).tool = vTOOL_PULL) ∧
        ((g.ctl n).tool = vTOOL_PULL →
          ((process_event K L m d g evt).ctl n).tool = vTOOL_MOVE) ∧
        ∀ k, k ≠ n → ((process_event K L m d g evt).ctl k).tool = (g.ctl k).tool) ∧
    (∀ (dev : VRDevices) (g : Globals), v_initPre K dev zero_globals = some g →
      (g.ctl 0).tool = vTOOL_MOVE ∧ (0 ≤ (g.ctl 1).id → (g.ctl 1).tool = vTOOL_PULL)) ∧
    (∀ g, Reachable K L m g →
      ∀ k, (g.ctl k).tool = vTOOL_MOVE ∨ (g.ctl k).tool = vTOOL_PULL) ∧
    (∀ (d : mjData) (g : Globals) (e1 e2 : VREvent_t) (n : ℕ), Reachable K L m g →
      IsPress K g e1 n K.k_EButton_ApplicationMenu →
      IsPress K g e2 n K.k_EButton_ApplicationMenu →
      ((process_event K L m d (process_event K L m d g e1) e2).ctl n).tool =
        (g.ctl n).tool) := by
  refine ⟨?_, ?_, ?_, ?_⟩
  · intro d g evt n h
    obtain ⟨h1, h2⟩ := process_event_menu_press hK L m d g evt n h
    refine ⟨?_, ?_, ?_, ?_⟩
    · intro ha hb
      rw [h1, wrap_int_eq _ (by omega) (by omega)]
    · intro ht
      rw [h1]
      exact (next_tool _ (Or.inl ht)).1 ht
    · intro ht
      rw [h1]
      exact (next_tool _ (Or.inr ht)).2.1 ht
    · intro k hk
      rw [h2 k hk]
  · intro dev g hg
    obtain ⟨-, h2, h3, -⟩ := v_initPre_spec K dev g hg
    exact ⟨h2, h3⟩
  · intro g hg k
    exact hg.tool_mem k
  · intro d g e1 e2 n hg h1 h2
    have h3 := h2.after (process_event K L m d g e1) (process_event_id K L m d g e1)
    rw [(process_event_menu_press hK L m d _ e2 n h3).1,
      (process_event_menu_press hK L m d g e1 n h1).1]
    exact (next_tool _ (hg.tool_mem n)).2.2.2

/-- C19: body selection.  A pad-button press on a controller whose tool is not
`vTOOL_MOVE` sets `body` to `max(0, body - 1)` when `padpos[1] > 0` and to
`min(nbody - 1, body + 1)` otherwise (for values of `body` and `nbody` whose successor
and predecessor are representable as `int`); a pad press with the move tool leaves
`body` unchanged, and the other controller is unchanged in both cases.  `v_initPre`
selects body 0, so for a model with `nbody ≥ 1` every reachable state has
`0 ≤ body ≤ nbody - 1`. -/
theorem body_selection_stays_in_model (K : OpenVR) (L : Library) (m : mjModel)
    (hK : K.Valid) :
    (∀ (d : mjData) (g : Globals) (evt : VREvent_t) (n : ℕ),
      IsPress K g evt n K.k_EButton_SteamVR_Touchpad →
        ((g.ctl n).tool ≠ vTOOL_MOVE →
          -2 ^ 31 < (g.ctl n).body → (g.ctl n).body < 2 ^ 31 - 1 →
          -2 ^ 31 < m.nbody → m.nbody < 2 ^ 31 →
          ((process_event K L m d g evt).ctl n).body =
            if (g.ctl n).padpos 1 > 0 then max 0 ((g.ctl n).body - 1)
            else min (m.nbody - 1) ((g.ctl n).body + 1)) ∧
        ((g.ctl n).tool = vTOOL_MOVE →
          ((process_event K L m d g evt).ctl n).body = (g.ctl n).body) ∧
        ∀ k, k ≠ n → ((process_event K L m d g evt).ctl k).body = (g.ctl k).body) ∧
    (∀ (dev : VRDevices) (g : Globals), v_initPre K dev zero_globals = some g →
      ∀ k, (g.ctl k).body = 0) ∧
    (1 ≤ m.nbody → m.nbody < 2 ^ 31 → ∀ g, Reachable K L m g →
      ∀ k, 0 ≤ (g.ctl k).body ∧ (g.ctl k).body ≤ m.nbody - 1) := by
  refine ⟨?_, ?_, ?_⟩
  · intro d g evt n h
    obtain ⟨h1, h2⟩ := process_event_pad_press hK L m d g evt n h
    refine ⟨?_, ?_, ?_⟩
    · intro ht ha hb hc hd
      rw [h1, if_pos ht, wrap_int_eq _ (by omega) (by omega),
        wrap_int_eq _ (by omega) (by omega), wrap_int_eq _ (by omega) (by omega),
        mjMAX_eq, mjMIN_eq]
    · intro ht
      rw [h1, if_neg (not_not.mpr ht)]
    · intro k hk
      rw [h2 k hk]
  · intro dev g hg
    exact (v_initPre_spec K dev g hg).2.2.2.2.1
  · intro h1 h2 g hg k
    exact hg.body_mem h1 h2 k

/-! ### The relative pose and the target pose -/

theorem process_events_rel (K : OpenVR) (L : Library) (m : mjModel) (d : mjData)
    (events : List VREvent_t) (g : Globals) (n : ℕ)
    (h : ∀ evt ∈ events, ¬(evt.eventType = K.VREvent_ButtonPress ∧
      event_controller g evt = some n ∧ event_button K evt = vBUTTON_TRIGGER)) :
    ((process_events K L m d events g).ctl n).relpos = (g.ctl n).relpos ∧
    ((process_events K L m d events g).ctl n).relquat = (g.ctl n).relquat := by
  unfold process_events
  induction events generalizing g with
  | nil => exact ⟨rfl, rfl⟩
  | cons e es ih =>
    rw [List.foldl_cons]
    have hstep := process_event_rel K L m d g e n (h e (List.mem_cons_self e es))
    have hrest := ih (process_event K L m d g e) (by
      intro evt hevt
      rw [event_controller_congr g _ evt (process_event_id K L m d g e)]
      exact h evt (List.mem_cons_of_mem e hevt))
    exact ⟨hrest.1.trans hstep.1, hrest.2.trans hstep.2⟩

theorem finish_controller_unused (L : Library) (m : mjModel) (d : mjData) (g : Globals)
    (n : ℕ) (hid : ¬0 ≤ (g.ctl n).id) : finish_controller L m d g n = g := by
  unfold finish_controller
  rw [if_neg hid]

/-- C15, as amended: relative-pose tracking across hold and release.  In the finish
step of `v_update`, the relative pose (`relpos`, `relquat`) of a controller in use is
recomputed from the current controller pose and the pose of the selected body when
`trackMocap` is off and the trigger is not held, and is left unchanged when the
trigger is held or `trackMocap` is on.  The offset recorded at the trigger press
persists until release provided no further press reaches the controller that the
program takes for a trigger press: over a whole call of `v_update` in which no event is
a press, attributed to the controller, of the trigger or of a button whose id the
`switch` does not map (such an event keeps the initial value `vBUTTON_TRIGGER`), and
after which the trigger is held or `trackMocap` is on, the relative pose is the one
before the call. -/
theorem relative_pose_recorded_unless_held (K : OpenVR) (L : Library) (m : mjModel)
    (d : mjData) (n : ℕ) (hn : n < 2) :
    (∀ g : Globals, 0 ≤ (g.ctl n).id →
      (g.trackMocap = false ∧ (g.ctl n).hold vBUTTON_TRIGGER = false →
        ((finish_controllers L m d g).ctl n).relpos =
          (L.mju_mulPose (L.mju_negPose (g.ctl n).pos (g.ctl n).quat).1
            (L.mju_negPose (g.ctl n).pos (g.ctl n).quat).2
            (at_offset d.xipos (3 * (g.ctl n).body))
            (L.mju_mulQuat (at_offset d.xquat (4 * (g.ctl n).body))
              (at_offset m.body_iquat (4 * (g.ctl n).body)))).1 ∧
        ((finish_controllers L m d g).ctl n).relquat =
          (L.mju_mulPose (L.mju_negPose (g.ctl n).pos (g.ctl n).quat).1
            (L.mju_negPose (g.ctl n).pos (g.ctl n).quat).2
            (at_offset d.xipos (3 * (g.ctl n).body))
            (L.mju_mulQuat (at_offset d.xquat (4 * (g.ctl n).body))
              (at_offset m.body_iquat (4 * (g.ctl n).body)))).2) ∧
      (g.trackMocap = true ∨ (g.ctl n).hold vBUTTON_TRIGGER = true →
        ((finish_controllers L m d g).ctl n).relpos = (g.ctl n).relpos ∧
        ((finish_controllers L m d g).ctl n).relquat = (g.ctl n).relquat)) ∧
    (∀ (vr : VRFrame) (g : Globals),
      (∀ evt ∈ vr.events, ¬(evt.eventType = K.VREvent_ButtonPress ∧
        event_controller g evt = some n ∧ event_button K evt = vBUTTON_TRIGGER)) →
      (((v_update K L m d vr g).ctl n).hold vBUTTON_TRIGGER = true ∨
        (v_update K L m d vr g).trackMocap = true) →
      ((v_update K L m d vr g).ctl n).relpos = (g.ctl n).relpos ∧
      ((v_update K L m d vr g).ctl n).relquat = (g.ctl n).relquat) := by
  refine ⟨?_, ?_⟩
  · intro g hid
    rw [finish_controllers_ctl L m d g n hn]
    obtain ⟨s1, s2, -, -⟩ := finish_controller_same L m d g n hid
    exact ⟨fun h => s1 h, s2⟩
  · intro vr g hev hpost
    have hids : ∀ k, ((update_poses L vr g).ctl k).id = (g.ctl k).id :=
      fun k => (update_poses_frame L vr g k).1
    have h2 := process_events_rel K L m d vr.events (update_poses L vr g) n (by
      intro evt hevt
      rw [event_controller_congr g _ evt hids]
      exact hev evt hevt)
    obtain ⟨-, -, -, -, -, u6, u7⟩ := update_poses_frame L vr g n
    rw [v_update_trackMocap, (v_update_frame K L m d vr g n).2.2.2.1] at hpost
    unfold v_update
    generalize process_events K L m d vr.events (update_poses L vr g) = g2 at h2 hpost ⊢
    obtain ⟨-, -, -, -, -, -, -, -, m9, m10, -, -⟩ :=
      apply_move_scale_frame L (finish_controllers L m d g2) n
    rw [m9, m10, finish_controllers_ctl L m d g2 n hn]
    have hfin : ((finish_controller L m d g2 n).ctl n).relpos = (g2.ctl n).relpos ∧
        ((finish_controller L m d g2 n).ctl n).relquat = (g2.ctl n).relquat := by
      by_cases hid : 0 ≤ (g2.ctl n).id
      · exact (finish_controller_same L m d g2 n hid).2.1 hpost.symm
      · rw [finish_controller_unused L m d g2 n hid]
        exact ⟨rfl, rfl⟩
    exact ⟨hfin.1.trans (h2.1.trans u6), hfin.2.trans (h2.2.trans u7)⟩

/-- C16: target pose.  After `v_update`, for every controller in use, the target pose
is the controller pose composed with the relative pose,
`mju_mulPose(pos, quat, relpos, relquat)`, when the tool is not `vTOOL_MOVE` and the
trigger is held or `trackMocap` is on; in every other case the target pose is the
controller pose (`targetpos = pos` in its three components, `targetquat = quat` in
its four). -/
theorem target_pose_after_update (K : OpenVR) (L : Library) (m : mjModel) (d : mjData)
    (vr : VRFrame) (g : Globals) (n : ℕ) (hn : n < 2)
    (hid : 0 ≤ ((v_update K L m d vr g).ctl n).id) :
    (((v_update K L m d vr g).ctl n).tool ≠ vTOOL_MOVE ∧
        (((v_update K L m d vr g).ctl n).hold vBUTTON_TRIGGER = true ∨
          (v_update K L m d vr g).trackMocap = true) →
      ((v_update K L m d vr g).ctl n).targetpos =
        (L.mju_mulPose ((v_update K L m d vr g).ctl n).pos ((v_update K L m d vr g).ctl n).quat
          ((v_update K L m d vr g).ctl n).relpos
          ((v_update K L m d vr g).ctl n).relquat).1 ∧
      ((v_update K L m d vr g).ctl n).targetquat =
        (L.mju_mulPose ((v_update K L m d vr g).ctl n).pos ((v_update K L m d vr g).ctl n).quat
          ((v_update K L m d vr g).ctl n).relpos
          ((v_update K L m d vr g).ctl n).relquat).2) ∧
    (¬(((v_update K L m d vr g).ctl n).tool ≠ vTOOL_MOVE ∧
        (((v_update K L m d vr g).ctl n).hold vBUTTON_TRIGGER = true ∨
          (v_update K L m d vr g).trackMocap = true)) →
      (∀ i, i < 3 →
        ((v_update K L m d vr g).ctl n).targetpos i = ((v_update K L m d vr g).ctl n).pos i) ∧
      (∀ i, i < 4 →
        ((v_update K L m d vr g).ctl n).targetquat i =
          ((v_update K L m d vr g).ctl n).quat i)) := by
  unfold v_update at hid ⊢
  generalize process_events K L m d vr.events (update_poses L vr g) = g2 at hid ⊢
  obtain ⟨m1, m2, -, m4, -, -, m7, m8, m9, m10, m11, m12⟩ :=
    apply_move_scale_frame L (finish_controllers L m d g2) n
  have mt := apply_move_scale_trackMocap L (finish_controllers L m d g2)
  have ft := finish_controllers_trackMocap L m d g2
  have fc := finish_controllers_ctl L m d g2 n hn
  obtain ⟨f1, f2, -, f4, -, -, f7, f8⟩ := finish_controller_frame L m d g2 n n
  rw [m1, fc, f1] at hid
  rw [m2, m4, m7, m8, m9, m10, m11, m12, mt, ft, fc, f2, f4, f7, f8]
  obtain ⟨-, -, s3, s4⟩ := finish_controller_same L m d g2 n hid
  refine ⟨fun h => s3 h, fun h => ?_⟩
  obtain ⟨t1, t2⟩ := s4 h
  rw [t1, t2]
  refine ⟨?_, ?_⟩
  · intro i hi
    simp [mju_copy, hi]
  · intro i hi
    simp [mju_copy, hi]

/-! ### The theorems about the teleoperation program at concrete inputs -/

theorem openvr_header_valid : openvr_header.Valid := by
  unfold OpenVR.Valid
  decide

theorem sample_start_eq :
    v_initPre openvr_header sample_devices zero_globals = some sample_start := rfl

theorem sample_start_reachable :
    Reachable openvr_header sample_library sample_model sample_start :=
  Reachable.init sample_devices sample_start sample_start.scn sample_start.pert sample_start_eq

theorem sample_menu_press_is :
    IsPress openvr_header sample_start sample_menu_press 0
      openvr_header.k_EButton_ApplicationMenu := ⟨rfl, rfl, rfl⟩

theorem sample_pad_press_is :
    IsPress openvr_header sample_start sample_pad_press 1
      openvr_header.k_EButton_SteamVR_Touchpad := ⟨rfl, rfl, rfl⟩

theorem tool_selection_cycles_witness :
    openvr_header.Valid ∧
    Reachable openvr_header sample_library sample_model sample_start ∧
    IsPress openvr_header sample_start sample_menu_press 0
      openvr_header.k_EButton_ApplicationMenu ∧
    (sample_start.ctl 0).tool = vTOOL_MOVE ∧
    ((process_event openvr_header sample_library sample_model sample_data sample_start
      sample_menu_press).ctl 0).tool = vTOOL_PULL ∧
    ((process_event openvr_header sample_library sample_model sample_data
      (process_event openvr_header sample_library sample_model sample_data sample_start
        sample_menu_press) sample_menu_press).ctl 0).tool = vTOOL_MOVE := by
  obtain ⟨h1, h2, -, h4⟩ :=
    tool_selection_cycles openvr_header sample_library sample_model openvr_header_valid
  have h0 := (h2 sample_devices sample_start sample_start_eq).1
  refine ⟨openvr_header_valid, sample_start_reachable, sample_menu_press_is, h0,
    (h1 sample_data sample_start sample_menu_press 0 sample_menu_press_is).2.1 h0, ?_⟩
  rw [h4 sample_data sample_start sample_menu_press sample_menu_press 0
    sample_start_reachable sample_menu_press_is sample_menu_press_is]
  exact h0

theorem trackMocap_changes_on_press_only_witness :
    openvr_header.Valid ∧
    event_controller sample_start sample_side_press = some 0 ∧
    sample_start.trackMocap = false ∧
    (process_event openvr_header sample_library sample_model sample_data sample_start
      sample_side_press).trackMocap = true := by
  have h := (trackMocap_changes_on_press_only openvr_header sample_library sample_model
    sample_data sample_start sample_side_press 0 openvr_header_valid rfl).1 rfl
  have h0 := (v_initPre_spec openvr_header sample_devices sample_start sample_start_eq).2.2.2.2.2
  refine ⟨openvr_header_valid, rfl, h0, ?_⟩
  rw [h.2.2.1 rfl, h0]
  rfl

theorem body_selection_stays_in_model_witness :
    openvr_header.Valid ∧
    IsPress openvr_header sample_start sample_pad_press 1
      openvr_header.k_EButton_SteamVR_Touchpad ∧
    (sample_start.ctl 1).tool = vTOOL_PULL ∧ (sample_start.ctl 1).body = 0 ∧
    ((process_event openvr_header sample_library sample_model sample_data sample_start
      sample_pad_press).ctl 1).body =
        (if (sample_start.ctl 1).padpos 1 > 0 then max 0 (0 - 1) else min (3 - 1) (0 + 1)) ∧
    (0 ≤ (sample_start.ctl 1).body ∧ (sample_start.ctl 1).body ≤ sample_model.nbody - 1) := by
  obtain ⟨h1, h2, h3⟩ :=
    body_selection_stays_in_model openvr_header sample_library sample_model openvr_header_valid
  have hspec := v_initPre_spec openvr_header sample_devices sample_start sample_start_eq
  have htool : (sample_start.ctl 1).tool = vTOOL_PULL := hspec.2.2.1 (by decide)
  have hbody : (sample_start.ctl 1).body = 0 := h2 sample_devices sample_start sample_start_eq 1
  have hne : (sample_start.ctl 1).tool ≠ vTOOL_MOVE := by
    rw [htool]
    decide
  have hstep := (h1 sample_data sample_start sample_pad_press 1 sample_pad_press_is).1 hne
    (by rw [hbody]; decide) (by rw [hbody]; decide) (by decide) (by decide)
  rw [hbody] at hstep
  exact ⟨openvr_header_valid, sample_pad_press_is, htool, hbody, hstep,
    h3 (by decide) (by decide) sample_start sample_start_reachable 1⟩

theorem relative_pose_recorded_unless_held_witness :
    1 < 2 ∧ 0 ≤ (sample_start.ctl 1).id ∧
    (sample_start.trackMocap = false ∧ (sample_start.ctl 1).hold vBUTTON_TRIGGER = false) ∧
    ((finish_controllers sample_library sample_model sample_data sample_start).ctl 1).relpos =
      (sample_library.mju_mulPose
        (sample_library.mju_negPose (sample_start.ctl 1).pos (sample_start.ctl 1).quat).1
        (sample_library.mju_negPose (sample_start.ctl 1).pos (sample_start.ctl 1).quat).2
        (at_offset sample_data.xipos (3 * (sample_start.ctl 1).body))
        (sample_library.mju_mulQuat (at_offset sample_data.xquat (4 * (sample_start.ctl 1).body))
          (at_offset sample_model.body_iquat (4 * (sample_start.ctl 1).body)))).1 ∧
    ((v_update openvr_header sample_library sample_model sample_data
        (sample_frame [sample_pad_press])
        (process_event openvr_header sample_library sample_model sample_data sample_start
          sample_trigger_press)).ctl 1).hold vBUTTON_TRIGGER = true ∧
    ((v_update openvr_header sample_library sample_model sample_data
        (sample_frame [sample_pad_press])
        (process_event openvr_header sample_library sample_model sample_data sample_start
          sample_trigger_press)).ctl 1).relpos =
      ((process_event openvr_header sample_library sample_model sample_data sample_start
          sample_trigger_press).ctl 1).relpos := by
  obtain ⟨h1, h2⟩ := relative_pose_recorded_unless_held openvr_header sample_library
    sample_model sample_data 1 (by decide)
  have hid : 0 ≤ (sample_start.ctl 1).id := by decide
  have hheld : ((v_update openvr_header sample_library sample_model sample_data
        (sample_frame [sample_pad_press])
        (process_event openvr_header sample_library sample_model sample_data sample_start
          sample_trigger_press)).ctl 1).hold vBUTTON_TRIGGER = true := rfl
  refine ⟨by decide, hid, ⟨rfl, rfl⟩, ((h1 sample_start hid).1 ⟨rfl, rfl⟩).1, hheld, ?_⟩
  refine (h2 (sample_frame [sample_pad_press]) _ ?_ (Or.inl hheld)).1
  intro evt hevt
  have he : evt = sample_pad_press := by simpa [sample_frame] using hevt
  subst he
  intro h
  exact absurd h.2.2 (by decide)

/-- C15 fails on the code in its last part: the offset recorded at the trigger press
does not always persist until release.  Controller 0 holds its trigger, with the
relative position (0, 0, 0) recorded at the press.  In the next frame the controller is
at (5, 5, 5) and the only event is a press of the button with id 7, which the `switch`
over the button ids does not map, so that the button of the event keeps its initial
value `vBUTTON_TRIGGER`: the relative position is recorded again, as (-5, -5, -5),
although the trigger is held before and after the frame and no event of the frame is a
release. -/
theorem relative_pose_rerecorded_while_held :
    Reachable openvr_header sample_library sample_model sample_held ∧
    (0 ≤ (sample_held.ctl 0).id ∧ (sample_held.ctl 0).hold vBUTTON_TRIGGER = true ∧
      (sample_held.ctl 0).relpos 0 = 0 ∧ (sample_held.ctl 0).relpos 1 = 0 ∧
      (sample_held.ctl 0).relpos 2 = 0) ∧
    (sample_unmapped_press.eventType = openvr_header.VREvent_ButtonPress ∧
      sample_unmapped_press.button ≠ openvr_header.k_EButton_ApplicationMenu ∧
      sample_unmapped_press.button ≠ openvr_header.k_EButton_Grip ∧
      sample_unmapped_press.button ≠ openvr_header.k_EButton_SteamVR_Trigger ∧
      sample_unmapped_press.button ≠ openvr_header.k_EButton_SteamVR_Touchpad ∧
      event_button openvr_header sample_unmapped_press = vBUTTON_TRIGGER) ∧
    (∀ evt ∈ (sample_moved_frame [sample_unmapped_press]).events,
      evt.eventType ≠ openvr_header.VREvent_ButtonUnpress) ∧
    ((v_update openvr_header sample_library sample_model sample_data
      (sample_moved_frame [sample_unmapped_press]) sample_held).ctl 0).hold vBUTTON_TRIGGER =
        true ∧
    ((v_update openvr_header sample_library sample_model sample_data
      (sample_moved_frame [sample_unmapped_press]) sample_held).ctl 0).relpos 0 = -5 ∧
    ((v_update openvr_header sample_library sample_model sample_data
      (sample_moved_frame [sample_unmapped_press]) sample_held).ctl 0).relpos 1 = -5 ∧
    ((v_update openvr_header sample_library sample_model sample_data
      (sample_moved_frame [sample_unmapped_press]) sample_held).ctl 0).relpos 2 = -5 := by
  refine ⟨Reachable.update sample_data (sample_frame [sample_move_trigger_press]) sample_start
    sample_start_reachable, ?_, ?_, ?_, ?_, ?_, ?_, ?_⟩
  all_goals decide!

theorem target_pose_after_update_witness :
    1 < 2 ∧
    0 ≤ ((v_update openvr_header sample_library sample_model sample_data
      (sample_frame [sample_trigger_press]) sample_start).ctl 1).id ∧
    ((v_update openvr_header sample_library sample_model sample_data
      (sample_frame [sample_trigger_press]) sample_start).ctl 1).tool = vTOOL_PULL ∧
    ((v_update openvr_header sample_library sample_model sample_data
      (sample_frame [sample_trigger_press]) sample_start).ctl 1).hold vBUTTON_TRIGGER = true ∧
    ((v_update openvr_header sample_library sample_model sample_data
      (sample_frame [sample_trigger_press]) sample_start).ctl 1).targetpos =
      (sample_library.mju_mulPose
        ((v_update openvr_header sample_library sample_model sample_data
          (sample_frame [sample_trigger_press]) sample_start).ctl 1).pos
        ((v_update openvr_header sample_library sample_model sample_data
          (sample_frame [sample_trigger_press]) sample_start).ctl 1).quat
        ((v_update openvr_header sample_library sample_model sample_data
          (sample_frame [sample_trigger_press]) sample_start).ctl 1).relpos
        ((v_update openvr_header sample_library sample_model sample_data
          (sample_frame [sample_trigger_press]) sample_start).ctl 1).relquat).1 ∧
    (∀ i, i < 3 →
      ((v_update openvr_header sample_library sample_model sample_data
        (sample_frame [sample_trigger_press]) sample_start).ctl 0).targetpos i =
      ((v_update openvr_header sample_library sample_model sample_data
        (sample_frame [sample_trigger_press]) sample_start).ctl 0).pos i) := by
  have hid1 : 0 ≤ ((v_update openvr_header sample_library sample_model sample_data
      (sample_frame [sample_trigger_press]) sample_start).ctl 1).id := by decide
  have hid0 : 0 ≤ ((v_update openvr_header sample_library sample_model sample_data
      (sample_frame [sample_trigger_press]) sample_start).ctl 0).id := by decide
  have htool : ((v_update openvr_header sample_library sample_model sample_data
      (sample_frame [sample_trigger_press]) sample_start).ctl 1).tool = vTOOL_PULL := rfl
  have hhold : ((v_update openvr_header sample_library sample_model sample_data
      (sample_frame [sample_trigger_press]) sample_start).ctl 1).hold vBUTTON_TRIGGER = true :=
    rfl
  have hmove : ((v_update openvr_header sample_library sample_model sample_data
      (sample_frame [sample_trigger_press]) sample_start).ctl 0).tool = vTOOL_MOVE := rfl
  have h1 := target_pose_after_update openvr_header sample_library sample_model sample_data
    (sample_frame [sample_trigger_press]) sample_start 1 (by decide) hid1
  have h0 := target_pose_after_update openvr_header sample_library sample_model sample_data
    (sample_frame [sample_trigger_press]) sample_start 0 (by decide) hid0
  refine ⟨by decide, hid1, htool, hhold, (h1.1 ⟨?_, Or.inl hhold⟩).1, (h0.2 ?_).1⟩
  · rw [htool]
    decide
  · intro h
    exact h.1 hmove

/-! ### World scaling with the move tool -/

/-- The `float` constant `0.01f` is `10737418 / 2 ^ 30`, below the real number 0.01. -/
theorem float_hundredth :
    binary32.ofRat (1 / 100) = Fp.fin (10737418 / 2 ^ 30) ∧
    (10737418 / 2 ^ 30 : ℚ) < 1 / 100 := by
  decide!

theorem float_hundred : binary32.ofRat 100 = Fp.fin 100 := by
  decide!

/-- A finite sum is a number of the format. -/
theorem Format.add_eq_fin (F : Format) (hp : 0 < F.prec) {a b : Fp} {s : ℚ}
    (h : F.add a b = Fp.fin s) : F.round s = s := by
  cases a <;> cases b <;> simp only [Format.add] at h <;>
    first
    | exact (F.round_of_ofRat_eq hp h).1
    | cases h
    | (split_ifs at h)

/-- A sum of a finite number and a product of finite numbers is not NaN. -/
theorem Format.add_mul_ne_nan (F : Format) (s y z : ℚ) :
    F.add (Fp.fin s) (F.mul (Fp.fin y) (Fp.fin z)) ≠ Fp.nan := by
  simp only [Format.mul]
  rcases F.ofRat_cases (y * z) with h | ⟨b, h⟩
  · rw [h]
    simp only [Format.add]
    rcases F.ofRat_cases (s + F.round (y * z)) with h' | ⟨b', h'⟩ <;> rw [h'] <;> simp
  · rw [h]
    simp [Format.add]

/-- The clamp of the scaling step: NaN stays NaN, every other value ends between the
two constants. -/
theorem clamp_scale (x : Fp) :
    (x = Fp.nan ∧
      (if Fp.lt x (binary32.ofRat (1 / 100)) then binary32.ofRat (1 / 100)
        else if Fp.lt (binary32.ofRat 100) x then binary32.ofRat 100 else x) = Fp.nan) ∨
    (x ≠ Fp.nan ∧ ∃ s,
      (if Fp.lt x (binary32.ofRat (1 / 100)) then binary32.ofRat (1 / 100)
        else if Fp.lt (binary32.ofRat 100) x then binary32.ofRat 100 else x) = Fp.fin s ∧
      10737418 / 2 ^ 30 ≤ s ∧ s ≤ 100 ∧
      (s = 10737418 / 2 ^ 30 ∨ s = 100 ∨ x = Fp.fin s)) := by
  rw [float_hundredth.1, float_hundred]
  cases x with
  | nan => exact Or.inl ⟨rfl, by simp [Fp.lt]⟩
  | inf b =>
    right
    refine ⟨by simp, ?_⟩
    cases b
    · exact ⟨100, by simp [Fp.lt], by norm_num, le_refl _, Or.inr (Or.inl rfl)⟩
    · exact ⟨10737418 / 2 ^ 30, by simp [Fp.lt], le_refl _, by norm_num, Or.inl rfl⟩
  | fin q =>
    right
    refine ⟨by simp, ?_⟩
    simp only [Fp.lt, decide_eq_true_eq]
    by_cases h1 : q < 10737418 / 2 ^ 30
    · rw [if_pos h1]
      exact ⟨_, rfl, le_refl _, by norm_num, Or.inl rfl⟩
    · rw [if_neg h1]
      by_cases h2 : (100 : ℚ) < q
      · rw [if_pos h2]
        exact ⟨_, rfl, by norm_num, le_refl _, Or.inr (Or.inl rfl)⟩
      · rw [if_neg h2]
        exact ⟨q, rfl, not_lt.mp h1, not_lt.mp h2, Or.inr (Or.inr rfl)⟩

/-- The argument of `logf` for a finite scale `s ≥ 0`: a finite number, at least 1. -/
theorem logf_argument (s : ℚ) (h0 : 0 ≤ s) (h1 : s < 2 ^ (128 : ℤ)) :
    ∃ a, binary32.add (Fp.fin 1) (binary32.div (Fp.fin s) (Fp.fin 3)) = Fp.fin a ∧ 1 ≤ a := by
  have hp := binary32_prec_pos
  have e28 : (2 : ℚ) ^ (128 : ℤ) = 2 * 2 ^ (127 : ℤ) := by
    rw [show (128 : ℤ) = 1 + 127 by norm_num, zpow_add₀ (by norm_num)]
    norm_num
  have e27 : (2 : ℚ) ^ (127 : ℤ) = 2 * 2 ^ (126 : ℤ) := by
    rw [show (127 : ℤ) = 1 + 126 by norm_num, zpow_add₀ (by norm_num)]
    norm_num
  have hpos := two_zpow_pos 126
  have h126 : (1 : ℚ) ≤ 2 ^ (126 : ℤ) := one_le_zpow₀ (by norm_num) (by norm_num)
  have ht0 : |s / 3| ≤ 2 ^ (127 : ℤ) := by
    rw [abs_of_nonneg (div_nonneg h0 (by norm_num)), div_le_iff₀ (by norm_num)]
    linarith
  have hdiv : binary32.div (Fp.fin s) (Fp.fin 3) = Fp.fin (binary32.round (s / 3)) := by
    simp only [Format.div]
    rw [if_neg (by norm_num)]
    exact binary32.ofRat_of_abs_le hp (e := 127) (by simp [binary32]) (by simp [binary32]) ht0
  have ht : |binary32.round (s / 3)| ≤ 2 ^ (127 : ℤ) :=
    binary32.abs_round_le_zpow hp (by simp [binary32]) ht0
  have htn : 0 ≤ binary32.round (s / 3) := binary32.round_nonneg (div_nonneg h0 (by norm_num))
  rw [abs_of_nonneg htn] at ht
  have h3 : binary32.round (3 * 2 ^ (126 : ℤ)) = 3 * 2 ^ (126 : ℤ) := by
    have := binary32.round_mul_zpow hp 3 126 (by simp [binary32]) (by simp [binary32])
    simpa using this
  have h1r : binary32.round 1 = 1 := by
    have := binary32.round_zpow hp 0 (by simp [binary32])
    simpa using this
  have ha2 : binary32.round (1 + binary32.round (s / 3)) ≤ 3 * 2 ^ (126 : ℤ) :=
    binary32.round_le hp (by linarith) h3
  have ha1 : 1 ≤ binary32.round (1 + binary32.round (s / 3)) :=
    binary32.le_round hp (by linarith) h1r
  refine ⟨binary32.round (1 + binary32.round (s / 3)), ?_, ha1⟩
  rw [hdiv]
  simp only [Format.add]
  apply binary32.ofRat_eq_fin
  rw [abs_of_nonneg (by linarith)]
  have : (2 : ℚ) ^ (binary32.emax + 1) = 2 ^ (128 : ℤ) := rfl
  rw [this, e28, e27]
  linarith

/-- The scaling step: the new scale is NaN or lies between the two constants of the
clamp and is a `float`, the old pad position of the vertical axis is reset, and the pad
position is unchanged. -/
theorem apply_scaling_spec (L : Library) (st : mjvScene × vController_t) :
    ((apply_scaling L st).1.scale = Fp.nan ∨
      ∃ s, (apply_scaling L st).1.scale = Fp.fin s ∧ 10737418 / 2 ^ 30 ≤ s ∧ s ≤ 100 ∧
        binary32.round s = s) ∧
    (apply_scaling L st).2.oldpadpos 1 = st.2.padpos 1 ∧
    (apply_scaling L st).2.padpos = st.2.padpos := by
  unfold apply_scaling
  dsimp only
  refine ⟨?_, by simp, rfl⟩
  rcases clamp_scale (binary32.add st.1.scale
    (binary32.mul (L.logf (binary32.add (Fp.fin 1) (binary32.div st.1.scale (Fp.fin 3))))
      (binary32.sub (Fp.fin (st.2.padpos 1)) (Fp.fin (st.2.oldpadpos 1))))) with
    ⟨-, h⟩ | ⟨-, s, h, h1, h2, h3⟩
  · exact Or.inl h
  · refine Or.inr ⟨s, h, h1, h2, ?_⟩
    rcases h3 with h3 | h3 | h3
    · rw [h3]
      have := (binary32.round_of_ofRat_eq binary32_prec_pos float_hundredth.1).1
      exact this
    · rw [h3]
      exact (binary32.round_of_ofRat_eq binary32_prec_pos float_hundred).1
    · exact binary32.add_eq_fin binary32_prec_pos h3

/-- The scaling step does not return NaN when the argument `1 + scn.scale/3` of `logf`
is finite, `logf` is finite there and the pad displacement is finite. -/
theorem apply_scaling_finite_of (L : Library) (st : mjvScene × vController_t) (a y disp : ℚ)
    (ha : binary32.add (Fp.fin 1) (binary32.div st.1.scale (Fp.fin 3)) = Fp.fin a)
    (hy : L.logf (Fp.fin a) = Fp.fin y)
    (hd : binary32.sub (Fp.fin (st.2.padpos 1)) (Fp.fin (st.2.oldpadpos 1)) = Fp.fin disp) :
    ∃ s', (apply_scaling L st).1.scale = Fp.fin s' ∧ 10737418 / 2 ^ 30 ≤ s' ∧ s' ≤ 100 := by
  have hs : ∃ s, st.1.scale = Fp.fin s := by
    cases h : st.1.scale with
    | fin s => exact ⟨s, rfl⟩
    | inf b =>
      rw [h] at ha
      simp [Format.div, Format.add] at ha
    | nan =>
      rw [h] at ha
      simp [Format.div, Format.add] at ha
  obtain ⟨s, hs⟩ := hs
  unfold apply_scaling
  dsimp only
  rw [ha, hy, hd, hs]
  rcases clamp_scale (binary32.add (Fp.fin s) (binary32.mul (Fp.fin y) (Fp.fin disp))) with
    ⟨hn, -⟩ | ⟨-, s', h, h1', h2', -⟩
  · exact absurd hn (binary32.add_mul_ne_nan s y disp)
  · exact ⟨s', h, h1', h2'⟩

/-- The scaling step does not return NaN when the prior scale is a finite number
`0 ≤ s < 2 ^ 128`, the pad displacement is finite and `logf` is finite at the finite
arguments from 1 on. -/
theorem apply_scaling_finite (L : Library) (st : mjvScene × vController_t)
    (hlog : ∀ x : ℚ, 1 ≤ x → ∃ y, L.logf (Fp.fin x) = Fp.fin y) (s : ℚ)
    (hs : st.1.scale = Fp.fin s) (h0 : 0 ≤ s) (h1 : s < 2 ^ (128 : ℤ))
    (hd : ∃ disp, binary32.sub (Fp.fin (st.2.padpos 1)) (Fp.fin (st.2.oldpadpos 1)) =
      Fp.fin disp) :
    ∃ s', (apply_scaling L st).1.scale = Fp.fin s' ∧ 10737418 / 2 ^ 30 ≤ s' ∧ s' ≤ 100 := by
  obtain ⟨a, ha, ha1⟩ := logf_argument s h0 h1
  obtain ⟨y, hy⟩ := hlog a ha1
  obtain ⟨disp, hdisp⟩ := hd
  rw [← hs] at ha
  exact apply_scaling_finite_of L st a y disp ha hy hdisp

/-- With the old pad position equal to the pad position, the scaling step leaves a
`float` scale between the two constants of the clamp unchanged, provided `logf` is
finite at the finite arguments from 1 on. -/
theorem apply_scaling_fixed (L : Library) (st : mjvScene × vController_t)
    (hlog : ∀ x : ℚ, 1 ≤ x → ∃ y, L.logf (Fp.fin x) = Fp.fin y) (s : ℚ)
    (hpad : st.2.oldpadpos 1 = st.2.padpos 1) (hs : st.1.scale = Fp.fin s)
    (hr : binary32.round s = s) (h1 : 10737418 / 2 ^ 30 ≤ s) (h2 : s ≤ 100) :
    (apply_scaling L st).1.scale = Fp.fin s := by
  have h0 : 0 ≤ s := le_trans (by norm_num) h1
  have h128 : s < 2 ^ (128 : ℤ) :=
    lt_of_le_of_lt h2 (lt_of_lt_of_le (by norm_num : (100 : ℚ) < 2 ^ (7 : ℤ))
      (zpow_le_zpow_right₀ (by norm_num) (by norm_num)))
  obtain ⟨a, ha, ha1⟩ := logf_argument s h0 h128
  obtain ⟨y, hy⟩ := hlog a ha1
  have hsum : binary32.add (Fp.fin s) (binary32.mul (Fp.fin y)
      (binary32.sub (Fp.fin (st.2.padpos 1)) (Fp.fin (st.2.padpos 1)))) = Fp.fin s := by
    simp only [Format.sub, sub_self, binary32.ofRat_zero, Format.mul, mul_zero, Format.add,
      add_zero]
    exact binary32.ofRat_self hr (by rw [abs_of_nonneg h0]; exact h128)
  unfold apply_scaling
  dsimp only
  rw [hs, ha, hy, hpad, hsum, float_hundredth.1, float_hundred]
  simp only [Fp.lt, decide_eq_true_eq]
  rw [if_neg (not_lt.mpr h1), if_neg (not_lt.mpr h2)]

theorem apply_translation_foldl_fst (l : List ℕ) (st : mjvScene × vController_t) :
    (l.foldl apply_translation st).1 =
      { st.1 with translate := (l.foldl apply_translation st).1.translate } := by
  induction l generalizing st with
  | nil => rfl
  | cons x xs ih =>
    rw [List.foldl_cons, ih]
    rfl

theorem move_scale_ctl_ne (L : Library) (g : Globals) (n k : ℕ) (hk : k ≠ n) :
    (move_scale L g n).ctl k = g.ctl k := by
  unfold move_scale
  split_ifs
  · simp [Function.update_noteq hk]
  · rfl

theorem move_scale_padpos (L : Library) (g : Globals) (n k : ℕ) :
    ((move_scale L g n).ctl k).padpos = (g.ctl k).padpos := by
  by_cases hk : k = n
  · subst hk
    unfold move_scale
    split_ifs with h1
    · simp only [Function.update_same, apply_rotation]
      rw [apply_translation_foldl]
      by_cases ht : (g.ctl k).touch vBUTTON_PAD = true
      · simp [apply_scaling, ht]
      · simp [ht]
    · rfl
  · rw [move_scale_ctl_ne L g n k hk]

/-- The scale and the old pad position after the move tool of controller `n` was
considered: if the controller is in use and valid, has the move tool, its trigger is
held and its pad is touched, they are those of the scaling step; otherwise they are
unchanged. -/
theorem move_scale_scale (L : Library) (g : Globals) (n : ℕ) :
    ((0 ≤ (g.ctl n).id ∧ (g.ctl n).valid = true ∧ (g.ctl n).tool = vTOOL_MOVE ∧
        (g.ctl n).hold vBUTTON_TRIGGER = true) ∧ (g.ctl n).touch vBUTTON_PAD = true →
      (move_scale L g n).scn.scale = (apply_scaling L (g.scn, g.ctl n)).1.scale ∧
      ((move_scale L g n).ctl n).oldpadpos 1 = (g.ctl n).padpos 1) ∧
    (¬((0 ≤ (g.ctl n).id ∧ (g.ctl n).valid = true ∧ (g.ctl n).tool = vTOOL_MOVE ∧
        (g.ctl n).hold vBUTTON_TRIGGER = true) ∧ (g.ctl n).touch vBUTTON_PAD = true) →
      (move_scale L g n).scn.scale = g.scn.scale ∧
      ((move_scale L g n).ctl n).oldpadpos = (g.ctl n).oldpadpos) := by
  unfold move_scale
  by_cases h1 : 0 ≤ (g.ctl n).id ∧ (g.ctl n).valid = true ∧ (g.ctl n).tool = vTOOL_MOVE ∧
      (g.ctl n).hold vBUTTON_TRIGGER = true
  · rw [if_pos h1]
    simp only [Function.update_same, apply_rotation]
    rw [apply_translation_foldl, apply_translation_foldl_fst]
    by_cases ht : (g.ctl n).touch vBUTTON_PAD = true
    · refine ⟨fun _ => ?_, fun hn => absurd ⟨h1, ht⟩ hn⟩
      rw [if_pos ht]
      exact ⟨rfl, (apply_scaling_spec L (g.scn, g.ctl n)).2.1⟩
    · refine ⟨fun hp => absurd hp.2 ht, fun _ => ?_⟩
      rw [if_neg ht]
      exact ⟨rfl, rfl⟩
  · rw [if_neg h1]
    exact ⟨fun hp => absurd hp.1 h1, fun _ => ⟨rfl, rfl⟩⟩

/-- After the move-and-scale part, if one of the two controllers applied the scaling
step, the scale is NaN or inside the clamp range and the old pad position of that
controller is its pad position. -/
theorem apply_move_scale_clamped (L : Library) (g : Globals) (n : ℕ) (hn : n < 2)
    (hid : 0 ≤ (g.ctl n).id) (hvalid : (g.ctl n).valid = true)
    (htool : (g.ctl n).tool = vTOOL_MOVE) (hhold : (g.ctl n).hold vBUTTON_TRIGGER = true)
    (htouch : (g.ctl n).touch vBUTTON_PAD = true) :
    ((apply_move_scale L g).scn.scale = Fp.nan ∨
      ∃ s, (apply_move_scale L g).scn.scale = Fp.fin s ∧ 10737418 / 2 ^ 30 ≤ s ∧ s ≤ 100 ∧
        binary32.round s = s) ∧
    ((apply_move_scale L g).ctl n).oldpadpos 1 = ((apply_move_scale L g).ctl n).padpos 1 := by
  unfold apply_move_scale
  rw [foldl_range_two]
  have hpad : ((move_scale L (move_scale L g 0) 1).ctl n).padpos = (g.ctl n).padpos := by
    rw [move_scale_padpos, move_scale_padpos]
  rw [hpad]
  have h0 := move_scale_scale L g 0
  have h1 := move_scale_scale L (move_scale L g 0) 1
  obtain ⟨f1, f2, -, f4, f5, f6, -⟩ := move_scale_frame L g 0 1
  interval_cases n
  · -- controller 0 applied the step; controller 1 applies it again or leaves the scale
    obtain ⟨s0, p0⟩ := h0.1 ⟨⟨hid, hvalid, htool, hhold⟩, htouch⟩
    have hr0 := apply_scaling_spec L (g.scn, g.ctl 0)
    have hold0 : ((move_scale L (move_scale L g 0) 1).ctl 0).oldpadpos 1 = (g.ctl 0).padpos 1 := by
      rw [move_scale_ctl_ne L _ 1 0 (by decide)]
      exact p0
    by_cases hc : (0 ≤ ((move_scale L g 0).ctl 1).id ∧ ((move_scale L g 0).ctl 1).valid = true ∧
        ((move_scale L g 0).ctl 1).tool = vTOOL_MOVE ∧
        ((move_scale L g 0).ctl 1).hold vBUTTON_TRIGGER = true) ∧
        ((move_scale L g 0).ctl 1).touch vBUTTON_PAD = true
    · obtain ⟨s1, -⟩ := h1.1 hc
      have hr1 := apply_scaling_spec L ((move_scale L g 0).scn, (move_scale L g 0).ctl 1)
      rw [s1]
      exact ⟨hr1.1, hold0⟩
    · obtain ⟨s1, -⟩ := h1.2 hc
      rw [s1, s0]
      exact ⟨hr0.1, hold0⟩
  · -- controller 1 applied the step last
    have hc : (0 ≤ ((move_scale L g 0).ctl 1).id ∧ ((move_scale L g 0).ctl 1).valid = true ∧
        ((move_scale L g 0).ctl 1).tool = vTOOL_MOVE ∧
        ((move_scale L g 0).ctl 1).hold vBUTTON_TRIGGER = true) ∧
        ((move_scale L g 0).ctl 1).touch vBUTTON_PAD = true := by
      rw [f1, f2, f4, f5, f6]
      exact ⟨⟨hid, hvalid, htool, hhold⟩, htouch⟩
    obtain ⟨s1, p1⟩ := h1.1 hc
    have hr1 := apply_scaling_spec L ((move_scale L g 0).scn, (move_scale L g 0).ctl 1)
    rw [s1, p1, move_scale_padpos]
    exact ⟨hr1.1, rfl⟩

/-- C22, as amended: world scaling with the move tool is clamped between the `float`
constants of the code.  Whenever `v_update` applies the scaling step for a controller
(the controller is in use and valid, has the move tool, its trigger is held and its pad
is touched), the resulting `scn.scale` is NaN or a `float` in `[0.01f, 100]`, where
`0.01f = 10737418 / 2 ^ 30` lies below 0.01, and `oldpadpos[1]` of the controller equals
`padpos[1]`.  The step itself, for every prior scale and every pad position: returns NaN
or a `float` in `[0.01f, 100]`; resets `oldpadpos[1]` to `padpos[1]`; returns a `float`
in `[0.01f, 100]` whenever the argument `1 + scn.scale/3` of `logf` is finite, `logf`
is finite there and the pad displacement is finite; and, when `logf` is finite at the
finite arguments from 1 on, returns a `float` in `[0.01f, 100]` for every finite prior
scale `0 ≤ s < 2 ^ 128` and finite pad displacement, and repeated with an unchanged pad
position leaves a finite scale unchanged. -/
theorem world_scale_is_clamped (K : OpenVR) (L : Library) (m : mjModel) (d : mjData)
    (vr : VRFrame) (g : Globals) (n : ℕ) (hn : n < 2)
    (hid : 0 ≤ ((v_update K L m d vr g).ctl n).id)
    (hvalid : ((v_update K L m d vr g).ctl n).valid = true)
    (htool : ((v_update K L m d vr g).ctl n).tool = vTOOL_MOVE)
    (hhold : ((v_update K L m d vr g).ctl n).hold vBUTTON_TRIGGER = true)
    (htouch : ((v_update K L m d vr g).ctl n).touch vBUTTON_PAD = true) :
    (((v_update K L m d vr g).scn.scale = Fp.nan ∨
        ∃ s, (v_update K L m d vr g).scn.scale = Fp.fin s ∧ 10737418 / 2 ^ 30 ≤ s ∧
          s ≤ 100 ∧ binary32.Finite s) ∧
      ((v_update K L m d vr g).ctl n).oldpadpos 1 = ((v_update K L m d vr g).ctl n).padpos 1) ∧
    binary32.ofRat (1 / 100) = Fp.fin (10737418 / 2 ^ 30) ∧
    ∀ st : mjvScene × vController_t,
      ((apply_scaling L st).1.scale = Fp.nan ∨
        ∃ s, (apply_scaling L st).1.scale = Fp.fin s ∧ 10737418 / 2 ^ 30 ≤ s ∧ s ≤ 100 ∧
          binary32.Finite s) ∧
      (apply_scaling L st).2.oldpadpos 1 = st.2.padpos 1 ∧
      (apply_scaling L st).2.padpos = st.2.padpos ∧
      (∀ a y disp : ℚ,
        binary32.add (Fp.fin 1) (binary32.div st.1.scale (Fp.fin 3)) = Fp.fin a →
        L.logf (Fp.fin a) = Fp.fin y →
        binary32.sub (Fp.fin (st.2.padpos 1)) (Fp.fin (st.2.oldpadpos 1)) = Fp.fin disp →
        ∃ s', (apply_scaling L st).1.scale = Fp.fin s' ∧ 10737418 / 2 ^ 30 ≤ s' ∧
          s' ≤ 100) ∧
      ((∀ x : ℚ, 1 ≤ x → ∃ y, L.logf (Fp.fin x) = Fp.fin y) →
        (∀ s, st.1.scale = Fp.fin s → 0 ≤ s → s < 2 ^ (128 : ℤ) →
          (∃ disp, binary32.sub (Fp.fin (st.2.padpos 1)) (Fp.fin (st.2.oldpadpos 1)) =
            Fp.fin disp) →
          ∃ s', (apply_scaling L st).1.scale = Fp.fin s' ∧ 10737418 / 2 ^ 30 ≤ s' ∧
            s' ≤ 100) ∧
        ∀ s', (apply_scaling L st).1.scale = Fp.fin s' →
          (apply_scaling L (apply_scaling L st)).1.scale = Fp.fin s') := by
  have hfin : ∀ s : ℚ, 10737418 / 2 ^ 30 ≤ s → s ≤ 100 → binary32.round s = s →
      binary32.Finite s := by
    intro s h1 h2 hr
    exact binary32.ofRat_self hr (by
      rw [abs_of_nonneg (le_trans (by norm_num) h1)]
      exact lt_of_le_of_lt h2 (lt_of_lt_of_le (by norm_num : (100 : ℚ) < 2 ^ (7 : ℤ))
        (zpow_le_zpow_right₀ (by norm_num) (by decide))))
  refine ⟨?_, float_hundredth.1, ?_⟩
  · unfold v_update at hid hvalid htool hhold htouch ⊢
    generalize finish_controllers L m d
      (process_events K L m d vr.events (update_poses L vr g)) = g3
      at hid hvalid htool hhold htouch ⊢
    obtain ⟨f1, f2, -, f4, f5, f6, -⟩ := apply_move_scale_frame L g3 n
    rw [f1] at hid
    rw [f6] at hvalid
    rw [f2] at htool
    rw [f4] at hhold
    rw [f5] at htouch
    obtain ⟨hs, hp⟩ := apply_move_scale_clamped L g3 n hn hid hvalid htool hhold htouch
    refine ⟨?_, hp⟩
    rcases hs with hs | ⟨s, hs, h1, h2, hr⟩
    · exact Or.inl hs
    · exact Or.inr ⟨s, hs, h1, h2, hfin s h1 h2 hr⟩
  · intro st
    obtain ⟨hs, h3, h4⟩ := apply_scaling_spec L st
    refine ⟨?_, h3, h4, apply_scaling_finite_of L st, ?_⟩
    · rcases hs with hs | ⟨s, hs, h1, h2, hr⟩
      · exact Or.inl hs
      · exact Or.inr ⟨s, hs, h1, h2, hfin s h1 h2 hr⟩
    · intro hlog
      refine ⟨fun s hsc h0 h1 hd => apply_scaling_finite L st hlog s hsc h0 h1 hd, ?_⟩
      intro s' hs'
      rcases hs with hs | ⟨s, hs, h1, h2, hr⟩
      · rw [hs] at hs'
        cases hs'
      · rw [hs] at hs'
        have e : s = s' := by injection hs'
        rw [← e]
        exact apply_scaling_fixed L (apply_scaling L st) hlog s (by rw [h3, h4]) hs hr h1 h2

/-! ### Which events are processed -/

/-- An event outside the polled range of types, or one that the program attributes to
no controller, changes nothing at all. -/
theorem process_event_ignored (K : OpenVR) (L : Library) (m : mjModel) (d : mjData)
    (g : Globals) (evt : VREvent_t)
    (h : ¬(200 ≤ evt.eventType ∧ evt.eventType ≤ 203) ∨ event_controller g evt = none) :
    process_event K L m d g evt = g := by
  unfold process_event
  by_cases hr : 200 ≤ evt.eventType ∧ evt.eventType ≤ 203
  · rcases h with h | h
    · exact absurd hr h
    · rw [if_pos hr, h]
  · rw [if_neg hr]

/-- The program attributes an event to no controller exactly when its device index
differs from both ids after their conversion to unsigned 32-bit numbers. -/
theorem event_controller_eq_none (g : Globals) (evt : VREvent_t) :
    event_controller g evt = none ↔
      (g.ctl 0).id % 2 ^ 32 ≠ (evt.trackedDeviceIndex : ℤ) ∧
      (g.ctl 1).id % 2 ^ 32 ≠ (evt.trackedDeviceIndex : ℤ) := by
  unfold event_controller
  split_ifs with h0 h1
  · exact ⟨fun h => h.elim, fun h => absurd h0 h.1⟩
  · exact ⟨fun h => h.elim, fun h => absurd h1 h.2⟩
  · exact ⟨fun _ => ⟨h0, h1⟩, fun _ => rfl⟩

/-- When both controllers are in use, an event whose device index is neither id is
attributed to no controller. -/
theorem event_controller_none_of_used (g : Globals) (evt : VREvent_t)
    (h0 : 0 ≤ (g.ctl 0).id) (h1 : 0 ≤ (g.ctl 1).id)
    (b0 : (g.ctl 0).id < 2 ^ 31) (b1 : (g.ctl 1).id < 2 ^ 31)
    (hne : (evt.trackedDeviceIndex : ℤ) ≠ (g.ctl 0).id ∧
      (evt.trackedDeviceIndex : ℤ) ≠ (g.ctl 1).id) :
    event_controller g evt = none := by
  rw [event_controller_eq_none]
  norm_num at b0 b1 ⊢
  omega

/-- When controller 1 is not in use (`id = -1`), an event whose device index is
neither id is attributed to no controller unless the index is `0xFFFFFFFF`. -/
theorem event_controller_none_of_unused (g : Globals) (evt : VREvent_t)
    (h0 : 0 ≤ (g.ctl 0).id) (b0 : (g.ctl 0).id < 2 ^ 31) (h1 : (g.ctl 1).id = -1)
    (hne : (evt.trackedDeviceIndex : ℤ) ≠ (g.ctl 0).id)
    (hidx : evt.trackedDeviceIndex ≠ 4294967295) :
    event_controller g evt = none := by
  rw [event_controller_eq_none, h1]
  norm_num at b0 ⊢
  omega

/-- The flags after an event of a controller that the program knows: a press sets and
an unpress clears the hold flag of the mapped button of that controller, a touch sets
and an untouch clears its touch flag, and no other hold or touch flag of either
controller changes. -/
theorem process_event_flags {K : OpenVR} (hK : K.Valid) (L : Library) (m : mjModel)
    (d : mjData) (g : Globals) (evt : VREvent_t) (n : ℕ)
    (hn : event_controller g evt = some n) :
    (evt.eventType = K.VREvent_ButtonPress →
      ((process_event K L m d g evt).ctl n).hold =
        Function.update (g.ctl n).hold (event_button K evt) true ∧
      ((process_event K L m d g evt).ctl n).touch = (g.ctl n).touch) ∧
    (evt.eventType = K.VREvent_ButtonUnpress →
      ((process_event K L m d g evt).ctl n).hold =
        Function.update (g.ctl n).hold (event_button K evt) false ∧
      ((process_event K L m d g evt).ctl n).touch = (g.ctl n).touch) ∧
    (evt.eventType = K.VREvent_ButtonTouch →
      ((process_event K L m d g evt).ctl n).touch =
        Function.update (g.ctl n).touch (event_button K evt) true ∧
      ((process_event K L m d g evt).ctl n).hold = (g.ctl n).hold) ∧
    (evt.eventType = K.VREvent_ButtonUntouch →
      ((process_event K L m d g evt).ctl n).touch =
        Function.update (g.ctl n).touch (event_button K evt) false ∧
      ((process_event K L m d g evt).ctl n).hold = (g.ctl n).hold) ∧
    ∀ k, k ≠ n →
      ((process_event K L m d g evt).ctl k).hold = (g.ctl k).hold ∧
      ((process_event K L m d g evt).ctl k).touch = (g.ctl k).touch := by
  refine ⟨?_, ?_, ?_, ?_, ?_⟩
  · intro ht
    rw [process_event_press hK L m d g evt n ht hn]
    exact ⟨(button_press_same L m d g n _).2.1, (button_press_same L m d g n _).2.2.1⟩
  · intro ht
    rw [process_event_unpress hK L m d g evt n ht hn]
    simp
  · intro ht
    rw [process_event_touch hK L m d g evt n ht hn]
    unfold button_touch
    simp only [Function.update_same]
    split_ifs <;> simp
  · intro ht
    rw [process_event_untouch hK L m d g evt n ht hn]
    simp
  · intro k hk
    rcases process_event_cases K L m d g evt with h | ⟨n1, hn1, -, ⟨-, h⟩ | ⟨-, h | h | h⟩⟩
    · rw [h]
      exact ⟨rfl, rfl⟩
    all_goals
      rw [hn] at hn1
      cases hn1
      rw [h]
    · rw [button_press_ctl_ne L m d g n _ k hk]
      exact ⟨rfl, rfl⟩
    · simp [Function.update_noteq hk]
    · unfold button_touch
      simp [Function.update_noteq hk]
    · simp [Function.update_noteq hk]

theorem sample_single_start_eq :
    v_initPre openvr_header sample_single_devices zero_globals = some sample_single_start :=
  rfl

/-- C21: `v_update` processes button and touch events only.  The part of the claim
about events of unknown devices fails on the code: with a single controller connected
(`ctl[1].id = -1`, "not used"), a button-press event that carries the invalid device
index `0xFFFFFFFF` has a device index that is neither `ctl[0].id = 1` nor
`ctl[1].id = -1`, yet the comparison of the `int` id with the unsigned index
attributes it to the unused controller 1: its hold flag of the menu button is set and
its tool changes, and the same event with the side button switches `trackMocap`
on. -/
theorem event_of_invalid_device_reaches_unused_controller :
    Reachable openvr_header sample_library sample_model sample_single_start ∧
    (sample_single_start.ctl 0).id = 1 ∧ (sample_single_start.ctl 1).id = -1 ∧
    (200 ≤ sample_stray_menu_press.eventType ∧ sample_stray_menu_press.eventType ≤ 203) ∧
    (sample_stray_menu_press.trackedDeviceIndex : ℤ) ≠ (sample_single_start.ctl 0).id ∧
    (sample_stray_menu_press.trackedDeviceIndex : ℤ) ≠ (sample_single_start.ctl 1).id ∧
    event_controller sample_single_start sample_stray_menu_press = some 1 ∧
    (sample_single_start.ctl 1).hold vBUTTON_MENU = false ∧
    ((v_update openvr_header sample_library sample_model sample_data
      (sample_frame [sample_stray_menu_press]) sample_single_start).ctl 1).hold vBUTTON_MENU =
        true ∧
    (sample_single_start.ctl 1).tool = vTOOL_MOVE ∧
    ((v_update openvr_header sample_library sample_model sample_data
      (sample_frame [sample_stray_menu_press]) sample_single_start).ctl 1).tool = vTOOL_PULL ∧
    sample_single_start.trackMocap = false ∧
    (v_update openvr_header sample_library sample_model sample_data
      (sample_frame [sample_stray_side_press]) sample_single_start).trackMocap = true := by
  refine ⟨Reachable.init sample_single_devices sample_single_start sample_single_start.scn
    sample_single_start.pert sample_single_start_eq, ?_, ?_, ?_, ?_, ?_, ?_, ?_, ?_, ?_, ?_,
    ?_, ?_⟩
  all_goals decide

/-- C22 fails on the code at its lower bound and for a prior scale that makes the
argument of `logf` negative.  From the scale 0, with the pad position unchanged, the
scaling step of controller 0 computes `0 + logf(1) * 0 = 0`, below `0.01f`, and stores
`0.01f = 10737418 / 2 ^ 30`, which is less than 0.01; from the scale `0.01f`, with the
pad position unchanged, the step leaves `0.01f`.  From the scale -6 the argument of
`logf` is `1 + (-6) / 3 = -1`, `logf` returns NaN, both comparisons of the clamp are
false and the scale is NaN. -/
theorem world_scale_below_hundredth :
    (0 ≤ ((v_update openvr_header sample_library sample_model sample_data
        (sample_frame [sample_move_trigger_press, sample_pad_touch]) sample_start).ctl 0).id ∧
      ((v_update openvr_header sample_library sample_model sample_data
        (sample_frame [sample_move_trigger_press, sample_pad_touch]) sample_start).ctl 0).valid =
          true ∧
      ((v_update openvr_header sample_library sample_model sample_data
        (sample_frame [sample_move_trigger_press, sample_pad_touch]) sample_start).ctl 0).tool =
          vTOOL_MOVE ∧
      ((v_update openvr_header sample_library sample_model sample_data
        (sample_frame [sample_move_trigger_press, sample_pad_touch]) sample_start).ctl 0).hold
          vBUTTON_TRIGGER = true ∧
      ((v_update openvr_header sample_library sample_model sample_data
        (sample_frame [sample_move_trigger_press, sample_pad_touch]) sample_start).ctl 0).touch
          vBUTTON_PAD = true) ∧
    (sample_start.scn.scale = Fp.fin 0 ∧
      (v_update openvr_header sample_library sample_model sample_data
        (sample_frame [sample_move_trigger_press, sample_pad_touch]) sample_start).scn.scale =
          Fp.fin (10737418 / 2 ^ 30) ∧
      (10737418 / 2 ^ 30 : ℚ) < 1 / 100) ∧
    ((sample_start_scaled (binary32.ofRat (1 / 100))).scn.scale = Fp.fin (10737418 / 2 ^ 30) ∧
      (sample_start_scaled (binary32.ofRat (1 / 100))).ctl = sample_start.ctl ∧
      (v_update openvr_header sample_library sample_model sample_data
        (sample_frame [sample_move_trigger_press, sample_pad_touch])
        (sample_start_scaled (binary32.ofRat (1 / 100)))).scn.scale =
          Fp.fin (10737418 / 2 ^ 30)) ∧
    ((sample_start_scaled (Fp.fin (-6))).scn.scale = Fp.fin (-6) ∧
      (sample_start_scaled (Fp.fin (-6))).ctl = sample_start.ctl ∧
      binary32.add (Fp.fin 1) (binary32.div (Fp.fin (-6)) (Fp.fin 3)) = Fp.fin (-1) ∧
      sample_library.logf (Fp.fin (-1)) = Fp.nan ∧
      (v_update openvr_header sample_library sample_model sample_data
        (sample_frame [sample_move_trigger_press, sample_pad_touch])
        (sample_start_scaled (Fp.fin (-6)))).scn.scale = Fp.nan) := by
  refine ⟨by decide, ⟨by decide!, by decide!, by decide!⟩, ⟨by decide!, rfl, by decide!⟩,
    by decide!, rfl, by decide!, by decide!, by decide!⟩

theorem world_scale_is_clamped_witness :
    1 < 2 ∧
    (0 ≤ ((v_update openvr_header sample_library sample_model sample_data
        (sample_frame [sample_move_trigger_press, sample_pad_touch]) sample_start).ctl 0).id ∧
      ((v_update openvr_header sample_library sample_model sample_data
        (sample_frame [sample_move_trigger_press, sample_pad_touch]) sample_start).ctl 0).valid =
          true ∧
      ((v_update openvr_header sample_library sample_model sample_data
        (sample_frame [sample_move_trigger_press, sample_pad_touch]) sample_start).ctl 0).tool =
          vTOOL_MOVE ∧
      ((v_update openvr_header sample_library sample_model sample_data
        (sample_frame [sample_move_trigger_press, sample_pad_touch]) sample_start).ctl 0).hold
          vBUTTON_TRIGGER = true ∧
      ((v_update openvr_header sample_library sample_model sample_data
        (sample_frame [sample_move_trigger_press, sample_pad_touch]) sample_start).ctl 0).touch
          vBUTTON_PAD = true) ∧
    sample_start.scn.scale = Fp.fin 0 ∧
    ((v_update openvr_header sample_library sample_model sample_data
        (sample_frame [sample_move_trigger_press, sample_pad_touch]) sample_start).scn.scale =
          Fp.nan ∨
      ∃ s, (v_update openvr_header sample_library sample_model sample_data
        (sample_frame [sample_move_trigger_press, sample_pad_touch]) sample_start).scn.scale =
          Fp.fin s ∧ 10737418 / 2 ^ 30 ≤ s ∧ s ≤ 100 ∧ binary32.Finite s) ∧
    ((v_update openvr_header sample_library sample_model sample_data
        (sample_frame [sample_move_trigger_press, sample_pad_touch]) sample_start).ctl 0).oldpadpos
          1 =
      ((v_update openvr_header sample_library sample_model sample_data
        (sample_frame [sample_move_trigger_press, sample_pad_touch]) sample_start).ctl 0).padpos
          1 ∧
    (∀ x : ℚ, 1 ≤ x → ∃ y, sample_library.logf (Fp.fin x) = Fp.fin y) ∧
    (∃ s, (apply_scaling sample_library (sample_start.scn, sample_start.ctl 0)).1.scale =
      Fp.fin s ∧ 10737418 / 2 ^ 30 ≤ s ∧ s ≤ 100) := by
  have hlog : ∀ x : ℚ, 1 ≤ x → ∃ y, sample_library.logf (Fp.fin x) = Fp.fin y := by
    intro x hx
    refine ⟨x - 1, ?_⟩
    show sample_logf (Fp.fin x) = Fp.fin (x - 1)
    simp only [sample_logf]
    rw [if_neg (not_lt.mpr (by linarith)), if_neg (by linarith)]
  have hid : 0 ≤ ((v_update openvr_header sample_library sample_model sample_data
      (sample_frame [sample_move_trigger_press, sample_pad_touch]) sample_start).ctl 0).id := by
    decide
  have h := (world_scale_is_clamped openvr_header sample_library sample_model sample_data
    (sample_frame [sample_move_trigger_press, sample_pad_touch]) sample_start 0 (by decide)
    hid rfl rfl rfl rfl)
  exact ⟨by decide, ⟨hid, rfl, rfl, rfl, rfl⟩, rfl, h.1.1, h.1.2, hlog,
    ((h.2.2 (sample_start.scn, sample_start.ctl 0)).2.2.2.2 hlog).1 0 rfl (le_refl 0)
      (two_zpow_pos 128) ⟨0, by decide!⟩⟩

/-! ## Exact recovery -/

/-- The predicate `FullRowRank` says that the Gram matrix `A * Aᵀ` is a unit of the
ring of square matrices. -/
theorem MatrixXd.fullRowRank_iff_isUnit (A : MatrixXd) :
    A.FullRowRank ↔
      IsUnit (Matrix.of fun a b : Fin A.rows => A.gramGet a.val b.val) := by
  constructor
  · rintro ⟨Ginv, h⟩
    refine Matrix.isUnit_of_right_inverse
      (B := Matrix.of fun b c : Fin A.rows => Ginv.get b.val c.val) ?_
    ext a c
    rw [Matrix.mul_apply, Matrix.one_apply]
    have := h a.val c.val a.isLt c.isLt
    rw [Finset.sum_range] at this
    simp only [Matrix.of_apply]
    rw [this]
    simp only [Fin.val_inj]
  · intro hu
    obtain ⟨u, hu⟩ := hu
    refine ⟨⟨A.rows, A.rows, fun b c => u.inv b c⟩, ?_⟩
    intro a c ha hc
    have h2 := congrFun (congrFun u.val_inv ⟨a, ha⟩) ⟨c, hc⟩
    rw [Matrix.mul_apply, Matrix.one_apply, hu] at h2
    rw [Finset.sum_range]
    simp only [Matrix.of_apply] at h2
    refine Eq.trans (Finset.sum_congr rfl ?_) (h2.trans ?_)
    · intro b _
      rw [MatrixXd.get_fin ⟨A.rows, A.rows, fun b c => u.inv b c⟩ b ⟨c, hc⟩]
    · simp only [Fin.mk.injEq]

/-- A coefficient matrix that satisfies the normal equations for a target `B = X0 * A`
equals `X0` when `A` has full row rank. -/
theorem eq_of_normal_of_fullRowRank (sol X0 A B : MatrixXd) (hc : A.cols = B.cols)
    (hrank : A.FullRowRank)
    (hB : ∀ r j, r < B.rows → j < B.cols → B.get r j = X0.mulGet A r j)
    (hn : ∀ r k, r < B.rows → k < A.rows →
      ∑ j in Finset.range A.cols, (sol.mulGet A r j - B.get r j) * A.get k j = 0)
    (r c : ℕ) (hr : r < B.rows) (hcl : c < A.rows) : sol.get r c = X0.get r c := by
  obtain ⟨Ginv, hG⟩ := hrank
  -- the difference of the two rows annihilates the Gram matrix
  have h1 : ∀ k, k < A.rows →
      ∑ l in Finset.range A.rows, (sol.get r l - X0.get r l) * A.gramGet l k = 0 := by
    intro k hk
    have h0 := hn r k hr hk
    have hrew : ∀ j ∈ Finset.range A.cols,
        (sol.mulGet A r j - B.get r j) * A.get k j =
          ∑ l in Finset.range A.rows, (sol.get r l - X0.get r l) * (A.get l j * A.get k j) := by
      intro j hj
      rw [hB r j hr (by rw [← hc]; exact Finset.mem_range.mp hj)]
      simp only [MatrixXd.mulGet]
      rw [← Finset.sum_sub_distrib, Finset.sum_mul]
      exact Finset.sum_congr rfl (fun l _ => by ring)
    rw [Finset.sum_congr rfl hrew, Finset.sum_comm] at h0
    refine Eq.trans (Finset.sum_congr rfl ?_) h0
    intro l _
    simp only [MatrixXd.gramGet]
    rw [Finset.mul_sum]
  -- multiply by the inverse of the Gram matrix
  have h2 : ∑ k in Finset.range A.rows,
      (∑ l in Finset.range A.rows, (sol.get r l - X0.get r l) * A.gramGet l k) *
        Ginv.get k c = 0 := by
    apply Finset.sum_eq_zero
    intro k hk
    rw [h1 k (Finset.mem_range.mp hk), zero_mul]
  have h3 : ∑ k in Finset.range A.rows,
      (∑ l in Finset.range A.rows, (sol.get r l - X0.get r l) * A.gramGet l k) *
        Ginv.get k c =
      ∑ l in Finset.range A.rows, (sol.get r l - X0.get r l) *
        (if l = c then 1 else 0) := by
    simp_rw [Finset.sum_mul]
    rw [Finset.sum_comm]
    refine Finset.sum_congr rfl ?_
    intro l hl
    rw [← hG l c (Finset.mem_range.mp hl) hcl, Finset.mul_sum]
    exact Finset.sum_congr rfl (fun k _ => by ring)
  rw [h3] at h2
  simp only [mul_ite, mul_one, mul_zero] at h2
  rw [Finset.sum_ite_eq' (Finset.range A.rows) c, if_pos (Finset.mem_range.mpr hcl)] at h2
  exact sub_eq_zero.mp h2

/-- C23: exact recovery.  For every finger group whose design matrix `A = denom` has
full row rank (`A·Aᵀ` invertible) and whose target matrix is `B = numer = X0·A` for a
coefficient matrix `X0`, the block solved by `compute_calibration` equals `X0`; it
satisfies `X·A = B`, the calibration matrix holds the entries of `X0` at the positions
of the finger, and each calibration row of the finger, applied to a glove sample
followed by the constant 1, reproduces the true value of its joint in that sample. -/
theorem compute_calibration_exact_recovery (t g : MatrixXd) (ht : 24 ≤ t.rows)
    (hg : 22 ≤ g.rows) (hc : t.cols = g.cols) (i : ℕ) (hi : i < 6)
    (denom numer X0 : MatrixXd)
    (hdenom : build_denom g (map_raw.getD i []) = some denom)
    (hnumer : build_numer t (map_cal.getD i []) = some numer)
    (hrank : denom.FullRowRank)
    (hB : ∀ r j, r < numer.rows → j < numer.cols → numer.get r j = X0.mulGet denom r j) :
    ∃ sol cal, finger_sol t g i = some sol ∧ compute_calibration t g = some cal ∧
      sol.rows = numer.rows ∧ sol.cols = denom.rows ∧
      (∀ r c, r < numer.rows → c < denom.rows → sol.get r c = X0.get r c) ∧
      (∀ r j, r < numer.rows → j < numer.cols → sol.mulGet denom r j = numer.get r j) ∧
      (∀ r c, r < (map_cal.getD i []).length → c ≤ (map_raw.getD i []).length →
        cal.get ((map_cal.getD i []).getD r 0 - 1) (target_col (map_raw.getD i []) g.rows c) =
          X0.get r c) ∧
      ∀ r j, r < (map_cal.getD i []).length → j < g.cols →
        ∑ b in Finset.range g.rows, cal.get ((map_cal.getD i []).getD r 0 - 1) b * g.get b j +
          cal.get ((map_cal.getD i []).getD r 0 - 1) g.rows =
        t.get ((map_cal.getD i []).getD r 0 - 1) j := by
  obtain ⟨denom', numer', sol, hd', hn', -, hfs, ⟨hdr, hdc, hdrow, hdone⟩, ⟨hnr, hnc, hnrow⟩,
    hsr, hsc, hnorm⟩ := finger_sol_spec t g ht hg hc i hi
  rw [hdenom] at hd'
  rw [hnumer] at hn'
  cases hd'
  cases hn'
  obtain ⟨cal, hcal, -, -, hsupp, hval⟩ := compute_calibration_spec t g ht hg hc
  have heq : ∀ r c, r < numer.rows → c < denom.rows → sol.get r c = X0.get r c :=
    eq_of_normal_of_fullRowRank sol X0 denom numer (by omega) hrank hB hnorm
  have hmul : ∀ r j, r < numer.rows → j < numer.cols → sol.mulGet denom r j = numer.get r j := by
    intro r j hr hj
    rw [hB r j hr hj]
    simp only [MatrixXd.mulGet]
    exact Finset.sum_congr rfl (fun l hl => by rw [heq r l hr (Finset.mem_range.mp hl)])
  refine ⟨sol, cal, hfs, hcal, by omega, by omega, heq, hmul, ?_, ?_⟩
  · intro r c hr hcl
    rw [hval i r c sol hi hfs hr hcl]
    exact heq r c (by omega) (by omega)
  · intro r j hr hj
    -- entries of the row outside the columns of the finger are zero
    have hz : ∀ b, (∀ c, c ≤ (map_raw.getD i []).length →
        b ≠ target_col (map_raw.getD i []) g.rows c) →
        cal.get ((map_cal.getD i []).getD r 0 - 1) b = 0 := by
      intro b hne
      by_contra hnz
      obtain ⟨i', r', c', hi', hr', hc', ha, hb⟩ := hsupp _ b hnz
      obtain ⟨h1, -⟩ := map_cal_inj i hi i' hi' r hr r' hr' ha
      subst h1
      exact hne c' hc' hb
    have e1 : ∑ b in Finset.range (g.rows + 1),
        cal.get ((map_cal.getD i []).getD r 0 - 1) b * (if b < g.rows then g.get b j else 1) =
        ∑ b in Finset.range g.rows, cal.get ((map_cal.getD i []).getD r 0 - 1) b * g.get b j +
          cal.get ((map_cal.getD i []).getD r 0 - 1) g.rows := by
      rw [Finset.sum_range_succ, if_neg (lt_irrefl _), mul_one]
      congr 1
      exact Finset.sum_congr rfl (fun b hb => by rw [if_pos (Finset.mem_range.mp hb)])
    have e2 : ∑ b in Finset.range (g.rows + 1),
        cal.get ((map_cal.getD i []).getD r 0 - 1) b * (if b < g.rows then g.get b j else 1) =
        ∑ c in Finset.range ((map_raw.getD i []).length + 1),
          cal.get ((map_cal.getD i []).getD r 0 - 1) (target_col (map_raw.getD i []) g.rows c) *
            (if target_col (map_raw.getD i []) g.rows c < g.rows then
              g.get (target_col (map_raw.getD i []) g.rows c) j else 1) := by
      rw [← Finset.sum_image
        (s := Finset.range ((map_raw.getD i []).length + 1))
        (g := fun c => target_col (map_raw.getD i []) g.rows c)
        (f := fun b => cal.get ((map_cal.getD i []).getD r 0 - 1) b *
          (if b < g.rows then g.get b j else 1))]
      · symm
        apply Finset.sum_subset
        · intro b hb
          obtain ⟨c, -, rfl⟩ := Finset.mem_image.mp hb
          exact Finset.mem_range.mpr (target_col_lt g hg i hi c)
        · intro b _ hb
          rw [hz b, zero_mul]
          intro c hcl hbc
          exact hb (Finset.mem_image.mpr
            ⟨c, Finset.mem_range.mpr (Nat.lt_succ_of_le hcl), hbc.symm⟩)
      · intro c hcm c' hcm' hcc
        exact target_col_inj g hg i hi c c' (Nat.lt_succ_iff.mp (Finset.mem_range.mp hcm))
          (Nat.lt_succ_iff.mp (Finset.mem_range.mp hcm')) hcc
    have e3 : ∀ c ∈ Finset.range ((map_raw.getD i []).length + 1),
        cal.get ((map_cal.getD i []).getD r 0 - 1) (target_col (map_raw.getD i []) g.rows c) *
          (if target_col (map_raw.getD i []) g.rows c < g.rows then
            g.get (target_col (map_raw.getD i []) g.rows c) j else 1) =
        sol.get r c * denom.get c j := by
      intro c hcm
      have hcl : c ≤ (map_raw.getD i []).length := Nat.lt_succ_iff.mp (Finset.mem_range.mp hcm)
      rw [hval i r c sol hi hfs hr hcl]
      congr 1
      unfold target_col
      by_cases hlt : c < (map_raw.getD i []).length
      · have hb := (map_raw_bounds i hi c hlt).2
        rw [if_pos hlt, if_pos (by omega), hdrow c j hlt]
      · have hce : c = (map_raw.getD i []).length := by omega
        rw [if_neg hlt, if_neg (lt_irrefl _), hce, hdone j hj]
    rw [← e1, e2, Finset.sum_congr rfl e3, ← hnrow r j hr, ← hmul r j (by omega) (by omega)]
    simp only [MatrixXd.mulGet, hdr]

theorem sample_denom_wrist_eq :
    build_denom sample_glove_wrist (map_raw.getD 5 []) = some sample_denom_wrist := rfl

theorem sample_numer_wrist_eq :
    build_numer sample_true_wrist (map_cal.getD 5 []) = some sample_numer_wrist := rfl

set_option maxRecDepth 100000 in
theorem sample_denom_wrist_get : ∀ a, a < 5 → ∀ j, j < 5 →
    sample_denom_wrist.get a j = if a = 4 ∨ a = j then 1 else 0 := by
  decide

set_option maxRecDepth 100000 in
theorem sample_gram_inv_get : ∀ a, a < 5 → ∀ b, b < 5 →
    sample_gram_inv.get a b =
      if a = 4 ∧ b = 4 then 1 else if a = 4 ∨ b = 4 then -1 else if a = b then 2 else 1 := by
  decide

set_option maxRecDepth 100000 in
theorem sample_numer_wrist_get : ∀ r, r < 2 → ∀ j, j < 5 →
    sample_numer_wrist.get r j =
      if r = 0 then
        (if j = 0 then 6 else if j = 1 then 7 else if j = 2 then 8 else if j = 3 then 9 else 5)
      else
        (if j = 0 then 2 else if j = 1 then 3 else if j = 2 then 2 else if j = 3 then 1
          else 2) := by
  decide

theorem sample_X0_get : ∀ r, r < 2 → ∀ l, l < 5 →
    sample_X0.get r l =
      if r = 0 then
        (if l = 0 then 1 else if l = 1 then 2 else if l = 2 then 3 else if l = 3 then 4 else 5)
      else
        (if l = 0 then 0 else if l = 1 then 1 else if l = 2 then 0 else if l = 3 then -1
          else 2) := by
  decide

theorem sample_denom_wrist_gram : ∀ a, a < 5 → ∀ b, b < 5 →
    sample_denom_wrist.gramGet a b =
      if a = 4 ∧ b = 4 then 5 else if a = 4 ∨ b = 4 then 1 else if a = b then 1 else 0 := by
  intro a ha b hb
  have hcols : sample_denom_wrist.cols = 5 := rfl
  unfold MatrixXd.gramGet
  rw [hcols]
  simp only [Finset.sum_range_succ, Finset.sum_range_zero, zero_add]
  rw [sample_denom_wrist_get a ha 0 (by decide), sample_denom_wrist_get a ha 1 (by decide),
    sample_denom_wrist_get a ha 2 (by decide), sample_denom_wrist_get a ha 3 (by decide),
    sample_denom_wrist_get a ha 4 (by decide), sample_denom_wrist_get b hb 0 (by decide),
    sample_denom_wrist_get b hb 1 (by decide), sample_denom_wrist_get b hb 2 (by decide),
    sample_denom_wrist_get b hb 3 (by decide), sample_denom_wrist_get b hb 4 (by decide)]
  interval_cases a <;> interval_cases b <;> norm_num

theorem sample_denom_wrist_fullRowRank : sample_denom_wrist.FullRowRank := by
  refine ⟨sample_gram_inv, ?_⟩
  intro a c ha hc
  have hrows : sample_denom_wrist.rows = 5 := rfl
  rw [hrows] at ha hc ⊢
  simp only [Finset.sum_range_succ, Finset.sum_range_zero, zero_add]
  rw [sample_denom_wrist_gram a ha 0 (by decide), sample_denom_wrist_gram a ha 1 (by decide),
    sample_denom_wrist_gram a ha 2 (by decide), sample_denom_wrist_gram a ha 3 (by decide),
    sample_denom_wrist_gram a ha 4 (by decide), sample_gram_inv_get 0 (by decide) c hc,
    sample_gram_inv_get 1 (by decide) c hc, sample_gram_inv_get 2 (by decide) c hc,
    sample_gram_inv_get 3 (by decide) c hc, sample_gram_inv_get 4 (by decide) c hc]
  interval_cases a <;> interval_cases c <;> norm_num

theorem sample_numer_wrist_exact : ∀ r j, r < sample_numer_wrist.rows →
    j < sample_numer_wrist.cols →
    sample_numer_wrist.get r j = sample_X0.mulGet sample_denom_wrist r j := by
  intro r j hr hj
  have hrows : sample_numer_wrist.rows = 2 := rfl
  have hcols : sample_numer_wrist.cols = 5 := rfl
  have hdrows : sample_denom_wrist.rows = 5 := rfl
  rw [hrows] at hr
  rw [hcols] at hj
  unfold MatrixXd.mulGet
  rw [hdrows]
  simp only [Finset.sum_range_succ, Finset.sum_range_zero, zero_add]
  rw [sample_numer_wrist_get r hr j hj, sample_X0_get r hr 0 (by decide),
    sample_X0_get r hr 1 (by decide), sample_X0_get r hr 2 (by decide),
    sample_X0_get r hr 3 (by decide), sample_X0_get r hr 4 (by decide),
    sample_denom_wrist_get 0 (by decide) j hj, sample_denom_wrist_get 1 (by decide) j hj,
    sample_denom_wrist_get 2 (by decide) j hj, sample_denom_wrist_get 3 (by decide) j hj,
    sample_denom_wrist_get 4 (by decide) j hj]
  interval_cases r <;> interval_cases j <;> norm_num

theorem compute_calibration_exact_recovery_witness :
    (24 ≤ sample_true_wrist.rows ∧ 22 ≤ sample_glove_wrist.rows ∧
      sample_true_wrist.cols = sample_glove_wrist.cols ∧ 5 < 6 ∧
      build_denom sample_glove_wrist (map_raw.getD 5 []) = some sample_denom_wrist ∧
      build_numer sample_true_wrist (map_cal.getD 5 []) = some sample_numer_wrist ∧
      sample_denom_wrist.FullRowRank ∧
      ∀ r j, r < sample_numer_wrist.rows → j < sample_numer_wrist.cols →
        sample_numer_wrist.get r j = sample_X0.mulGet sample_denom_wrist r j) ∧
    ∃ sol cal, finger_sol sample_true_wrist sample_glove_wrist 5 = some sol ∧
      compute_calibration sample_true_wrist sample_glove_wrist = some cal ∧
      sol.get 0 0 = 1 ∧ sol.get 0 4 = 5 ∧ sol.get 1 3 = -1 ∧
      cal.get 0 0 = 1 ∧ cal.get 0 19 = 2 ∧ cal.get 0 22 = 5 ∧ cal.get 1 21 = -1 := by
  obtain ⟨sol, cal, h1, h2, -, -, h5, -, h7, -⟩ :=
    compute_calibration_exact_recovery sample_true_wrist sample_glove_wrist (by decide)
      (by decide) rfl 5 (by decide) sample_denom_wrist sample_numer_wrist sample_X0
      sample_denom_wrist_eq sample_numer_wrist_eq sample_denom_wrist_fullRowRank
      sample_numer_wrist_exact
  refine ⟨⟨by decide, by decide, rfl, by decide, sample_denom_wrist_eq, sample_numer_wrist_eq,
    sample_denom_wrist_fullRowRank, sample_numer_wrist_exact⟩, sol, cal, h1, h2, ?_, ?_, ?_,
    ?_, ?_, ?_, ?_⟩
  · rw [h5 0 0 (by decide) (by decide)]
    decide
  · rw [h5 0 4 (by decide) (by decide)]
    decide
  · rw [h5 1 3 (by decide) (by decide)]
    decide
  · have := h7 0 0 (by decide) (by decide)
    rw [show sample_X0.get 0 0 = 1 by decide] at this
    exact this
  · have := h7 0 1 (by decide) (by decide)
    rw [show sample_X0.get 0 1 = 2 by decide] at this
    exact this
  · have := h7 0 4 (by decide) (by decide)
    rw [show sample_X0.get 0 4 = 5 by decide] at this
    exact this
  · have := h7 1 3 (by decide) (by decide)
    rw [show sample_X0.get 1 3 = -1 by decide] at this
    exact this

end Puppet
